import Mathlib

/-!
# go-toolbox, package nebula_client: value codec, schema statements, entity statements,
lookups, result tables, configuration, execution gateway; package ginstarter: data validator

A shallow embedding of `src/nebula_client` (client.go, common.go, excuting.go, tag.go,
edge_type.go, validate.go, vertex.go, edge.go), of `tools.IsStrInSlice` and of
`src/ginstarter/data_validate.go`.

Conventions of the embedding
* A Go `string` is a Lean `String` (valid UTF-8 text); the functions of package `strings` are
  written over the list of characters.
* A Go `interface{}` value is a `Go.Value`.
* A Go `map[string]string` or `map[string]interface{}` that the code ranges over is the list
  of its entries in the order the `range` loop visits them (each key once).
* The graph database behind the connection pool is a state of an arbitrary type `σ` together
  with the functions of a `Pool`; a `Run` also records every statement text handed to
  `session.Execute`.
* The type `int` is 64 bits wide; an arithmetic result in it is reduced by `wrapInt`.
* Behaviour of the Go standard library that is driven by Unicode tables, floating point, time
  layouts or the JSON decoder is not re-implemented: it is the parameter `Go.Lib`, and for the
  data validator `Ginstarter.Lib`.
* The checks of the data validator call one another without bound on nested data; the model
  bounds the nesting by a depth, and `none` stands for a call that reached the bound.
-/

set_option autoImplicit false

namespace Go

/-! ## Values of type `interface{}` -/

/-- The Go integer types a value can carry. -/
inductive IntKind
  | int | int8 | int16 | int32 | int64 | uint | uint8 | uint16 | uint32 | uint64
  deriving DecidableEq, Repr

/-- A value of Go type `interface{}` as it occurs in the data records of this package.
`float64` carries the IEEE-754 bit pattern; `dict` lists the entries of a
`map[string]interface{}` in increasing key order (the order in which both `fmt` and
`encoding/json` print them); `nilSlice` and `nilMap` are the typed nil values of
`[]interface{}` and `map[string]interface{}`. -/
inductive Value
  | nil
  | bool (b : Bool)
  | int (k : IntKind) (n : Int)
  | float64 (bits : Nat)
  | str (s : String)
  | jsonNumber (s : String)
  | list (xs : List Value)
  | nilSlice
  | dict (kvs : List (String × Value))
  | nilMap

/-- Library behaviour taken as given: `unicode.ToUpper`, `unicode.ToLower`, the `%v` text of a
float64, the `encoding/json` encoders of floats, strings and `json.Number`, the escape
`strconv.Quote` writes for a character outside printable ASCII, `strconv.ParseFloat`,
`time.Parse` with layout `2006-01-02T15:04:05.999999` followed by
`Format("2006-01-02 15:04:05")`, and `json.Decoder` (with `UseNumber`) decoding into a
`[]interface{}` or a `map[string]interface{}`. -/
structure Lib where
  toUpper : Char → Char
  toLower : Char → Char
  fmtFloat : Nat → String
  jsonFloat : Nat → Except String String
  jsonString : String → String
  jsonNumber : String → Except String String
  quoteRune : Char → String
  parseFloat : String → Nat → Except String Nat
  reformatDatetime : String → Except String String
  jsonDecodeList : String → Except String (List Value)
  jsonDecodeDict : String → Except String (List (String × Value))

/-! ## Package `strings` -/

/-- The characters `unicode.IsSpace` accepts. -/
def isSpace (c : Char) : Bool :=
  let n := c.toNat
  (9 ≤ n && n ≤ 13) || n = 0x20 || n = 0x85 || n = 0xA0 || n = 0x1680 ||
  (0x2000 ≤ n && n ≤ 0x200A) || n = 0x2028 || n = 0x2029 || n = 0x202F || n = 0x205F ||
  n = 0x3000

/-- Go `strings.TrimSpace`: removes leading and trailing white space. -/
def TrimSpace (s : String) : String :=
  ⟨((s.data.dropWhile isSpace).reverse.dropWhile isSpace).reverse⟩

/-- Splits a character list at every occurrence of `sep`; the result is never empty. -/
def splitChars (sep : Char) : List Char → List (List Char)
  | [] => [[]]
  | c :: cs =>
    if c = sep then [] :: splitChars sep cs
    else
      match splitChars sep cs with
      | [] => [[c]]
      | t :: ts => (c :: t) :: ts

/-- Go `strings.Split(s, sep)` for a separator of one character. -/
def Split (s : String) (sep : Char) : List String :=
  (splitChars sep s.data).map String.mk

/-- Go `strings.Join`. -/
def Join (xs : List String) (sep : String) : String :=
  String.mk (List.intercalate sep.data (xs.map String.data))

/-- Go `strings.ToUpper`: `unicode.ToUpper` on every character. -/
def ToUpper (L : Lib) (s : String) : String := ⟨s.data.map L.toUpper⟩

/-- Go `strings.ToLower`: `unicode.ToLower` on every character. -/
def ToLower (L : Lib) (s : String) : String := ⟨s.data.map L.toLower⟩

/-- Go `strings.HasPrefix`. -/
def HasPrefix (s pre : String) : Bool := pre.data.isPrefixOf s.data

/-- Go `strings.HasSuffix`. -/
def HasSuffix (s suf : String) : Bool := suf.data.reverse.isPrefixOf s.data.reverse

/-- Go `strings.TrimPrefix`: removes one leading copy of `pre`, if there is one. -/
def TrimPrefix (s pre : String) : String :=
  if HasPrefix s pre then ⟨s.data.drop pre.data.length⟩ else s

/-- Go `strings.TrimSuffix`: removes one trailing copy of `suf`, if there is one. -/
def TrimSuffix (s suf : String) : String :=
  if HasSuffix s suf then ⟨s.data.take (s.data.length - suf.data.length)⟩ else s

/-! ## Package `fmt` -/

/-- The decimal text of an integer, as `%v` and `%d` print it. -/
def fmtInt (n : Int) : String :=
  match n with
  | Int.ofNat m => ⟨Nat.toDigits 10 m⟩
  | Int.negSucc m => ⟨'-' :: Nat.toDigits 10 (m + 1)⟩

/-- The Go type name that `fmt` prints for an integer kind. -/
def IntKind.name : IntKind → String
  | .int => "int" | .int8 => "int8" | .int16 => "int16" | .int32 => "int32" | .int64 => "int64"
  | .uint => "uint" | .uint8 => "uint8" | .uint16 => "uint16" | .uint32 => "uint32"
  | .uint64 => "uint64"

mutual
/-- The text `fmt.Sprintf("%v", val)` produces. -/
def fmtV (L : Lib) : Value → String
  | .nil => "<nil>"
  | .bool b => if b then "true" else "false"
  | .int _ n => fmtInt n
  | .float64 bits => L.fmtFloat bits
  | .str s => s
  | .jsonNumber s => s
  | .list xs => "[" ++ Join (fmtVList L xs) " " ++ "]"
  | .nilSlice => "[]"
  | .dict kvs => "map[" ++ Join (fmtVEntries L kvs) " " ++ "]"
  | .nilMap => "map[]"
/-- The `%v` texts of the elements of a slice. -/
def fmtVList (L : Lib) : List Value → List String
  | [] => []
  | x :: xs => fmtV L x :: fmtVList L xs
/-- The `key:value` texts of the entries of a map under `%v`. -/
def fmtVEntries (L : Lib) : List (String × Value) → List String
  | [] => []
  | (k, v) :: kvs => (k ++ ":" ++ fmtV L v) :: fmtVEntries L kvs
end

mutual
/-- The text `fmt.Sprintf("%s", val)` produces; a value that is not a string is reported in
the `%!s(type=value)` form. -/
def fmtS (L : Lib) : Value → String
  | .nil => "%!s(<nil>)"
  | .bool b => "%!s(bool=" ++ (if b then "true" else "false") ++ ")"
  | .int k n => "%!s(" ++ k.name ++ "=" ++ fmtInt n ++ ")"
  | .float64 bits => "%!s(float64=" ++ L.fmtFloat bits ++ ")"
  | .str s => s
  | .jsonNumber s => s
  | .list xs => "[" ++ Join (fmtSList L xs) " " ++ "]"
  | .nilSlice => "[]"
  | .dict kvs => "map[" ++ Join (fmtSEntries L kvs) " " ++ "]"
  | .nilMap => "map[]"
/-- The `%s` texts of the elements of a slice. -/
def fmtSList (L : Lib) : List Value → List String
  | [] => []
  | x :: xs => fmtS L x :: fmtSList L xs
/-- The `key:value` texts of the entries of a map under `%s`. -/
def fmtSEntries (L : Lib) : List (String × Value) → List String
  | [] => []
  | (k, v) :: kvs => (k ++ ":" ++ fmtS L v) :: fmtSEntries L kvs
end

/-! ## Package `strconv` -/

/-- One character of `strconv.Quote`: the quote and the backslash are escaped, every other
printable ASCII character stands for itself. -/
def quoteChar (L : Lib) (c : Char) : String :=
  if c = Char.ofNat 34 then "\\\""
  else if c = Char.ofNat 92 then "\\\\"
  else if 0x20 ≤ c.toNat ∧ c.toNat < 0x7F then ⟨[c]⟩
  else L.quoteRune c

/-- Go `strconv.Quote`. -/
def Quote (L : Lib) (s : String) : String :=
  "\"" ++ Join (s.data.map (quoteChar L)) "" ++ "\""

/-- The two errors of `strconv` number parsing: `ErrSyntax` and `ErrRange`. -/
inductive NumErr
  | invalidSyntax
  | outOfRange
  deriving DecidableEq, Repr

/-- The value of a decimal digit. -/
def digitVal (c : Char) : Option Nat :=
  if 48 ≤ c.toNat ∧ c.toNat ≤ 57 then some (c.toNat - 48) else none

/-- The digit loop of `strconv.ParseUint` in base 10 with largest value `maxVal`: a character
that is no digit is a syntax error, a value above `maxVal` a range error, whichever comes
first from the left. -/
def parseUintLoop (maxVal : Nat) : List Char → Nat → Except NumErr Nat
  | [], n => .ok n
  | c :: cs, n =>
    match digitVal c with
    | none => .error .invalidSyntax
    | some d => if n * 10 + d > maxVal then .error .outOfRange else parseUintLoop maxVal cs (n * 10 + d)

/-- Go `strconv.ParseUint(s, 10, bitSize)`. -/
def parseUint (s : List Char) (bitSize : Nat) : Except NumErr Nat :=
  match s with
  | [] => .error .invalidSyntax
  | _ => parseUintLoop (2 ^ bitSize - 1) s 0

/-- The value part of `strconv.ParseInt(s, 10, bitSize)`: an optional sign, then
`ParseUint`, then the check against the signed range. -/
def parseIntCore (s : List Char) (bitSize : Nat) : Except NumErr Int :=
  match s with
  | [] => .error .invalidSyntax
  | c :: cs =>
    let neg := decide (c = '-')
    let body := if c = '+' ∨ c = '-' then cs else c :: cs
    match parseUint body bitSize with
    | .error e => .error e
    | .ok un =>
      let cutoff := 2 ^ (bitSize - 1)
      if !neg && un ≥ cutoff then .error .outOfRange
      else if neg && un > cutoff then .error .outOfRange
      else .ok (if neg then -(un : Int) else (un : Int))

/-- The text of a `*strconv.NumError`. -/
def numErrorText (L : Lib) (fn : String) (input : String) (e : NumErr) : String :=
  "strconv." ++ fn ++ ": parsing " ++ Quote L input ++ ": " ++
    (match e with
     | .invalidSyntax => "invalid syntax"
     | .outOfRange => "value out of range")

/-- Go `strconv.ParseInt(s, 10, bitSize)`; the result has type `int64`. -/
def ParseInt (L : Lib) (s : String) (bitSize : Nat) : Except String Int :=
  match parseIntCore s.data bitSize with
  | .error e => .error (numErrorText L "ParseInt" s e)
  | .ok n => .ok n

/-- Go `strconv.ParseBool`. -/
def ParseBool (L : Lib) (s : String) : Except String Bool :=
  if s = "1" ∨ s = "t" ∨ s = "T" ∨ s = "true" ∨ s = "TRUE" ∨ s = "True" then .ok true
  else if s = "0" ∨ s = "f" ∨ s = "F" ∨ s = "false" ∨ s = "FALSE" ∨ s = "False" then .ok false
  else .error (numErrorText L "ParseBool" s .invalidSyntax)

/-! ## Package `encoding/json` -/

mutual
/-- Go `json.Marshal` on a value: the JSON text, or the text of the error. -/
def jsonMarshal (L : Lib) : Value → Except String String
  | .nil => .ok "null"
  | .bool b => .ok (if b then "true" else "false")
  | .int _ n => .ok (fmtInt n)
  | .float64 bits => L.jsonFloat bits
  | .str s => .ok (L.jsonString s)
  | .jsonNumber s => L.jsonNumber s
  | .list xs =>
    match jsonMarshalList L xs with
    | .error e => .error e
    | .ok parts => .ok ("[" ++ Join parts "," ++ "]")
  | .nilSlice => .ok "null"
  | .dict kvs =>
    match jsonMarshalEntries L kvs with
    | .error e => .error e
    | .ok parts => .ok ("\x7b" ++ Join parts "," ++ "\x7d")
  | .nilMap => .ok "null"
/-- The JSON texts of the elements of a slice; the first failure ends the encoding. -/
def jsonMarshalList (L : Lib) : List Value → Except String (List String)
  | [] => .ok []
  | x :: xs =>
    match jsonMarshal L x with
    | .error e => .error e
    | .ok t =>
      match jsonMarshalList L xs with
      | .error e => .error e
      | .ok ts => .ok (t :: ts)
/-- The `"key":value` texts of the entries of a map. -/
def jsonMarshalEntries (L : Lib) : List (String × Value) → Except String (List String)
  | [] => .ok []
  | (k, v) :: kvs =>
    match jsonMarshal L v with
    | .error e => .error e
    | .ok t =>
      match jsonMarshalEntries L kvs with
      | .error e => .error e
      | .ok ts => .ok ((L.jsonString k ++ ":" ++ t) :: ts)
end

/-- A library instance for evaluating the code on concrete ASCII inputs: the ASCII case
mappings; the other functions are stand-ins that these evaluations do not depend on. -/
def asciiLib : Lib where
  toUpper := Char.toUpper
  toLower := Char.toLower
  fmtFloat := fun _ => "NaN"
  jsonFloat := fun _ => .error "json: unsupported value"
  jsonString := fun s => "\"" ++ s ++ "\""
  jsonNumber := fun s => .ok s
  quoteRune := fun c => ⟨[c]⟩
  parseFloat := fun _ _ => .error "strconv.ParseFloat: invalid syntax"
  reformatDatetime := fun _ => .error "parsing time: cannot parse"
  jsonDecodeList := fun _ => .error "json: cannot decode"
  jsonDecodeDict := fun _ => .error "json: cannot decode"

end Go

namespace NebulaClient

open Go

/-! ## excuting.go: the execution gateway -/

/-- What the code reads from a `*nebula.ResultSet`: `IsSucceed()`, the `%v` text of
`GetErrorCode()`, `GetErrorMsg()` and `AsStringTable()`. -/
structure ResultSet where
  succeed : Bool
  errorCode : String
  errorMsg : String
  table : List (List String)
  deriving DecidableEq, Repr

/-- The connection pool and its sessions over a database state `σ`: the configured space name
(`NebulaSpace`), `Pool.GetSession`, `session.Execute` and `session.Release`. -/
structure Pool (σ : Type) where
  space : String
  getSession : σ → Except String Unit × σ
  execute : σ → String → Except String ResultSet × σ
  release : σ → σ

/-- A database state together with the statement texts sent to it so far, oldest first. -/
structure Run (σ : Type) where
  db : σ
  sent : List String

/-- Source: `executeNqgl`. -/
def executeNqgl {σ : Type} (L : Lib) (P : Pool σ) (st : Run σ) (ngql : String) :
    Except String ResultSet × Run σ :=
  let space_nqgl := "USE " ++ P.space ++ "; "
  let ngql := if !(HasPrefix (ToUpper L (TrimSpace ngql)) "USE") then space_nqgl ++ ngql else ngql
  let out := P.execute st.db ngql
  let st1 : Run σ := ⟨out.2, st.sent ++ [ngql]⟩
  match out.1 with
  | .error e => (.error ("NGQL executing Failed. " ++ e), st1)
  | .ok res =>
    if !res.succeed then
      (.error ("NGQL executing failed. ErrorCode: " ++ res.errorCode ++ ". ErrorMsg: " ++
        res.errorMsg), st1)
    else (.ok res, st1)

/-- Source: `ConnectAndExcute`. The deferred `session.Release()` runs on every return after the
session was acquired. -/
def ConnectAndExcute {σ : Type} (L : Lib) (P : Pool σ) (st : Run σ) (ngql : String) :
    Except String ResultSet × Run σ :=
  match P.getSession st.db with
  | (.error e, db) => (.error ("Nebula DB Connecting Error. " ++ e), ⟨db, st.sent⟩)
  | (.ok _, db) =>
    let out := executeNqgl L P ⟨db, st.sent⟩ ngql
    (out.1, ⟨P.release out.2.db, out.2.sent⟩)

/-- The `for _, ql := range ngqls` loop of `ConnectAndBatchExcute`: `results` is the slice built
so far; an entry is `none` for a nil `*nebula.ResultSet`. The loop appends the result of
`executeNqgl` first and looks at the error afterwards. -/
def batchLoop {σ : Type} (L : Lib) (P : Pool σ) :
    List String → List (Option ResultSet) → Run σ →
      (List (Option ResultSet) × Option String) × Run σ
  | [], results, st => ((results, none), st)
  | ql :: rest, results, st =>
    match executeNqgl L P st ql with
    | (.error e, st1) => ((results ++ [none], some e), st1)
    | (.ok res, st1) => batchLoop L P rest (results ++ [some res]) st1

/-- Source: `ConnectAndBatchExcute`. Returns the result slice (the nil slice is `[]`) and the
error, if any. -/
def ConnectAndBatchExcute {σ : Type} (L : Lib) (P : Pool σ) (st : Run σ) (ngqls : List String) :
    (List (Option ResultSet) × Option String) × Run σ :=
  match P.getSession st.db with
  | (.error e, db) => (([], some ("Nebula DB Connecting Error. " ++ e)), ⟨db, st.sent⟩)
  | (.ok _, db) =>
    let out := batchLoop L P ngqls [] ⟨db, st.sent⟩
    (out.1, ⟨P.release out.2.db, out.2.sent⟩)

/-- A pool for concrete runs: the state counts the statements executed; a statement
containing `INSERT 2` fails in the engine, every other statement succeeds with an empty
table. -/
def countingPool : Pool Nat where
  space := "test"
  getSession := fun n => (.ok (), n)
  execute := fun n q =>
    if q = "USE test; INSERT 2" then (.ok ⟨false, "E_EXECUTION_ERROR", "no", []⟩, n + 1)
    else (.ok ⟨true, "SUCCEEDED", "", []⟩, n + 1)
  release := fun n => n

/-! ## common.go: the value codec -/

/-- The first space-delimited token of a trimmed field declaration, uppercased: the
`fieldType` both codec functions switch on. -/
def typeKeyword (L : Lib) (fieldDef : String) : String :=
  match Split (TrimSpace fieldDef) ' ' with
  | [] => ""
  | first :: _ => ToUpper L first

/-- Source: the closure `handleEmptyStr` of `getNGQLValue`. -/
def handleEmptyStr (val : Value) : Except String String :=
  match val with
  | .nil => .ok ""
  | .str valStr => .ok (TrimSpace valStr)
  | _ => .error "expected a string value"

/-- The body shared by the DATE, TIME and DATETIME cases of `getNGQLValue`, `ctor` being
`date`, `time` or `datetime`: the trimmed text decides between NULL and a literal, and the
literal is printed from `val` with `%s`. -/
def timeLiteral (L : Lib) (ctor : String) (val : Value) : Except String String :=
  match handleEmptyStr val with
  | .error e => .error e
  | .ok value =>
    if value ≠ "" then .ok (ctor ++ "(\"" ++ fmtS L val ++ "\")") else .ok "NULL"

/-- Source: `getNGQLValue`. -/
def getNGQLValue (L : Lib) (fieldDef : String) (val : Value) : Except String String :=
  match Split (TrimSpace fieldDef) ' ' with
  | [] => .error "invalid tag field defination"
  | first :: _ =>
    let fieldType := ToUpper L first
    if fieldType = "INT" then .ok (fmtV L val)
    else if fieldType = "INT64" then .ok (fmtV L val)
    else if fieldType = "INT32" then .ok (fmtV L val)
    else if fieldType = "INT16" then .ok (fmtV L val)
    else if fieldType = "INT8" then .ok (fmtV L val)
    else if fieldType = "FLOAT" then .ok (fmtV L val)
    else if fieldType = "DOUBLE" then .ok (fmtV L val)
    else if fieldType = "BOOL" then .ok (fmtV L val)
    else if fieldType = "STRING" then .ok ("\"" ++ fmtV L val ++ "\"")
    else if fieldType = "DATE" then timeLiteral L "date" val
    else if fieldType = "TIME" then timeLiteral L "time" val
    else if fieldType = "DATETIME" then timeLiteral L "datetime" val
    else if fieldType = "TIMESTAMP" then
      match val with
      | .str strVal => .ok strVal
      | .int .int64 expVal => .ok (fmtInt expVal)
      | .jsonNumber JNum =>
        match ParseInt L JNum 64 with
        | .error _ => .error "failed to convert json.Number to timestamp for nebula_client"
        | .ok iVal => .ok (fmtInt iVal)
      | _ => .error "invalid timestamp(int64) value for nebula_client"
    else if fieldType = "LIST" then
      match jsonMarshal L val with
      | .error e => .error ("illegal 'list' value '" ++ fmtS L val ++ "'. " ++ e)
      | .ok strVal => if strVal = "null" then .ok "'[]'" else .ok ("'" ++ strVal ++ "'")
    else if fieldType = "DICT" then
      match jsonMarshal L val with
      | .error e => .error ("illegal 'dict' value '" ++ fmtV L val ++ "'. " ++ e)
      | .ok strVal =>
        let strVal := Quote L strVal
        if strVal = "null" ∨ strVal = "map[]" then .ok "'\x7b\x7d'" else .ok strVal
    else .error ("data type '" ++ fieldType ++ "' not supported by this nebula client")

/-- How a call ends when it does not return a value: with a returned error, or in a panic. -/
inductive Fault
  | err (msg : String)
  | panic (msg : String)
  deriving DecidableEq, Repr

/-- Source: the closure `trim` of `getRealValue`: one leading and one trailing double quote are
removed. -/
def trim (str : String) : String :=
  TrimSuffix (TrimPrefix str "\"") "\""

/-- The result of `return strconv.ParseInt(...)` as an `interface{}`: an `int64`. -/
def parsedInt (r : Except String Int) : Except Fault Value :=
  match r with
  | .error e => .error (.err e)
  | .ok n => .ok (.int .int64 n)

/-- The result of `return strconv.ParseFloat(...)` as an `interface{}`: a `float64`. -/
def parsedFloat (r : Except String Nat) : Except Fault Value :=
  match r with
  | .error e => .error (.err e)
  | .ok bits => .ok (.float64 bits)

/-- Source: `getRealValue`. -/
def getRealValue (L : Lib) (fieldDef : String) (valStr : String) : Except Fault Value :=
  match Split (TrimSpace fieldDef) ' ' with
  | [] => .error (.err "invalid tag field defination")
  | first :: _ =>
    let valStr := if valStr = "UNKNOWN_PROP" then "__NULL__" else valStr
    let fieldType := ToUpper L first
    if fieldType = "INT" then
      if valStr = "__NULL__" then .ok (.int .int 0) else parsedInt (ParseInt L valStr 64)
    else if fieldType = "INT64" then
      if valStr = "__NULL__" then .ok (.int .int 0) else parsedInt (ParseInt L valStr 64)
    else if fieldType = "INT32" then
      if valStr = "__NULL__" then .ok (.int .int 0) else parsedInt (ParseInt L valStr 32)
    else if fieldType = "INT16" then
      if valStr = "__NULL__" then .ok (.int .int 0) else parsedInt (ParseInt L valStr 16)
    else if fieldType = "INT8" then
      if valStr = "__NULL__" then .ok (.int .int 0) else parsedInt (ParseInt L valStr 8)
    else if fieldType = "FLOAT" then
      if valStr = "__NULL__" then .ok (.int .int 0) else parsedFloat (L.parseFloat valStr 32)
    else if fieldType = "DOUBLE" then
      if valStr = "__NULL__" then .ok (.int .int 0) else parsedFloat (L.parseFloat valStr 64)
    else if fieldType = "BOOL" then
      if valStr = "__NULL__" then .ok (.bool false)
      else
        match ParseBool L valStr with
        | .error e => .error (.err e)
        | .ok b => .ok (.bool b)
    else if fieldType = "STRING" then
      if valStr = "__NULL__" then .ok (.str "") else .ok (.str (trim valStr))
    else if fieldType = "DATE" then
      if valStr = "__NULL__" then .ok (.str "") else .ok (.str (trim valStr))
    else if fieldType = "TIME" then
      if valStr = "__NULL__" then .ok (.str "") else .ok (.str (trim valStr))
    else if fieldType = "DATETIME" then
      if valStr = "__NULL__" then .ok (.str "")
      else
        match L.reformatDatetime (trim valStr) with
        | .error e => .error (.panic ("nebula datetime format changed. " ++ e))
        | .ok resultStr => .ok (.str resultStr)
    else if fieldType = "TIMESTAMP" then
      if valStr = "__NULL__" then .ok (.int .int 0) else parsedInt (ParseInt L valStr 64)
    else if fieldType = "LIST" then
      if valStr = "__NULL__" then .ok (.list [])
      else
        match L.jsonDecodeList (trim valStr) with
        | .error e =>
          .error (.err ("data in nebula is not a list, field type '" ++ fieldType ++ "'. " ++ e))
        | .ok realList => .ok (.list realList)
    else if fieldType = "DICT" then
      if valStr = "__NULL__" then .ok (.dict [])
      else
        match L.jsonDecodeDict (trim valStr) with
        | .error e =>
          .error (.err ("data in nebula is not a dict, field type '" ++ fieldType ++ "'. " ++ e))
        | .ok realDict => .ok (.dict realDict)
    else .error (.err ("data type '" ++ fieldType ++ "' not supported by this nebula client"))

/-! ## tag.go and edge_type.go: the ALTER statements -/

/-- A schema `map[string]string`: its entries (field name, declaration) in the order in which
a `range` loop visits them. -/
abbrev Schema := List (String × String)

/-- Source: the closure `strClean` of `isPropDefChanged`. -/
def strClean (L : Lib) (s : String) : String :=
  let subs := Split (ToUpper L (TrimSpace s)) ' '
  let cleans := subs.filter (fun item => item ≠ "")
  Join cleans " "

/-- Source: `isPropDefChanged`. -/
def isPropDefChanged (L : Lib) (oldDef newDef : String) : Bool :=
  strClean L oldDef != strClean L newDef

/-- Source: the closure `checkDef`, written identically in `AlterTagBySchema` and in
`AlterEdgeTypeBySchema`: a first token `dict` or `list` becomes `string`. -/
def checkDef (L : Lib) (fieldDef : String) : String :=
  match Split fieldDef ' ' with
  | [] => fieldDef
  | first :: rest =>
    let fieldType := ToLower L first
    if fieldType = "dict" ∨ fieldType = "list" then Join ("string" :: rest) " " else fieldDef

/-- Source: the loop `for newProp, newPropDef := range newSchema`, shared by both ALTER
functions; returns `addProps` and `changeProps`. -/
def scanNewSchema (L : Lib) (oldSchema : Schema) :
    Schema → List String → List String → List String × List String
  | [], addProps, changeProps => (addProps, changeProps)
  | (newProp, newPropDef) :: rest, addProps, changeProps =>
    match List.lookup newProp oldSchema with
    | none =>
      scanNewSchema L oldSchema rest (addProps ++ [newProp ++ " " ++ checkDef L newPropDef])
        changeProps
    | some oldPropDef =>
      if isPropDefChanged L oldPropDef newPropDef then
        scanNewSchema L oldSchema rest addProps
          (changeProps ++ [newProp ++ " " ++ checkDef L newPropDef])
      else scanNewSchema L oldSchema rest addProps changeProps

/-- Source: the loop `for oldProp := range oldSchema`; returns `dropProps`. -/
def scanOldSchema (newSchema : Schema) : Schema → List String → List String
  | [], dropProps => dropProps
  | (oldProp, _) :: rest, dropProps =>
    match List.lookup oldProp newSchema with
    | none => scanOldSchema newSchema rest (dropProps ++ [oldProp])
    | some _ => scanOldSchema newSchema rest dropProps

/-- Source: `for _, subngql := range props { ngql += subngql + ", " }` followed by
`ngql = strings.TrimSuffix(ngql, ", ") + ")"`. -/
def closeClause (ngql : String) (props : List String) : String :=
  TrimSuffix (props.foldl (fun acc subngql => acc ++ (subngql ++ ", ")) ngql) ", " ++ ")"

/-- Source: the statement text `AlterTagBySchema` builds from the three lists. -/
def alterTagNGQL (tagName : String) (addProps changeProps dropProps : List String) : String :=
  let ngql := "ALTER TAG " ++ tagName
  let ngql := if addProps.length > 0 then closeClause (ngql ++ " ADD (") addProps else ngql
  let ngql :=
    if changeProps.length > 0 then
      closeClause (if addProps.length > 0 then ngql ++ ", CHANGE (" else ngql ++ " CHANGE (")
        changeProps
    else ngql
  let ngql :=
    if dropProps.length > 0 then
      closeClause
        (if addProps.length > 0 ∨ changeProps.length > 0 then ngql ++ ", DROP ("
          else ngql ++ " DROP (") dropProps
    else ngql
  ngql ++ ";"

/-- Source: the statement text `AlterEdgeTypeBySchema` builds from the three lists. -/
def alterEdgeNGQL (edgeName : String) (addProps changeProps dropProps : List String) : String :=
  let ngql := "ALTER EDGE " ++ edgeName
  let ngql := if addProps.length > 0 then closeClause (ngql ++ " ADD (") addProps else ngql
  let ngql := if changeProps.length > 0 then closeClause (ngql ++ " CHANGE (") changeProps else ngql
  let ngql := if dropProps.length > 0 then closeClause (ngql ++ " DROP (") dropProps else ngql
  ngql ++ ";"

/-- The part of `AlterTagBySchema` before the database is touched: `none` when the three
lists are empty (the function then returns `false, nil`), else the statement built. -/
def alterTagStatement (L : Lib) (tagName : String) (oldSchema newSchema : Schema) :
    Option String :=
  let scanned := scanNewSchema L oldSchema newSchema [] []
  let addProps := scanned.1
  let changeProps := scanned.2
  let dropProps := scanOldSchema newSchema oldSchema []
  if addProps.length = 0 ∧ changeProps.length = 0 ∧ dropProps.length = 0 then none
  else some (alterTagNGQL tagName addProps changeProps dropProps)

/-- The part of `AlterEdgeTypeBySchema` before the database is touched. -/
def alterEdgeStatement (L : Lib) (edgeName : String) (oldSchema newSchema : Schema) :
    Option String :=
  let scanned := scanNewSchema L oldSchema newSchema [] []
  let addProps := scanned.1
  let changeProps := scanned.2
  let dropProps := scanOldSchema newSchema oldSchema []
  if addProps.length = 0 ∧ changeProps.length = 0 ∧ dropProps.length = 0 then none
  else some (alterEdgeNGQL edgeName addProps changeProps dropProps)

/-- Source: `AlterTagBySchema`; returns `(changed, error)`. The `slog.Debug` call is not
modelled. -/
def AlterTagBySchema {σ : Type} (L : Lib) (P : Pool σ) (st : Run σ) (tagName : String)
    (oldSchema newSchema : Schema) : (Bool × Option String) × Run σ :=
  match alterTagStatement L tagName oldSchema newSchema with
  | none => ((false, none), st)
  | some ngql =>
    match ConnectAndExcute L P st ngql with
    | (.error e, st1) =>
      ((false, some ("Failed to alter tag '" ++ tagName ++ "'. " ++ e ++ ".")), st1)
    | (.ok _, st1) => ((true, none), st1)

/-- Source: `AlterEdgeTypeBySchema`; returns `(changed, error)`. -/
def AlterEdgeTypeBySchema {σ : Type} (L : Lib) (P : Pool σ) (st : Run σ) (edgeName : String)
    (oldSchema newSchema : Schema) : (Bool × Option String) × Run σ :=
  match alterEdgeStatement L edgeName oldSchema newSchema with
  | none => ((false, none), st)
  | some ngql =>
    match ConnectAndExcute L P st ngql with
    | (.error e, st1) =>
      ((false, some ("Failed to alter edgeType '" ++ edgeName ++ "'. " ++ e ++ ".")), st1)
    | (.ok _, st1) => ((true, none), st1)

/-- The field names of a schema. -/
def fieldNames (schema : Schema) : List String := schema.map Prod.fst

/-- The text with which a field stands in an ADD or CHANGE clause: its name, a space, and its
declaration passed through `checkDef`. -/
def clauseEntry (L : Lib) (p : String × String) : String := p.1 ++ " " ++ checkDef L p.2

/-- The fields present only in the new schema, as the specification describes the ADD set. -/
def specAddFields (oldSchema newSchema : Schema) : Schema :=
  newSchema.filter (fun p => decide (p.1 ∉ fieldNames oldSchema))

/-- The fields present in both schemas whose cleaned declarations differ, as the specification
describes the CHANGE set. -/
def specChangeFields (L : Lib) (oldSchema newSchema : Schema) : Schema :=
  newSchema.filter (fun p => oldSchema.any (fun q => q.1 = p.1 && isPropDefChanged L q.2 p.2))

/-- The fields present only in the old schema, as the specification describes the DROP set. -/
def specDropFields (oldSchema newSchema : Schema) : List String :=
  (fieldNames oldSchema).filter (fun f => decide (f ∉ fieldNames newSchema))

/-- Every run of spaces collapsed to one space. -/
def collapseSpaces : List Char → List Char
  | [] => []
  | c :: cs =>
    if c = ' ' ∧ cs.head? = some ' ' then collapseSpaces cs else c :: collapseSpaces cs

/-- The cleaning of a declaration as the specification words it: trimmed, uppercased, runs of
spaces collapsed. -/
def specClean (L : Lib) (s : String) : String :=
  ⟨collapseSpaces (ToUpper L (TrimSpace s)).data⟩

/-- The case labels of the `switch` of `getNGQLValue` and of `getRealValue`. -/
def knownTypes : List String :=
  ["INT", "INT64", "INT32", "INT16", "INT8", "FLOAT", "DOUBLE", "BOOL", "STRING", "DATE", "TIME",
    "DATETIME", "TIMESTAMP", "LIST", "DICT"]

/-- The zero value the specification names for a type keyword: 0 for the numeric types and
TIMESTAMP, false for BOOL, the empty string for STRING, DATE, TIME and DATETIME, the empty list
for LIST and the empty map for DICT. -/
def specZeroValue (keyword : String) : Value :=
  if keyword ∈ ["INT", "INT64", "INT32", "INT16", "INT8", "FLOAT", "DOUBLE", "TIMESTAMP"] then
    .int .int 0
  else if keyword = "BOOL" then .bool false
  else if keyword ∈ ["STRING", "DATE", "TIME", "DATETIME"] then .str ""
  else if keyword = "LIST" then .list []
  else .dict []

/-! ## tag.go and edge_type.go: the CREATE statements -/

/-- Source: the constant `TAG_BASIC_INDEX_SUFFIX`. -/
def TAG_BASIC_INDEX_SUFFIX : String := "_index_0"

/-- Source: the constant `EDGE_BASIC_INDEX_SUFFIX`. -/
def EDGE_BASIC_INDEX_SUFFIX : String := "_index_0"

/-- Source: `ValidateName`; `none` is the nil error. -/
def ValidateName (name : String) : Option String :=
  if name = "" then some "invalid vid" else none

/-- Source: the loop `for field, fieldDef := range schema` of `CreateTagBySchema`. The lines
that split the trimmed declaration, lowercase its first token and replace `dict` or `list` by
`string` are those of the closure `checkDef`. -/
def createTagLoop (L : Lib) : Schema → String → Except String String
  | [], ngql => .ok ngql
  | (field, fieldDef) :: rest, ngql =>
    let field := TrimSpace field
    let fieldDef := TrimSpace fieldDef
    if field = "" ∨ fieldDef = "" then .error "tag field or fieldDef cannot be empty"
    else createTagLoop L rest (ngql ++ (field ++ " " ++ checkDef L fieldDef ++ ", "))

/-- The part of `CreateTagBySchema` before the database is touched: the error it returns, or
the CREATE TAG statement it builds. -/
def createTagNGQL (L : Lib) (tag : String) (schema : Schema) (ifNotExists : Bool) :
    Except String String :=
  if schema.length ≤ 0 then .error "invalid tag schema"
  else
    let ngql := "CREATE TAG "
    let ngql := if ifNotExists then ngql ++ "IF NOT EXISTS " else ngql
    let ngql := ngql ++ (tag ++ "(")
    match createTagLoop L schema ngql with
    | .error e => .error e
    | .ok ngql => .ok (TrimSuffix ngql ", " ++ ");")

/-- Source: `CreateTagBySchema`; returns the error, `none` for nil. -/
def CreateTagBySchema {σ : Type} (L : Lib) (P : Pool σ) (st : Run σ) (tag : String)
    (schema : Schema) (ifNotExists toCreateIndex : Bool) : Option String × Run σ :=
  match createTagNGQL L tag schema ifNotExists with
  | .error e => (some e, st)
  | .ok ngql =>
    match ConnectAndExcute L P st ngql with
    | (.error e, st1) => (some ("Failed to create tag '" ++ tag ++ "'. " ++ e ++ "."), st1)
    | (.ok _, st1) =>
      if toCreateIndex then
        let tagIndexName := tag ++ TAG_BASIC_INDEX_SUFFIX
        let ingql := "CREATE TAG INDEX IF NOT EXISTS " ++ tagIndexName ++ " ON " ++ tag ++ "();"
        match ConnectAndExcute L P st1 ingql with
        | (.error e, st2) =>
          (some ("Failed to create tag index '" ++ tagIndexName ++ "'. " ++ e ++ "."), st2)
        | (.ok _, st2) => (none, st2)
      else (none, st1)

/-- Source: the loop `for field, fieldType := range schema` of `CreateEdgeType`. -/
def createEdgeLoop : Schema → String → Except String String
  | [], ngql => .ok ngql
  | (field, fieldType) :: rest, ngql =>
    if field = "" ∨ fieldType = "" then .error "edge prop field or fieldtype cannot be empty"
    else createEdgeLoop rest (ngql ++ (field ++ " " ++ fieldType ++ ", "))

/-- The part of `CreateEdgeType` before the database is touched: the error it returns, or the
CREATE EDGE statement it builds. -/
def createEdgeNGQL (edgeName : String) (schema : Schema) (ifNotExists : Bool) :
    Except String String :=
  match ValidateName edgeName with
  | some e => .error e
  | none =>
    let ngql := "CREATE EDGE "
    let ngql := if ifNotExists then ngql ++ "IF NOT EXISTS " else ngql
    let ngql := ngql ++ (edgeName ++ "(")
    match createEdgeLoop schema ngql with
    | .error e => .error e
    | .ok ngql => .ok (TrimSuffix ngql ", " ++ ");")

/-! ## validate.go, vertex.go, edge.go: entities -/

/-- A data record `map[string]interface{}`: its entries in the order in which a `range` loop
visits them. -/
abbrev DataRecord := List (String × Value)

/-- A value of the interface `DataSchema`: the two results of `GetSchema()` and the result of
`GetDataInSchema()`. -/
structure DataSchema where
  name : String
  schema : Schema
  data : DataRecord

/-- Source: `tools.IsStrInSlice`. -/
def IsStrInSlice (val : String) : List String → Bool
  | [] => false
  | item :: rest => if item = val then true else IsStrInSlice val rest

/-- The Go type name that a failed type assertion reports for a value. -/
def typeName : Value → String
  | .nil => "nil"
  | .bool _ => "bool"
  | .int k _ => k.name
  | .float64 _ => "float64"
  | .str _ => "string"
  | .jsonNumber _ => "json.Number"
  | .list _ => "[]interface \x7b\x7d"
  | .nilSlice => "[]interface \x7b\x7d"
  | .dict _ => "map[string]interface \x7b\x7d"
  | .nilMap => "map[string]interface \x7b\x7d"

/-- The expression `s, _ := data[key].(string)`: the empty string unless the entry is a
string. -/
def stringOrZero (data : DataRecord) (key : String) : String :=
  match List.lookup key data with
  | some (.str s) => s
  | _ => ""

/-- The expression `data[key].(string)`: a panic unless the entry is a string. -/
def mustString (data : DataRecord) (key : String) : Except Fault String :=
  match List.lookup key data with
  | some (.str s) => .ok s
  | some v =>
    .error (.panic ("interface conversion: interface \x7b\x7d is " ++ typeName v ++
      ", not string"))
  | none => .error (.panic "interface conversion: interface \x7b\x7d is nil, not string")

/-- Source: `ValidateVertex`. -/
def ValidateVertex (_tag : String) (_schema : Schema) (data : DataRecord) : Option String :=
  ValidateName (stringOrZero data "vid")

/-- Source: `ValidateEdge`. -/
def ValidateEdge (_edge : String) (_schema : Schema) (data : DataRecord) : Option String :=
  if (ValidateName (stringOrZero data "src_vid")).isSome then some "invalid src_vid for edge"
  else if (ValidateName (stringOrZero data "dst_vid")).isSome then
    some "invalid dst_vid for edge"
  else none

/-- The text `executeNqgl` hands to `session.Execute` for a statement: the statement behind
`USE <space>; `, or the statement itself when it already begins with USE. -/
def sentText (L : Lib) (space ngql : String) : String :=
  if !(HasPrefix (ToUpper L (TrimSpace ngql)) "USE") then "USE " ++ space ++ "; " ++ ngql
  else ngql

/-- Source: `GetRowSize()` of a `*nebula.ResultSet`: the number of data rows, which
`AsStringTable()` lists after its header row. -/
def GetRowSize (res : ResultSet) : Nat := res.table.length - 1

/-- Source: the loop `for field := range data` of `getInsertVertexNGQL`: the first key, in
range order, that is neither `vid` nor a field of the schema. -/
def illegalField (schema : Schema) : DataRecord → Option String
  | [] => none
  | (field, _) :: rest =>
    if field = "vid" then illegalField schema rest
    else
      match List.lookup field schema with
      | none => some field
      | some _ => illegalField schema rest

/-- Source: the loop `for field, fieldDef := range schema` of `getInsertVertexNGQL`; carries
`tagNGQL` and `vertexNGQL`. -/
def insertVertexLoop (L : Lib) (data : DataRecord) :
    Schema → String → String → Except String (String × String)
  | [], tagNGQL, vertexNGQL => .ok (tagNGQL, vertexNGQL)
  | (field, fieldDef) :: rest, tagNGQL, vertexNGQL =>
    match List.lookup field data with
    | none => insertVertexLoop L data rest tagNGQL vertexNGQL
    | some fieldVal =>
      match getNGQLValue L fieldDef fieldVal with
      | .error e => .error e
      | .ok fieldValNGQL =>
        insertVertexLoop L data rest (tagNGQL ++ (field ++ ", "))
          (vertexNGQL ++ (fieldValNGQL ++ ", "))

/-- Source: `getInsertVertexNGQL`. -/
def getInsertVertexNGQL (L : Lib) (tag : String) (schema : Schema) (data : DataRecord) :
    Except Fault String :=
  match illegalField schema data with
  | some field =>
    .error (.err ("illegal field '" ++ field ++ "' for vertex insert on tag '" ++ tag ++ "'"))
  | none =>
    match mustString data "vid" with
    | .error f => .error f
    | .ok vid =>
      let ngqlPrefix := "INSERT VERTEX"
      match insertVertexLoop L data schema (tag ++ "(") ("\"" ++ vid ++ "\":(") with
      | .error e => .error (.err e)
      | .ok (tagNGQL, vertexNGQL) =>
        let tagNGQL := TrimSuffix tagNGQL ", " ++ ")"
        let vertexNGQL := TrimSuffix vertexNGQL ", " ++ ")"
        .ok (ngqlPrefix ++ " " ++ tagNGQL ++ " VALUES " ++ vertexNGQL ++ ";")

/-- The statement of `HasVertexExistOnTag`. -/
def fetchVertexNGQL (tag vid : String) : String :=
  "FETCH PROP ON " ++ tag ++ " \"" ++ vid ++ "\""

/-- Source: `HasVertexExistOnTag`. -/
def HasVertexExistOnTag {σ : Type} (L : Lib) (P : Pool σ) (st : Run σ) (tag vid : String) :
    Except String Bool × Run σ :=
  match ConnectAndExcute L P st (fetchVertexNGQL tag vid) with
  | (.error e, st1) => (.error e, st1)
  | (.ok res, st1) => if GetRowSize res ≤ 0 then (.ok false, st1) else (.ok true, st1)

/-- The last part of `InsertVertex`: the statement is built and executed. -/
def insertVertexRun {σ : Type} (L : Lib) (P : Pool σ) (st : Run σ) (tds : DataSchema)
    (vid : String) : Option Fault × Run σ :=
  match getInsertVertexNGQL L tds.name tds.schema tds.data with
  | .error f => (some f, st)
  | .ok ngql =>
    match ConnectAndExcute L P st ngql with
    | (.error e, st1) =>
      (some (.err ("Failed to Insert Vertex '" ++ vid ++ "'. " ++ e ++ ".")), st1)
    | (.ok _, st1) => (none, st1)

/-- Source: `InsertVertex`; returns the error, `none` for nil. -/
def InsertVertex {σ : Type} (L : Lib) (P : Pool σ) (st : Run σ) (tds : DataSchema)
    (flags : List String) : Option Fault × Run σ :=
  match ValidateVertex tds.name tds.schema tds.data with
  | some e => (some (.err e), st)
  | none =>
    match mustString tds.data "vid" with
    | .error f => (some f, st)
    | .ok vid =>
      if !(IsStrInSlice "AllowReplace" flags) then
        match HasVertexExistOnTag L P st tds.name vid with
        | (.error e, st1) => (some (.err e), st1)
        | (.ok isExists, st1) =>
          if isExists then (some (.err ("vid '" ++ vid ++ "' already exist")), st1)
          else insertVertexRun L P st1 tds vid
      else insertVertexRun L P st tds vid

/-- Source: the loop `for _, field := range updateFields` of `UpdateVertex`; carries `ngql`. -/
def updateSetLoop (L : Lib) (schema : Schema) (data : DataRecord) :
    List String → String → Except String String
  | [], ngql => .ok ngql
  | field :: rest, ngql =>
    match List.lookup field schema with
    | none => .error ("illegal field '" ++ field ++ "' found in param `updateFields`")
    | some fieldDef =>
      match List.lookup field data with
      | none => .error ("value for field '" ++ field ++ "' not provided")
      | some val =>
        match getNGQLValue L fieldDef val with
        | .error e => .error e
        | .ok fieldVal =>
          updateSetLoop L schema data rest (ngql ++ (field ++ " = " ++ fieldVal ++ ", "))

/-- Source: `UpdateVertex`; returns the error, `none` for nil. -/
def UpdateVertex {σ : Type} (L : Lib) (P : Pool σ) (st : Run σ) (tds : DataSchema)
    (updateFields : List String) : Option Fault × Run σ :=
  match ValidateVertex tds.name tds.schema tds.data with
  | some e => (some (.err e), st)
  | none =>
    if updateFields.length = 0 then
      (some (.err "no field specified in param `updateFields`"), st)
    else
      match mustString tds.data "vid" with
      | .error f => (some f, st)
      | .ok vid =>
        match updateSetLoop L tds.schema tds.data updateFields
            ("UPDATE VERTEX ON " ++ tds.name ++ " \"" ++ vid ++ "\" SET ") with
        | .error e => (some (.err e), st)
        | .ok ngql =>
          match ConnectAndExcute L P st (TrimSuffix ngql ", " ++ ";") with
          | (.error e, st1) =>
            (some (.err ("Failed to Update Vertex '" ++ vid ++ "'. " ++ e ++ ".")), st1)
          | (.ok _, st1) => (none, st1)

/-- Source: the loop `for field, fieldDef := range schema` of `getInsertEdgeNGQL`; carries
`edgeTypeNGQL` and `edgeNGQL`. The field name is appended before the data record is
consulted. -/
def insertEdgeLoop (L : Lib) (data : DataRecord) :
    Schema → String → String → Except String (String × String)
  | [], edgeTypeNGQL, edgeNGQL => .ok (edgeTypeNGQL, edgeNGQL)
  | (field, fieldDef) :: rest, edgeTypeNGQL, edgeNGQL =>
    let edgeTypeNGQL := edgeTypeNGQL ++ (field ++ ", ")
    match List.lookup field data with
    | none => insertEdgeLoop L data rest edgeTypeNGQL edgeNGQL
    | some fieldVal =>
      match getNGQLValue L fieldDef fieldVal with
      | .error e => .error e
      | .ok fieldValNGQL =>
        insertEdgeLoop L data rest edgeTypeNGQL (edgeNGQL ++ (fieldValNGQL ++ ", "))

/-- Source: `getInsertEdgeNGQL`. -/
def getInsertEdgeNGQL (L : Lib) (edge : String) (schema : Schema) (data : DataRecord) :
    Except Fault String :=
  let ngqlPrefix := "INSERT EDGE"
  match mustString data "src_vid" with
  | .error f => .error f
  | .ok src_vid =>
    match mustString data "dst_vid" with
    | .error f => .error f
    | .ok dst_vid =>
      match insertEdgeLoop L data schema (edge ++ "(")
          ("\"" ++ src_vid ++ "\"->\"" ++ dst_vid ++ "\":(") with
      | .error e => .error (.err e)
      | .ok (edgeTypeNGQL, edgeNGQL) =>
        let edgeTypeNGQL := TrimSuffix edgeTypeNGQL ", " ++ ")"
        let edgeNGQL := TrimSuffix edgeNGQL ", " ++ ")"
        .ok (ngqlPrefix ++ " " ++ edgeTypeNGQL ++ " VALUES " ++ edgeNGQL ++ ";")

/-- Source: `InsertEdge`; returns the error, `none` for nil. -/
def InsertEdge {σ : Type} (L : Lib) (P : Pool σ) (st : Run σ) (eds : DataSchema) :
    Option Fault × Run σ :=
  match ValidateEdge eds.name eds.schema eds.data with
  | some e => (some (.err e), st)
  | none =>
    match mustString eds.data "src_vid" with
    | .error f => (some f, st)
    | .ok src_vid =>
      match mustString eds.data "dst_vid" with
      | .error f => (some f, st)
      | .ok dst_vid =>
        match getInsertEdgeNGQL L eds.name eds.schema eds.data with
        | .error f => (some f, st)
        | .ok ngql =>
          match ConnectAndExcute L P st ngql with
          | (.error e, st1) =>
            (some (.err ("Failed to Insert Edge '" ++ src_vid ++ "'->'" ++ dst_vid ++ "'. " ++
              e ++ ".")), st1)
          | (.ok _, st1) => (none, st1)

/-- The clauses of an ALTER statement that are present, as the specification lists them: ADD,
CHANGE, DROP in this order, each with its entries joined by a comma and a space. -/
def specClauses (addProps changeProps dropProps : List String) : List String :=
  (if addProps ≠ [] then ["ADD (" ++ Join addProps ", " ++ ")"] else []) ++
  (if changeProps ≠ [] then ["CHANGE (" ++ Join changeProps ", " ++ ")"] else []) ++
  (if dropProps ≠ [] then ["DROP (" ++ Join dropProps ", " ++ ")"] else [])

/-- Source: `CreateEdgeType`; returns the error, `none` for nil. -/
def CreateEdgeType {σ : Type} (L : Lib) (P : Pool σ) (st : Run σ) (eds : DataSchema)
    (ifNotExists toCreateIndex : Bool) : Option String × Run σ :=
  match createEdgeNGQL eds.name eds.schema ifNotExists with
  | .error e => (some e, st)
  | .ok ngql =>
    match ConnectAndExcute L P st ngql with
    | (.error e, st1) =>
      (some ("Failed to create edge type '" ++ eds.name ++ "'. " ++ e ++ "."), st1)
    | (.ok _, st1) =>
      if toCreateIndex then
        let edgeIndexName := eds.name ++ EDGE_BASIC_INDEX_SUFFIX
        let ingql :=
          "CREATE EDGE INDEX IF NOT EXISTS " ++ edgeIndexName ++ " ON " ++ eds.name ++ "();"
        match ConnectAndExcute L P st1 ingql with
        | (.error e, st2) =>
          (some ("Failed to create edge index '" ++ edgeIndexName ++ "'. " ++ e ++ "."), st2)
        | (.ok _, st2) => (none, st2)
      else (none, st1)

/-- The declaration as the specification has it emitted into a CREATE statement: trimmed, and
when its first token lowercases to `list` or `dict`, with that token replaced by `string` and
the text after it unchanged. -/
def specEmittedDef (L : Lib) (fieldDef : String) : String :=
  let t := (TrimSpace fieldDef).data
  let first : String := ⟨t.takeWhile (fun c => c ≠ ' ')⟩
  if ToLower L first = "list" ∨ ToLower L first = "dict" then
    ⟨"string".data ++ t.dropWhile (fun c => c ≠ ' ')⟩
  else TrimSpace fieldDef

/-- The schema fields that have an entry in the data record, in range order of the schema. -/
def presentFields (schema : Schema) (data : DataRecord) : Schema :=
  schema.filter (fun p => (List.lookup p.1 data).isSome)

/-- The text `v` is the `getNGQLValue` encoding of the entry that the data record has for the
field `p`. -/
def encodes (L : Lib) (data : DataRecord) (p : String × String) (v : String) : Prop :=
  ∃ x, List.lookup p.1 data = some x ∧ getNGQLValue L p.2 x = .ok v

/-- A pool for concrete runs in which every statement succeeds with a table of one data row
(the vertex `v1`); the state counts the statements executed. -/
def oneRowPool : Pool Nat where
  space := "test"
  getSession := fun n => (.ok (), n)
  execute := fun n _ => (.ok ⟨true, "SUCCEEDED", "", [["VertexID"], ["\"v1\""]]⟩, n + 1)
  release := fun n => n

/-- The text `v` is the `getNGQLValue` encoding of the entry that the data record has for the
field named `field`, under the declaration that the schema has for it. -/
def encodesField (L : Lib) (schema : Schema) (data : DataRecord) (field v : String) : Prop :=
  ∃ d x, List.lookup field schema = some d ∧ List.lookup field data = some x ∧
    getNGQLValue L d x = .ok v

/-- Source: `DeleteVertex`; returns the error, `none` for nil. -/
def DeleteVertex {σ : Type} (L : Lib) (P : Pool σ) (st : Run σ) (tds : DataSchema) :
    Option Fault × Run σ :=
  match ValidateVertex tds.name tds.schema tds.data with
  | some e => (some (.err e), st)
  | none =>
    match mustString tds.data "vid" with
    | .error f => (some f, st)
    | .ok vid =>
      if vid = "" then (some (.err "vid should not be empty"), st)
      else
        match ConnectAndExcute L P st ("DELETE VERTEX \"" ++ vid ++ "\";") with
        | (.error e, st1) =>
          (some (.err ("Failed to  delete Vertex '" ++ vid ++ "'. " ++ e ++ ".")), st1)
        | (.ok _, st1) => (none, st1)

/-- Source: the loop `for field, fieldDef := range schema` of `ReplaceVertex`; carries
`ngql`. A field named in `skipFields` is passed over, and so is a field without an entry in the
data record. -/
def replaceSetLoop (L : Lib) (data : DataRecord) (skipFields : List String) :
    Schema → String → Except String String
  | [], ngql => .ok ngql
  | (field, fieldDef) :: rest, ngql =>
    if IsStrInSlice field skipFields then replaceSetLoop L data skipFields rest ngql
    else
      match List.lookup field data with
      | none => replaceSetLoop L data skipFields rest ngql
      | some val =>
        match getNGQLValue L fieldDef val with
        | .error e => .error e
        | .ok fieldVal =>
          replaceSetLoop L data skipFields rest (ngql ++ (field ++ " = " ++ fieldVal ++ ", "))

/-- The part of `ReplaceVertex` between the validation and the database: the error it
returns, or the UPDATE statement it builds for the vid. The loop `for field := range data` is
the one of `getInsertVertexNGQL`, with another message. -/
def replaceVertexNGQL (L : Lib) (tds : DataSchema) (skipFields : List String) (vid : String) :
    Except String String :=
  match illegalField tds.schema tds.data with
  | some field =>
    .error ("illegal field '" ++ field ++ "' for vertex update on tag '" ++ tds.name ++ "'")
  | none =>
    match replaceSetLoop L tds.data skipFields tds.schema
        ("UPDATE VERTEX ON " ++ tds.name ++ " \"" ++ vid ++ "\" SET ") with
    | .error e => .error e
    | .ok ngql => .ok (TrimSuffix ngql ", " ++ ";")

/-- Source: `ReplaceVertex`; returns the error, `none` for nil. In the source the vid is read
after the loop over the data keys; a validated record has it, so the order does not show. -/
def ReplaceVertex {σ : Type} (L : Lib) (P : Pool σ) (st : Run σ) (tds : DataSchema)
    (skipFields : List String) : Option Fault × Run σ :=
  match ValidateVertex tds.name tds.schema tds.data with
  | some e => (some (.err e), st)
  | none =>
    match mustString tds.data "vid" with
    | .error f => (some f, st)
    | .ok vid =>
      match replaceVertexNGQL L tds skipFields vid with
      | .error e => (some (.err e), st)
      | .ok ngql =>
        match ConnectAndExcute L P st ngql with
        | (.error e, st1) =>
          (some (.err ("Failed to Replace Vertex '" ++ vid ++ "'. " ++ e ++ ".")), st1)
        | (.ok _, st1) => (none, st1)

/-- The schema fields that `ReplaceVertex` assigns: those not named in `skipFields` that have
an entry in the data record, in range order of the schema. -/
def replacedFields (schema : Schema) (data : DataRecord) (skipFields : List String) : Schema :=
  schema.filter (fun p => !(IsStrInSlice p.1 skipFields) && (List.lookup p.1 data).isSome)

/-- The map assignment `m[key] = val` on a record: an existing entry is replaced in place, a
new one is added. -/
def mapSet (m : DataRecord) (key : String) (val : Value) : DataRecord :=
  match m with
  | [] => [(key, val)]
  | (k, v) :: rest => if k = key then (k, val) :: rest else (k, v) :: mapSet rest key val

/-- The panic of an index expression `s[i]` on a slice of `n` elements, `n ≤ i`. -/
def indexPanic (i n : Nat) : Fault :=
  .panic ("runtime error: index out of range [" ++ fmtInt (Int.ofNat i) ++ "] with length " ++
    fmtInt (Int.ofNat n))

/-- Source: the loop `for i, field := range fields` of `ParseStringTable`, from index `i` on;
carries `rowData`. The index expressions `table_title[i]` and `row[i]` panic past the end. -/
def parseRow (L : Lib) (schema : Schema) (table_title row : List String) :
    Nat → List String → DataRecord → Except Fault DataRecord
  | _, [], rowData => .ok rowData
  | i, field :: rest, rowData =>
    let fieldDef := (List.lookup field schema).getD ""
    match table_title[i]? with
    | none => .error (indexPanic i table_title.length)
    | some title =>
      let fieldDef :=
        if title = "vid" ∨ title = "VertexID" ∨ title = "edgeType" then "string" else fieldDef
      match row[i]? with
      | none => .error (indexPanic i row.length)
      | some cell =>
        match getRealValue L fieldDef cell with
        | .error f => .error f
        | .ok fieldVal =>
          if i = 0 ∧ field = "VertexID" then
            parseRow L schema table_title row (i + 1) rest (mapSet rowData "vid" fieldVal)
          else if i = 0 ∧ field = "SrcVID" then
            parseRow L schema table_title row (i + 1) rest (mapSet rowData "src_vid" fieldVal)
          else if i = 1 ∧ field = "DstVID" then
            parseRow L schema table_title row (i + 1) rest (mapSet rowData "dst_vid" fieldVal)
          else parseRow L schema table_title row (i + 1) rest (mapSet rowData field fieldVal)

/-- Source: the loop `for _, row := range table[1:]` of `ParseStringTable`; carries
`resData`. -/
def parseRows (L : Lib) (schema : Schema) (fields : List String) (table_title : List String) :
    List (List String) → List DataRecord → Except Fault (List DataRecord)
  | [], resData => .ok resData
  | row :: rest, resData =>
    match parseRow L schema table_title row 0 fields [] with
    | .error f => .error f
    | .ok rowData => parseRows L schema fields table_title rest (resData ++ [rowData])

/-- Source: `ParseStringTable`. A record is the list of its entries in the order in which the
keys were first assigned. -/
def ParseStringTable (L : Lib) (table : List (List String)) (fields : List String)
    (schema : Schema) : Except Fault (List DataRecord) :=
  if table.length ≤ 1 then .ok []
  else
    match table with
    | [] => .ok []
    | table_title :: rows => parseRows L schema fields table_title rows []

/-- The key under which the specification stores the value of the field at position `i`. -/
def specKey (i : Nat) (field : String) : String :=
  match i, field with
  | 0, "VertexID" => "vid"
  | 0, "SrcVID" => "src_vid"
  | 1, "DstVID" => "dst_vid"
  | _, _ => field

/-- The declaration by which the cell of a column is decoded: `string` under a header cell
`vid`, `VertexID` or `edgeType`, else the declaration of the field in the schema, the empty
text when it has none. -/
def cellDef (schema : Schema) (title field : String) : String :=
  if title = "vid" ∨ title = "VertexID" ∨ title = "edgeType" then "string"
  else (List.lookup field schema).getD ""

/-- The value `v` is decoded from the cell of the row at position `p.1`, for the field `p.2`. -/
def cellValue (L : Lib) (schema : Schema) (table_title row : List String) (p : Nat × String)
    (v : Value) : Prop :=
  ∃ title cell, table_title[p.1]? = some title ∧ row[p.1]? = some cell ∧
    getRealValue L (cellDef schema title p.2) cell = .ok v

/-- The record that results from assigning the values, in order, under the keys. -/
def assignAll (rowData : DataRecord) (keys : List String) (vals : List Value) : DataRecord :=
  (List.zip keys vals).foldl (fun m kv => mapSet m kv.1 kv.2) rowData

/-- The test of the specification on a statement: after trimming surrounding white space, its
first three characters are the letters of USE in either case. -/
def beginsWithUSE (L : Lib) (ngql : String) : Bool :=
  match (TrimSpace ngql).data with
  | a :: b :: c :: _ => L.toUpper a = 'U' ∧ L.toUpper b = 'S' ∧ L.toUpper c = 'E'
  | _ => false

/-- The package variables `NebulaHosts`, `NebulaPort`, `NebulaUser`, `NebulaPassword` and
`NebulaSpace` that `getNebulaConfig` fills. -/
structure NebulaConfig where
  NebulaHosts : List String
  NebulaPort : Int
  NebulaUser : String
  NebulaPassword : String
  NebulaSpace : String
  deriving DecidableEq, Repr

/-- The package variables before `getNebulaConfig` has run: the zero values. -/
def unsetConfig : NebulaConfig := ⟨[], 0, "", "", ""⟩

/-- The expression `v.(string)` in its comma-ok form: the empty text unless `v` is a string. -/
def asString (v : Value) : String :=
  match v with
  | .str s => s
  | _ => ""

/-- The expression `v.(int)` in its comma-ok form: zero unless `v` is an `int`. -/
def asInt (v : Value) : Int :=
  match v with
  | .int .int n => n
  | _ => 0

/-- Source: the loop `for _, val := range hosts` of `getNebulaConfig`; carries `NebulaHosts`
and returns it with the error, `none` for none. -/
def hostLoop : List String → List String → Option String × List String
  | [], NebulaHosts => (none, NebulaHosts)
  | val :: rest, NebulaHosts =>
    let host := TrimSpace val
    if host = "" then (some "invalid nebula host config, empty string found", NebulaHosts)
    else hostLoop rest (NebulaHosts ++ [host])

/-- Source: the loop `for k, v := range nebulaConfigRaw` of `getNebulaConfig`, over the
entries in range order; carries the package variables. The expression `k.(string)` panics on a
key that is not a string. -/
def configLoop : List (Value × Value) → NebulaConfig → Option Fault × NebulaConfig
  | [], c => (none, c)
  | (k, v) :: rest, c =>
    match k with
    | .str key =>
      if key = "host" then
        let hostStr := asString v
        if hostStr = "" then (some (.err "invalid nebula host config"), c)
        else
          match hostLoop (Split hostStr ',') c.NebulaHosts with
          | (some e, hosts) =>
            (some (.err e), ⟨hosts, c.NebulaPort, c.NebulaUser, c.NebulaPassword, c.NebulaSpace⟩)
          | (none, hosts) =>
            if hosts.length ≤ 0 then
              (some (.err "invalid nebula host config, no effective nebula host configured"),
                ⟨hosts, c.NebulaPort, c.NebulaUser, c.NebulaPassword, c.NebulaSpace⟩)
            else
              configLoop rest
                ⟨hosts, c.NebulaPort, c.NebulaUser, c.NebulaPassword, c.NebulaSpace⟩
      else if key = "port" then
        let port := asInt v
        if port ≤ 0 then
          (some (.err "invalid nebula port config"),
            ⟨c.NebulaHosts, port, c.NebulaUser, c.NebulaPassword, c.NebulaSpace⟩)
        else
          configLoop rest ⟨c.NebulaHosts, port, c.NebulaUser, c.NebulaPassword, c.NebulaSpace⟩
      else if key = "user" then
        let user := TrimSpace (asString v)
        if user = "" then
          (some (.err "invalid nebula user config"),
            ⟨c.NebulaHosts, c.NebulaPort, user, c.NebulaPassword, c.NebulaSpace⟩)
        else
          configLoop rest ⟨c.NebulaHosts, c.NebulaPort, user, c.NebulaPassword, c.NebulaSpace⟩
      else if key = "password" then
        configLoop rest ⟨c.NebulaHosts, c.NebulaPort, c.NebulaUser, asString v, c.NebulaSpace⟩
      else if key = "space" then
        let space := TrimSpace (asString v)
        if space = "" then
          (some (.err "invalid nebula space config"),
            ⟨c.NebulaHosts, c.NebulaPort, c.NebulaUser, c.NebulaPassword, space⟩)
        else
          configLoop rest ⟨c.NebulaHosts, c.NebulaPort, c.NebulaUser, c.NebulaPassword, space⟩
      else
        (some (.err ("unrecorginzed field '" ++ key ++ "' in 'nebula_info' config")), c)
    | other =>
      (some (.panic ("interface conversion: interface \x7b\x7d is " ++ typeName other ++
        ", not string")), c)

/-- Source: `getNebulaConfig`. The argument `nebulaConfigRaw` is what the comma-ok assertion of
`config.RawData["nebula_info"]` to a map gives: `none` for nil, else the entries of the map in
range order. Returns the error, `none` for nil, and the package variables. -/
def getNebulaConfig (nebulaConfigRaw : Option (List (Value × Value))) (c : NebulaConfig) :
    Option Fault × NebulaConfig :=
  match nebulaConfigRaw with
  | none => (some (.err "cannot get 'nebula_info' from config"), c)
  | some entries => configLoop entries c

/-- Source: `NumberTypes`. -/
def NumberTypes : List String :=
  ["INT", "INT64", "INT32", "INT16", "INT8", "FLOAT", "DOUBLE", "BOOL", "TIMESTAMP"]

/-- Source: `SearchableTypes`. -/
def SearchableTypes : List String := ["STRING", "IPADDR", "LIST", "DICT"]

/-- Source: the struct `Queryer`. The type `int` is taken as 64 bits wide. -/
structure Queryer where
  PageSize : Int
  PageIndex : Int
  SearchFieldsAlias : List String
  SearchFields : List String
  SearchValue : String
  Explicitly : Bool

/-- Source: the struct `Queryer2`. The type `int` is taken as 64 bits wide. -/
structure Queryer2 where
  PageSize : Int
  PageIndex : Int
  SearchFieldsAlias : List String
  SearchFields : List String
  SearchValuesAlias : List String
  SearchValues : List String
  Explicitly : Bool

/-- The value of an arithmetic result in the type `int`: the result modulo `2^64`, in the
range from `-2^63` to `2^63 - 1`. -/
def wrapInt (n : Int) : Int := (n + 2 ^ 63) % 2 ^ 64 - 2 ^ 63

/-- Source: `if len(q.SearchFieldsAlias) > 0 { q.SearchFields = q.SearchFieldsAlias }`, and
the same lines for the search values: the list in use after the assignment. -/
def chosen (aliasList plain : List String) : List String :=
  if aliasList.length > 0 then aliasList else plain

/-- Source: the `if q.Explicitly || tools.IsStrInSlice(fieldtype, NumberTypes())` that appends
one condition and `OR ` to a text, in `Queryer` and `Queryer2`. -/
def addCondition (explicitly : Bool) (fieldtype tag field valStr ngql : String) : String :=
  if explicitly || IsStrInSlice fieldtype NumberTypes then
    ngql ++ (tag ++ "." ++ field ++ " == " ++ valStr ++ " OR ")
  else ngql ++ (tag ++ "." ++ field ++ " STARTS WITH " ++ valStr ++ " OR ")

/-- Source: the loop `for _, field := range q.SearchFields` of
`Queryer.LookupVertexesWithPagination`; carries `ngql`. -/
def queryerWhereLoop (L : Lib) (tag : String) (schema : Schema) (searchValue : String)
    (explicitly : Bool) : List String → String → Except String String
  | [], ngql => .ok ngql
  | field :: rest, ngql =>
    match List.lookup field schema with
    | none => .error ("param 'search_fields' got illegal field '" ++ field ++ "'")
    | some fieldDef =>
      let fieldtype := typeKeyword L fieldDef
      if !(IsStrInSlice fieldtype NumberTypes) && !(IsStrInSlice fieldtype SearchableTypes) then
        queryerWhereLoop L tag schema searchValue explicitly rest ngql
      else
        match getNGQLValue L fieldDef (.str searchValue) with
        | .error e => .error e
        | .ok valStr =>
          queryerWhereLoop L tag schema searchValue explicitly rest
            (addCondition explicitly fieldtype tag field valStr ngql)

/-- Source: the section of `Queryer.LookupVertexesWithPagination` that appends the WHERE
clause to `ngql`. -/
def queryerWhere (L : Lib) (tag : String) (schema : Schema) (q : Queryer) (ngql : String) :
    Except String String :=
  let searchFields := chosen q.SearchFieldsAlias q.SearchFields
  if searchFields.length > 0 then
    match queryerWhereLoop L tag schema q.SearchValue q.Explicitly searchFields
        (ngql ++ "WHERE ") with
    | .error e => .error e
    | .ok ngql => .ok (TrimSuffix (TrimSuffix ngql "WHERE ") "OR " ++ " ")
  else .ok ngql

/-- Source: the loop `for _, val := range q.SearchValues` of `Queryer2` that fills
`valStrs`. -/
def encodeValues (L : Lib) (fieldDef : String) :
    List String → List String → Except String (List String)
  | [], valStrs => .ok valStrs
  | val :: rest, valStrs =>
    match getNGQLValue L fieldDef (.str val) with
    | .error e => .error e
    | .ok valStr => encodeValues L fieldDef rest (valStrs ++ [valStr])

/-- Source: the loop `for _, val := range valStrs` of `Queryer2`; carries `sub`. -/
def groupLoop (explicitly : Bool) (fieldtype tag field : String) : List String → String → String
  | [], sub => sub
  | val :: rest, sub =>
    groupLoop explicitly fieldtype tag field rest
      (addCondition explicitly fieldtype tag field val sub)

/-- Source: the loop `for _, field := range q.SearchFields` of
`Queryer2.LookupVertexesWithPagination`; carries `ngql`. The three branches are those on
`len(q.SearchValues)`: zero, one, more. -/
def queryer2WhereLoop (L : Lib) (tag : String) (schema : Schema) (searchValues : List String)
    (explicitly : Bool) : List String → String → Except String String
  | [], ngql => .ok ngql
  | field :: rest, ngql =>
    match List.lookup field schema with
    | none => .error ("param 'search_fields' got illegal field '" ++ field ++ "'")
    | some fieldDef =>
      let fieldtype := typeKeyword L fieldDef
      if !(IsStrInSlice fieldtype NumberTypes) && !(IsStrInSlice fieldtype SearchableTypes) then
        queryer2WhereLoop L tag schema searchValues explicitly rest ngql
      else
        match searchValues with
        | [] =>
          match getNGQLValue L fieldDef (.str "") with
          | .error e => .error e
          | .ok valStr =>
            queryer2WhereLoop L tag schema searchValues explicitly rest
              (addCondition explicitly fieldtype tag field valStr ngql)
        | [val] =>
          match getNGQLValue L fieldDef (.str val) with
          | .error e => .error e
          | .ok valStr =>
            queryer2WhereLoop L tag schema searchValues explicitly rest
              (addCondition explicitly fieldtype tag field valStr ngql)
        | _ =>
          match encodeValues L fieldDef searchValues [] with
          | .error e => .error e
          | .ok valStrs =>
            let sub := groupLoop explicitly fieldtype tag field valStrs "("
            let sub := TrimSuffix sub "OR " ++ ")"
            queryer2WhereLoop L tag schema searchValues explicitly rest (ngql ++ (sub ++ " OR "))

/-- Source: the section of `Queryer2.LookupVertexesWithPagination` that appends the WHERE
clause to `ngql`. -/
def queryer2Where (L : Lib) (tag : String) (schema : Schema) (q : Queryer2) (ngql : String) :
    Except String String :=
  let searchFields := chosen q.SearchFieldsAlias q.SearchFields
  let searchValues := chosen q.SearchValuesAlias q.SearchValues
  if searchFields.length > 0 then
    match queryer2WhereLoop L tag schema searchValues q.Explicitly searchFields
        (ngql ++ "WHERE ") with
    | .error e => .error e
    | .ok ngql => .ok (TrimSuffix (TrimSuffix ngql "WHERE ") "OR " ++ " ")
  else .ok ngql

/-- Source: the loop `for field := range schema` of the YIELD section; carries `ngql` and
`fields`. -/
def yieldAllLoop : Schema → String → List String → String × List String
  | [], ngql, fields => (ngql, fields)
  | (field, _) :: rest, ngql, fields =>
    yieldAllLoop rest (ngql ++ ("properties(vertex)." ++ field ++ " as " ++ field ++ ", "))
      (fields ++ [field])

/-- Source: the loop `for _, field := range showFields` of the YIELD section; carries `ngql`
and `fields`. -/
def yieldShownLoop (schema : Schema) :
    List String → String → List String → Except String (String × List String)
  | [], ngql, fields => .ok (ngql, fields)
  | field :: rest, ngql, fields =>
    if field = "vid" then yieldShownLoop schema rest ngql fields
    else
      match List.lookup field schema with
      | none => .error ("invalid show field '" ++ field ++ "'")
      | some _ =>
        yieldShownLoop schema rest
          (ngql ++ ("properties(vertex)." ++ field ++ " as " ++ field ++ ", ")) (fields ++ [field])

/-- Source: the YIELD section of `LookupVertexesWithPagination`, the same text in `Queryer`,
in `Queryer2` and in `LookupVertexes`: from `fields := []string{"VertexID"}` to the
`TrimSuffix` of the comma. Returns `ngql`, `fields` and `needOrder`. -/
def lookupYield (schema : Schema) (showFields : List String) (ngql : String) :
    Except String (String × List String × Bool) :=
  if showFields.length = 0 then
    let r := yieldAllLoop schema (ngql ++ "YIELD ") ["VertexID"]
    .ok (TrimSuffix r.1 ", ", r.2, true)
  else if showFields.length = 1 ∧ showFields.head? = some "vid" then
    .ok (TrimSuffix (TrimSuffix ngql " ") ", ", ["VertexID"], false)
  else
    let showFields :=
      if (List.lookup "created_at" schema).isSome then showFields ++ ["created_at"]
      else showFields
    match yieldShownLoop schema showFields (ngql ++ "YIELD ") ["VertexID"] with
    | .error e => .error e
    | .ok r => .ok (TrimSuffix r.1 ", ", r.2, true)

/-- Source: the lines of `LookupVertexesWithPagination` that append the ORDER BY clause, the
LIMIT clause and the semicolon to `ngql`. -/
def orderAndPage (schema : Schema) (needOrder : Bool) (PageSize PageIndex : Int)
    (ngql : String) : String :=
  let ngql :=
    if (List.lookup "created_at" schema).isSome ∧ needOrder = true then
      ngql ++ " | ORDER BY $-.created_at ASC"
    else ngql
  let ngql :=
    if PageSize > 0 then
      let index := if PageIndex > 1 then PageIndex else 1
      let offset := wrapInt ((index - 1) * PageSize)
      ngql ++ (" | LIMIT " ++ fmtInt offset ++ ", " ++ fmtInt PageSize)
    else ngql
  ngql ++ ";"

/-- Source: `LookupVertexesWithPagination` from the YIELD section on, the same text in
`Queryer` and `Queryer2`. Returns the error, or the total and the records. -/
def lookupPaged {σ : Type} (L : Lib) (P : Pool σ) (st : Run σ) (schema : Schema)
    (PageSize PageIndex : Int) (showFields : List String) (ngql : String) :
    Except Fault (Nat × List DataRecord) × Run σ :=
  match lookupYield schema showFields ngql with
  | .error e => (.error (.err e), st)
  | .ok (ngql, fields, needOrder) =>
    let totalGL := ngql ++ ";"
    match ConnectAndExcute L P st totalGL with
    | (.error e, st1) => (.error (.err e), st1)
    | (.ok totalRes, st1) =>
      let total := GetRowSize totalRes
      match ConnectAndExcute L P st1 (orderAndPage schema needOrder PageSize PageIndex ngql) with
      | (.error e, st2) => (.error (.err e), st2)
      | (.ok res, st2) =>
        match ParseStringTable L res.table fields schema with
        | .error f => (.error f, st2)
        | .ok result => (.ok (total, result), st2)

/-- Source: `(*Queryer).LookupVertexesWithPagination`. -/
def Queryer.LookupVertexesWithPagination {σ : Type} (L : Lib) (P : Pool σ) (st : Run σ)
    (q : Queryer) (tds : DataSchema) (showFields : List String) :
    Except Fault (Nat × List DataRecord) × Run σ :=
  match queryerWhere L tds.name tds.schema q ("LOOKUP ON " ++ tds.name ++ " ") with
  | .error e => (.error (.err e), st)
  | .ok ngql => lookupPaged L P st tds.schema q.PageSize q.PageIndex showFields ngql

/-- Source: `(*Queryer2).LookupVertexesWithPagination`. -/
def Queryer2.LookupVertexesWithPagination {σ : Type} (L : Lib) (P : Pool σ) (st : Run σ)
    (q : Queryer2) (tds : DataSchema) (showFields : List String) :
    Except Fault (Nat × List DataRecord) × Run σ :=
  match queryer2Where L tds.name tds.schema q ("LOOKUP ON " ++ tds.name ++ " ") with
  | .error e => (.error (.err e), st)
  | .ok ngql => lookupPaged L P st tds.schema q.PageSize q.PageIndex showFields ngql

/-- A search field is eligible when it is a field of the schema whose type keyword is in
`NumberTypes` or in `SearchableTypes`. -/
def eligible (L : Lib) (schema : Schema) (field : String) : Bool :=
  match List.lookup field schema with
  | none => false
  | some fieldDef =>
    IsStrInSlice (typeKeyword L fieldDef) NumberTypes ||
      IsStrInSlice (typeKeyword L fieldDef) SearchableTypes

/-- The condition of the specification on a field: `==` when the flag is set or the type
keyword is in `NumberTypes`, and `STARTS WITH` otherwise. -/
def specCondition (explicitly : Bool) (fieldtype tag field valStr : String) : String :=
  tag ++ "." ++ field ++
    (if explicitly = true ∨ fieldtype ∈ NumberTypes then " == " else " STARTS WITH ") ++ valStr

/-- The text `cond` is the condition on the search field for the search value: the field is
declared in the schema, the value encodes, and the condition compares the field with the
encoding. -/
def conditionOf (L : Lib) (tag : String) (schema : Schema) (searchValue : String)
    (explicitly : Bool) (field cond : String) : Prop :=
  ∃ fieldDef valStr, List.lookup field schema = some fieldDef ∧
    getNGQLValue L fieldDef (.str searchValue) = .ok valStr ∧
    cond = specCondition explicitly (typeKeyword L fieldDef) tag field valStr

/-- The text `group` is the group of conditions on the search field for the search values: the
field is declared in the schema, every value encodes, and the group is the conditions on the
encodings, in value order, joined by OR between brackets. -/
def groupOf (L : Lib) (tag : String) (schema : Schema) (searchValues : List String)
    (explicitly : Bool) (field group : String) : Prop :=
  ∃ fieldDef valStrs, List.lookup field schema = some fieldDef ∧
    List.Forall₂ (fun val valStr => getNGQLValue L fieldDef (.str val) = .ok valStr)
      searchValues valStrs ∧
    group = "(" ++ Join (valStrs.map
      (specCondition explicitly (typeKeyword L fieldDef) tag field)) " OR " ++ " )"

/-- Source: the loop `for field, val := range filter` of `LookupVertexes`; carries `ngql`. -/
def lookupFilterLoop (L : Lib) (tag : String) (schema : Schema) :
    DataRecord → String → Except String String
  | [], ngql => .ok ngql
  | (field, val) :: rest, ngql =>
    match List.lookup field schema with
    | none => .error ("filter with illegal field '" ++ field ++ "'")
    | some fieldDef =>
      match getNGQLValue L fieldDef val with
      | .error e => .error e
      | .ok valStr =>
        lookupFilterLoop L tag schema rest
          (ngql ++ (tag ++ "." ++ field ++ " == " ++ valStr ++ " AND "))

/-- Source: the section of `LookupVertexes` that appends the WHERE clause to `ngql`. -/
def lookupFilter (L : Lib) (tag : String) (schema : Schema) (filter : DataRecord)
    (ngql : String) : Except String String :=
  if filter.length ≠ 0 then
    match lookupFilterLoop L tag schema filter (ngql ++ "WHERE ") with
    | .error e => .error e
    | .ok ngql => .ok (TrimSuffix ngql "AND " ++ " ")
  else .ok ngql

/-- The part of `LookupVertexes` before the database is touched: the error it returns, or the
statement it builds with the list `fields`. The YIELD section is the text of
`LookupVertexesWithPagination`. -/
def lookupVertexesNGQL (L : Lib) (tds : DataSchema) (filter : DataRecord)
    (showFields : List String) : Except String (String × List String) :=
  match lookupFilter L tds.name tds.schema filter ("LOOKUP ON " ++ tds.name ++ " ") with
  | .error e => .error e
  | .ok ngql =>
    match lookupYield tds.schema showFields ngql with
    | .error e => .error e
    | .ok (ngql, fields, needOrder) =>
      let ngql :=
        if (List.lookup "created_at" tds.schema).isSome ∧ needOrder = true then
          ngql ++ " | ORDER BY $-.created_at ASC"
        else ngql
      .ok (ngql ++ ";", fields)

/-- Source: `LookupVertexes`. -/
def LookupVertexes {σ : Type} (L : Lib) (P : Pool σ) (st : Run σ) (tds : DataSchema)
    (filter : DataRecord) (showFields : List String) :
    Except Fault (List DataRecord) × Run σ :=
  match lookupVertexesNGQL L tds filter showFields with
  | .error e => (.error (.err e), st)
  | .ok (ngql, fields) =>
    match ConnectAndExcute L P st ngql with
    | (.error e, st1) => (.error (.err e), st1)
    | (.ok res, st1) =>
      match ParseStringTable L res.table fields tds.schema with
      | .error f => (.error f, st1)
      | .ok result => (.ok result, st1)

/-- Source: the loop `for field := range schema` of `GoGetEndsData`; carries `ngql` and
`fields`. -/
def goYieldAllLoop : Schema → String → List String → String × List String
  | [], ngql, fields => (ngql, fields)
  | (field, _) :: rest, ngql, fields =>
    goYieldAllLoop rest (ngql ++ ("properties($$)." ++ field ++ " as " ++ field ++ ", "))
      (fields ++ [field])

/-- Source: the loop `for _, field := range showFields` of `GoGetEndsData`; carries `ngql` and
`fields`. -/
def goYieldShownLoop (schema : Schema) :
    List String → String → List String → Except String (String × List String)
  | [], ngql, fields => .ok (ngql, fields)
  | field :: rest, ngql, fields =>
    if field = "vid" then goYieldShownLoop schema rest ngql fields
    else
      match List.lookup field schema with
      | none => .error ("invalid show field '" ++ field ++ "'")
      | some _ =>
        goYieldShownLoop schema rest
          (ngql ++ ("properties($$)." ++ field ++ " as " ++ field ++ ", ")) (fields ++ [field])

/-- Source: `GoGetEndsData` and `GoGetEndsDataWithStep` behind their first line, the same text
in both: from `fields := []string{"VertexID"}` to `ngql += ";"`. Returns `ngql` and
`fields`. -/
def goEndsNGQL (schema : Schema) (showFields : List String) (ngql : String) :
    Except String (String × List String) :=
  let built : Except String (String × List String) :=
    if showFields.length = 0 then .ok (goYieldAllLoop schema ngql ["VertexID"])
    else if showFields.length = 1 ∧ showFields.head? = some "vid" then .ok (ngql, ["VertexID"])
    else
      let showFields :=
        if (List.lookup "created_at" schema).isSome then showFields ++ ["created_at"]
        else showFields
      goYieldShownLoop schema showFields ngql ["VertexID"]
  match built with
  | .error e => .error e
  | .ok (ngql, fields) =>
    let ngql := TrimSuffix ngql ", "
    let ngql :=
      if (List.lookup "created_at" schema).isSome then ngql ++ " | ORDER BY $-.created_at ASC"
      else ngql
    .ok (ngql ++ ";", fields)

/-- Source: `GoGetEndsData` and `GoGetEndsDataWithStep` from the built statement on. -/
def goEndsRun {σ : Type} (L : Lib) (P : Pool σ) (st : Run σ) (schema : Schema)
    (built : Except String (String × List String)) : Except Fault (List DataRecord) × Run σ :=
  match built with
  | .error e => (.error (.err e), st)
  | .ok (ngql, fields) =>
    match ConnectAndExcute L P st ngql with
    | (.error e, st1) => (.error (.err e), st1)
    | (.ok res, st1) =>
      match ParseStringTable L res.table fields schema with
      | .error f => (.error f, st1)
      | .ok dataTable => (.ok dataTable, st1)

/-- Source: `GoGetEndsData`. -/
def GoGetEndsData {σ : Type} (L : Lib) (P : Pool σ) (st : Run σ) (startVid over : String)
    (schema : Schema) (showFields : List String) : Except Fault (List DataRecord) × Run σ :=
  goEndsRun L P st schema
    (goEndsNGQL schema showFields
      ("GO FROM \"" ++ startVid ++ "\" OVER " ++ over ++ " YIELD id($$) as VertexID, "))

/-- Source: `GoGetEndsDataWithStep`. -/
def GoGetEndsDataWithStep {σ : Type} (L : Lib) (P : Pool σ) (st : Run σ)
    (startVid over : String) (step : Int) (schema : Schema) (showFields : List String) :
    Except Fault (List DataRecord) × Run σ :=
  goEndsRun L P st schema
    (goEndsNGQL schema showFields
      ("GO " ++ fmtInt step ++ " STEPS FROM \"" ++ startVid ++ "\" OVER " ++ over ++
        " YIELD id($$) as VertexID, "))

/-- Source: `goAndCheckVertexExist`. -/
def goAndCheckVertexExist {σ : Type} (L : Lib) (P : Pool σ) (st : Run σ)
    (startVid edge : String) (reverse : Bool) (keepNum : Int) : Except String Bool × Run σ :=
  match ValidateName startVid with
  | some e => (.error e, st)
  | none =>
    match ValidateName edge with
    | some e => (.error e, st)
    | none =>
      let ngql :=
        if reverse then
          "GO FROM \"" ++ startVid ++ "\" OVER " ++ edge ++
            " REVERSELY YIELD dst(edge) AS vid | LIMIT " ++ fmtInt (wrapInt (keepNum + 1)) ++ ";"
        else
          "GO FROM \"" ++ startVid ++ "\" OVER " ++ edge ++ " YIELD dst(edge) AS vid | LIMIT " ++
            fmtInt (wrapInt (keepNum + 1)) ++ ";"
      match ConnectAndExcute L P st ngql with
      | (.error e, st1) => (.error e, st1)
      | (.ok res, st1) =>
        if (GetRowSize res : Int) > keepNum then (.ok true, st1) else (.ok false, st1)

/-- Source: the lines `keepNum := 0; if len(keepNums) >= 1 { keepNum = keepNums[0] }`. -/
def firstOrZero (keepNums : List Int) : Int :=
  match keepNums with
  | [] => 0
  | keepNum :: _ => keepNum

/-- Source: `GoAndCheckNextVertexExist`. -/
def GoAndCheckNextVertexExist {σ : Type} (L : Lib) (P : Pool σ) (st : Run σ)
    (startVid edge : String) (keepNums : List Int) : Except String Bool × Run σ :=
  goAndCheckVertexExist L P st startVid edge false (firstOrZero keepNums)

/-- Source: `GoAndCheckUpwardVertexExist`. -/
def GoAndCheckUpwardVertexExist {σ : Type} (L : Lib) (P : Pool σ) (st : Run σ)
    (startVid edge : String) (keepNums : List Int) : Except String Bool × Run σ :=
  goAndCheckVertexExist L P st startVid edge true (firstOrZero keepNums)

/-- Source: the loop `for _, row := range res.AsStringTable()[1:]` of `GetTagIndexNames`;
carries `tagIndexNames`. The cell `row[1]` is read before the cell `row[0]`. -/
def tagIndexLoop (tag : String) : List (List String) → List String → Except Fault (List String)
  | [], tagIndexNames => .ok tagIndexNames
  | row :: rest, tagIndexNames =>
    match row[1]? with
    | none => .error (indexPanic 1 row.length)
    | some cell1 =>
      let tagName := TrimSuffix (TrimPrefix cell1 "\"") "\""
      match row[0]? with
      | none => .error (indexPanic 0 row.length)
      | some cell0 =>
        let tagIndexName := TrimSuffix (TrimPrefix cell0 "\"") "\""
        if tagName = tag then tagIndexLoop tag rest (tagIndexNames ++ [tagIndexName])
        else tagIndexLoop tag rest tagIndexNames

/-- Source: `GetTagIndexNames`. The slice expression `[1:]` panics on a table without a
row. -/
def GetTagIndexNames {σ : Type} (L : Lib) (P : Pool σ) (st : Run σ) (tag : String) :
    Except Fault (List String) × Run σ :=
  match ConnectAndExcute L P st "SHOW TAG INDEXES;" with
  | (.error e, st1) => (.error (.err e), st1)
  | (.ok res, st1) =>
    match res.table with
    | [] => (.error (.panic "runtime error: slice bounds out of range [1:0]"), st1)
    | _ :: rows => (tagIndexLoop tag rows [], st1)

/-- Source: `DropTagIndex`; returns the error, `none` for nil. -/
def DropTagIndex {σ : Type} (L : Lib) (P : Pool σ) (st : Run σ) (index : String) :
    Option String × Run σ :=
  match ConnectAndExcute L P st ("DROP TAG INDEX " ++ index ++ ";") with
  | (.error e, st1) => (some ("Failed to  Drop Tag Index '" ++ index ++ "'. " ++ e ++ "."), st1)
  | (.ok _, st1) => (none, st1)

/-- Source: the loop `for _, indexName := range indexNames` of `DropTagByName`. -/
def dropIndexLoop {σ : Type} (L : Lib) (P : Pool σ) : List String → Run σ → Option String × Run σ
  | [], st => (none, st)
  | indexName :: rest, st =>
    match DropTagIndex L P st indexName with
    | (some e, st1) => (some e, st1)
    | (none, st1) => dropIndexLoop L P rest st1

/-- Source: `DropTagByName`; returns the error, `none` for nil. -/
def DropTagByName {σ : Type} (L : Lib) (P : Pool σ) (st : Run σ) (tag : String)
    (ifExists : Bool) : Option Fault × Run σ :=
  let ngql := "DROP TAG "
  let ngql := if ifExists then ngql ++ "IF EXISTS " else ngql
  let ngql := ngql ++ (tag ++ ";")
  match GetTagIndexNames L P st tag with
  | (.error f, st1) => (some f, st1)
  | (.ok indexNames, st1) =>
    match dropIndexLoop L P indexNames st1 with
    | (some e, st2) => (some (.err e), st2)
    | (none, st2) =>
      match ConnectAndExcute L P st2 ngql with
      | (.error e, st3) => (some (.err ("Failed to  Drop Tag '" ++ tag ++ "'. " ++ e ++ ".")), st3)
      | (.ok _, st3) => (none, st3)

/-- The entry of a YIELD clause of a lookup for a field. -/
def yieldEntry (field : String) : String :=
  "properties(vertex)." ++ field ++ " as " ++ field

/-- The entry of a YIELD clause of a traversal for a field. -/
def goYieldEntry (field : String) : String :=
  "properties($$)." ++ field ++ " as " ++ field

/-- A cell of a result table without one leading and one trailing double quote. -/
def unquote (cell : String) : String :=
  TrimSuffix (TrimPrefix cell "\"") "\""

/-- The indexes that the data rows of a SHOW TAG INDEXES table report for a tag, in table
order: the first cell of every row whose second cell names the tag. -/
def reportedIndexes (tag : String) (rows : List (List String)) : List String :=
  (rows.filter (fun row => decide (unquote (row.getD 1 "") = tag))).map
    (fun row => unquote (row.getD 0 ""))

/-- The statement of `DropTagIndex` for an index. -/
def dropIndexStatement (index : String) : String :=
  "DROP TAG INDEX " ++ index ++ ";"

/-- A pool for concrete runs in which SHOW TAG INDEXES reports two indexes of the tag `person`
and one of the tag `city`, the drop of the index `person_name` fails in the engine and every
other statement succeeds with an empty table; the state counts the statements executed. -/
def indexPool : Pool Nat where
  space := "test"
  getSession := fun n => (.ok (), n)
  execute := fun n q =>
    if q = "USE test; SHOW TAG INDEXES;" then
      (.ok ⟨true, "SUCCEEDED", "",
        [["Index Name", "By Tag", "Columns"], ["\"person_index\"", "\"person\"", "[]"],
          ["\"city_index\"", "\"city\"", "[]"], ["\"person_name\"", "\"person\"", "[name]"]]⟩,
        n + 1)
    else if q = "USE test; DROP TAG INDEX person_name;" then
      (.ok ⟨false, "E_EXECUTION_ERROR", "no", []⟩, n + 1)
    else (.ok ⟨true, "SUCCEEDED", "", []⟩, n + 1)
  release := fun n => n

/-- A pool for concrete runs in which the second statement executed fails in the engine and
every other statement succeeds with a table of one data row (the vertex `v1`); the state
counts the statements executed. -/
def secondFailsPool : Pool Nat where
  space := "test"
  getSession := fun n => (.ok (), n)
  execute := fun n _ =>
    if n = 1 then (.ok ⟨false, "-1005", "no", [[]]⟩, n + 1)
    else (.ok ⟨true, "0", "", [["VertexID"], ["\"v1\""]]⟩, n + 1)
  release := fun n => n

end NebulaClient


namespace Ginstarter

open Go

/-! ## ginstarter/data_validate.go: the data validator -/

/-- A Go value of type `interface{}` as the validator meets it in request data and in
validator definitions: like `Go.Value`, with `imap` for a `map[interface{}]interface{}`. A nil
slice or map is the empty `list` or `dict`. Values are trees: no map or slice is reachable
twice. -/
inductive Val
  | nil
  | bool (b : Bool)
  | int (k : IntKind) (n : Int)
  | float64 (bits : Nat)
  | str (s : String)
  | jsonNumber (s : String)
  | list (xs : List Val)
  | dict (kvs : List (String × Val))
  | imap (kvs : List (Val × Val))

/-- A `map[string]interface{}` as the list of its entries in range order, each key once: the
data to validate, and the constraints of one field. A map that the code builds is ranged over
in the order in which its keys were first assigned. -/
abbrev Data := List (String × Val)

/-- Source: the struct `DataValidator`. -/
structure DataValidator where
  Validator : List (String × Data)
  FixedFields : Bool

/-- Library behaviour taken as given: that of `Go.Lib`, the `%v` text of a value, `==` and `<`
on `float64` (on the bits), whether `regexp.Match` reports a match (no match when the pattern
does not compile), whether `net.ParseIP` returns an address, whether `time.ParseInLocation`
with layout `2006-01-02 15:04:05.999999` succeeds, and `json.Unmarshal` into a
`map[string]interface{}` and into a `[]interface{}` (`none` for an error). -/
structure Lib where
  go : Go.Lib
  fmtV : Val → String
  floatEq : Nat → Nat → Bool
  floatLt : Nat → Nat → Bool
  regexpMatch : String → String → Bool
  parseIP : String → Bool
  parseDatetime : String → Bool
  jsonUnmarshalDict : String → Option Data
  jsonUnmarshalList : String → Option (List Val)

/-- How a call of a check ends and the data map it leaves: the error or panic, `none` for a
nil error, and the entries of the map after the call. An entry that is a map or a slice is
shown in the state the call leaves it in. -/
abbrev Res := Option NebulaClient.Fault × Data

/-- The map assignment `m[key] = val`: an existing entry is replaced in place, a new one is
added. -/
def assign {α : Type} (m : List (String × α)) (key : String) (val : α) : List (String × α) :=
  match m with
  | [] => [(key, val)]
  | (k, v) :: rest => if k = key then (k, val) :: rest else (k, v) :: assign rest key val

/-- The Go type name that a failed type assertion reports for a value. -/
def typeName : Val → String
  | .nil => "nil"
  | .bool _ => "bool"
  | .int k _ => k.name
  | .float64 _ => "float64"
  | .str _ => "string"
  | .jsonNumber _ => "json.Number"
  | .list _ => "[]interface \x7b\x7d"
  | .dict _ => "map[string]interface \x7b\x7d"
  | .imap _ => "map[interface \x7b\x7d]interface \x7b\x7d"

/-- The expression `m[key].(bool)` in its comma-ok form, the second result dropped: false
unless the entry is a bool. -/
def boolOf (m : Data) (key : String) : Bool :=
  match List.lookup key m with
  | some (.bool b) => b
  | _ => false

/-- The expression `m[key].(int)` in its comma-ok form: `none` unless the entry is an
`int`. -/
def intOf (m : Data) (key : String) : Option Int :=
  match List.lookup key m with
  | some (.int .int n) => some n
  | _ => none

/-- Source: `convertStrVal`. -/
def convertStrVal (V : Lib) (fType value : String) : Except String Val :=
  let valStr := TrimSpace value
  if fType = "int" then
    match ParseInt V.go valStr 64 with
    | .error e => .error e
    | .ok val => .ok (.int .int val)
  else if fType = "float" then
    match V.go.parseFloat valStr 64 with
    | .error e => .error e
    | .ok bits => .ok (.float64 bits)
  else if fType = "string" then .ok (.str valStr)
  else if fType = "bool" then
    match ParseBool V.go valStr with
    | .error e => .error e
    | .ok b => .ok (.bool b)
  else if fType = "datetime" then .ok (.str valStr)
  else if fType = "ipaddr" then .ok (.str valStr)
  else if fType = "timestamp" then
    match ParseInt V.go valStr 64 with
    | .error e => .error e
    | .ok val => .ok (.int .int64 val)
  else .error ("type '" ++ fType ++ "' not supported")

/-- Source: `handleError`; the text of the error it returns. -/
def handleError (V : Lib) (prop field : String) (fieldCheck : Data)
    (additionalMsg : List String) : String :=
  match List.lookup (prop ++ "_errmsg") fieldCheck with
  | some errmsg => V.fmtV errmsg
  | none =>
    let errmsg :=
      if prop = "required" then "field `" ++ field ++ "` must be provided"
      else "Illegal value for field `" ++ field ++ "`."
    if additionalMsg.length ≠ 0 then errmsg ++ (" " ++ Join additionalMsg " ") else errmsg

/-- Source: `checkAutoConvert`. -/
def checkAutoConvert (V : Lib) (fType : String) (value : Val) (field : String)
    (fieldCheck : Data) : Except String Val :=
  if boolOf fieldCheck "auto_convert" then
    match value with
    | .str strVal =>
      match convertStrVal V fType strVal with
      | .error e =>
        .error (handleError V "auto_convert" field fieldCheck
          ["Failed to convert value '" ++ strVal ++ "' to int for field `" ++ field ++ "`. " ++
            e])
      | .ok convertedVal => .ok convertedVal
    | _ =>
      .error (handleError V "auto_convert" field fieldCheck
        ["'auto_convert' requires the value must be a string, for field `" ++ field ++ "`"])
  else
    .error (handleError V "type" field fieldCheck ["Value must be " ++ fType ++ " type."])

/-- The comparison `a == b` of two `interface{}` values: false for values of different dynamic
types, a panic for two slices or two maps of one type. -/
def ifaceEq (V : Lib) (a b : Val) : Except NebulaClient.Fault Bool :=
  match a, b with
  | .nil, .nil => .ok true
  | .bool x, .bool y => .ok (decide (x = y))
  | .int k n, .int k2 n2 => .ok (decide (k = k2 ∧ n = n2))
  | .float64 x, .float64 y => .ok (V.floatEq x y)
  | .str s, .str t => .ok (decide (s = t))
  | .jsonNumber s, .jsonNumber t => .ok (decide (s = t))
  | .list _, .list _ =>
    .error (.panic "runtime error: comparing uncomparable type []interface \x7b\x7d")
  | .dict _, .dict _ =>
    .error (.panic "runtime error: comparing uncomparable type map[string]interface \x7b\x7d")
  | .imap _, .imap _ =>
    .error (.panic ("runtime error: comparing uncomparable type " ++
      "map[interface \x7b\x7d]interface \x7b\x7d"))
  | _, _ => .ok false

/-- The expression `realItem[valKey]` on a `map[interface{}]interface{}`, `valKey` being the
string `value`. -/
def imapValue : List (Val × Val) → Option Val
  | [] => none
  | (.str k, v) :: rest => if k = "value" then some v else imapValue rest
  | _ :: rest => imapValue rest

/-- Source: the condition `ok && val == value` on the entry `value` of a choice that is a
map. -/
def choiceValueIs (V : Lib) (value : Val) (entry : Option Val) :
    Except NebulaClient.Fault Bool :=
  match entry with
  | none => .ok false
  | some val => ifaceEq V val value

/-- Source: `checkChocies`. -/
def checkChocies (V : Lib) (value : Val) : List Val → Except NebulaClient.Fault Bool
  | [] => .ok false
  | item :: rest =>
    let viaMap : Except NebulaClient.Fault Bool :=
      match item with
      | .imap realItem => choiceValueIs V value (imapValue realItem)
      | .dict realItem => choiceValueIs V value (List.lookup "value" realItem)
      | _ => .ok false
    match viaMap with
    | .error f => .error f
    | .ok true => .ok true
    | .ok false =>
      match ifaceEq V value item with
      | .error f => .error f
      | .ok true => .ok true
      | .ok false => checkChocies V value rest

/-- Source: the block `if choices, ok := fieldCheck["choices"].([]interface{}); ok` that the
checks of the scalar types share: `none` when there is no list of choices, else the result
with which the check returns. -/
def choicesBlock (V : Lib) (data : Data) (field : String) (fieldCheck : Data) : Option Res :=
  match List.lookup "choices" fieldCheck with
  | some (.list choices) =>
    match checkChocies V ((List.lookup field data).getD .nil) choices with
    | .error f => some (some f, data)
    | .ok true => some (none, data)
    | .ok false =>
      some (some (.err (handleError V "choices" field fieldCheck
        ["value not in choices constraints, for field '" ++ field ++ "'"])), data)
  | _ => none

/-- Source: `checkInt`. The type `int` is 64 bits wide, so the conversions `int(val64)` and
`int(val32)` keep the number. -/
def checkInt (V : Lib) (data : Data) (field : String) (fieldCheck : Data) : Res :=
  match List.lookup field data with
  | none => (none, data)
  | some val =>
    let typed : Except NebulaClient.Fault (Int × Data) :=
      match val with
      | .int .int n => .ok (n, data)
      | .int .int64 n => .ok (n, assign data field (.int .int n))
      | .int .int32 n => .ok (n, assign data field (.int .int n))
      | .jsonNumber jsonNum =>
        match ParseInt V.go jsonNum 64 with
        | .error e => .error (.err ("failed to convert json.Number to int64. " ++ e))
        | .ok tmp64 => .ok (tmp64, assign data field (.int .int tmp64))
      | _ =>
        match checkAutoConvert V "int" val field fieldCheck with
        | .error e => .error (.err e)
        | .ok (.int .int n) => .ok (n, assign data field (.int .int n))
        | .ok iVal =>
          .error (.panic ("interface conversion: interface \x7b\x7d is " ++ typeName iVal ++
            ", not int"))
    match typed with
    | .error f => (some f, data)
    | .ok (expectVal, data) =>
      if !(boolOf fieldCheck "not_empty") && expectVal = 0 then (none, data)
      else
        match choicesBlock V data field fieldCheck with
        | some res => res
        | none =>
          if (match intOf fieldCheck "min" with
              | some min => decide (expectVal < min)
              | none => false) then
            (some (.err (handleError V "min" field fieldCheck
              ["Value less than min constraints, for field '" ++ field ++ "'."])), data)
          else if (match intOf fieldCheck "max" with
              | some max => decide (expectVal > max)
              | none => false) then
            (some (.err (handleError V "max" field fieldCheck
              ["Value greater than max constraints, for field '" ++ field ++ "'."])), data)
          else (none, data)

/-- The expression `m[key].(float64)` in its comma-ok form: `none` unless the entry is a
`float64`. -/
def floatOf (m : Data) (key : String) : Option Nat :=
  match List.lookup key m with
  | some (.float64 bits) => some bits
  | _ => none

/-- Source: `checkFloat`. The constant `0` is the float of bits 0. -/
def checkFloat (V : Lib) (data : Data) (field : String) (fieldCheck : Data) : Res :=
  match List.lookup field data with
  | none => (none, data)
  | some val =>
    let typed : Except NebulaClient.Fault (Nat × Data) :=
      match val with
      | .float64 bits => .ok (bits, data)
      | .jsonNumber jsonNum =>
        match V.go.parseFloat jsonNum 64 with
        | .error e => .error (.err ("failed to convert json.Number to float64. " ++ e))
        | .ok tmpVal => .ok (tmpVal, assign data field (.float64 tmpVal))
      | _ =>
        match checkAutoConvert V "float" val field fieldCheck with
        | .error e => .error (.err e)
        | .ok (.float64 bits) => .ok (bits, assign data field (.float64 bits))
        | .ok iVal =>
          .error (.panic ("interface conversion: interface \x7b\x7d is " ++ typeName iVal ++
            ", not float64"))
    match typed with
    | .error f => (some f, data)
    | .ok (expectVal, data) =>
      if !(boolOf fieldCheck "not_empty") && V.floatEq expectVal 0 then (none, data)
      else
        match choicesBlock V data field fieldCheck with
        | some res => res
        | none =>
          if (match floatOf fieldCheck "min" with
              | some min => V.floatLt expectVal min
              | none => false) then
            (some (.err (handleError V "min" field fieldCheck
              ["Value less than min constraints, for field '" ++ field ++ "'."])), data)
          else if (match floatOf fieldCheck "max" with
              | some max => V.floatLt max expectVal
              | none => false) then
            (some (.err (handleError V "max" field fieldCheck
              ["Value greater than max constraints, for field '" ++ field ++ "'."])), data)
          else (none, data)

/-- Source: `checkBool`. -/
def checkBool (V : Lib) (data : Data) (field : String) (fieldCheck : Data) : Res :=
  match List.lookup field data with
  | none => (none, data)
  | some (.bool _) => (none, data)
  | some val =>
    match checkAutoConvert V "bool" val field fieldCheck with
    | .error e => (some (.err e), data)
    | .ok (.bool expectVal) => (none, assign data field (.bool expectVal))
    | .ok iVal =>
      (some (.panic ("interface conversion: interface \x7b\x7d is " ++ typeName iVal ++
        ", not bool")), data)

/-- The expression `len(s)` on a string: its number of bytes. -/
def byteLen (s : String) : Int := Int.ofNat s.utf8ByteSize

/-- Source: the two blocks `if minlen, ok := fieldCheck["minlen"].(int); ok` and
`if maxlen, ok := fieldCheck["maxlen"].(int); ok` that the checks of strings, lists and dicts
share, for a value of length `len`: the error with which the check returns, if any. -/
def lengthBlock (V : Lib) (len : Int) (field : String) (fieldCheck : Data) : Option String :=
  if (match intOf fieldCheck "minlen" with
      | some minlen => decide (len < minlen)
      | none => false) then
    some (handleError V "minlen" field fieldCheck
      ["Value less than minlen constraint, for field '" ++ field ++ "'"])
  else if (match intOf fieldCheck "maxlen" with
      | some maxlen => decide (len > maxlen)
      | none => false) then
    some (handleError V "maxlen" field fieldCheck
      ["Value less than maxlen constraint, for field '" ++ field ++ "'"])
  else none

/-- Source: `checkString`. -/
def checkString (V : Lib) (data : Data) (field : String) (fieldCheck : Data) : Res :=
  match List.lookup field data with
  | none => (none, data)
  | some (.str val) =>
    if !(boolOf fieldCheck "not_empty") && val = "" then (none, data)
    else
      let expectVal := if boolOf fieldCheck "trim_space" then TrimSpace val else val
      let data :=
        if boolOf fieldCheck "trim_space" then assign data field (.str expectVal) else data
      match choicesBlock V data field fieldCheck with
      | some res => res
      | none =>
        if boolOf fieldCheck "not_empty" && TrimSpace expectVal = "" then
          (some (.err (handleError V "not_empty" field fieldCheck
            ["value cannot be empty, for field '" ++ field ++ "'"])), data)
        else if (match List.lookup "regexp" fieldCheck with
            | some (.str reStr) => !(V.regexpMatch reStr expectVal)
            | _ => false) then
          (some (.err (handleError V "regexp" field fieldCheck
            ["Not matched with regexp constraint, for field '" ++ field ++ "'"])), data)
        else
          match lengthBlock V (byteLen expectVal) field fieldCheck with
          | some e => (some (.err e), data)
          | none => (none, data)
  | some _ =>
    (some (.err (handleError V "type" field fieldCheck
      ["value not a string, for field '" ++ field ++ "'"])), data)

/-- Source: the block under `空值验证` of `checkIpaddr` and `checkDatetime` for an empty
value, `what` being `ipaddress` or `datetime`. -/
def emptyBlock (V : Lib) (what : String) (data : Data) (field : String) (fieldCheck : Data) :
    Res :=
  if boolOf fieldCheck "not_empty" then
    (some (.err (handleError V "not_empty" field fieldCheck
      [what ++ " value cannot be empty, for field '" ++ field ++ "'"])), data)
  else (none, data)

/-- Source: `checkIpaddr`. -/
def checkIpaddr (V : Lib) (data : Data) (field : String) (fieldCheck : Data) : Res :=
  match List.lookup field data with
  | none => (none, data)
  | some val =>
    let typed : Option String :=
      match val with
      | .str s => some s
      | .nil => some ""
      | _ => none
    match typed with
    | none =>
      (some (.err (handleError V "type" field fieldCheck
        ["'ipaddr' value mast be a string, for field '" ++ field ++ "'"])), data)
    | some expectVal =>
      let expectVal := TrimSpace expectVal
      let data := assign data field (.str expectVal)
      if expectVal = "" then emptyBlock V "ipaddress" data field fieldCheck
      else if !(V.parseIP expectVal) then
        (some (.err (handleError V "type" field fieldCheck
          ["value not a ipaddr, for field '" ++ field ++ "'"])), data)
      else
        match choicesBlock V data field fieldCheck with
        | some res => res
        | none => (none, data)

/-- Source: `checkDatetime`. -/
def checkDatetime (V : Lib) (data : Data) (field : String) (fieldCheck : Data) : Res :=
  match List.lookup field data with
  | none => (none, data)
  | some val =>
    let typed : Option String :=
      match val with
      | .str s => some s
      | .nil => some ""
      | _ => none
    match typed with
    | none =>
      (some (.err (handleError V "type" field fieldCheck
        ["'dateime' value must be a string, for field '" ++ field ++ "'"])), data)
    | some expectVal =>
      let expectVal := TrimSpace expectVal
      let data := assign data field (.str expectVal)
      if expectVal = "" then emptyBlock V "datetime" data field fieldCheck
      else if !(V.parseDatetime expectVal) then
        (some (.err (handleError V "type" field fieldCheck
          ["value not in format 'yyyy-mm-dd hh:mm:ss', for field '" ++ field ++ "'"])), data)
      else
        match choicesBlock V data field fieldCheck with
        | some res => res
        | none => (none, data)

/-- Source: `checkTimestamp`. The test on `json.Number` reads `!ok`: a value that is neither
an `int64` nor a `json.Number` takes the first branch, where `valJson` is the zero value, the
empty text, and `valJson.Int64()` is `strconv.ParseInt("", 10, 64)`; a `json.Number` takes the
branch of `checkAutoConvert`. -/
def checkTimestamp (V : Lib) (data : Data) (field : String) (fieldCheck : Data) : Res :=
  match List.lookup field data with
  | none => (none, data)
  | some val =>
    let typed : Except NebulaClient.Fault Data :=
      match val with
      | .int .int64 _ => .ok data
      | .jsonNumber _ =>
        match checkAutoConvert V "timestamp" val field fieldCheck with
        | .error e => .error (.err e)
        | .ok (.int .int64 n) => .ok (assign data field (.int .int64 n))
        | .ok iVal =>
          .error (.panic ("interface conversion: interface \x7b\x7d is " ++ typeName iVal ++
            ", not int64"))
      | _ =>
        match ParseInt V.go "" 64 with
        | .error e =>
          .error (.err ("failed to convert json.Number to int64 timestamp. " ++ e))
        | .ok expVal => .ok (assign data field (.int .int64 expVal))
    match typed with
    | .error f => (some f, data)
    | .ok data =>
      match List.lookup field data with
      | some (.int .int64 expectVal) =>
        if !(boolOf fieldCheck "not_empty") && expectVal = 0 then (none, data)
        else
          match choicesBlock V data field fieldCheck with
          | some res => res
          | none => (none, data)
      | other =>
        (some (.panic ("interface conversion: interface \x7b\x7d is " ++
          typeName (other.getD .nil) ++ ", not int64")), data)

/-- Source: `makeSubCheck`, for the prefix `pre` that the flag selects: `item_` for
`ForListItem`, `key_` for `ForDictKey`, `value_` for `ForDictVal`, the flags of the three
calls. -/
def makeSubCheck (fieldCheck : Data) (pre : String) : Data :=
  fieldCheck.foldl
    (fun subCheck p =>
      if HasPrefix p.1 pre then assign subCheck (TrimPrefix p.1 pre) p.2 else subCheck) []

/-- Whether a value is a map or a slice: an object that a call changes in place. -/
def isRef : Val → Bool
  | .list _ => true
  | .dict _ => true
  | .imap _ => true
  | _ => false

/-- The state in which a check leaves the object `val` that was bound to the key in the map
it worked on: a map or a slice is never bound anew, so it is what the key holds afterwards;
any other value is as it was. -/
def objectAfter (val : Val) (key : String) (after : Data) : Val :=
  if isRef val then (List.lookup key after).getD val else val

/-- Source: the loop `for _, itemVal := range expectVal` of `checkList`, `dispatch` being
`v.typeCheckingDispatch`; returns the error and the items as the loop leaves them, or
`none` when `dispatch` does not return. -/
def checkListLoop (dispatch : Data → String → String → Data → Option Res) (itemType : String)
    (itemCheck : Data) : List Val → List Val → Option (Option NebulaClient.Fault × List Val)
  | [], done => some (none, done)
  | itemVal :: rest, done =>
    match dispatch [("list_item_value", itemVal)] "list_item_value" itemType itemCheck with
    | none => none
    | some (some f, itemData) =>
      some (some f, done ++ objectAfter itemVal "list_item_value" itemData :: rest)
    | some (none, itemData) =>
      checkListLoop dispatch itemType itemCheck rest
        (done ++ [objectAfter itemVal "list_item_value" itemData])

/-- Source: `checkList`, `dispatch` being `v.typeCheckingDispatch`. -/
def checkList (V : Lib) (dispatch : Data → String → String → Data → Option Res) (data : Data)
    (field : String) (fieldCheck : Data) : Option Res :=
  match List.lookup field data with
  | none => some (none, data)
  | some (.list expectVal) =>
    match List.lookup "item_type" fieldCheck with
    | none => some (none, data)
    | some (.str itemType) =>
      match lengthBlock V (Int.ofNat expectVal.length) field fieldCheck with
      | some e => some (some (.err e), data)
      | none =>
        match checkListLoop dispatch itemType (makeSubCheck fieldCheck "item_") expectVal [] with
        | none => none
        | some (err, items) => some (err, assign data field (.list items))
    | some _ =>
      some (some (.panic ("Invalid validator for list field '" ++ field ++
        "'. Prop 'item_type' must be a string!")), data)
  | some _ =>
    some (some (.err (handleError V "list" field fieldCheck
      ["val not a 'list', for field '" ++ field ++ "'"])), data)

/-- Source: the loop `for keyI, valueI := range expectValI` of `checkDict`; carries
`expectVal`; `none` for a key that is not a string. -/
def stringKeyed : List (Val × Val) → Data → Option Data
  | [], expectVal => some expectVal
  | (.str key, valueI) :: rest, expectVal => stringKeyed rest (assign expectVal key valueI)
  | _ :: _, _ => none

/-- Source: the loop `for checkNameI, checkValI := range val` of `checkDict`; carries
`valCheck`; `none` for a name that is not a string. -/
def formatCheck : List (Val × Val) → Data → Option Data
  | [], valCheck => some valCheck
  | (.str checkName, checkValI) :: rest, valCheck =>
    formatCheck rest (assign valCheck checkName checkValI)
  | _ :: _, _ => none

/-- Source: the loop `for keyI, valI := range formatI` of `checkDict`; carries `format`;
the error is the text of the panic. -/
def buildFormat (field : String) :
    List (Val × Val) → List (String × Data) → Except String (List (String × Data))
  | [], format => .ok format
  | (.str key, .imap val) :: rest, format =>
    match formatCheck val [] with
    | none =>
      .error ("Invalid validator for field '" ++ field ++ "'. Val in dict_format must be " ++
        "map[string]interace\x7b\x7d. Please check your validator code.")
    | some valCheck => buildFormat field rest (assign format key valCheck)
  | (.str _, _) :: _, _ =>
    .error ("Invalid validator for field '" ++ field ++
      "'. Val in dict_format must be map. Please check your validator code.")
  | _ :: _, _ =>
    .error ("Invalid validator for field '" ++ field ++
      "'. Key in dict_format must be string. Please check your validator code.")

/-- Source: the loop `for key := range expectVal` of `checkDict`; carries `subFieldCheck`
and returns it with the error, if any. -/
def dictKeyLoop (V : Lib) (keyCheck valCheck : Data) :
    Data → List (String × Data) → Option NebulaClient.Fault × List (String × Data)
  | [], subFieldCheck => (none, subFieldCheck)
  | (key, _) :: rest, subFieldCheck =>
    match (if keyCheck.length > 0 then
        (checkString V [("dict_key", .str key)] "dict_key" keyCheck).1 else none) with
    | some f => (some f, subFieldCheck)
    | none => dictKeyLoop V keyCheck valCheck rest (assign subFieldCheck key valCheck)

/-- The state in which `checkDict` leaves the value `val` of the field when the validation
of `expectVal` has left `after`: a `map[string]interface{}` is `expectVal` itself; of a
`map[interface{}]interface{}`, which was copied, the values that are maps or slices are shared
with the copy. -/
def dictAfter (val : Val) (after : Data) : Val :=
  match val with
  | .dict _ => .dict after
  | .imap kvs =>
    .imap (kvs.map (fun p =>
      match p.1 with
      | .str key => (p.1, objectAfter p.2 key after)
      | _ => p))
  | other => other

/-- Source: `checkDict`, `validate` being the method `DataValidate` of the sub-validator it
builds. -/
def checkDict (V : Lib) (validate : DataValidator → Data → Option Res) (data : Data)
    (field : String) (fieldCheck : Data) : Option Res :=
  match List.lookup field data with
  | none => some (none, data)
  | some val =>
    let typed : Except String Data :=
      match val with
      | .dict kvs => .ok kvs
      | .imap expectValI =>
        match stringKeyed expectValI [] with
        | none =>
          .error (handleError V "dict" field fieldCheck
            ["key for 'dict' must be a string, for field '" ++ field ++ "'"])
        | some expectVal => .ok expectVal
      | _ =>
        .error (handleError V "dict" field fieldCheck
          ["val not a 'dict', for field '" ++ field ++ "'"])
    match typed with
    | .error e => some (some (.err e), data)
    | .ok expectVal =>
      match List.lookup "dict_format" fieldCheck with
      | some (.imap formatI) =>
        match buildFormat field formatI [] with
        | .error msg => some (some (.panic msg), data)
        | .ok format =>
          match validate ⟨format, true⟩ expectVal with
          | none => none
          | some (err, after) => some (err, assign data field (dictAfter val after))
      | _ =>
        match lengthBlock V (Int.ofNat expectVal.length) field fieldCheck with
        | some e => some (some (.err e), data)
        | none =>
          let keyCheck := makeSubCheck fieldCheck "key_"
          let valCheck := makeSubCheck fieldCheck "value_"
          match dictKeyLoop V keyCheck valCheck expectVal [] with
          | (some f, _) => some (some f, data)
          | (none, subFieldCheck) =>
            if valCheck.length > 0 then
              match validate ⟨subFieldCheck, false⟩ expectVal with
              | none => none
              | some (err, after) => some (err, assign data field (dictAfter val after))
            else some (none, data)

/-- Source: `checkJsondict`, `validate` as in `checkDict`. The map `fieldData` is dropped. -/
def checkJsondict (V : Lib) (validate : DataValidator → Data → Option Res) (data : Data)
    (field : String) (fieldCheck : Data) : Option Res :=
  match List.lookup field data with
  | none => some (none, data)
  | some (.str val) =>
    let expectVal := TrimSpace val
    let data := assign data field (.str expectVal)
    match V.jsonUnmarshalDict expectVal with
    | none =>
      some (some (.err (handleError V "type" field fieldCheck
        ["Value not a valid 'jsondict', for field '" ++ field ++ "'"])), data)
    | some realData =>
      match checkDict V validate [(field, .dict realData)] field fieldCheck with
      | none => none
      | some (err, _) => some (err, data)
  | some _ =>
    some (some (.err (handleError V "type" field fieldCheck
      ["'jsondict' value must be a string, for field '" ++ field ++ "'"])), data)

/-- Source: `checkJsonlist`, `dispatch` as in `checkList`. The map `fieldData` is dropped. -/
def checkJsonlist (V : Lib) (dispatch : Data → String → String → Data → Option Res)
    (data : Data) (field : String) (fieldCheck : Data) : Option Res :=
  match List.lookup field data with
  | none => some (none, data)
  | some (.str val) =>
    let expectVal := TrimSpace val
    let data := assign data field (.str expectVal)
    match V.jsonUnmarshalList expectVal with
    | none =>
      some (some (.err (handleError V "type" field fieldCheck
        ["Value not a valid 'jsonlist', for field '" ++ field ++ "'"])), data)
    | some realData =>
      match checkList V dispatch [(field, .list realData)] field fieldCheck with
      | none => none
      | some (err, _) => some (err, data)
  | some _ =>
    some (some (.err (handleError V "type" field fieldCheck
      ["'jsonlist' value must be a string, for field '" ++ field ++ "'"])), data)

/-- Source: the loop `for field, fieldCheck := range v.Validator` of `DataValidate`,
`dispatch` being `v.typeCheckingDispatch`; carries `data`. -/
def validateLoop (V : Lib) (dispatch : Data → String → String → Data → Option Res) :
    List (String × Data) → Data → Option Res
  | [], data => some (none, data)
  | (field, fieldCheck) :: rest, data =>
    if boolOf fieldCheck "required" && (List.lookup field data).isNone then
      some (some (.err (handleError V "required" field fieldCheck [])), data)
    else
      match List.lookup "type" fieldCheck with
      | some (.str fType) =>
        match dispatch data field fType fieldCheck with
        | none => none
        | some (some f, data) => some (some f, data)
        | some (none, data) => validateLoop V dispatch rest data
      | _ =>
        some (some (.panic ("Invalid validator for field '" ++ field ++
          "'. Prop 'type' is required. Please Check your Validator code.")), data)

/-- Source: `DataValidate`, `dispatch` being `v.typeCheckingDispatch`. -/
def DataValidateWith (V : Lib) (dispatch : Data → String → String → Data → Option Res)
    (v : DataValidator) (data : Data) : Option Res :=
  if v.Validator.length = 0 then some (none, data)
  else
    match validateLoop V dispatch v.Validator data with
    | none => none
    | some (some f, data) => some (some f, data)
    | some (none, data) =>
      if v.FixedFields then
        some (none, data.filter (fun p => (List.lookup p.1 v.Validator).isSome))
      else some (none, data)

/-- Source: the body of `typeCheckingDispatch`, `dispatch` and `validate` being the calls
back into `typeCheckingDispatch` and into `DataValidate` that the checks of lists and dicts
make. -/
def dispatchOnType (V : Lib) (dispatch : Data → String → String → Data → Option Res)
    (validate : DataValidator → Data → Option Res) (data : Data) (field fType : String)
    (fieldCheck : Data) : Option Res :=
  if fType = "int" then some (checkInt V data field fieldCheck)
  else if fType = "float" then some (checkFloat V data field fieldCheck)
  else if fType = "bool" then some (checkBool V data field fieldCheck)
  else if fType = "string" then some (checkString V data field fieldCheck)
  else if fType = "ipaddr" then some (checkIpaddr V data field fieldCheck)
  else if fType = "datetime" then some (checkDatetime V data field fieldCheck)
  else if fType = "timestamp" then some (checkTimestamp V data field fieldCheck)
  else if fType = "list" then checkList V dispatch data field fieldCheck
  else if fType = "dict" then checkDict V validate data field fieldCheck
  else if fType = "jsonlist" then checkJsonlist V dispatch data field fieldCheck
  else if fType = "jsondict" then checkJsondict V validate data field fieldCheck
  else
    some (some (.panic ("Invalid field type '" ++ field ++
      "' for ginstarter.DataValidator. Please check your code!")), data)

/-- Source: `typeCheckingDispatch`. The checks of lists and dicts call back into it and into
`DataValidate`; the first argument bounds the depth of these calls, and the result is `none`
when the bound is reached. -/
def typeCheckingDispatch (V : Lib) : Nat → Data → String → String → Data → Option Res
  | 0, _, _, _, _ => none
  | depth + 1, data, field, fType, fieldCheck =>
    dispatchOnType V (typeCheckingDispatch V depth)
      (DataValidateWith V (typeCheckingDispatch V depth)) data field fType fieldCheck

/-- Source: `(*DataValidator).DataValidate`, with the bound `depth` on the nesting of the
checks of lists and dicts. -/
def DataValidate (V : Lib) (depth : Nat) (v : DataValidator) (data : Data) : Option Res :=
  DataValidateWith V (typeCheckingDispatch V depth) v data

/-- A library instance for evaluating the validator on concrete inputs: every stand-in
rejects; these evaluations do not depend on them. -/
def plainLib : Lib where
  go := asciiLib
  fmtV := fun _ => "?"
  floatEq := fun a b => decide (a = b)
  floatLt := fun _ _ => false
  regexpMatch := fun _ _ => false
  parseIP := fun _ => false
  parseDatetime := fun _ => false
  jsonUnmarshalDict := fun _ => none
  jsonUnmarshalList := fun _ => none

end Ginstarter

/-! # Theorems -/

namespace NebulaClient

open Go

/-! ## Execution gateway -/

/-- The loop started on a non-empty slice returns that slice followed by what the loop started
on the empty slice returns. -/
theorem batchLoop_acc {σ : Type} (L : Lib) (P : Pool σ) (qs : List String)
    (acc : List (Option ResultSet)) (st : Run σ) :
    batchLoop L P qs acc st =
      ((acc ++ (batchLoop L P qs [] st).1.1, (batchLoop L P qs [] st).1.2),
        (batchLoop L P qs [] st).2) := by
  induction qs generalizing acc st with
  | nil => simp [batchLoop]
  | cons ql rest ih =>
    unfold batchLoop
    cases h : executeNqgl L P st ql with
    | mk r st1 =>
      cases r with
      | error e => simp
      | ok res =>
        simp only []
        rw [ih (acc ++ [some res]) st1, ih ([] ++ [some res]) st1]
        simp

/-- A loop that ends without error has appended one non-nil result per statement. -/
theorem batchLoop_ok_length {σ : Type} (L : Lib) (P : Pool σ) (qs : List String) (st st1 : Run σ)
    (rs : List (Option ResultSet)) (h : batchLoop L P qs [] st = ((rs, none), st1)) :
    rs.length = qs.length ∧ ∀ r ∈ rs, r ≠ none := by
  induction qs generalizing st rs with
  | nil =>
    simp [batchLoop] at h
    simp [h.1]
  | cons ql rest ih =>
    unfold batchLoop at h
    cases hx : executeNqgl L P st ql with
    | mk r st2 =>
      rw [hx] at h
      cases r with
      | error e => simp at h
      | ok res =>
        simp only [] at h
        rw [batchLoop_acc] at h
        simp only [Prod.mk.injEq] at h
        obtain ⟨⟨h1, h2⟩, h3⟩ := h
        have hrec := ih st2 (batchLoop L P rest [] st2).1.1 (by rw [← h2, ← h3])
        subst h1
        refine ⟨by simp [hrec.1], ?_⟩
        intro r hr
        simp only [List.nil_append, List.singleton_append, List.mem_cons] at hr
        rcases hr with hr | hr
        · simp [hr]
        · exact hrec.2 r hr

/-- A loop over `pre ++ rest` whose `pre` part ends without error continues on `rest` with the
results and the state reached. -/
theorem batchLoop_append {σ : Type} (L : Lib) (P : Pool σ) (pre rest : List String)
    (st st1 : Run σ) (acc rs : List (Option ResultSet))
    (h : batchLoop L P pre acc st = ((rs, none), st1)) :
    batchLoop L P (pre ++ rest) acc st = batchLoop L P rest rs st1 := by
  induction pre generalizing acc st with
  | nil =>
    simp [batchLoop] at h
    simp [h.1, h.2]
  | cons ql pre ih =>
    unfold batchLoop at h
    simp only [List.cons_append]
    rw [batchLoop]
    cases hx : executeNqgl L P st ql with
    | mk r st2 =>
      rw [hx] at h
      cases r with
      | error e => simp at h
      | ok res => exact ih _ _ h

/-- C1 (what the code does): when the session is acquired, the statements of `pre` all succeed
and the next statement `ql` fails with error `e`, `ConnectAndBatchExcute` returns `e` together
with the results of `pre` followed by one more, nil, entry: `pre.length + 1` elements, not
`pre.length`. -/
theorem ConnectAndBatchExcute_first_failure {σ : Type} (L : Lib) (P : Pool σ) (st : Run σ)
    (pre post : List String) (ql e : String) (rs : List (Option ResultSet)) (db0 : σ)
    (st1 st2 : Run σ)
    (hsess : P.getSession st.db = (.ok (), db0))
    (hpre : batchLoop L P pre [] ⟨db0, st.sent⟩ = ((rs, none), st1))
    (hfail : executeNqgl L P st1 ql = (.error e, st2)) :
    (ConnectAndBatchExcute L P st (pre ++ ql :: post)).1 = (rs ++ [none], some e) ∧
      (∀ r ∈ rs, r ≠ none) ∧
      ((ConnectAndBatchExcute L P st (pre ++ ql :: post)).1.1).length = pre.length + 1 := by
  have hlen := batchLoop_ok_length L P pre _ _ rs hpre
  have hrun : (ConnectAndBatchExcute L P st (pre ++ ql :: post)).1 = (rs ++ [none], some e) := by
    unfold ConnectAndBatchExcute
    rw [hsess]
    simp only []
    rw [batchLoop_append L P pre (ql :: post) _ _ [] rs hpre]
    unfold batchLoop
    rw [hfail]
  refine ⟨hrun, hlen.2, ?_⟩
  rw [hrun]
  simp [hlen.1]

/-- C1 at a concrete input: three statements of which the second fails give a result list of
two elements, the second being nil, together with the second statement's error. -/
theorem ConnectAndBatchExcute_second_of_three_fails :
    (ConnectAndBatchExcute asciiLib countingPool ⟨0, []⟩ ["INSERT 1", "INSERT 2", "INSERT 3"]).1
        = ([some ⟨true, "SUCCEEDED", "", []⟩, none],
            some "NGQL executing failed. ErrorCode: E_EXECUTION_ERROR. ErrorMsg: no") ∧
      (ConnectAndBatchExcute asciiLib countingPool ⟨0, []⟩
        ["INSERT 1", "INSERT 2", "INSERT 3"]).2.sent = ["USE test; INSERT 1", "USE test; INSERT 2"] :=
  ⟨(ConnectAndBatchExcute_first_failure asciiLib countingPool ⟨0, []⟩ ["INSERT 1"] ["INSERT 3"]
      "INSERT 2" "NGQL executing failed. ErrorCode: E_EXECUTION_ERROR. ErrorMsg: no"
      [some ⟨true, "SUCCEEDED", "", []⟩] 0 ⟨1, ["USE test; INSERT 1"]⟩
      ⟨2, ["USE test; INSERT 1", "USE test; INSERT 2"]⟩ rfl rfl rfl).1, rfl⟩


theorem splitChars_ne_nil (sep : Char) (cs : List Char) : splitChars sep cs ≠ [] := by
  cases cs with
  | nil => simp [splitChars]
  | cons c cs =>
    unfold splitChars
    split
    · simp
    · split <;> simp

/-- The declaration always has a first token, and `typeKeyword` is that token uppercased. -/
theorem keyword_split (L : Lib) (fieldDef : String) :
    ∃ first rest, Split (TrimSpace fieldDef) ' ' = first :: rest ∧
      typeKeyword L fieldDef = ToUpper L first := by
  unfold typeKeyword
  cases h : Split (TrimSpace fieldDef) ' ' with
  | nil =>
    exfalso
    unfold Split at h
    simp at h
    exact splitChars_ne_nil _ _ h
  | cons first rest => exact ⟨first, rest, rfl, rfl⟩

/-- C2 (what the code does): for a declaration whose keyword is DICT, the nil value and the
nil map are encoded as the double-quoted text `"null"` and the empty map as the double-quoted
text of two braces; none of them is encoded as single-quoted braces. -/
theorem getNGQLValue_DICT_empty (L : Lib) (fieldDef : String)
    (h : typeKeyword L fieldDef = "DICT") :
    getNGQLValue L fieldDef .nil = .ok "\"null\"" ∧
      getNGQLValue L fieldDef .nilMap = .ok "\"null\"" ∧
      getNGQLValue L fieldDef (.dict []) = .ok "\"\x7b\x7d\"" := by
  obtain ⟨first, rest, hs, hk⟩ := keyword_split L fieldDef
  rw [h] at hk
  simp only [getNGQLValue, hs, ← hk]
  simp only [jsonMarshal, jsonMarshalEntries]
  have h1 : Quote L "null" = "\"null\"" := by rfl
  have h2 : Quote L ("\x7b" ++ Join [] "," ++ "\x7d") = "\"\x7b\x7d\"" := by rfl
  rw [h1, h2]
  simp

/-- C2 at a concrete input: declaration `DICT` with the nil value, and with the empty map. -/
theorem getNGQLValue_DICT_nil_eval :
    getNGQLValue asciiLib "DICT" .nil = .ok "\"null\"" ∧
      getNGQLValue asciiLib "DICT" (.dict []) = .ok "\"\x7b\x7d\"" ∧
      getNGQLValue asciiLib "DICT" .nil ≠ .ok "'\x7b\x7d'" :=
  ⟨(getNGQLValue_DICT_empty asciiLib "DICT" rfl).1,
    (getNGQLValue_DICT_empty asciiLib "DICT" rfl).2.2,
    by rw [(getNGQLValue_DICT_empty asciiLib "DICT" rfl).1]; simp⟩


theorem isPrefixOf_append_self (p l : List Char) : p.isPrefixOf (p ++ l) = true := by
  induction p with
  | nil => simp
  | cons c p ih => simp [List.isPrefixOf, ih]

/-- `TrimPrefix` removes a prefix that was put in front. -/
theorem TrimPrefix_append (p s : String) : TrimPrefix (p ++ s) p = s := by
  unfold TrimPrefix HasPrefix
  simp [String.data_append, isPrefixOf_append_self]

/-- `TrimSuffix` removes a suffix that was put behind. -/
theorem TrimSuffix_append (s suf : String) : TrimSuffix (s ++ suf) suf = s := by
  unfold TrimSuffix HasSuffix
  simp [String.data_append, isPrefixOf_append_self]

/-- The closure `trim` undoes one layer of double quotes. -/
theorem trim_quoted (s : String) : trim ("\"" ++ s ++ "\"") = s := by
  unfold trim
  rw [String.append_assoc, TrimPrefix_append, TrimSuffix_append]

/-- A text in double quotes is neither of the two null markers. -/
theorem quoted_ne_marker (s : String) :
    "\"" ++ s ++ "\"" ≠ "UNKNOWN_PROP" ∧ "\"" ++ s ++ "\"" ≠ "__NULL__" := by
  constructor <;>
  · intro h
    have := congrArg String.data h
    simp [String.data_append] at this

/-- C3: for a declaration whose keyword is STRING and every string `s`, `getNGQLValue` returns
`s` in one pair of double quotes, and `getRealValue` applied to that text returns `s`. -/
theorem STRING_encode_decode (L : Lib) (fieldDef : String)
    (h : typeKeyword L fieldDef = "STRING") (s : String) :
    getNGQLValue L fieldDef (.str s) = .ok ("\"" ++ s ++ "\"") ∧
      getRealValue L fieldDef ("\"" ++ s ++ "\"") = .ok (.str s) := by
  obtain ⟨first, rest, hs, hk⟩ := keyword_split L fieldDef
  rw [h] at hk
  constructor
  · simp only [getNGQLValue, hs, ← hk]
    simp [fmtV]
  · simp only [getRealValue, hs, ← hk]
    simp [(quoted_ne_marker s).1, (quoted_ne_marker s).2, trim_quoted]

/-- C3 at concrete inputs: a string that itself begins and ends with a double quote. -/
theorem STRING_encode_decode_witness :
    getNGQLValue asciiLib "string" (.str "\"a b\"") = .ok "\"\"a b\"\"" ∧
      getRealValue asciiLib "string" "\"\"a b\"\"" = .ok (.str "\"a b\"") :=
  STRING_encode_decode asciiLib "string" rfl "\"a b\""


theorem digitVal_digitChar (d : Nat) (h : d < 10) : digitVal (Nat.digitChar d) = some d := by
  interval_cases d <;> rfl

theorem digitChar_not_sign (d : Nat) (h : d < 10) :
    Nat.digitChar d ≠ '+' ∧ Nat.digitChar d ≠ '-' := by
  interval_cases d <;> exact ⟨by decide, by decide⟩

/-- Parsing the digits written in front of `ds` continues on `ds` with the number written. -/
theorem parseUintLoop_toDigitsCore (maxVal fuel n : Nat) (ds : List Char)
    (hf : n < fuel) (hn : n ≤ maxVal) :
    parseUintLoop maxVal (Nat.toDigitsCore 10 fuel n ds) 0 = parseUintLoop maxVal ds n := by
  induction fuel generalizing n ds with
  | zero => omega
  | succ fuel ih =>
    unfold Nat.toDigitsCore
    simp only []
    have hd : digitVal (Nat.digitChar (n % 10)) = some (n % 10) :=
      digitVal_digitChar _ (Nat.mod_lt _ (by decide))
    split
    · rename_i h0
      have : n % 10 = n := by omega
      simp only [parseUintLoop, hd]
      rw [this]
      simp [Nat.not_lt.mpr hn]
    · rename_i h0
      rw [ih (n / 10) _ (by omega) (by omega)]
      simp only [parseUintLoop, hd]
      have : n / 10 * 10 + n % 10 = n := by omega
      rw [this]
      simp [Nat.not_lt.mpr hn]

/-- The decimal text of a natural number starts with a digit. -/
theorem toDigitsCore_head (fuel n : Nat) (ds : List Char)
    (hf : 0 < fuel ∨ ∃ d rest, d < 10 ∧ ds = Nat.digitChar d :: rest) :
    ∃ d rest, d < 10 ∧ Nat.toDigitsCore 10 fuel n ds = Nat.digitChar d :: rest := by
  induction fuel generalizing n ds with
  | zero =>
    rcases hf with hf | hf
    · omega
    · simpa [Nat.toDigitsCore] using hf
  | succ fuel ih =>
    unfold Nat.toDigitsCore
    simp only []
    split
    · exact ⟨n % 10, ds, Nat.mod_lt _ (by decide), rfl⟩
    · exact ih (n / 10) _ (Or.inr ⟨n % 10, ds, Nat.mod_lt _ (by decide), rfl⟩)

/-- `ParseUint` reads back the decimal text of a number within the range. -/
theorem parseUint_toDigits (bitSize m : Nat) (hm : m ≤ 2 ^ bitSize - 1) :
    parseUint (Nat.toDigits 10 m) bitSize = .ok m := by
  obtain ⟨d, rest, _, hd⟩ := toDigitsCore_head (m + 1) m [] (Or.inl (by omega))
  have hp := parseUintLoop_toDigitsCore (2 ^ bitSize - 1) (m + 1) m [] (by omega) hm
  unfold Nat.toDigits
  unfold parseUint
  rw [hd] at hp ⊢
  simp only []
  rw [hp]
  rfl

/-- `ParseInt` reads back the decimal text of every integer of the signed range. -/
theorem parseIntCore_fmtInt (bitSize : Nat) (n : Int) (hb : 0 < bitSize)
    (hlo : -(2 ^ (bitSize - 1) : Int) ≤ n) (hhi : n < (2 ^ (bitSize - 1) : Int)) :
    parseIntCore (fmtInt n).data bitSize = .ok n := by
  have hpow : 2 ^ bitSize = 2 * 2 ^ (bitSize - 1) := by
    cases bitSize with
    | zero => omega
    | succ b => simp [Nat.pow_succ, Nat.mul_comm]
  have hpos : 0 < 2 ^ (bitSize - 1) := Nat.two_pow_pos _
  have hc : (2 : Int) ^ (bitSize - 1) = ((2 ^ (bitSize - 1) : Nat) : Int) := by
    push_cast
    rfl
  rw [hc] at hlo hhi
  cases n with
  | ofNat m =>
    have hm : m < 2 ^ (bitSize - 1) := by
      have h1 : Int.ofNat m = (m : Int) := rfl
      rw [h1] at hhi
      omega
    obtain ⟨d, rest, hd10, hd⟩ := toDigitsCore_head (m + 1) m [] (Or.inl (by omega))
    have hpu := parseUint_toDigits bitSize m (by omega)
    unfold Nat.toDigits at hpu
    simp only [fmtInt, Nat.toDigits]
    rw [hd] at hpu ⊢
    unfold parseIntCore
    simp only [(digitChar_not_sign d hd10).1, (digitChar_not_sign d hd10).2, or_self, if_false,
      decide_False, hpu]
    simp [Nat.not_le.mpr hm]
  | negSucc m =>
    have hm : m + 1 ≤ 2 ^ (bitSize - 1) := by
      rw [Int.negSucc_eq] at hlo
      omega
    have hpu := parseUint_toDigits bitSize (m + 1) (by omega)
    simp only [fmtInt]
    unfold parseIntCore
    simp only [or_true, if_true, decide_True, hpu]
    simp [Nat.not_lt.mpr hm]
    rw [Int.negSucc_eq]
    omega


/-- The decimal text of an integer is neither of the two null markers. -/
theorem fmtInt_ne_marker (n : Int) : fmtInt n ≠ "UNKNOWN_PROP" ∧ fmtInt n ≠ "__NULL__" := by
  cases n with
  | ofNat m =>
    obtain ⟨d, rest, hd10, hd⟩ := toDigitsCore_head (m + 1) m [] (Or.inl (by omega))
    have hdata : (fmtInt (Int.ofNat m)).data = Nat.digitChar d :: rest := by
      simp only [fmtInt, Nat.toDigits]
      exact hd
    constructor <;>
    · intro h
      rw [h] at hdata
      have hh := (List.cons.inj hdata).1
      interval_cases d <;> exact absurd hh (by decide)
  | negSucc m =>
    constructor <;>
    · intro h
      have := congrArg String.data h
      simp [fmtInt] at this

/-- C4: for a declaration whose keyword is INT, INT64, INT32, INT16 or INT8 and every integer
`n` of the signed range of 64, 64, 32, 16 or 8 bits, `getNGQLValue` returns the unquoted decimal
text of `n` (whatever Go integer type carries it) and `getRealValue` applied to that text
returns `n`, as an int64, without error. -/
theorem INT_encode_decode (L : Lib) (fieldDef : String) (bits : Nat) (k : IntKind) (n : Int)
    (h : (typeKeyword L fieldDef, bits) ∈
      [("INT", 64), ("INT64", 64), ("INT32", 32), ("INT16", 16), ("INT8", 8)])
    (hlo : -(2 ^ (bits - 1) : Int) ≤ n) (hhi : n < (2 ^ (bits - 1) : Int)) :
    getNGQLValue L fieldDef (.int k n) = .ok (fmtInt n) ∧
      getRealValue L fieldDef (fmtInt n) = .ok (.int .int64 n) := by
  obtain ⟨first, rest, hs, hk⟩ := keyword_split L fieldDef
  have hb : 0 < bits := by
    simp only [List.mem_cons, Prod.mk.injEq, List.mem_singleton] at h
    rcases h with h | h | h | h | h | h <;> simp_all
  have hparse : ParseInt L (fmtInt n) bits = .ok n := by
    unfold ParseInt
    rw [parseIntCore_fmtInt bits n hb hlo hhi]
  simp only [List.mem_cons, Prod.mk.injEq, List.mem_singleton, List.not_mem_nil, or_false] at h
  rcases h with ⟨h1, h2⟩ | ⟨h1, h2⟩ | ⟨h1, h2⟩ | ⟨h1, h2⟩ | ⟨h1, h2⟩ <;>
  · rw [h1] at hk
    subst h2
    constructor
    · simp only [getNGQLValue, hs, ← hk]
      simp [fmtV]
    · simp only [getRealValue, hs, ← hk]
      simp [(fmtInt_ne_marker n).1, (fmtInt_ne_marker n).2, hparse, parsedInt]

/-- C4 at concrete inputs: the smallest 8-bit integer under declaration `INT8`. -/
theorem INT_encode_decode_witness :
    getNGQLValue asciiLib "int8 NOT NULL" (.int .int (-128)) = .ok "-128" ∧
      getRealValue asciiLib "int8 NOT NULL" "-128" = .ok (.int .int64 (-128)) :=
  INT_encode_decode asciiLib "int8 NOT NULL" 8 .int (-128) (by decide) (by decide) (by decide)


/-- C5 (what the code does): for a declaration whose keyword is DATE, TIME or DATETIME,
`getNGQLValue` returns NULL for the nil value and for a string that is empty after trimming
white space, and for every other string `s` returns `date("s")`, `time("s")` or
`datetime("s")` with `s` as it was given: the trimmed text decides between NULL and a literal,
but the literal is printed from the untrimmed value. -/
theorem time_literal_encoding (L : Lib) (fieldDef ctor : String)
    (h : (typeKeyword L fieldDef, ctor) ∈
      [("DATE", "date"), ("TIME", "time"), ("DATETIME", "datetime")]) :
    getNGQLValue L fieldDef .nil = .ok "NULL" ∧
      (∀ s : String, TrimSpace s = "" → getNGQLValue L fieldDef (.str s) = .ok "NULL") ∧
      (∀ s : String, TrimSpace s ≠ "" →
        getNGQLValue L fieldDef (.str s) = .ok (ctor ++ "(\"" ++ s ++ "\")")) := by
  obtain ⟨first, rest, hs, hk⟩ := keyword_split L fieldDef
  simp only [List.mem_cons, Prod.mk.injEq, List.mem_singleton, List.not_mem_nil, or_false] at h
  rcases h with ⟨h1, h2⟩ | ⟨h1, h2⟩ | ⟨h1, h2⟩ <;>
  · rw [h1] at hk
    subst h2
    refine ⟨?_, ?_, ?_⟩
    · simp only [getNGQLValue, hs, ← hk]
      simp [timeLiteral, handleEmptyStr]
    · intro s hempty
      simp only [getNGQLValue, hs, ← hk]
      simp [timeLiteral, handleEmptyStr, hempty]
    · intro s hne
      simp only [getNGQLValue, hs, ← hk]
      simp [timeLiteral, handleEmptyStr, hne, fmtS]

/-- C5 at concrete inputs: a blank string under `TIME`, a padded date under `DATE`. -/
theorem time_literal_encoding_witness :
    getNGQLValue asciiLib "TIME" (.str "  ") = .ok "NULL" ∧
      getNGQLValue asciiLib "DATE" (.str " 2020-01-01 ") = .ok "date(\" 2020-01-01 \")" :=
  ⟨(time_literal_encoding asciiLib "TIME" "time" (by decide)).2.1 "  " (by decide),
    (time_literal_encoding asciiLib "DATE" "date" (by decide)).2.2 " 2020-01-01 " (by decide)⟩

/-- For the padded string ` 2020-01-01 ` under `DATE` the literal does not hold the trimmed
text. -/
theorem DATE_literal_not_trimmed :
    getNGQLValue asciiLib "DATE" (.str " 2020-01-01 ") ≠
      .ok ("date(\"" ++ TrimSpace " 2020-01-01 " ++ "\")") := by
  have h : getNGQLValue asciiLib "DATE" (.str " 2020-01-01 ") = .ok "date(\" 2020-01-01 \")" := rfl
  rw [h]
  intro hc
  exact absurd (Except.ok.inj hc) (by decide)

/-- C6 (amended): for a declaration whose keyword is TIMESTAMP, `getNGQLValue` returns a string
value unchanged, returns the decimal text of every int64 value and of every `json.Number` whose
text `strconv.ParseInt` reads as a 64-bit integer (so of the decimal text of every integer of
that range), and fails for a `json.Number` that does not parse and for every value of another
shape, a native int included. -/
theorem TIMESTAMP_encoding (L : Lib) (fieldDef : String)
    (h : typeKeyword L fieldDef = "TIMESTAMP") :
    (∀ s : String, getNGQLValue L fieldDef (.str s) = .ok s) ∧
      (∀ n : Int, getNGQLValue L fieldDef (.int .int64 n) = .ok (fmtInt n)) ∧
      (∀ (j : String) (n : Int), ParseInt L j 64 = .ok n →
        getNGQLValue L fieldDef (.jsonNumber j) = .ok (fmtInt n)) ∧
      (∀ n : Int, -(2 ^ 63 : Int) ≤ n → n < (2 ^ 63 : Int) →
        getNGQLValue L fieldDef (.jsonNumber (fmtInt n)) = .ok (fmtInt n)) ∧
      (∀ (j e : String), ParseInt L j 64 = .error e →
        getNGQLValue L fieldDef (.jsonNumber j) =
          .error "failed to convert json.Number to timestamp for nebula_client") ∧
      (∀ v : Value, (∀ s, v ≠ .str s) → (∀ n, v ≠ .int .int64 n) → (∀ j, v ≠ .jsonNumber j) →
        getNGQLValue L fieldDef v = .error "invalid timestamp(int64) value for nebula_client") := by
  obtain ⟨first, rest, hs, hk⟩ := keyword_split L fieldDef
  rw [h] at hk
  have hjson : ∀ (j : String) (n : Int), ParseInt L j 64 = .ok n →
      getNGQLValue L fieldDef (.jsonNumber j) = .ok (fmtInt n) := by
    intro j n hp
    simp only [getNGQLValue, hs, ← hk]
    simp [hp]
  refine ⟨?_, ?_, hjson, ?_, ?_, ?_⟩
  · intro s
    simp only [getNGQLValue, hs, ← hk]
    simp
  · intro n
    simp only [getNGQLValue, hs, ← hk]
    simp
  · intro n hlo hhi
    apply hjson
    unfold ParseInt
    rw [parseIntCore_fmtInt 64 n (by decide) hlo hhi]
  · intro j e hp
    simp only [getNGQLValue, hs, ← hk]
    simp [hp]
  · intro v h1 h2 h3
    simp only [getNGQLValue, hs, ← hk]
    cases v with
    | str s => exact absurd rfl (h1 s)
    | jsonNumber j => exact absurd rfl (h3 j)
    | int k n =>
      cases k with
      | int64 => exact absurd rfl (h2 n)
      | _ => simp
    | _ => simp

/-- C6 at concrete inputs: an int64, a `json.Number` and a float under `TIMESTAMP`. -/
theorem TIMESTAMP_encoding_witness :
    getNGQLValue asciiLib "timestamp" (.int .int64 1700000000) = .ok "1700000000" ∧
      getNGQLValue asciiLib "timestamp" (.jsonNumber "1700000000") = .ok "1700000000" ∧
      getNGQLValue asciiLib "timestamp" (.float64 0) =
        .error "invalid timestamp(int64) value for nebula_client" :=
  ⟨(TIMESTAMP_encoding asciiLib "timestamp" rfl).2.1 1700000000,
    (TIMESTAMP_encoding asciiLib "timestamp" rfl).2.2.1 "1700000000" 1700000000 rfl,
    (TIMESTAMP_encoding asciiLib "timestamp" rfl).2.2.2.2.2 (.float64 0)
      (fun _ => by simp) (fun _ => by simp) (fun _ => by simp)⟩

/-- C6 as stated fails: a native int under `TIMESTAMP` is refused, not printed. -/
theorem TIMESTAMP_native_int_refused :
    getNGQLValue asciiLib "TIMESTAMP" (.int .int 1700000000) =
        .error "invalid timestamp(int64) value for nebula_client" ∧
      getNGQLValue asciiLib "TIMESTAMP" (.int .int 1700000000) ≠ .ok (fmtInt 1700000000) := by
  have h : getNGQLValue asciiLib "TIMESTAMP" (.int .int 1700000000) =
      .error "invalid timestamp(int64) value for nebula_client" := rfl
  rw [h]
  exact ⟨rfl, by simp⟩

/-- C7: for a declaration whose keyword is none of the fifteen known ones, `getNGQLValue` fails
with the unsupported-type error for every value and `getRealValue` fails with the
unsupported-type error for every text, the null markers included. -/
theorem unknown_type_unsupported (L : Lib) (fieldDef : String)
    (h : typeKeyword L fieldDef ∉ knownTypes) :
    (∀ val : Value, getNGQLValue L fieldDef val =
        .error ("data type '" ++ typeKeyword L fieldDef ++
          "' not supported by this nebula client")) ∧
      (∀ valStr : String, getRealValue L fieldDef valStr =
        .error (.err ("data type '" ++ typeKeyword L fieldDef ++
          "' not supported by this nebula client"))) := by
  obtain ⟨first, rest, hs, hk⟩ := keyword_split L fieldDef
  rw [hk] at h ⊢
  simp only [knownTypes, List.mem_cons, List.mem_singleton, List.not_mem_nil, or_false,
    not_or] at h
  obtain ⟨h1, h2, h3, h4, h5, h6, h7, h8, h9, h10, h11, h12, h13, h14, h15⟩ := h
  constructor
  · intro val
    simp only [getNGQLValue, hs]
    simp [h1, h2, h3, h4, h5, h6, h7, h8, h9, h10, h11, h12, h13, h14, h15]
  · intro valStr
    simp only [getRealValue, hs]
    simp [h1, h2, h3, h4, h5, h6, h7, h8, h9, h10, h11, h12, h13, h14, h15]

/-- C7 at concrete inputs: the declaration `FIXED_STRING(8)`. -/
theorem unknown_type_unsupported_witness :
    getNGQLValue asciiLib "fixed_string(8)" (.str "a") =
        .error "data type 'FIXED_STRING(8)' not supported by this nebula client" ∧
      getRealValue asciiLib "fixed_string(8)" "__NULL__" =
        .error (.err "data type 'FIXED_STRING(8)' not supported by this nebula client") :=
  ⟨(unknown_type_unsupported asciiLib "fixed_string(8)" (by decide)).1 (.str "a"),
    (unknown_type_unsupported asciiLib "fixed_string(8)" (by decide)).2 "__NULL__"⟩

/-- C8: for a declaration whose keyword is one of the fifteen known ones, `getRealValue` returns
the zero value of the type, and no error, for the text `__NULL__`, and the same for the text
`UNKNOWN_PROP`. -/
theorem null_marker_zero_value (L : Lib) (fieldDef : String)
    (h : typeKeyword L fieldDef ∈ knownTypes) :
    getRealValue L fieldDef "__NULL__" = .ok (specZeroValue (typeKeyword L fieldDef)) ∧
      getRealValue L fieldDef "UNKNOWN_PROP" = .ok (specZeroValue (typeKeyword L fieldDef)) := by
  obtain ⟨first, rest, hs, hk⟩ := keyword_split L fieldDef
  simp only [knownTypes, List.mem_cons, List.mem_singleton, List.not_mem_nil, or_false] at h
  rcases h with h | h | h | h | h | h | h | h | h | h | h | h | h | h | h <;>
  · rw [h]
    rw [h] at hk
    simp only [getRealValue, hs, ← hk]
    simp [specZeroValue]

/-- C8 at concrete inputs: declaration `LIST`. -/
theorem null_marker_zero_value_witness :
    getRealValue asciiLib "LIST" "__NULL__" = .ok (.list []) ∧
      getRealValue asciiLib "LIST" "UNKNOWN_PROP" = .ok (.list []) :=
  null_marker_zero_value asciiLib "LIST" (by decide)


/-! ## Schema statements -/

theorem lookup_eq_none_iff (k : String) (l : Schema) :
    List.lookup k l = none ↔ k ∉ fieldNames l := by
  induction l with
  | nil => simp [fieldNames]
  | cons p l ih =>
    obtain ⟨a, b⟩ := p
    simp only [List.lookup, fieldNames, List.map_cons, List.mem_cons, not_or]
    by_cases hka : k = a
    · subst hka
      simp
    · have : (k == a) = false := by simpa using hka
      simp only [this]
      simp only [fieldNames] at ih
      simp [hka, ih]

theorem lookup_of_mem (k v : String) (l : Schema) (hn : (fieldNames l).Nodup)
    (hm : (k, v) ∈ l) : List.lookup k l = some v := by
  induction l with
  | nil => simp at hm
  | cons p l ih =>
    obtain ⟨a, b⟩ := p
    simp only [fieldNames, List.map_cons, List.nodup_cons] at hn
    simp only [List.mem_cons, Prod.mk.injEq] at hm
    simp only [List.lookup]
    rcases hm with ⟨h1, h2⟩ | hm
    · subst h1 h2
      simp
    · have hka : k ≠ a := by
        intro h
        subst h
        exact hn.1 (List.mem_map.mpr ⟨(k, v), hm, rfl⟩)
      have : (k == a) = false := by simpa using hka
      simp only [this]
      exact ih hn.2 hm

theorem mem_of_lookup (k v : String) (l : Schema) (h : List.lookup k l = some v) :
    (k, v) ∈ l := by
  induction l with
  | nil => simp at h
  | cons p l ih =>
    obtain ⟨a, b⟩ := p
    simp only [List.lookup] at h
    by_cases hka : k = a
    · subst hka
      simp at h
      simp [h]
    · have : (k == a) = false := by simpa using hka
      simp only [this] at h
      exact List.mem_cons_of_mem _ (ih h)

/-- The first loop, in closed form: it appends the entries of the new fields without an old
declaration to `addProps` and those with a changed declaration to `changeProps`. -/
theorem scanNewSchema_eq (L : Lib) (oldSchema newSchema : Schema) (a c : List String) :
    scanNewSchema L oldSchema newSchema a c =
      (a ++ (newSchema.filter (fun p => (List.lookup p.1 oldSchema).isNone)).map (clauseEntry L),
       c ++ (newSchema.filter (fun p =>
          match List.lookup p.1 oldSchema with
          | some d => isPropDefChanged L d p.2
          | none => false)).map (clauseEntry L)) := by
  induction newSchema generalizing a c with
  | nil => simp [scanNewSchema]
  | cons p rest ih =>
    obtain ⟨f, d⟩ := p
    unfold scanNewSchema
    cases hl : List.lookup f oldSchema with
    | none =>
      simp only []
      rw [ih]
      simp [List.filter_cons, hl, clauseEntry]
    | some d0 =>
      simp only []
      by_cases hc : isPropDefChanged L d0 d = true
      · simp only [hc, if_true]
        rw [ih]
        simp [List.filter_cons, hl, hc, clauseEntry]
      · simp only [hc]
        simp [List.filter_cons, hl, hc]
        exact ih a c

/-- The second loop, in closed form. -/
theorem scanOldSchema_eq (oldSchema newSchema : Schema) (dr : List String) :
    scanOldSchema newSchema oldSchema dr =
      dr ++ (oldSchema.filter (fun p => (List.lookup p.1 newSchema).isNone)).map Prod.fst := by
  induction oldSchema generalizing dr with
  | nil => simp [scanOldSchema]
  | cons p rest ih =>
    obtain ⟨f, d⟩ := p
    unfold scanOldSchema
    cases hl : List.lookup f newSchema with
    | none =>
      simp only []
      rw [ih]
      simp [List.filter_cons, hl]
    | some d0 =>
      simp only []
      rw [ih]
      simp [List.filter_cons, hl]

/-- On schemas without repeated field names the three lists of the code are the entries of the
three field sets of the specification. -/
theorem scan_eq_spec (L : Lib) (oldSchema newSchema : Schema)
    (hold : (fieldNames oldSchema).Nodup) :
    scanNewSchema L oldSchema newSchema [] [] =
        ((specAddFields oldSchema newSchema).map (clauseEntry L),
         (specChangeFields L oldSchema newSchema).map (clauseEntry L)) ∧
      scanOldSchema newSchema oldSchema [] = specDropFields oldSchema newSchema := by
  constructor
  · rw [scanNewSchema_eq]
    simp only [List.nil_append, specAddFields, specChangeFields, Prod.mk.injEq]
    constructor
    · congr 1
      apply List.filter_congr
      intro p _
      by_cases h : p.1 ∈ fieldNames oldSchema
      · have : List.lookup p.1 oldSchema ≠ none := fun hn => (lookup_eq_none_iff _ _).mp hn h
        cases hl : List.lookup p.1 oldSchema with
        | none => exact absurd hl this
        | some d => simp [h]
      · simp [h, (lookup_eq_none_iff _ _).mpr h]
    · congr 1
      apply List.filter_congr
      intro p _
      cases hl : List.lookup p.1 oldSchema with
      | none =>
        have hnot := (lookup_eq_none_iff _ _).mp hl
        simp only []
        symm
        rw [List.any_eq_false]
        intro q hq
        have : q.1 ≠ p.1 := by
          intro h
          exact hnot (h ▸ List.mem_map.mpr ⟨q, hq, rfl⟩)
        simp [this]
      | some d =>
        simp only []
        have hmem := mem_of_lookup _ _ _ hl
        by_cases hc : isPropDefChanged L d p.2 = true
        · rw [hc]
          symm
          rw [List.any_eq_true]
          exact ⟨(p.1, d), hmem, by simp [hc]⟩
        · have hc2 : isPropDefChanged L d p.2 = false := by simpa using hc
          rw [hc2]
          symm
          rw [List.any_eq_false]
          intro q hq
          by_cases hqp : q.1 = p.1
          · have hq2 : List.lookup p.1 oldSchema = some q.2 :=
              lookup_of_mem _ _ _ hold (by rw [← hqp]; exact hq)
            rw [hl] at hq2
            have : q.2 = d := (Option.some.inj hq2).symm
            simp [hqp, this, hc2]
          · simp [hqp]
  · rw [scanOldSchema_eq]
    simp only [List.nil_append, specDropFields, fieldNames, List.filter_map]
    congr 1
    apply List.filter_congr
    intro p _
    by_cases h : p.1 ∈ fieldNames newSchema
    · have : List.lookup p.1 newSchema ≠ none := fun hn => (lookup_eq_none_iff _ _).mp hn h
      cases hl : List.lookup p.1 newSchema with
      | none => exact absurd hl this
      | some d =>
        simp only [fieldNames] at h
        simp [h]
    · have hl := (lookup_eq_none_iff _ _).mpr h
      simp only [fieldNames] at h
      simp [h, hl]


/-- The three lists of the code are all empty exactly when the two schemas have the same field
names and every field has the same cleaned declaration in both. -/
theorem scan_empty_iff (L : Lib) (oldSchema newSchema : Schema)
    (hold : (fieldNames oldSchema).Nodup) :
    ((scanNewSchema L oldSchema newSchema [] []).1.length = 0 ∧
        (scanNewSchema L oldSchema newSchema [] []).2.length = 0 ∧
        (scanOldSchema newSchema oldSchema []).length = 0) ↔
      ((∀ f, f ∈ fieldNames oldSchema ↔ f ∈ fieldNames newSchema) ∧
        ∀ f d1 d2, (f, d1) ∈ oldSchema → (f, d2) ∈ newSchema →
          strClean L d1 = strClean L d2) := by
  obtain ⟨h1, h2⟩ := scan_eq_spec L oldSchema newSchema hold
  rw [h1, h2]
  simp only [List.length_map, List.length_eq_zero, specAddFields, specChangeFields,
    specDropFields, List.filter_eq_nil_iff]
  constructor
  · rintro ⟨ha, hc, hd⟩
    refine ⟨fun f => ⟨fun hf => ?_, fun hf => ?_⟩, fun f d1 d2 h1 h2 => ?_⟩
    · have := hd f hf
      simpa using this
    · obtain ⟨p, hp, rfl⟩ := List.mem_map.mp hf
      have := ha p hp
      simpa using this
    · have := hc (f, d2) h2
      rw [Bool.not_eq_true, List.any_eq_false] at this
      have := this (f, d1) h1
      simpa [isPropDefChanged] using this
  · rintro ⟨hn, hcl⟩
    refine ⟨fun p hp => ?_, fun p hp => ?_, fun f hf => ?_⟩
    · have : p.1 ∈ fieldNames oldSchema := (hn p.1).mpr (List.mem_map.mpr ⟨p, hp, rfl⟩)
      simp [this]
    · rw [Bool.not_eq_true, List.any_eq_false]
      intro q hq
      by_cases hqp : q.1 = p.1
      · have := hcl p.1 q.2 p.2 (by rw [← hqp]; exact hq) hp
        simp [isPropDefChanged, this]
      · simp [hqp]
    · have := (hn f).mp hf
      simp [this]

/-- `AlterTagBySchema` returns `(false, nil)` only through its early return, in which case it
leaves the run untouched. -/
theorem AlterTagBySchema_unchanged_iff {σ : Type} (L : Lib) (P : Pool σ) (st : Run σ)
    (tagName : String) (oldSchema newSchema : Schema) :
    ((AlterTagBySchema L P st tagName oldSchema newSchema).1 = (false, none) ∧
        (AlterTagBySchema L P st tagName oldSchema newSchema).2.sent = st.sent) ↔
      alterTagStatement L tagName oldSchema newSchema = none := by
  unfold AlterTagBySchema
  cases hs : alterTagStatement L tagName oldSchema newSchema with
  | none => simp
  | some ngql =>
    simp only []
    cases hx : ConnectAndExcute L P st ngql with
    | mk r st1 =>
      cases r <;> simp

/-- `AlterEdgeTypeBySchema` returns `(false, nil)` only through its early return. -/
theorem AlterEdgeTypeBySchema_unchanged_iff {σ : Type} (L : Lib) (P : Pool σ) (st : Run σ)
    (edgeName : String) (oldSchema newSchema : Schema) :
    ((AlterEdgeTypeBySchema L P st edgeName oldSchema newSchema).1 = (false, none) ∧
        (AlterEdgeTypeBySchema L P st edgeName oldSchema newSchema).2.sent = st.sent) ↔
      alterEdgeStatement L edgeName oldSchema newSchema = none := by
  unfold AlterEdgeTypeBySchema
  cases hs : alterEdgeStatement L edgeName oldSchema newSchema with
  | none => simp
  | some ngql =>
    simp only []
    cases hx : ConnectAndExcute L P st ngql with
    | mk r st1 =>
      cases r <;> simp


/-- A clause with one entry: the separator appended after the entry is trimmed again. -/
theorem closeClause_singleton (ngql e : String) : closeClause ngql [e] = ngql ++ e ++ ")" := by
  unfold closeClause
  simp only [List.foldl]
  rw [← String.append_assoc, TrimSuffix_append]

/-- The statement built, expressed by the three field sets of the specification. -/
theorem alterTagStatement_eq_spec (L : Lib) (tagName : String) (oldSchema newSchema : Schema)
    (hold : (fieldNames oldSchema).Nodup) :
    alterTagStatement L tagName oldSchema newSchema =
      (if specAddFields oldSchema newSchema = [] ∧ specChangeFields L oldSchema newSchema = [] ∧
          specDropFields oldSchema newSchema = [] then none
        else some (alterTagNGQL tagName
          ((specAddFields oldSchema newSchema).map (clauseEntry L))
          ((specChangeFields L oldSchema newSchema).map (clauseEntry L))
          (specDropFields oldSchema newSchema))) := by
  obtain ⟨h1, h2⟩ := scan_eq_spec L oldSchema newSchema hold
  unfold alterTagStatement
  simp only [h1, h2, List.length_map, List.length_eq_zero]

theorem specAddFields_one (oldSchema newSchema : Schema) (f d : String)
    (hf : f ∉ fieldNames oldSchema) (hperm : newSchema.Perm ((f, d) :: oldSchema)) :
    specAddFields oldSchema newSchema = [(f, d)] := by
  unfold specAddFields
  apply List.perm_singleton.mp
  refine (hperm.filter _).trans ?_
  rw [List.filter_cons]
  simp only [hf, not_false_eq_true, decide_True, if_true]
  have : oldSchema.filter (fun p => decide (p.1 ∉ fieldNames oldSchema)) = [] := by
    rw [List.filter_eq_nil_iff]
    intro p hp
    have : p.1 ∈ fieldNames oldSchema := List.mem_map.mpr ⟨p, hp, rfl⟩
    simp [this]
  rw [this]

theorem specAddFields_nil (oldSchema newSchema : Schema)
    (hsub : ∀ f, f ∈ fieldNames newSchema → f ∈ fieldNames oldSchema) :
    specAddFields oldSchema newSchema = [] := by
  unfold specAddFields
  rw [List.filter_eq_nil_iff]
  intro p hp
  have : p.1 ∈ fieldNames oldSchema := hsub _ (List.mem_map.mpr ⟨p, hp, rfl⟩)
  simp [this]

theorem specDropFields_nil (oldSchema newSchema : Schema)
    (hsub : ∀ f, f ∈ fieldNames oldSchema → f ∈ fieldNames newSchema) :
    specDropFields oldSchema newSchema = [] := by
  unfold specDropFields
  rw [List.filter_eq_nil_iff]
  intro f hf
  simp [hsub f hf]

/-- No field is in the CHANGE set when every declaration that the two schemas give to one
field name is the same. -/
theorem specChangeFields_nil (L : Lib) (oldSchema newSchema : Schema)
    (hsame : ∀ p ∈ newSchema, ∀ q ∈ oldSchema, q.1 = p.1 → q.2 = p.2) :
    specChangeFields L oldSchema newSchema = [] := by
  unfold specChangeFields
  rw [List.filter_eq_nil_iff]
  intro p hp
  rw [Bool.not_eq_true, List.any_eq_false]
  intro q hq
  by_cases hqp : q.1 = p.1
  · have := hsame p hp q hq hqp
    simp [isPropDefChanged, this]
  · simp [hqp]

/-- In a schema without repeated names, two entries with the same name are the same entry. -/
theorem entry_unique (schema : Schema) (hn : (fieldNames schema).Nodup) (p q : String × String)
    (hp : p ∈ schema) (hq : q ∈ schema) (h : q.1 = p.1) : q.2 = p.2 := by
  have e1 := lookup_of_mem p.1 p.2 schema hn hp
  have e2 := lookup_of_mem p.1 q.2 schema hn (by rw [← h]; exact hq)
  rw [e1] at e2
  exact (Option.some.inj e2).symm


theorem alterTagNGQL_add_one (tagName e : String) :
    alterTagNGQL tagName [e] [] [] = "ALTER TAG " ++ tagName ++ " ADD (" ++ e ++ ");" := by
  simp [alterTagNGQL, closeClause_singleton, String.append_assoc]

theorem alterTagNGQL_change_one (tagName e : String) :
    alterTagNGQL tagName [] [e] [] = "ALTER TAG " ++ tagName ++ " CHANGE (" ++ e ++ ");" := by
  simp [alterTagNGQL, closeClause_singleton, String.append_assoc]

theorem alterTagNGQL_drop_one (tagName e : String) :
    alterTagNGQL tagName [] [] [e] = "ALTER TAG " ++ tagName ++ " DROP (" ++ e ++ ");" := by
  simp [alterTagNGQL, closeClause_singleton, String.append_assoc]

/-- Adding one field to an otherwise equal schema: one ADD clause with one entry. -/
theorem alterTagStatement_add_one (L : Lib) (tagName : String) (oldSchema newSchema : Schema)
    (hold : (fieldNames oldSchema).Nodup) (f d : String) (hf : f ∉ fieldNames oldSchema)
    (hperm : newSchema.Perm ((f, d) :: oldSchema)) :
    alterTagStatement L tagName oldSchema newSchema =
      some ("ALTER TAG " ++ tagName ++ " ADD (" ++ (f ++ " " ++ checkDef L d) ++ ");") := by
  rw [alterTagStatement_eq_spec L tagName oldSchema newSchema hold,
    specAddFields_one oldSchema newSchema f d hf hperm]
  have hc : specChangeFields L oldSchema newSchema = [] := by
    apply specChangeFields_nil
    intro p hp q hq hqp
    have hp2 := hperm.mem_iff.mp hp
    rcases List.mem_cons.mp hp2 with rfl | hp2
    · exact absurd (List.mem_map.mpr ⟨q, hq, hqp⟩) hf
    · exact entry_unique oldSchema hold p q hp2 hq hqp
  have hd : specDropFields oldSchema newSchema = [] := by
    apply specDropFields_nil
    intro g hg
    have := (hperm.map Prod.fst).mem_iff (a := g)
    simp only [fieldNames] at hg ⊢
    rw [this]
    exact List.mem_cons_of_mem _ hg
  rw [hc, hd]
  simp [alterTagNGQL_add_one, clauseEntry]

/-- Removing one field from an otherwise equal schema: one DROP clause with one entry. -/
theorem alterTagStatement_drop_one (L : Lib) (tagName : String) (oldSchema newSchema : Schema)
    (hold : (fieldNames oldSchema).Nodup) (hnew : (fieldNames newSchema).Nodup) (f d : String)
    (hf : f ∉ fieldNames newSchema) (hperm : oldSchema.Perm ((f, d) :: newSchema)) :
    alterTagStatement L tagName oldSchema newSchema =
      some ("ALTER TAG " ++ tagName ++ " DROP (" ++ f ++ ");") := by
  rw [alterTagStatement_eq_spec L tagName oldSchema newSchema hold]
  have hnames : (fieldNames oldSchema).Perm (f :: fieldNames newSchema) := hperm.map Prod.fst
  have ha : specAddFields oldSchema newSchema = [] := by
    apply specAddFields_nil
    intro g hg
    rw [hnames.mem_iff]
    exact List.mem_cons_of_mem _ hg
  have hc : specChangeFields L oldSchema newSchema = [] := by
    apply specChangeFields_nil
    intro p hp q hq hqp
    have hq2 := hperm.mem_iff.mp hq
    rcases List.mem_cons.mp hq2 with rfl | hq2
    · exact absurd (List.mem_map.mpr ⟨p, hp, hqp.symm⟩) hf
    · exact entry_unique newSchema hnew p q hp hq2 hqp
  have hd : specDropFields oldSchema newSchema = [f] := by
    unfold specDropFields
    apply List.perm_singleton.mp
    refine (hnames.filter _).trans ?_
    rw [List.filter_cons]
    simp only [hf, not_false_eq_true, decide_True, if_true]
    have : (fieldNames newSchema).filter (fun g => decide (g ∉ fieldNames newSchema)) = [] := by
      rw [List.filter_eq_nil_iff]
      intro g hg
      simp [hg]
    rw [this]
  rw [ha, hc, hd]
  simp [alterTagNGQL_drop_one]

/-- Changing the declaration of one field of an otherwise equal schema, so that the cleaned
declarations differ: one CHANGE clause with one entry. -/
theorem alterTagStatement_change_one (L : Lib) (tagName : String)
    (oldSchema newSchema : Schema) (hold : (fieldNames oldSchema).Nodup)
    (f d1 d2 : String) (rest : Schema)
    (hpo : oldSchema.Perm ((f, d1) :: rest)) (hpn : newSchema.Perm ((f, d2) :: rest))
    (hch : isPropDefChanged L d1 d2 = true) :
    alterTagStatement L tagName oldSchema newSchema =
      some ("ALTER TAG " ++ tagName ++ " CHANGE (" ++ (f ++ " " ++ checkDef L d2) ++ ");") := by
  rw [alterTagStatement_eq_spec L tagName oldSchema newSchema hold]
  have hno : (fieldNames oldSchema).Perm (f :: fieldNames rest) := hpo.map Prod.fst
  have hnn : (fieldNames newSchema).Perm (f :: fieldNames rest) := hpn.map Prod.fst
  have hnd : (f :: fieldNames rest).Nodup := hno.nodup_iff.mp hold
  have hfr : f ∉ fieldNames rest := (List.nodup_cons.mp hnd).1
  have hrest : (fieldNames rest).Nodup := (List.nodup_cons.mp hnd).2
  have ha : specAddFields oldSchema newSchema = [] := by
    apply specAddFields_nil
    intro g hg
    rw [hno.mem_iff]
    exact hnn.mem_iff.mp hg
  have hd : specDropFields oldSchema newSchema = [] := by
    apply specDropFields_nil
    intro g hg
    rw [hnn.mem_iff]
    exact hno.mem_iff.mp hg
  have hc : specChangeFields L oldSchema newSchema = [(f, d2)] := by
    unfold specChangeFields
    apply List.perm_singleton.mp
    refine (hpn.filter _).trans ?_
    rw [List.filter_cons]
    have h1 : oldSchema.any (fun q => q.1 = f && isPropDefChanged L q.2 d2) = true := by
      rw [List.any_eq_true]
      exact ⟨(f, d1), hpo.mem_iff.mpr (List.mem_cons_self _ _), by simp [hch]⟩
    simp only [h1, if_true]
    have h2 : rest.filter
        (fun p => oldSchema.any (fun q => q.1 = p.1 && isPropDefChanged L q.2 p.2)) = [] := by
      rw [List.filter_eq_nil_iff]
      intro p hp
      rw [Bool.not_eq_true, List.any_eq_false]
      intro q hq
      by_cases hqp : q.1 = p.1
      · have hq2 := hpo.mem_iff.mp hq
        rcases List.mem_cons.mp hq2 with rfl | hq2
        · exact absurd (List.mem_map.mpr ⟨p, hp, hqp.symm⟩) hfr
        · have := entry_unique rest hrest p q hp hq2 hqp
          simp [isPropDefChanged, this]
      · simp [hqp]
    rw [h2]
  rw [ha, hc, hd]
  simp [alterTagNGQL_change_one, clauseEntry]


/-- The non-empty pieces between the spaces of a text. -/
theorem tokens_space (r : List Char) :
    (splitChars ' ' (' ' :: r)).filter (fun t => decide (t ≠ [])) =
      (splitChars ' ' r).filter (fun t => decide (t ≠ [])) := by
  simp [splitChars]

theorem splitChars_cons_ne (c : Char) (r : List Char) (hc : c ≠ ' ') :
    ∃ t ts, splitChars ' ' r = t :: ts ∧ splitChars ' ' (c :: r) = (c :: t) :: ts := by
  cases h : splitChars ' ' r with
  | nil => exact absurd h (splitChars_ne_nil _ _)
  | cons t ts =>
    refine ⟨t, ts, rfl, ?_⟩
    rw [splitChars]
    simp [hc, h]

theorem intercalate_cons_cons (sep : List Char) (c : Char) (x : List Char)
    (rest : List (List Char)) :
    List.intercalate sep ((c :: x) :: rest) = c :: List.intercalate sep (x :: rest) := by
  cases rest <;> simp [List.intercalate, List.intersperse]

theorem intercalate_cons_of_ne_nil (sep x : List Char) (rest : List (List Char))
    (h : rest ≠ []) :
    List.intercalate sep (x :: rest) = x ++ sep ++ List.intercalate sep rest := by
  cases rest with
  | nil => exact absurd rfl h
  | cons y ys => simp [List.intercalate, List.intersperse]

/-- A text that does not end in a space and is not empty has a non-empty piece. -/
theorem tokens_ne_nil (r : List Char) (hne : r ≠ []) (hlast : r.getLast? ≠ some ' ') :
    (splitChars ' ' r).filter (fun t => decide (t ≠ [])) ≠ [] := by
  induction r with
  | nil => exact absurd rfl hne
  | cons c r ih =>
    by_cases hc : c = ' '
    · subst hc
      rw [tokens_space]
      cases r with
      | nil => simp at hlast
      | cons d r' =>
        apply ih (by simp)
        simpa using hlast
    · obtain ⟨t, ts, _, h2⟩ := splitChars_cons_ne c r hc
      rw [h2]
      simp [List.filter_cons]

/-- Joining the non-empty pieces of a text that does not end in a space by single spaces
collapses its runs of spaces; a leading run is dropped altogether. -/
theorem collapseSpaces_eq_join (r : List Char) (hlast : r.getLast? ≠ some ' ') :
    collapseSpaces r =
      if r.head? = some ' ' then
        ' ' :: List.intercalate [' '] ((splitChars ' ' r).filter (fun t => decide (t ≠ [])))
      else List.intercalate [' '] ((splitChars ' ' r).filter (fun t => decide (t ≠ []))) := by
  induction r with
  | nil => simp [collapseSpaces, splitChars, List.intercalate]
  | cons c r ih =>
    have hlast' : r.getLast? ≠ some ' ' := by
      cases r with
      | nil => simp
      | cons d r' => simpa using hlast
    have ih := ih hlast'
    by_cases hc : c = ' '
    · subst hc
      have hr : r ≠ [] := by
        intro h
        subst h
        simp at hlast
      rw [tokens_space]
      simp only [collapseSpaces, List.head?_cons, if_true, true_and]
      by_cases hh : r.head? = some ' '
      · simp only [hh, if_true] at ih ⊢
        exact ih
      · simp only [hh, if_false] at ih ⊢
        rw [ih]
    · have hhead : (c :: r).head? ≠ some ' ' := by simp [hc]
      simp only [collapseSpaces, hc, false_and, if_false, hhead]
      rw [ih]
      cases r with
      | nil => simp [splitChars, hc, List.intercalate, List.filter_cons]
      | cons d r' =>
        by_cases hd : d = ' '
        · subst hd
          have hne := tokens_ne_nil (' ' :: r') (by simp) hlast'
          rw [tokens_space] at hne ⊢
          have h2 : splitChars ' ' (c :: ' ' :: r') = [c] :: splitChars ' ' r' := by
            simp [splitChars, hc]
          rw [h2]
          simp only [List.head?_cons, if_true, List.filter_cons, ne_eq, List.cons_ne_nil,
            not_false_eq_true, decide_True]
          rw [intercalate_cons_of_ne_nil _ _ _ hne]
          simp
        · obtain ⟨t', ts', h3, h4⟩ := splitChars_cons_ne d r' hd
          obtain ⟨t, ts, h1, h2⟩ := splitChars_cons_ne c (d :: r') hc
          rw [h4] at h1
          obtain ⟨rfl, rfl⟩ := List.cons.inj h1
          rw [h2, h4]
          simp [hd, List.filter_cons, intercalate_cons_cons]


theorem getLast?_dropWhile (p : Char → Bool) (l : List Char) (c : Char)
    (h : (l.dropWhile p).getLast? = some c) : l.getLast? = some c := by
  induction l with
  | nil => simp at h
  | cons y l ih =>
    rw [List.dropWhile_cons] at h
    split at h
    · have h2 := ih h
      cases l with
      | nil => simp at h2
      | cons z l' => simpa using h2
    · exact h

/-- A trimmed text does not begin with white space. -/
theorem TrimSpace_head (s : String) (c : Char) (h : (TrimSpace s).data.head? = some c) :
    isSpace c = false := by
  unfold TrimSpace at h
  simp only [List.head?_reverse] at h
  have h2 := getLast?_dropWhile _ _ _ h
  rw [List.getLast?_reverse] at h2
  have h3 := List.head?_dropWhile_not isSpace s.data
  rw [h2] at h3
  exact h3

/-- A trimmed text does not end in white space. -/
theorem TrimSpace_last (s : String) (c : Char) (h : (TrimSpace s).data.getLast? = some c) :
    isSpace c = false := by
  unfold TrimSpace at h
  simp only [List.getLast?_reverse] at h
  have h3 := List.head?_dropWhile_not isSpace (List.dropWhile isSpace s.data).reverse
  rw [h] at h3
  exact h3

theorem tokens_data (xs : List (List Char)) :
    ((xs.map String.mk).filter (fun item => decide (item ≠ ""))).map String.data =
      xs.filter (fun t => decide (t ≠ [])) := by
  induction xs with
  | nil => rfl
  | cons x xs ih =>
    have hx : (String.mk x = "") ↔ x = [] := by
      constructor
      · intro h
        exact congrArg String.data h
      · intro h
        subst h
        rfl
    simp only [ne_eq, decide_not] at ih
    by_cases h : x = []
    · simp [List.filter_cons, hx, h, ih]
    · simp [List.filter_cons, hx, h, ih]

/-- The code's `strClean` is the cleaning the specification words, provided that uppercasing
maps no other character to the space (as `unicode.ToUpper` does not). -/
theorem strClean_eq_specClean (L : Lib) (hL : ∀ c : Char, L.toUpper c = ' ' → c = ' ')
    (s : String) : strClean L s = specClean L s := by
  have hsp : isSpace ' ' = true := by decide
  have hlast : (ToUpper L (TrimSpace s)).data.getLast? ≠ some ' ' := by
    intro h
    simp only [ToUpper, List.getLast?_map, Option.map_eq_some'] at h
    obtain ⟨c, hc, hup⟩ := h
    have := TrimSpace_last s c hc
    rw [hL c hup, hsp] at this
    exact absurd this (by decide)
  have hhead : (ToUpper L (TrimSpace s)).data.head? ≠ some ' ' := by
    intro h
    simp only [ToUpper, List.head?_map, Option.map_eq_some'] at h
    obtain ⟨c, hc, hup⟩ := h
    have := TrimSpace_head s c hc
    rw [hL c hup, hsp] at this
    exact absurd this (by decide)
  unfold specClean
  rw [collapseSpaces_eq_join _ hlast]
  simp only [hhead, if_false]
  unfold strClean Join Split
  simp only []
  rw [tokens_data]

/-- On ASCII, uppercasing maps no other character to the space. -/
theorem asciiLib_toUpper_space (c : Char) (h : asciiLib.toUpper c = ' ') : c = ' ' := by
  have h2 : Char.toUpper c = ' ' := h
  unfold Char.toUpper at h2
  simp only [] at h2
  split at h2
  · rename_i hr
    exfalso
    have h3 := congrArg Char.toNat h2
    obtain ⟨hr1, hr2⟩ := hr
    have hlo : 97 ≤ c.toNat := hr1
    have hhi : c.toNat ≤ 122 := hr2
    generalize c.toNat = n at h3 hlo hhi
    interval_cases n <;> exact absurd h3 (by decide)
  · exact h2

/-- C9: on schemas without repeated field names, `AlterTagBySchema` and
`AlterEdgeTypeBySchema` return `(false, nil)` and send no statement if and only if the old and
the new schema have the same field names and, for every field, the two declarations are equal
after trimming, uppercasing and collapsing runs of spaces; in particular for a new schema that
is the old one, visited in any order. (`hL`: uppercasing maps no other character to the
space.) -/
theorem alter_no_change_iff {σ : Type} (L : Lib) (P : Pool σ) (st : Run σ) (name : String)
    (oldSchema newSchema : Schema) (hL : ∀ c : Char, L.toUpper c = ' ' → c = ' ')
    (hold : (fieldNames oldSchema).Nodup) :
    (((AlterTagBySchema L P st name oldSchema newSchema).1 = (false, none) ∧
          (AlterTagBySchema L P st name oldSchema newSchema).2.sent = st.sent) ↔
        ((∀ f, f ∈ fieldNames oldSchema ↔ f ∈ fieldNames newSchema) ∧
          ∀ f d1 d2, (f, d1) ∈ oldSchema → (f, d2) ∈ newSchema →
            specClean L d1 = specClean L d2)) ∧
      (((AlterEdgeTypeBySchema L P st name oldSchema newSchema).1 = (false, none) ∧
          (AlterEdgeTypeBySchema L P st name oldSchema newSchema).2.sent = st.sent) ↔
        ((∀ f, f ∈ fieldNames oldSchema ↔ f ∈ fieldNames newSchema) ∧
          ∀ f d1 d2, (f, d1) ∈ oldSchema → (f, d2) ∈ newSchema →
            specClean L d1 = specClean L d2)) ∧
      (newSchema.Perm oldSchema →
        AlterTagBySchema L P st name oldSchema newSchema = ((false, none), st) ∧
          AlterEdgeTypeBySchema L P st name oldSchema newSchema = ((false, none), st)) := by
  simp only [← strClean_eq_specClean L hL]
  have hscan := scan_empty_iff L oldSchema newSchema hold
  have htag : alterTagStatement L name oldSchema newSchema = none ↔
      ((∀ f, f ∈ fieldNames oldSchema ↔ f ∈ fieldNames newSchema) ∧
        ∀ f d1 d2, (f, d1) ∈ oldSchema → (f, d2) ∈ newSchema →
          strClean L d1 = strClean L d2) := by
    rw [← hscan]
    unfold alterTagStatement
    simp only []
    split <;> simp_all
  have hedge : alterEdgeStatement L name oldSchema newSchema = none ↔
      ((∀ f, f ∈ fieldNames oldSchema ↔ f ∈ fieldNames newSchema) ∧
        ∀ f d1 d2, (f, d1) ∈ oldSchema → (f, d2) ∈ newSchema →
          strClean L d1 = strClean L d2) := by
    rw [← hscan]
    unfold alterEdgeStatement
    simp only []
    split <;> simp_all
  refine ⟨(AlterTagBySchema_unchanged_iff L P st name oldSchema newSchema).trans htag,
    (AlterEdgeTypeBySchema_unchanged_iff L P st name oldSchema newSchema).trans hedge, ?_⟩
  intro hperm
  have hsame : (∀ f, f ∈ fieldNames oldSchema ↔ f ∈ fieldNames newSchema) ∧
      ∀ f d1 d2, (f, d1) ∈ oldSchema → (f, d2) ∈ newSchema → strClean L d1 = strClean L d2 := by
    refine ⟨fun f => ((hperm.map Prod.fst).mem_iff).symm, fun f d1 d2 h1 h2 => ?_⟩
    have h2' : (f, d2) ∈ oldSchema := hperm.mem_iff.mp h2
    have e1 := lookup_of_mem f d1 oldSchema hold h1
    have e2 := lookup_of_mem f d2 oldSchema hold h2'
    rw [e1] at e2
    rw [Option.some.inj e2]
  constructor
  · unfold AlterTagBySchema
    rw [htag.mpr hsame]
  · unfold AlterEdgeTypeBySchema
    rw [hedge.mpr hsame]

/-- C9 at concrete inputs: the declarations differ only in case and spacing, the fields are
visited in another order, and nothing is sent. -/
theorem alter_no_change_witness :
    AlterTagBySchema asciiLib countingPool ⟨0, []⟩ "person"
        [("name", "string"), ("age", "int  NOT NULL")]
        [("age", " INT not null"), ("name", "STRING")] = ((false, none), ⟨0, []⟩) :=
  Prod.ext
    (((alter_no_change_iff asciiLib countingPool ⟨0, []⟩ "person"
        [("name", "string"), ("age", "int  NOT NULL")]
        [("age", " INT not null"), ("name", "STRING")] asciiLib_toUpper_space (by decide)).1.mpr
      ⟨by
        intro f
        simp only [fieldNames, List.map_cons, List.map_nil, List.mem_cons, List.mem_singleton,
          List.not_mem_nil, or_false]
        exact or_comm,
       by
        intro f d1 d2 h1 h2
        simp only [List.mem_cons, Prod.mk.injEq, List.mem_singleton, List.not_mem_nil,
          or_false] at h1 h2
        rcases h1 with ⟨rfl, rfl⟩ | ⟨rfl, rfl⟩ <;> rcases h2 with ⟨h, rfl⟩ | ⟨h, rfl⟩
        · exact absurd h (by decide)
        · rfl
        · rfl
        · exact absurd h (by decide)⟩).1)
    rfl

/-! ## Joined lists and trimmed separators -/

theorem Join_nil (sep : String) : Join [] sep = "" := rfl

theorem Join_singleton (x sep : String) : Join [x] sep = x := by
  simp [Join, List.intercalate]

theorem Join_cons_cons (x y : String) (rest : List String) (sep : String) :
    Join (x :: y :: rest) sep = x ++ sep ++ Join (y :: rest) sep := by
  apply String.ext
  simp [Join, List.intercalate, String.data_append]

theorem intercalate_nil_sep (xs : List (List Char)) : List.intercalate [] xs = xs.flatten := by
  induction xs with
  | nil => simp [List.intercalate]
  | cons x rest ih =>
    cases rest with
    | nil => simp [List.intercalate]
    | cons y r =>
      simp only [List.intercalate] at ih ⊢
      simp only [List.intersperse, List.flatten_cons, List.nil_append]
      rw [ih]
      simp

theorem Join_empty_cons (x : String) (rest : List String) :
    Join (x :: rest) "" = x ++ Join rest "" := by
  apply String.ext
  have h : ("" : String).data = [] := rfl
  simp [Join, String.data_append, h, intercalate_nil_sep]

/-- Entries that are each followed by the separator are the joined entries followed by the
separator. -/
theorem Join_map_sep (xs : List String) (sep : String) (h : xs ≠ []) :
    Join (xs.map (fun x => x ++ sep)) "" = Join xs sep ++ sep := by
  induction xs with
  | nil => exact absurd rfl h
  | cons x rest ih =>
    cases rest with
    | nil =>
      rw [List.map_cons, List.map_nil, Join_singleton, Join_singleton]
    | cons y rest =>
      have ih := ih (by simp)
      rw [List.map_cons, Join_empty_cons, ih, Join_cons_cons]
      simp only [String.append_assoc]

/-- Trimming the separator after a list of entries each followed by it leaves the joined
entries. -/
theorem TrimSuffix_entries (pre : String) (xs : List String) (sep : String) (h : xs ≠ []) :
    TrimSuffix (pre ++ Join (xs.map (fun x => x ++ sep)) "") sep = pre ++ Join xs sep := by
  rw [Join_map_sep xs sep h, ← String.append_assoc, TrimSuffix_append]

/-- A text that ends in an opening bracket has no comma-space suffix to trim. -/
theorem TrimSuffix_open (pre : String) : TrimSuffix (pre ++ "(") ", " = pre ++ "(" := by
  unfold TrimSuffix HasSuffix
  simp [String.data_append, List.isPrefixOf]

/-- The accumulation of a clause, in closed form. -/
theorem foldl_entries (props : List String) (ngql : String) :
    props.foldl (fun acc subngql => acc ++ (subngql ++ ", ")) ngql =
      ngql ++ Join (props.map (fun x => x ++ ", ")) "" := by
  induction props generalizing ngql with
  | nil =>
    apply String.ext
    simp [Join, String.data_append, List.intercalate]
  | cons p rest ih =>
    simp only [List.foldl, List.map_cons]
    rw [ih, Join_empty_cons, String.append_assoc]

/-- A clause with at least one entry: the entries joined by comma and space, then the closing
bracket. -/
theorem closeClause_eq (ngql : String) (props : List String) (h : props ≠ []) :
    closeClause ngql props = ngql ++ Join props ", " ++ ")" := by
  unfold closeClause
  rw [foldl_entries, TrimSuffix_entries _ _ _ h]

/-! ## Statements sent -/

/-- What `executeNqgl` adds to the run: the text of `sentText`, once. -/
theorem executeNqgl_sent {σ : Type} (L : Lib) (P : Pool σ) (st : Run σ) (ngql : String) :
    (executeNqgl L P st ngql).2.sent = st.sent ++ [sentText L P.space ngql] := by
  unfold executeNqgl sentText
  simp only []
  split
  · rfl
  · split <;> rfl

/-- What `ConnectAndExcute` adds to the run: nothing when no session is acquired, else the text
of `sentText`, once. -/
theorem ConnectAndExcute_sent {σ : Type} (L : Lib) (P : Pool σ) (st : Run σ) (ngql : String) :
    (ConnectAndExcute L P st ngql).2.sent =
      match (P.getSession st.db).1 with
      | .error _ => st.sent
      | .ok _ => st.sent ++ [sentText L P.space ngql] := by
  unfold ConnectAndExcute
  cases h : P.getSession st.db with
  | mk r db =>
    cases r with
    | error e => rfl
    | ok u =>
      simp only []
      exact executeNqgl_sent L P ⟨db, st.sent⟩ ngql

/-- A `ConnectAndExcute` that returns a result has sent its statement. -/
theorem ConnectAndExcute_ok_sent {σ : Type} (L : Lib) (P : Pool σ) (st st1 : Run σ)
    (ngql : String) (res : ResultSet) (h : ConnectAndExcute L P st ngql = (.ok res, st1)) :
    st1.sent = st.sent ++ [sentText L P.space ngql] := by
  have hs := ConnectAndExcute_sent L P st ngql
  rw [h] at hs
  cases hg : P.getSession st.db with
  | mk r db =>
    rw [hg] at hs
    cases r with
    | error e =>
      unfold ConnectAndExcute at h
      rw [hg] at h
      simp at h
    | ok u => exact hs

/-! ## ALTER statement text -/

/-- The text built from three lists that are not all empty. -/
theorem alterTagNGQL_eq_spec (tagName : String) (a c d : List String)
    (h : specClauses a c d ≠ []) :
    alterTagNGQL tagName a c d =
      "ALTER TAG " ++ tagName ++ " " ++ Join (specClauses a c d) ", " ++ ";" := by
  have e1 : ∀ x : String, " " ++ ("ADD (" ++ x) = " ADD (" ++ x := fun x => by
    rw [← String.append_assoc]; rfl
  have e2 : ∀ x : String, " " ++ ("CHANGE (" ++ x) = " CHANGE (" ++ x := fun x => by
    rw [← String.append_assoc]; rfl
  have e3 : ∀ x : String, " " ++ ("DROP (" ++ x) = " DROP (" ++ x := fun x => by
    rw [← String.append_assoc]; rfl
  have e4 : ∀ x : String, "), " ++ ("CHANGE (" ++ x) = "), CHANGE (" ++ x := fun x => by
    rw [← String.append_assoc]; rfl
  have e5 : ∀ x : String, "), " ++ ("DROP (" ++ x) = "), DROP (" ++ x := fun x => by
    rw [← String.append_assoc]; rfl
  by_cases ha : a = [] <;> by_cases hc : c = [] <;> by_cases hd : d = [] <;>
    simp_all [alterTagNGQL, specClauses, closeClause_eq, Join_singleton, Join_cons_cons,
      String.append_assoc, List.length_pos]

theorem specClauses_ne_nil (a c d : List String)
    (h : ¬(a.length = 0 ∧ c.length = 0 ∧ d.length = 0)) : specClauses a c d ≠ [] := by
  by_cases ha : a = [] <;> by_cases hc : c = [] <;> by_cases hd : d = [] <;>
    simp_all [specClauses]

/-- The run after `AlterTagBySchema` built a statement: nothing more is sent when no session
is acquired, else the statement. -/
theorem AlterTagBySchema_sent {σ : Type} (L : Lib) (P : Pool σ) (st : Run σ)
    (tagName : String) (oldSchema newSchema : Schema) (ngql : String)
    (h : alterTagStatement L tagName oldSchema newSchema = some ngql) :
    (AlterTagBySchema L P st tagName oldSchema newSchema).2.sent = st.sent ∨
      (AlterTagBySchema L P st tagName oldSchema newSchema).2.sent =
        st.sent ++ [sentText L P.space ngql] := by
  have hs := ConnectAndExcute_sent L P st ngql
  unfold AlterTagBySchema
  rw [h]
  simp only []
  cases hx : ConnectAndExcute L P st ngql with
  | mk r st1 =>
    rw [hx] at hs
    simp only [] at hs
    cases hg : (P.getSession st.db).1 with
    | error e =>
      rw [hg] at hs
      left
      cases r <;> exact hs
    | ok u =>
      rw [hg] at hs
      right
      cases r <;> exact hs

/-- C10: on schemas without repeated field names, the statement `AlterTagBySchema` builds is
made of an ADD clause listing exactly the fields present only in the new schema, a CHANGE
clause listing exactly the fields present in both whose cleaned declarations differ, and a DROP
clause listing exactly the fields present only in the old schema, each field once; so adding one
field to an otherwise equal schema gives one ADD clause with one entry and nothing else,
removing one field one DROP clause, and changing one declaration (cleaned declarations
differing) one CHANGE clause. The call of `AlterTagBySchema` sends nothing and reports no change
when the three lists are empty; otherwise it sends this statement, and nothing else, once it has
acquired a session. -/
theorem AlterTagBySchema_clause_fields {σ : Type} (L : Lib) (P : Pool σ) (st : Run σ)
    (tagName : String)
    (oldSchema newSchema : Schema) (hold : (fieldNames oldSchema).Nodup)
    (hnew : (fieldNames newSchema).Nodup) :
    alterTagStatement L tagName oldSchema newSchema =
        (if specAddFields oldSchema newSchema = [] ∧
            specChangeFields L oldSchema newSchema = [] ∧
            specDropFields oldSchema newSchema = [] then none
          else some (alterTagNGQL tagName
            ((specAddFields oldSchema newSchema).map (clauseEntry L))
            ((specChangeFields L oldSchema newSchema).map (clauseEntry L))
            (specDropFields oldSchema newSchema))) ∧
      (fieldNames (specAddFields oldSchema newSchema)).Nodup ∧
      (fieldNames (specChangeFields L oldSchema newSchema)).Nodup ∧
      (specDropFields oldSchema newSchema).Nodup ∧
      (∀ f d, f ∉ fieldNames oldSchema → newSchema.Perm ((f, d) :: oldSchema) →
        alterTagStatement L tagName oldSchema newSchema =
          some ("ALTER TAG " ++ tagName ++ " ADD (" ++ (f ++ " " ++ checkDef L d) ++ ");")) ∧
      (∀ f d, f ∉ fieldNames newSchema → oldSchema.Perm ((f, d) :: newSchema) →
        alterTagStatement L tagName oldSchema newSchema =
          some ("ALTER TAG " ++ tagName ++ " DROP (" ++ f ++ ");")) ∧
      (∀ f d1 d2 rest, oldSchema.Perm ((f, d1) :: rest) → newSchema.Perm ((f, d2) :: rest) →
        isPropDefChanged L d1 d2 = true →
        alterTagStatement L tagName oldSchema newSchema =
          some ("ALTER TAG " ++ tagName ++ " CHANGE (" ++ (f ++ " " ++ checkDef L d2) ++
            ");")) ∧
      (alterTagStatement L tagName oldSchema newSchema = none →
        AlterTagBySchema L P st tagName oldSchema newSchema = ((false, none), st)) ∧
      (∀ ngql, alterTagStatement L tagName oldSchema newSchema = some ngql →
        (AlterTagBySchema L P st tagName oldSchema newSchema).2.sent =
          match (P.getSession st.db).1 with
          | .error _ => st.sent
          | .ok _ => st.sent ++ [sentText L P.space ngql]) := by
  refine ⟨alterTagStatement_eq_spec L tagName oldSchema newSchema hold, ?_, ?_, ?_,
    fun f d hf hp => alterTagStatement_add_one L tagName oldSchema newSchema hold f d hf hp,
    fun f d hf hp => alterTagStatement_drop_one L tagName oldSchema newSchema hold hnew f d hf hp,
    fun f d1 d2 rest hpo hpn hch =>
      alterTagStatement_change_one L tagName oldSchema newSchema hold f d1 d2 rest hpo hpn hch,
    ?_, ?_⟩
  · exact hnew.sublist ((List.filter_sublist _).map Prod.fst)
  · exact hnew.sublist ((List.filter_sublist _).map Prod.fst)
  · exact hold.sublist (List.filter_sublist _)
  · intro h
    unfold AlterTagBySchema
    rw [h]
  · intro ngql h
    rw [← ConnectAndExcute_sent L P st ngql]
    unfold AlterTagBySchema
    rw [h]
    simp only []
    cases hx : ConnectAndExcute L P st ngql with
    | mk r st1 => cases r <;> rfl

/-- C10 at concrete inputs: one field added (a `list`, rewritten to `string`) and one
declaration changed, the rest equal up to cleaning, with the statement that the call sends;
the one-field-added case; and equal schemas, for which the call sends nothing. -/
theorem AlterTagBySchema_clause_fields_witness :
    alterTagStatement asciiLib "person" [("name", "string"), ("age", "int")]
        [("age", "INT  not null"), ("tags", "list"), ("name", " String")] =
          some "ALTER TAG person ADD (tags string), CHANGE (age INT  not null);" ∧
      (AlterTagBySchema asciiLib countingPool ⟨0, []⟩ "person"
          [("name", "string"), ("age", "int")]
          [("age", "INT  not null"), ("tags", "list"), ("name", " String")]).2.sent =
        ["USE test; ALTER TAG person ADD (tags string), CHANGE (age INT  not null);"] ∧
      alterTagStatement asciiLib "person" [("name", "string"), ("age", "int")]
        [("age", "int"), ("tags", "list"), ("name", "string")] =
          some "ALTER TAG person ADD (tags string);" ∧
      AlterTagBySchema asciiLib countingPool ⟨0, []⟩ "person"
          [("name", "string"), ("age", "int")] [("age", "int"), ("name", "string")] =
        ((false, none), ⟨0, []⟩) :=
  ⟨(AlterTagBySchema_clause_fields asciiLib countingPool ⟨0, []⟩ "person"
      [("name", "string"), ("age", "int")]
      [("age", "INT  not null"), ("tags", "list"), ("name", " String")]
      (by decide) (by decide)).1,
    (AlterTagBySchema_clause_fields asciiLib countingPool ⟨0, []⟩ "person"
      [("name", "string"), ("age", "int")]
      [("age", "INT  not null"), ("tags", "list"), ("name", " String")]
      (by decide) (by decide)).2.2.2.2.2.2.2.2
      "ALTER TAG person ADD (tags string), CHANGE (age INT  not null);" rfl,
    (AlterTagBySchema_clause_fields asciiLib countingPool ⟨0, []⟩ "person"
      [("name", "string"), ("age", "int")]
      [("age", "int"), ("tags", "list"), ("name", "string")]
      (by decide) (by decide)).2.2.2.2.1 "tags" "list" (by decide) (by decide),
    (AlterTagBySchema_clause_fields asciiLib countingPool ⟨0, []⟩ "person"
      [("name", "string"), ("age", "int")] [("age", "int"), ("name", "string")]
      (by decide) (by decide)).2.2.2.2.2.2.2.1 rfl⟩

/-- C11: a statement built by `AlterTagBySchema` is `ALTER TAG <name>`, a space, the present
clauses among `ADD (...)`, `CHANGE (...)`, `DROP (...)` in this order with a comma and a space
between every two consecutive ones, and a final semicolon; at least one clause is present, and
this text is what the call sends (behind the space selection) when it acquires a session. -/
theorem AlterTagBySchema_statement_form {σ : Type} (L : Lib) (P : Pool σ) (st : Run σ)
    (tagName : String) (oldSchema newSchema : Schema) (ngql : String)
    (h : alterTagStatement L tagName oldSchema newSchema = some ngql) :
    specClauses (scanNewSchema L oldSchema newSchema [] []).1
        (scanNewSchema L oldSchema newSchema [] []).2
        (scanOldSchema newSchema oldSchema []) ≠ [] ∧
      ngql = "ALTER TAG " ++ tagName ++ " " ++
        Join (specClauses (scanNewSchema L oldSchema newSchema [] []).1
          (scanNewSchema L oldSchema newSchema [] []).2
          (scanOldSchema newSchema oldSchema [])) ", " ++ ";" ∧
      ((AlterTagBySchema L P st tagName oldSchema newSchema).2.sent = st.sent ∨
        (AlterTagBySchema L P st tagName oldSchema newSchema).2.sent =
          st.sent ++ [sentText L P.space ngql]) := by
  refine ⟨?_, ?_, AlterTagBySchema_sent L P st tagName oldSchema newSchema ngql h⟩
  · unfold alterTagStatement at h
    simp only [] at h
    split at h
    · exact absurd h (by simp)
    · rename_i hne
      exact specClauses_ne_nil _ _ _ hne
  · unfold alterTagStatement at h
    simp only [] at h
    split at h
    · exact absurd h (by simp)
    · rename_i hne
      rw [← Option.some.inj h]
      exact alterTagNGQL_eq_spec _ _ _ _ (specClauses_ne_nil _ _ _ hne)

/-- C11 at concrete inputs: one field added, one changed, one dropped. -/
theorem AlterTagBySchema_statement_form_witness :
    "ALTER TAG person ADD (tags string), CHANGE (age INT64), DROP (name);" =
        "ALTER TAG " ++ "person" ++ " " ++
          Join ["ADD (tags string)", "CHANGE (age INT64)", "DROP (name)"] ", " ++ ";" ∧
      (AlterTagBySchema asciiLib countingPool ⟨0, []⟩ "person"
          [("name", "string"), ("age", "int")] [("age", "INT64"), ("tags", "list")]).2.sent =
        ["USE test; ALTER TAG person ADD (tags string), CHANGE (age INT64), DROP (name);"] :=
  ⟨(AlterTagBySchema_statement_form asciiLib countingPool ⟨0, []⟩ "person"
      [("name", "string"), ("age", "int")] [("age", "INT64"), ("tags", "list")]
      "ALTER TAG person ADD (tags string), CHANGE (age INT64), DROP (name);" rfl).2.1, rfl⟩

/-- C12 at a concrete input: with one field added and one dropped, `AlterEdgeTypeBySchema`
builds its two clauses without a comma between them, `AlterTagBySchema` with one. -/
theorem AlterEdgeTypeBySchema_no_comma :
    alterEdgeStatement asciiLib "knows" [("name", "string")] [("age", "int")] =
        some "ALTER EDGE knows ADD (age int) DROP (name);" ∧
      alterTagStatement asciiLib "knows" [("name", "string")] [("age", "int")] =
        some "ALTER TAG knows ADD (age int), DROP (name);" ∧
      (AlterEdgeTypeBySchema asciiLib countingPool ⟨0, []⟩ "knows" [("name", "string")]
        [("age", "int")]).2.sent = ["USE test; ALTER EDGE knows ADD (age int) DROP (name);"] :=
  ⟨rfl, rfl, rfl⟩

/-! ## CREATE statement text -/

/-- The first piece of a split text is the text up to its first space, and joining any text
with the remaining pieces gives that text followed by the rest from the first space on. -/
theorem splitChars_head_tail (cs : List Char) :
    ∃ t ts, splitChars ' ' cs = t :: ts ∧ t = cs.takeWhile (fun c => c ≠ ' ') ∧
      ∀ x : List Char, List.intercalate [' '] (x :: ts) =
        x ++ cs.dropWhile (fun c => c ≠ ' ') := by
  induction cs with
  | nil => exact ⟨[], [], rfl, rfl, fun x => by simp [List.intercalate]⟩
  | cons c cs ih =>
    obtain ⟨t, ts, h1, h2, h3⟩ := ih
    by_cases hc : c = ' '
    · subst hc
      refine ⟨[], t :: ts, by simp [splitChars, h1], by simp, fun x => ?_⟩
      have hcs : List.intercalate [' '] (t :: ts) = cs := by
        rw [h3 t, h2]
        exact List.takeWhile_append_dropWhile _ _
      have : List.intercalate [' '] (x :: t :: ts) =
          x ++ [' '] ++ List.intercalate [' '] (t :: ts) := by
        simp [List.intercalate]
      rw [this, hcs]
      simp
    · refine ⟨c :: t, ts, by simp [splitChars, hc, h1], by simp [hc, h2], fun x => ?_⟩
      rw [h3 x]
      simp [hc]

theorem map_data_mk (ts : List (List Char)) : List.map (String.data ∘ String.mk) ts = ts := by
  induction ts with
  | nil => rfl
  | cons a r ih => simp [ih]

/-- The code's `checkDef` on a trimmed declaration is the emission the specification
describes. -/
theorem checkDef_eq_spec (L : Lib) (fieldDef : String) :
    checkDef L (TrimSpace fieldDef) = specEmittedDef L fieldDef := by
  obtain ⟨t, ts, h1, h2, h3⟩ := splitChars_head_tail (TrimSpace fieldDef).data
  unfold checkDef specEmittedDef Split
  rw [h1]
  simp only [List.map_cons, ← h2]
  by_cases hcond : ToLower L ⟨t⟩ = "dict" ∨ ToLower L ⟨t⟩ = "list"
  · rw [if_pos hcond, if_pos hcond.symm]
    apply String.ext
    simp only [Join, List.map_cons, List.map_map, map_data_mk]
    exact h3 "string".data
  · rw [if_neg hcond, if_neg (fun h => hcond h.symm)]

/-- The loop of `CreateTagBySchema` on fields whose trimmed name and declaration are not
empty, in closed form. -/
theorem createTagLoop_ok (L : Lib) (schema : Schema) (ngql : String)
    (h : ∀ p ∈ schema, TrimSpace p.1 ≠ "" ∧ TrimSpace p.2 ≠ "") :
    createTagLoop L schema ngql =
      .ok (ngql ++ Join ((schema.map
        (fun p => TrimSpace p.1 ++ " " ++ checkDef L (TrimSpace p.2))).map
          (fun x => x ++ ", ")) "") := by
  induction schema generalizing ngql with
  | nil =>
    simp only [createTagLoop, List.map_nil, Join_nil]
    congr 1
    apply String.ext
    simp [String.data_append]
  | cons p rest ih =>
    obtain ⟨f, d⟩ := p
    have hp := h (f, d) (List.mem_cons_self _ _)
    unfold createTagLoop
    simp only [hp.1, hp.2, or_self, if_false]
    rw [ih _ (fun q hq => h q (List.mem_cons_of_mem _ hq))]
    simp only [List.map_cons, Join_empty_cons, String.append_assoc]

/-- The loop of `CreateTagBySchema` returns a text only when no trimmed name or declaration is
empty. -/
theorem createTagLoop_of_ok (L : Lib) (schema : Schema) (ngql r : String)
    (h : createTagLoop L schema ngql = .ok r) :
    ∀ p ∈ schema, TrimSpace p.1 ≠ "" ∧ TrimSpace p.2 ≠ "" := by
  induction schema generalizing ngql with
  | nil => simp
  | cons p rest ih =>
    obtain ⟨f, d⟩ := p
    unfold createTagLoop at h
    simp only [] at h
    split at h
    · simp at h
    · rename_i hne
      intro q hq
      rcases List.mem_cons.mp hq with rfl | hq
      · exact ⟨fun e => hne (Or.inl e), fun e => hne (Or.inr e)⟩
      · exact ih _ h q hq

/-- C13: `CreateTagBySchema` builds a statement for every non-empty schema whose trimmed field
names and declarations are not empty, and a statement it builds is `CREATE TAG`, the optional
`IF NOT EXISTS`, the tag and in brackets one entry per field, in range order: the trimmed
field name and the trimmed declaration, where a first token that lowercases to `list` or `dict`
is replaced by `string` and the rest of the declaration is unchanged. When no statement is
built, the call returns the error and sends nothing. When one is built, the call sends nothing
if it acquires no session; otherwise this statement is the first it sends, the only one
without `toCreateIndex`, and with `toCreateIndex` at most the statement of the index follows
it. -/
theorem CreateTagBySchema_statement {σ : Type} (L : Lib) (P : Pool σ) (st : Run σ)
    (tag : String) (schema : Schema) (ifNotExists toCreateIndex : Bool) :
    (schema ≠ [] → (∀ p ∈ schema, TrimSpace p.1 ≠ "" ∧ TrimSpace p.2 ≠ "") →
        createTagNGQL L tag schema ifNotExists =
          .ok ("CREATE TAG " ++ (if ifNotExists then "IF NOT EXISTS " else "") ++ tag ++ "(" ++
            Join (schema.map (fun p => TrimSpace p.1 ++ " " ++ specEmittedDef L p.2)) ", " ++
            ");")) ∧
      (∀ ngql, createTagNGQL L tag schema ifNotExists = .ok ngql →
        ngql = "CREATE TAG " ++ (if ifNotExists then "IF NOT EXISTS " else "") ++ tag ++ "(" ++
          Join (schema.map (fun p => TrimSpace p.1 ++ " " ++ specEmittedDef L p.2)) ", " ++
          ");") ∧
      (∀ e, createTagNGQL L tag schema ifNotExists = .error e →
        CreateTagBySchema L P st tag schema ifNotExists toCreateIndex = (some e, st)) ∧
      (∀ ngql, createTagNGQL L tag schema ifNotExists = .ok ngql →
        (∀ e, (P.getSession st.db).1 = .error e →
          (CreateTagBySchema L P st tag schema ifNotExists toCreateIndex).2.sent = st.sent) ∧
        (∀ u, (P.getSession st.db).1 = .ok u →
          (CreateTagBySchema L P st tag schema ifNotExists toCreateIndex).2.sent =
              st.sent ++ [sentText L P.space ngql] ∨
            (toCreateIndex = true ∧
              (CreateTagBySchema L P st tag schema ifNotExists toCreateIndex).2.sent =
                st.sent ++ [sentText L P.space ngql,
                  sentText L P.space ("CREATE TAG INDEX IF NOT EXISTS " ++
                    (tag ++ TAG_BASIC_INDEX_SUFFIX) ++ " ON " ++ tag ++ "();")]))) := by
  have hmain : schema ≠ [] → (∀ p ∈ schema, TrimSpace p.1 ≠ "" ∧ TrimSpace p.2 ≠ "") →
      createTagNGQL L tag schema ifNotExists =
        .ok ("CREATE TAG " ++ (if ifNotExists then "IF NOT EXISTS " else "") ++ tag ++ "(" ++
          Join (schema.map (fun p => TrimSpace p.1 ++ " " ++ specEmittedDef L p.2)) ", " ++
          ");") := by
    intro hne hf
    have hlen : ¬ schema.length ≤ 0 := by
      cases schema with
      | nil => exact absurd rfl hne
      | cons p r => simp
    unfold createTagNGQL
    simp only [hlen, if_false]
    rw [createTagLoop_ok L schema _ hf]
    simp only []
    rw [TrimSuffix_entries _ _ _ (by simpa using hne)]
    simp only [checkDef_eq_spec]
    cases ifNotExists <;> simp [String.append_assoc]
  refine ⟨hmain, ?_, ?_, ?_⟩
  · intro ngql hok
    have hne : schema ≠ [] := by
      intro he
      subst he
      simp [createTagNGQL] at hok
    have hf : ∀ p ∈ schema, TrimSpace p.1 ≠ "" ∧ TrimSpace p.2 ≠ "" := by
      unfold createTagNGQL at hok
      split at hok
      · simp at hok
      · simp only [] at hok
        split at hok
        · simp at hok
        · rename_i r hr
          exact createTagLoop_of_ok L schema _ r hr
    rw [hmain hne hf] at hok
    exact (Except.ok.inj hok).symm
  · intro e he
    unfold CreateTagBySchema
    rw [he]
  · intro ngql hok
    have h1 := ConnectAndExcute_sent L P st ngql
    unfold CreateTagBySchema
    rw [hok]
    simp only []
    cases hx : ConnectAndExcute L P st ngql with
    | mk r st1 =>
      rw [hx] at h1
      simp only [] at h1
      cases r with
      | error e1 =>
        simp only []
        constructor
        · intro e he
          rw [he] at h1
          exact h1
        · intro u hu
          rw [hu] at h1
          exact Or.inl h1
      | ok res =>
        simp only []
        constructor
        · intro e he
          exfalso
          unfold ConnectAndExcute at hx
          cases hg : P.getSession st.db with
          | mk g db =>
            rw [hg] at he hx
            simp only [] at he
            subst he
            simp at hx
        · intro u hu
          rw [hu] at h1
          simp only [] at h1
          cases toCreateIndex with
          | false => exact Or.inl h1
          | true =>
            simp only [if_true]
            have h2 : (ConnectAndExcute L P st1
                ("CREATE TAG INDEX IF NOT EXISTS " ++ (tag ++ TAG_BASIC_INDEX_SUFFIX) ++
                  " ON " ++ tag ++ "();")).2.sent = st1.sent ∨
                (ConnectAndExcute L P st1
                  ("CREATE TAG INDEX IF NOT EXISTS " ++ (tag ++ TAG_BASIC_INDEX_SUFFIX) ++
                    " ON " ++ tag ++ "();")).2.sent =
                  st1.sent ++ [sentText L P.space
                    ("CREATE TAG INDEX IF NOT EXISTS " ++ (tag ++ TAG_BASIC_INDEX_SUFFIX) ++
                      " ON " ++ tag ++ "();")] := by
              rw [ConnectAndExcute_sent]
              cases (P.getSession st1.db).1 with
              | error e => exact Or.inl rfl
              | ok u2 => exact Or.inr rfl
            cases hy : ConnectAndExcute L P st1
              ("CREATE TAG INDEX IF NOT EXISTS " ++ (tag ++ TAG_BASIC_INDEX_SUFFIX) ++ " ON " ++
                tag ++ "();") with
            | mk r2 st2 =>
              rw [hy] at h2
              simp only [] at h2
              rw [h1] at h2
              rcases h2 with h2 | h2
              · left
                cases r2 <;> exact h2
              · right
                refine ⟨trivial, ?_⟩
                cases r2 <;> simpa using h2

/-- C13 at concrete inputs: a `LIST` with a modifier, a `Dict`, and a plain declaration; the
call sends the statement built, and nothing else. -/
theorem CreateTagBySchema_statement_witness :
    createTagNGQL asciiLib "person"
        [(" name ", " string"), ("tags", "LIST  NULL"), ("m", "Dict")] true =
      .ok "CREATE TAG IF NOT EXISTS person(name string, tags string  NULL, m string);" ∧
      (CreateTagBySchema asciiLib countingPool ⟨0, []⟩ "person"
          [(" name ", " string"), ("tags", "LIST  NULL"), ("m", "Dict")] true false).2.sent =
        ["USE test; CREATE TAG IF NOT EXISTS person(name string, tags string  NULL, m string);"] :=
  ⟨(CreateTagBySchema_statement asciiLib countingPool ⟨0, []⟩ "person"
      [(" name ", " string"), ("tags", "LIST  NULL"), ("m", "Dict")] true false).1 (by simp)
    (by decide),
    (((CreateTagBySchema_statement asciiLib countingPool ⟨0, []⟩ "person"
      [(" name ", " string"), ("tags", "LIST  NULL"), ("m", "Dict")] true false).2.2.2
      "CREATE TAG IF NOT EXISTS person(name string, tags string  NULL, m string);" rfl).2
      () rfl).resolve_right (fun h => Bool.noConfusion h.1)⟩

/-- C14 at a concrete input: `CreateEdgeType` emits a `LIST` declaration as it is. -/
theorem CreateEdgeType_keeps_LIST :
    createEdgeNGQL "knows" [("tags", "LIST"), ("m", "dict")] false =
        .ok "CREATE EDGE knows(tags LIST, m dict);" ∧
      (CreateEdgeType asciiLib countingPool ⟨0, []⟩
        ⟨"knows", [("tags", "LIST"), ("m", "dict")], []⟩ false false).2.sent =
        ["USE test; CREATE EDGE knows(tags LIST, m dict);"] ∧
      createTagNGQL asciiLib "knows" [("tags", "LIST"), ("m", "dict")] false =
        .ok "CREATE TAG knows(tags string, m string);" :=
  ⟨rfl, rfl, rfl⟩

/-! ## Vertex insert -/

/-- A text whose last character is an opening bracket has no comma-space suffix to trim. -/
theorem TrimSuffix_last_open (s : String) (h : s.data.getLast? = some '(') :
    TrimSuffix s ", " = s := by
  have hr : s.data.reverse.head? = some '(' := by simpa using h
  unfold TrimSuffix HasSuffix
  cases hd : s.data.reverse with
  | nil => simp [hd] at hr
  | cons c r =>
    rw [hd] at hr
    simp only [List.head?_cons, Option.some.injEq] at hr
    subst hr
    have : (", " : String).data.reverse = [' ', ','] := rfl
    simp [this, List.isPrefixOf]

/-- Trimming after a bracket and any number of entries each followed by comma and space. -/
theorem TrimSuffix_bracket_entries (pre : String) (xs : List String)
    (h : pre.data.getLast? = some '(') :
    TrimSuffix (pre ++ Join (xs.map (fun x => x ++ ", ")) "") ", " = pre ++ Join xs ", " := by
  cases xs with
  | nil =>
    have e : pre ++ Join (List.map (fun x => x ++ ", ") []) "" = pre := by
      apply String.ext
      simp [Join, String.data_append, List.intercalate]
    have e2 : pre ++ Join [] ", " = pre := by
      apply String.ext
      simp [Join, String.data_append, List.intercalate]
    rw [e, e2]
    exact TrimSuffix_last_open pre h
  | cons x r => exact TrimSuffix_entries pre (x :: r) ", " (by simp)

theorem illegalField_some (schema : Schema) (data : DataRecord) (field : String)
    (hmem : field ∈ data.map Prod.fst) (hvid : field ≠ "vid")
    (hns : field ∉ fieldNames schema) :
    ∃ bad, illegalField schema data = some bad ∧ bad ∈ data.map Prod.fst ∧ bad ≠ "vid" ∧
      bad ∉ fieldNames schema := by
  induction data with
  | nil => simp at hmem
  | cons p rest ih =>
    obtain ⟨k, v⟩ := p
    unfold illegalField
    by_cases hk : k = "vid"
    · have hmem' : field ∈ rest.map Prod.fst := by
        simp only [List.map_cons, List.mem_cons] at hmem
        rcases hmem with h | h
        · exact absurd (h.trans hk) hvid
        · exact h
      obtain ⟨bad, h1, h2, h3, h4⟩ := ih hmem'
      exact ⟨bad, by simp [hk, h1], by simp [h2], h3, h4⟩
    · simp only [hk, if_false]
      cases hl : List.lookup k schema with
      | none =>
        exact ⟨k, rfl, by simp, hk, (lookup_eq_none_iff k schema).mp hl⟩
      | some d =>
        have hmem' : field ∈ rest.map Prod.fst := by
          simp only [List.map_cons, List.mem_cons] at hmem
          rcases hmem with h | h
          · subst h
            exact absurd ((lookup_eq_none_iff _ schema).mpr hns) (by simp [hl])
          · exact h
        obtain ⟨bad, h1, h2, h3, h4⟩ := ih hmem'
        exact ⟨bad, h1, by simp [h2], h3, h4⟩

theorem illegalField_none_iff (schema : Schema) (data : DataRecord) :
    illegalField schema data = none ↔
      ∀ k ∈ data.map Prod.fst, k = "vid" ∨ k ∈ fieldNames schema := by
  induction data with
  | nil => simp [illegalField]
  | cons p rest ih =>
    obtain ⟨k, v⟩ := p
    unfold illegalField
    by_cases hk : k = "vid"
    · simp [hk, ih]
    · simp only [hk, if_false, List.map_cons, List.mem_cons, forall_eq_or_imp, false_or]
      cases hl : List.lookup k schema with
      | none =>
        have := (lookup_eq_none_iff k schema).mp hl
        simp [this]
      | some d =>
        have : k ∈ fieldNames schema := by
          by_contra hc
          rw [(lookup_eq_none_iff k schema).mpr hc] at hl
          simp at hl
        simp [this, ih]

theorem mustString_ok (data : DataRecord) (key s : String) (h : mustString data key = .ok s) :
    List.lookup key data = some (.str s) ∧ stringOrZero data key = s := by
  unfold mustString at h
  unfold stringOrZero
  cases hl : List.lookup key data with
  | none => simp [hl] at h
  | some v =>
    rw [hl] at h
    cases v <;> simp at h
    simp [h]

theorem mustString_of_lookup (data : DataRecord) (key s : String)
    (h : List.lookup key data = some (.str s)) :
    mustString data key = .ok s ∧ stringOrZero data key = s := by
  simp [mustString, stringOrZero, h]

/-- The run of `HasVertexExistOnTag` is the run of its one `ConnectAndExcute`. -/
theorem HasVertexExistOnTag_run {σ : Type} (L : Lib) (P : Pool σ) (st : Run σ)
    (tag vid : String) :
    (HasVertexExistOnTag L P st tag vid).2 =
      (ConnectAndExcute L P st (fetchVertexNGQL tag vid)).2 := by
  unfold HasVertexExistOnTag
  cases h : ConnectAndExcute L P st (fetchVertexNGQL tag vid) with
  | mk r st1 =>
    cases r with
    | error e => rfl
    | ok res =>
      simp only []
      split <;> rfl

/-- The run after one `ConnectAndExcute` has either nothing more or the statement. -/
theorem ConnectAndExcute_sent_cases {σ : Type} (L : Lib) (P : Pool σ) (st : Run σ)
    (ngql : String) :
    (ConnectAndExcute L P st ngql).2.sent = st.sent ∨
      (ConnectAndExcute L P st ngql).2.sent = st.sent ++ [sentText L P.space ngql] := by
  rw [ConnectAndExcute_sent]
  cases (P.getSession st.db).1 with
  | error e => exact Or.inl rfl
  | ok u => exact Or.inr rfl

/-- C15 (amended): when the data record has a key other than `vid` that is not a field of the
schema, `getInsertVertexNGQL` returns the illegal-field error for such a key, and `InsertVertex`
returns an error without sending an INSERT statement: it sends nothing, or only the FETCH of
its existence check. The error of `InsertVertex` is that illegal-field error whenever the vid
is a non-empty string and the existence check is skipped (`AllowReplace`) or finds no vertex;
otherwise an earlier step has reported its own error. -/
theorem insert_vertex_illegal_field {σ : Type} (L : Lib) (P : Pool σ) (st : Run σ)
    (tds : DataSchema) (flags : List String) (field : String)
    (hmem : field ∈ tds.data.map Prod.fst) (hvid : field ≠ "vid")
    (hns : field ∉ fieldNames tds.schema) :
    ∃ bad, bad ∈ tds.data.map Prod.fst ∧ bad ≠ "vid" ∧ bad ∉ fieldNames tds.schema ∧
      getInsertVertexNGQL L tds.name tds.schema tds.data =
        .error (.err ("illegal field '" ++ bad ++ "' for vertex insert on tag '" ++
          tds.name ++ "'")) ∧
      (InsertVertex L P st tds flags).1 ≠ none ∧
      ((InsertVertex L P st tds flags).2.sent = st.sent ∨
        (InsertVertex L P st tds flags).2.sent =
          st.sent ++ [sentText L P.space
            (fetchVertexNGQL tds.name (stringOrZero tds.data "vid"))]) ∧
      (∀ vid, List.lookup "vid" tds.data = some (.str vid) → vid ≠ "" →
        IsStrInSlice "AllowReplace" flags = true →
        InsertVertex L P st tds flags =
          (some (.err ("illegal field '" ++ bad ++ "' for vertex insert on tag '" ++
            tds.name ++ "'")), st)) ∧
      (∀ vid st1, List.lookup "vid" tds.data = some (.str vid) → vid ≠ "" →
        IsStrInSlice "AllowReplace" flags = false →
        HasVertexExistOnTag L P st tds.name vid = (.ok false, st1) →
        InsertVertex L P st tds flags =
          (some (.err ("illegal field '" ++ bad ++ "' for vertex insert on tag '" ++
            tds.name ++ "'")), st1)) := by
  obtain ⟨bad, hb1, hb2, hb3, hb4⟩ := illegalField_some tds.schema tds.data field hmem hvid hns
  have hbuild : getInsertVertexNGQL L tds.name tds.schema tds.data =
      .error (.err ("illegal field '" ++ bad ++ "' for vertex insert on tag '" ++
        tds.name ++ "'")) := by
    unfold getInsertVertexNGQL
    rw [hb1]
  have hrun : ∀ (s : Run σ) (vid : String), insertVertexRun L P s tds vid =
      (some (.err ("illegal field '" ++ bad ++ "' for vertex insert on tag '" ++
        tds.name ++ "'")), s) := by
    intro s vid
    unfold insertVertexRun
    rw [hbuild]
  have hgen : (InsertVertex L P st tds flags).1 ≠ none ∧
      ((InsertVertex L P st tds flags).2.sent = st.sent ∨
        (InsertVertex L P st tds flags).2.sent =
          st.sent ++ [sentText L P.space
            (fetchVertexNGQL tds.name (stringOrZero tds.data "vid"))]) := by
    unfold InsertVertex
    cases hv : ValidateVertex tds.name tds.schema tds.data with
    | some e => exact ⟨by simp, Or.inl rfl⟩
    | none =>
      simp only []
      cases hm : mustString tds.data "vid" with
      | error f => exact ⟨by simp, Or.inl rfl⟩
      | ok vid =>
        simp only []
        have hz := (mustString_ok _ _ _ hm).2
        by_cases hflag : IsStrInSlice "AllowReplace" flags = true
        · simp only [hflag, Bool.not_true, Bool.false_eq_true, if_false, hrun]
          exact ⟨by simp, Or.inl trivial⟩
        · have hflag' : IsStrInSlice "AllowReplace" flags = false := by simpa using hflag
          simp only [hflag', Bool.not_false, if_true]
          have hsent := ConnectAndExcute_sent_cases L P st (fetchVertexNGQL tds.name vid)
          rw [← HasVertexExistOnTag_run] at hsent
          rw [hz]
          cases hx : HasVertexExistOnTag L P st tds.name vid with
          | mk r st1 =>
            rw [hx] at hsent
            cases r with
            | error e => exact ⟨by simp, hsent⟩
            | ok isExists =>
              cases isExists with
              | true => exact ⟨by simp, hsent⟩
              | false =>
                simp only [Bool.false_eq_true, if_false, hrun]
                exact ⟨by simp, hsent⟩
  refine ⟨bad, hb2, hb3, hb4, hbuild, hgen.1, hgen.2, ?_, ?_⟩
  · intro vid hl hne hflag
    obtain ⟨hm, hz⟩ := mustString_of_lookup tds.data "vid" vid hl
    unfold InsertVertex
    simp only [ValidateVertex, ValidateName, hz, hne, if_false, hm, hflag, Bool.not_true,
      Bool.false_eq_true, hrun]
  · intro vid st1 hl hne hflag hex
    obtain ⟨hm, hz⟩ := mustString_of_lookup tds.data "vid" vid hl
    unfold InsertVertex
    simp only [ValidateVertex, ValidateName, hz, hne, if_false, hm, hflag, Bool.not_false,
      if_true, hex, Bool.false_eq_true, hrun]

/-- C15 at concrete inputs: the key `nick` is not in the schema; with `AllowReplace` nothing
is sent. -/
theorem insert_vertex_illegal_field_witness :
    getInsertVertexNGQL asciiLib "person" [("name", "string")]
        [("vid", .str "v1"), ("nick", .str "b")] =
      .error (.err "illegal field 'nick' for vertex insert on tag 'person'") ∧
    InsertVertex asciiLib countingPool ⟨0, []⟩
        ⟨"person", [("name", "string")], [("vid", .str "v1"), ("nick", .str "b")]⟩
        ["AllowReplace"] =
      (some (.err "illegal field 'nick' for vertex insert on tag 'person'"), ⟨0, []⟩) ∧
    (InsertVertex asciiLib countingPool ⟨0, []⟩
        ⟨"person", [("name", "string")], [("vid", .str "v1"), ("nick", .str "b")]⟩
        []).1 ≠ none :=
  ⟨rfl, rfl,
    (insert_vertex_illegal_field asciiLib countingPool ⟨0, []⟩
      ⟨"person", [("name", "string")], [("vid", .str "v1"), ("nick", .str "b")]⟩ [] "nick"
      (by decide) (by decide) (by decide)).elim (fun _ h => h.2.2.2.2.1)⟩

/-- C15 as stated fails for `InsertVertex`: the key `nick` is not in the schema, but without
`AllowReplace` the existence check finds the vertex first, and the error returned is the
already-exists error, not the illegal-field error. -/
theorem InsertVertex_exists_before_illegal_field :
    InsertVertex asciiLib oneRowPool ⟨0, []⟩
        ⟨"person", [("name", "string")], [("vid", .str "v1"), ("nick", .str "b")]⟩ [] =
      (some (.err "vid 'v1' already exist"),
        ⟨1, ["USE test; FETCH PROP ON person \"v1\""]⟩) ∧
    getInsertVertexNGQL asciiLib "person" [("name", "string")]
        [("vid", .str "v1"), ("nick", .str "b")] =
      .error (.err "illegal field 'nick' for vertex insert on tag 'person'") :=
  ⟨rfl, rfl⟩

/-- The loop of `getInsertVertexNGQL` when every present field encodes, in closed form. -/
theorem insertVertexLoop_ok (L : Lib) (data : DataRecord) (schema : Schema)
    (values : List String) (t v : String)
    (h : List.Forall₂ (encodes L data) (presentFields schema data) values) :
    insertVertexLoop L data schema t v =
      .ok (t ++ Join (((presentFields schema data).map Prod.fst).map (fun x => x ++ ", ")) "",
        v ++ Join (values.map (fun x => x ++ ", ")) "") := by
  induction schema generalizing values t v with
  | nil =>
    simp only [presentFields, List.filter_nil, List.forall₂_nil_left_iff] at h
    subst h
    simp only [insertVertexLoop, presentFields, List.filter_nil, List.map_nil, Join_nil]
    congr 2 <;>
    · apply String.ext
      simp [String.data_append]
  | cons p rest ih =>
    obtain ⟨f, d⟩ := p
    unfold insertVertexLoop
    cases hl : List.lookup f data with
    | none =>
      have hp : presentFields ((f, d) :: rest) data = presentFields rest data := by
        simp [presentFields, List.filter_cons, hl]
      rw [hp] at h ⊢
      exact ih values t v h
    | some x =>
      have hp : presentFields ((f, d) :: rest) data = (f, d) :: presentFields rest data := by
        simp [presentFields, List.filter_cons, hl]
      rw [hp] at h ⊢
      cases values with
      | nil => simp at h
      | cons v0 vs =>
        obtain ⟨h0, hrest⟩ := List.forall₂_cons.mp h
        obtain ⟨y, hy1, hy2⟩ := h0
        simp only [] at hy1 hy2
        rw [hl] at hy1
        have hxy : x = y := Option.some.inj hy1
        subst hxy
        simp only [hy2]
        rw [ih vs _ _ hrest]
        simp only [List.map_cons, Join_empty_cons, String.append_assoc]

/-- When the loop of `getInsertVertexNGQL` returns, every present field has been encoded. -/
theorem insertVertexLoop_of_ok (L : Lib) (data : DataRecord) (schema : Schema)
    (t v : String) (r : String × String) (h : insertVertexLoop L data schema t v = .ok r) :
    ∃ values, List.Forall₂ (encodes L data) (presentFields schema data) values := by
  induction schema generalizing t v with
  | nil => exact ⟨[], by simp [presentFields]⟩
  | cons p rest ih =>
    obtain ⟨f, d⟩ := p
    unfold insertVertexLoop at h
    cases hl : List.lookup f data with
    | none =>
      rw [hl] at h
      have hp : presentFields ((f, d) :: rest) data = presentFields rest data := by
        simp [presentFields, List.filter_cons, hl]
      rw [hp]
      exact ih _ _ h
    | some x =>
      rw [hl] at h
      have hp : presentFields ((f, d) :: rest) data = (f, d) :: presentFields rest data := by
        simp [presentFields, List.filter_cons, hl]
      rw [hp]
      cases hg : getNGQLValue L d x with
      | error e => simp [hg] at h
      | ok v0 =>
        simp only [hg] at h
        obtain ⟨vs, hvs⟩ := ih _ _ h
        exact ⟨v0 :: vs, List.Forall₂.cons ⟨x, hl, hg⟩ hvs⟩

theorem getLast?_append_open (s : String) : (s ++ "(").data.getLast? = some '(' := by
  simp [String.data_append, List.getLast?_append]

theorem getLast?_append_colon_open (s : String) : (s ++ "\":(").data.getLast? = some '(' := by
  have : ("\":(" : String).data = [Char.ofNat 34, ':', '('] := rfl
  simp [String.data_append, List.getLast?_append, this]

/-- The statement of `getInsertVertexNGQL` when no key is illegal, the vid is a string and
every present field encodes. -/
theorem getInsertVertexNGQL_ok (L : Lib) (tag : String) (schema : Schema) (data : DataRecord)
    (vid : String) (values : List String)
    (hleg : ∀ k ∈ data.map Prod.fst, k = "vid" ∨ k ∈ fieldNames schema)
    (hvid : List.lookup "vid" data = some (.str vid))
    (henc : List.Forall₂ (encodes L data) (presentFields schema data) values) :
    getInsertVertexNGQL L tag schema data =
      .ok ("INSERT VERTEX " ++
        (tag ++ "(" ++ Join ((presentFields schema data).map Prod.fst) ", " ++ ")") ++
        " VALUES " ++ ("\"" ++ vid ++ "\":(" ++ Join values ", " ++ ")") ++ ";") := by
  unfold getInsertVertexNGQL
  rw [(illegalField_none_iff schema data).mpr hleg, (mustString_of_lookup data "vid" vid hvid).1]
  simp only []
  rw [insertVertexLoop_ok L data schema values _ _ henc]
  simp only []
  rw [TrimSuffix_bracket_entries _ _ (getLast?_append_open tag),
    TrimSuffix_bracket_entries _ _ (getLast?_append_colon_open _)]
  rfl

/-- C17: `getInsertVertexNGQL` returns a statement exactly when no key of the data record is
illegal, the vid is a string and every schema field with an entry in the data record encodes;
the statement is `INSERT VERTEX <tag>(<names>) VALUES "<vid>":(<values>);` where the names are
the schema fields that have an entry in the data record, in range order of the schema, and the
values are the `getNGQLValue` encodings of those entries, as many and in the same order; a
schema field without an entry is in neither list. -/
theorem getInsertVertexNGQL_statement (L : Lib) (tag : String) (schema : Schema)
    (data : DataRecord) :
    (∀ vid values, (∀ k ∈ data.map Prod.fst, k = "vid" ∨ k ∈ fieldNames schema) →
        List.lookup "vid" data = some (.str vid) →
        List.Forall₂ (encodes L data) (presentFields schema data) values →
        getInsertVertexNGQL L tag schema data =
          .ok ("INSERT VERTEX " ++
            (tag ++ "(" ++ Join ((presentFields schema data).map Prod.fst) ", " ++ ")") ++
            " VALUES " ++ ("\"" ++ vid ++ "\":(" ++ Join values ", " ++ ")") ++ ";")) ∧
      (∀ ngql, getInsertVertexNGQL L tag schema data = .ok ngql →
        ∃ vid values, List.lookup "vid" data = some (.str vid) ∧
          List.Forall₂ (encodes L data) (presentFields schema data) values ∧
          values.length = ((presentFields schema data).map Prod.fst).length ∧
          ngql = "INSERT VERTEX " ++
            (tag ++ "(" ++ Join ((presentFields schema data).map Prod.fst) ", " ++ ")") ++
            " VALUES " ++ ("\"" ++ vid ++ "\":(" ++ Join values ", " ++ ")") ++ ";") := by
  refine ⟨fun vid values h1 h2 h3 => getInsertVertexNGQL_ok L tag schema data vid values h1 h2 h3,
    ?_⟩
  intro ngql hok
  have hleg : ∀ k ∈ data.map Prod.fst, k = "vid" ∨ k ∈ fieldNames schema := by
    rw [← illegalField_none_iff]
    cases hi : illegalField schema data with
    | none => rfl
    | some bad => simp [getInsertVertexNGQL, hi] at hok
  have hi := (illegalField_none_iff schema data).mpr hleg
  unfold getInsertVertexNGQL at hok
  rw [hi] at hok
  simp only [] at hok
  cases hm : mustString data "vid" with
  | error f => simp [hm] at hok
  | ok vid =>
    have hvid := (mustString_ok data "vid" vid hm).1
    rw [hm] at hok
    simp only [] at hok
    cases hloop : insertVertexLoop L data schema (tag ++ "(") ("\"" ++ vid ++ "\":(") with
    | error e => simp [hloop] at hok
    | ok r =>
      obtain ⟨values, hvals⟩ := insertVertexLoop_of_ok L data schema _ _ r hloop
      refine ⟨vid, values, hvid, hvals, ?_, ?_⟩
      · rw [List.length_map]
        exact hvals.length_eq.symm
      · have := getInsertVertexNGQL_ok L tag schema data vid values hleg hvid hvals
        unfold getInsertVertexNGQL at this
        rw [hi, hm] at this
        simp only [] at this
        rw [this] at hok
        exact (Except.ok.inj hok).symm

/-- C17 at concrete inputs: the schema field `ts` has no entry and is in neither list. -/
theorem getInsertVertexNGQL_statement_witness :
    getInsertVertexNGQL asciiLib "person"
        [("name", "string"), ("age", "int"), ("ts", "timestamp")]
        [("vid", .str "v1"), ("age", .int .int 30), ("name", .str "Bob")] =
      .ok "INSERT VERTEX person(name, age) VALUES \"v1\":(\"Bob\", 30);" :=
  (getInsertVertexNGQL_statement asciiLib "person"
      [("name", "string"), ("age", "int"), ("ts", "timestamp")]
      [("vid", .str "v1"), ("age", .int .int 30), ("name", .str "Bob")]).1 "v1"
    ["\"Bob\"", "30"] (by decide) rfl
    (List.Forall₂.cons ⟨.str "Bob", rfl, rfl⟩
      (List.Forall₂.cons ⟨.int .int 30, rfl, rfl⟩ List.Forall₂.nil))

/-- C19: when the flags do not contain `AllowReplace`, the vid is a non-empty string and the
FETCH of the existence check returns a result with at least one row, `InsertVertex` returns the
already-exists error and the FETCH is the only statement it has sent. -/
theorem InsertVertex_already_exists {σ : Type} (L : Lib) (P : Pool σ) (st st1 : Run σ)
    (tds : DataSchema) (flags : List String) (vid : String) (res : ResultSet)
    (hflags : IsStrInSlice "AllowReplace" flags = false)
    (hvid : List.lookup "vid" tds.data = some (.str vid)) (hne : vid ≠ "")
    (hfetch : ConnectAndExcute L P st (fetchVertexNGQL tds.name vid) = (.ok res, st1))
    (hrows : 0 < GetRowSize res) :
    InsertVertex L P st tds flags = (some (.err ("vid '" ++ vid ++ "' already exist")), st1) ∧
      st1.sent = st.sent ++ [sentText L P.space (fetchVertexNGQL tds.name vid)] := by
  refine ⟨?_, ConnectAndExcute_ok_sent L P st st1 _ res hfetch⟩
  obtain ⟨hm, hz⟩ := mustString_of_lookup tds.data "vid" vid hvid
  unfold InsertVertex
  simp only [ValidateVertex, ValidateName, hz, hne, if_false, hm, hflags, Bool.not_false, if_true]
  unfold HasVertexExistOnTag
  rw [hfetch]
  simp only [Nat.le_zero_eq, Nat.pos_iff_ne_zero.mp hrows, if_false, if_true]

/-- C19 at concrete inputs: the vertex `v1` is found, and only the FETCH is sent. -/
theorem InsertVertex_already_exists_witness :
    InsertVertex asciiLib oneRowPool ⟨0, []⟩
        ⟨"person", [("name", "string")], [("vid", .str "v1"), ("name", .str "Bob")]⟩ [] =
      (some (.err "vid 'v1' already exist"),
        ⟨1, ["USE test; FETCH PROP ON person \"v1\""]⟩) :=
  (InsertVertex_already_exists asciiLib oneRowPool ⟨0, []⟩
      ⟨1, ["USE test; FETCH PROP ON person \"v1\""]⟩
      ⟨"person", [("name", "string")], [("vid", .str "v1"), ("name", .str "Bob")]⟩ [] "v1"
      ⟨true, "SUCCEEDED", "", [["VertexID"], ["\"v1\""]]⟩ rfl rfl (by decide) rfl
      (by decide)).1

/-- C16 at a concrete input: the key `bogus` is not in the edge schema, yet `InsertEdge`
returns no error and sends the INSERT statement, the key being left out. -/
theorem InsertEdge_accepts_illegal_field :
    InsertEdge asciiLib countingPool ⟨0, []⟩
        ⟨"knows", [("since", "int")],
          [("src_vid", .str "a"), ("dst_vid", .str "b"), ("since", .int .int 2020),
            ("bogus", .int .int 1)]⟩ =
      (none, ⟨1, ["USE test; INSERT EDGE knows(since) VALUES \"a\"->\"b\":(2020);"]⟩) :=
  rfl

/-- C18 at a concrete input: the schema field `b` has no entry in the data record; the
statement of `getInsertEdgeNGQL` names two fields and gives one value. -/
theorem getInsertEdgeNGQL_names_without_values :
    getInsertEdgeNGQL asciiLib "knows" [("a", "int"), ("b", "int")]
        [("src_vid", .str "s"), ("dst_vid", .str "d"), ("a", .int .int 1)] =
      .ok "INSERT EDGE knows(a, b) VALUES \"s\"->\"d\":(1);" ∧
    getInsertVertexNGQL asciiLib "knows" [("a", "int"), ("b", "int")]
        [("vid", .str "s"), ("a", .int .int 1)] =
      .ok "INSERT VERTEX knows(a) VALUES \"s\":(1);" :=
  ⟨rfl, rfl⟩

/-! ## Vertex update -/

/-- The loop of `UpdateVertex` when every listed field is in the schema, has an entry and
encodes, in closed form. -/
theorem updateSetLoop_ok (L : Lib) (schema : Schema) (data : DataRecord)
    (fields vals : List String) (ngql : String)
    (h : List.Forall₂ (encodesField L schema data) fields vals) :
    updateSetLoop L schema data fields ngql =
      .ok (ngql ++ Join ((List.zipWith (fun f v => f ++ " = " ++ v) fields vals).map
        (fun x => x ++ ", ")) "") := by
  induction h generalizing ngql with
  | nil =>
    simp only [updateSetLoop, List.zipWith_nil_left, List.map_nil, Join_nil]
    congr 1
    apply String.ext
    simp [String.data_append]
  | @cons f v fs vs hfv _ ih =>
    obtain ⟨d, x, h1, h2, h3⟩ := hfv
    unfold updateSetLoop
    simp only [h1, h2, h3]
    rw [ih]
    simp only [List.zipWith_cons_cons, List.map_cons, Join_empty_cons, String.append_assoc]

/-- The loop of `UpdateVertex` returns an error when some listed field is not in the schema,
has no entry in the data record, or does not encode. -/
theorem updateSetLoop_error (L : Lib) (schema : Schema) (data : DataRecord)
    (fields : List String) (ngql : String)
    (h : ∃ f ∈ fields, List.lookup f schema = none ∨ List.lookup f data = none ∨
      ∃ d x e, List.lookup f schema = some d ∧ List.lookup f data = some x ∧
        getNGQLValue L d x = .error e) :
    ∃ e, updateSetLoop L schema data fields ngql = .error e := by
  induction fields generalizing ngql with
  | nil =>
    obtain ⟨f, hf, _⟩ := h
    simp at hf
  | cons g rest ih =>
    unfold updateSetLoop
    cases h1 : List.lookup g schema with
    | none => exact ⟨_, rfl⟩
    | some d =>
      simp only []
      cases h2 : List.lookup g data with
      | none => exact ⟨_, rfl⟩
      | some x =>
        simp only []
        cases h3 : getNGQLValue L d x with
        | error e => exact ⟨_, rfl⟩
        | ok v =>
          simp only []
          apply ih
          obtain ⟨f, hf, hbad⟩ := h
          rcases List.mem_cons.mp hf with rfl | hf
          · exfalso
            rcases hbad with hb | hb | ⟨d', x', e, hb1, hb2, hb3⟩
            · simp [h1] at hb
            · simp [h2] at hb
            · rw [h1] at hb1
              rw [h2] at hb2
              rw [← Option.some.inj hb1, ← Option.some.inj hb2, h3] at hb3
              simp at hb3
          · exact ⟨f, hf, hbad⟩

/-- C20 (amended): for a data record whose vid is a non-empty string, `UpdateVertex` returns
an error and sends nothing when `updateFields` is empty, and when some listed field is not in
the schema, has no entry in the data record, or has a value that `getNGQLValue` refuses;
otherwise it builds the one statement `UPDATE VERTEX ON <tag> "<vid>" SET f = v, ...;` that
assigns the listed fields, in list order, to their encodings, and sends it, once, if it
acquires a session. -/
theorem UpdateVertex_cases {σ : Type} (L : Lib) (P : Pool σ) (st : Run σ) (tds : DataSchema)
    (updateFields : List String) (vid : String)
    (hvid : List.lookup "vid" tds.data = some (.str vid)) (hne : vid ≠ "") :
    (updateFields = [] →
        UpdateVertex L P st tds updateFields =
          (some (.err "no field specified in param `updateFields`"), st)) ∧
      ((∃ f ∈ updateFields, List.lookup f tds.schema = none ∨ List.lookup f tds.data = none ∨
          ∃ d x e, List.lookup f tds.schema = some d ∧ List.lookup f tds.data = some x ∧
            getNGQLValue L d x = .error e) →
        (UpdateVertex L P st tds updateFields).1 ≠ none ∧
          (UpdateVertex L P st tds updateFields).2 = st) ∧
      (updateFields ≠ [] → ∀ vals,
        List.Forall₂ (encodesField L tds.schema tds.data) updateFields vals →
        (UpdateVertex L P st tds updateFields).2.sent =
          match (P.getSession st.db).1 with
          | .error _ => st.sent
          | .ok _ =>
            st.sent ++ [sentText L P.space
              ("UPDATE VERTEX ON " ++ tds.name ++ " \"" ++ vid ++ "\" SET " ++
                Join (List.zipWith (fun f v => f ++ " = " ++ v) updateFields vals) ", " ++
                ";")]) := by
  obtain ⟨hm, hz⟩ := mustString_of_lookup tds.data "vid" vid hvid
  refine ⟨?_, ?_, ?_⟩
  · intro he
    subst he
    unfold UpdateVertex
    simp [ValidateVertex, ValidateName, hz, hne]
  · intro hbad
    have hlen : updateFields.length ≠ 0 := by
      obtain ⟨f, hf, _⟩ := hbad
      intro h0
      rw [List.length_eq_zero.mp h0] at hf
      simp at hf
    obtain ⟨e, he⟩ := updateSetLoop_error L tds.schema tds.data updateFields
      ("UPDATE VERTEX ON " ++ tds.name ++ " \"" ++ vid ++ "\" SET ") hbad
    unfold UpdateVertex
    simp only [ValidateVertex, ValidateName, hz, hne, if_false, hlen, hm, he]
    exact ⟨by simp, trivial⟩
  · intro hnonempty vals hvals
    have hlen : updateFields.length ≠ 0 := by
      intro h0
      exact hnonempty (List.length_eq_zero.mp h0)
    have hz2 : List.zipWith (fun f v => f ++ " = " ++ v) updateFields vals ≠ [] := by
      cases hvals with
      | nil => exact absurd rfl hnonempty
      | cons _ _ => simp
    unfold UpdateVertex
    simp only [ValidateVertex, ValidateName, hz, hne, if_false, hlen, hm,
      updateSetLoop_ok L tds.schema tds.data updateFields vals _ hvals,
      TrimSuffix_entries _ _ _ hz2]
    have hs := ConnectAndExcute_sent L P st
      ("UPDATE VERTEX ON " ++ tds.name ++ " \"" ++ vid ++ "\" SET " ++
        Join (List.zipWith (fun f v => f ++ " = " ++ v) updateFields vals) ", " ++ ";")
    cases hx : ConnectAndExcute L P st
      ("UPDATE VERTEX ON " ++ tds.name ++ " \"" ++ vid ++ "\" SET " ++
        Join (List.zipWith (fun f v => f ++ " = " ++ v) updateFields vals) ", " ++ ";") with
    | mk r st1 =>
      rw [hx] at hs
      cases r <;> exact hs

/-- C20 at concrete inputs: two listed fields, assigned in list order. -/
theorem UpdateVertex_cases_witness :
    (UpdateVertex asciiLib countingPool ⟨0, []⟩
        ⟨"person", [("ts", "TIMESTAMP"), ("n", "string")],
          [("vid", .str "v1"), ("ts", .int .int64 5), ("n", .str "x")]⟩ ["n", "ts"]).2.sent =
      ["USE test; UPDATE VERTEX ON person \"v1\" SET n = \"x\", ts = 5;"] :=
  (UpdateVertex_cases asciiLib countingPool ⟨0, []⟩
      ⟨"person", [("ts", "TIMESTAMP"), ("n", "string")],
        [("vid", .str "v1"), ("ts", .int .int64 5), ("n", .str "x")]⟩ ["n", "ts"] "v1" rfl
      (by decide)).2.2 (by simp) ["\"x\"", "5"]
    (List.Forall₂.cons ⟨"string", .str "x", rfl, rfl, rfl⟩
      (List.Forall₂.cons ⟨"TIMESTAMP", .int .int64 5, rfl, rfl, rfl⟩ List.Forall₂.nil))

/-- C20 as stated fails: the listed field `ts` is in the schema and has an entry in the data
record, yet `UpdateVertex` returns an error and sends nothing, because the value does not
encode as a TIMESTAMP. -/
theorem UpdateVertex_value_refused :
    List.lookup "ts" [("ts", "TIMESTAMP")] = some "TIMESTAMP" ∧
      List.lookup "ts" [("vid", Value.str "v1"), ("ts", Value.bool true)] =
        some (Value.bool true) ∧
      UpdateVertex asciiLib countingPool ⟨0, []⟩
          ⟨"person", [("ts", "TIMESTAMP")], [("vid", .str "v1"), ("ts", .bool true)]⟩ ["ts"] =
        (some (.err "invalid timestamp(int64) value for nebula_client"), ⟨0, []⟩) :=
  ⟨rfl, rfl, rfl⟩

/-- The test of `tools.IsStrInSlice` is membership. -/
theorem IsStrInSlice_iff (val : String) (xs : List String) :
    IsStrInSlice val xs = true ↔ val ∈ xs := by
  induction xs with
  | nil => simp [IsStrInSlice]
  | cons x rest ih =>
    unfold IsStrInSlice
    by_cases h : x = val
    · simp [h]
    · simp only [h, if_false, ih, List.mem_cons]
      constructor
      · exact Or.inr
      · rintro (h1 | h1)
        · exact absurd h1.symm h
        · exact h1

/-- Entries each followed by the separator, behind a text that does not end in the separator:
trimming one separator leaves the entries joined by it. -/
theorem TrimSuffix_entries_keep (pre : String) (xs : List String) (sep : String)
    (h : TrimSuffix pre sep = pre) :
    TrimSuffix (pre ++ Join (xs.map (fun x => x ++ sep)) "") sep = pre ++ Join xs sep := by
  cases xs with
  | nil =>
    have e : ∀ s : String, pre ++ Join [] s = pre := by
      intro s
      apply String.ext
      simp [Join, String.data_append, List.intercalate]
    rw [List.map_nil, e, e, h]
  | cons x rest => exact TrimSuffix_entries pre (x :: rest) sep (by simp)

/-- A text that ends in `SET ` has no comma-space suffix to trim. -/
theorem TrimSuffix_SET (pre : String) :
    TrimSuffix (pre ++ "\" SET ") ", " = pre ++ "\" SET " := by
  unfold TrimSuffix HasSuffix
  simp [String.data_append, List.isPrefixOf]

/-- The loop of `ReplaceVertex` in closed form: one assignment, followed by comma and space,
for each schema field that is not skipped and has an entry. -/
theorem replaceSetLoop_ok (L : Lib) (data : DataRecord) (skipFields : List String)
    (schema : Schema) (values : List String) (ngql : String)
    (h : List.Forall₂ (encodes L data) (replacedFields schema data skipFields) values) :
    replaceSetLoop L data skipFields schema ngql =
      .ok (ngql ++ Join ((List.zipWith (fun p v => p.1 ++ " = " ++ v)
        (replacedFields schema data skipFields) values).map (fun x => x ++ ", ")) "") := by
  induction schema generalizing values ngql with
  | nil =>
    simp only [replacedFields, List.filter_nil, List.forall₂_nil_left_iff] at h
    subst h
    simp only [replaceSetLoop, replacedFields, List.filter_nil, List.zipWith_nil_left,
      List.map_nil, Join_nil]
    congr 1
    apply String.ext
    simp [String.data_append]
  | cons p rest ih =>
    obtain ⟨f, d⟩ := p
    unfold replaceSetLoop
    by_cases hs : IsStrInSlice f skipFields = true
    · have hp : replacedFields ((f, d) :: rest) data skipFields =
          replacedFields rest data skipFields := by
        simp [replacedFields, List.filter_cons, hs]
      rw [hp] at h ⊢
      simp only [hs, if_true]
      exact ih values ngql h
    · have hs' : IsStrInSlice f skipFields = false := by simpa using hs
      simp only [hs', Bool.false_eq_true, if_false]
      cases hl : List.lookup f data with
      | none =>
        have hp : replacedFields ((f, d) :: rest) data skipFields =
            replacedFields rest data skipFields := by
          simp [replacedFields, List.filter_cons, hs', hl]
        rw [hp] at h ⊢
        exact ih values ngql h
      | some x =>
        have hp : replacedFields ((f, d) :: rest) data skipFields =
            (f, d) :: replacedFields rest data skipFields := by
          simp [replacedFields, List.filter_cons, hs', hl]
        rw [hp] at h ⊢
        cases h with
        | @cons _ v _ vs hv hrest =>
          obtain ⟨y, hy, henc⟩ := hv
          simp only [] at hy henc
          rw [hl] at hy
          cases Option.some.inj hy
          simp only [henc]
          rw [ih vs _ hrest, List.zipWith_cons_cons, List.map_cons, Join_empty_cons]
          simp only [String.append_assoc]

/-- A run of the loop of `ReplaceVertex` that returns a text has encoded every schema field
that is not skipped and has an entry. -/
theorem replaceSetLoop_of_ok (L : Lib) (data : DataRecord) (skipFields : List String)
    (schema : Schema) (ngql r : String)
    (h : replaceSetLoop L data skipFields schema ngql = .ok r) :
    ∃ values, List.Forall₂ (encodes L data) (replacedFields schema data skipFields) values := by
  induction schema generalizing ngql with
  | nil => exact ⟨[], by simp [replacedFields]⟩
  | cons p rest ih =>
    obtain ⟨f, d⟩ := p
    unfold replaceSetLoop at h
    by_cases hs : IsStrInSlice f skipFields = true
    · have hp : replacedFields ((f, d) :: rest) data skipFields =
          replacedFields rest data skipFields := by
        simp [replacedFields, List.filter_cons, hs]
      rw [hp]
      simp only [hs, if_true] at h
      exact ih ngql h
    · have hs' : IsStrInSlice f skipFields = false := by simpa using hs
      simp only [hs', Bool.false_eq_true, if_false] at h
      cases hl : List.lookup f data with
      | none =>
        have hp : replacedFields ((f, d) :: rest) data skipFields =
            replacedFields rest data skipFields := by
          simp [replacedFields, List.filter_cons, hs', hl]
        rw [hp]
        rw [hl] at h
        exact ih ngql h
      | some x =>
        have hp : replacedFields ((f, d) :: rest) data skipFields =
            (f, d) :: replacedFields rest data skipFields := by
          simp [replacedFields, List.filter_cons, hs', hl]
        rw [hp]
        rw [hl] at h
        simp only [] at h
        cases henc : getNGQLValue L d x with
        | error e => simp [henc] at h
        | ok v =>
          rw [henc] at h
          obtain ⟨vs, hvs⟩ := ih _ h
          exact ⟨v :: vs, List.Forall₂.cons ⟨x, hl, henc⟩ hvs⟩

/-- C21 (amended): `ReplaceVertex` builds a statement exactly when no key of the data record is
illegal and every schema field that is assigned encodes; the statement is
`UPDATE VERTEX ON <tag> "<vid>" SET <field> = <value>, ...;` with one assignment, in range
order of the schema, for each schema field that is not named in `skipFields` and has an entry
in the data record, and no other assignment: a field named in `skipFields` is not assigned, and
neither is a field without an entry. A validated record makes `ReplaceVertex` send that
statement and nothing else. -/
theorem ReplaceVertex_assigned_fields {σ : Type} (L : Lib) (P : Pool σ) (st : Run σ)
    (tds : DataSchema) (skipFields : List String) (vid : String) :
    (∀ values, (∀ k ∈ tds.data.map Prod.fst, k = "vid" ∨ k ∈ fieldNames tds.schema) →
        List.Forall₂ (encodes L tds.data)
          (replacedFields tds.schema tds.data skipFields) values →
        replaceVertexNGQL L tds skipFields vid =
          .ok ("UPDATE VERTEX ON " ++ tds.name ++ " \"" ++ vid ++ "\" SET " ++
            Join (List.zipWith (fun p v => p.1 ++ " = " ++ v)
              (replacedFields tds.schema tds.data skipFields) values) ", " ++ ";")) ∧
      (∀ ngql, replaceVertexNGQL L tds skipFields vid = .ok ngql →
        ∃ values, List.Forall₂ (encodes L tds.data)
            (replacedFields tds.schema tds.data skipFields) values ∧
          ngql = "UPDATE VERTEX ON " ++ tds.name ++ " \"" ++ vid ++ "\" SET " ++
            Join (List.zipWith (fun p v => p.1 ++ " = " ++ v)
              (replacedFields tds.schema tds.data skipFields) values) ", " ++ ";") ∧
      (∀ p, p ∈ replacedFields tds.schema tds.data skipFields ↔
        p ∈ tds.schema ∧ p.1 ∉ skipFields ∧ List.lookup p.1 tds.data ≠ none) ∧
      (∀ ngql, List.lookup "vid" tds.data = some (.str vid) → vid ≠ "" →
        replaceVertexNGQL L tds skipFields vid = .ok ngql →
        (P.getSession st.db).1 = .ok () →
        (ReplaceVertex L P st tds skipFields).2.sent = st.sent ++ [sentText L P.space ngql]) := by
  have hbuild : ∀ values,
      (∀ k ∈ tds.data.map Prod.fst, k = "vid" ∨ k ∈ fieldNames tds.schema) →
      List.Forall₂ (encodes L tds.data)
        (replacedFields tds.schema tds.data skipFields) values →
      replaceVertexNGQL L tds skipFields vid =
        .ok ("UPDATE VERTEX ON " ++ tds.name ++ " \"" ++ vid ++ "\" SET " ++
          Join (List.zipWith (fun p v => p.1 ++ " = " ++ v)
            (replacedFields tds.schema tds.data skipFields) values) ", " ++ ";") := by
    intro values hleg henc
    unfold replaceVertexNGQL
    rw [(illegalField_none_iff tds.schema tds.data).mpr hleg]
    simp only []
    rw [replaceSetLoop_ok L tds.data skipFields tds.schema values _ henc]
    simp only []
    rw [TrimSuffix_entries_keep _ _ _ (TrimSuffix_SET _)]
  refine ⟨hbuild, ?_, ?_, ?_⟩
  · intro ngql hok
    have hleg : ∀ k ∈ tds.data.map Prod.fst, k = "vid" ∨ k ∈ fieldNames tds.schema := by
      rw [← illegalField_none_iff]
      cases hi : illegalField tds.schema tds.data with
      | none => rfl
      | some bad => simp [replaceVertexNGQL, hi] at hok
    have hi := (illegalField_none_iff tds.schema tds.data).mpr hleg
    cases hloop : replaceSetLoop L tds.data skipFields tds.schema
        ("UPDATE VERTEX ON " ++ tds.name ++ " \"" ++ vid ++ "\" SET ") with
    | error e => simp [replaceVertexNGQL, hi, hloop] at hok
    | ok r =>
      obtain ⟨values, hvals⟩ := replaceSetLoop_of_ok L tds.data skipFields tds.schema _ r hloop
      refine ⟨values, hvals, ?_⟩
      rw [hbuild values hleg hvals] at hok
      exact (Except.ok.inj hok).symm
  · intro p
    unfold replacedFields
    rw [List.mem_filter]
    have hs : IsStrInSlice p.1 skipFields = false ↔ p.1 ∉ skipFields := by
      rw [← IsStrInSlice_iff]
      simp
    cases hl : List.lookup p.1 tds.data <;> simp [hs]
  · intro ngql hvid hne hok hsess
    obtain ⟨hm, hz⟩ := mustString_of_lookup tds.data "vid" vid hvid
    unfold ReplaceVertex
    simp only [ValidateVertex, ValidateName, hz, hne, if_false, hm, hok]
    have hs := ConnectAndExcute_sent L P st ngql
    rw [hsess] at hs
    simp only [] at hs
    cases hc : ConnectAndExcute L P st ngql with
    | mk r st1 =>
      rw [hc] at hs
      cases r <;> exact hs

/-- C21 at concrete inputs: `ro` is skipped, `age` has no entry, `name` is assigned. -/
theorem ReplaceVertex_assigned_fields_witness :
    (ReplaceVertex asciiLib countingPool ⟨0, []⟩
        ⟨"person", [("name", "string"), ("age", "int"), ("ro", "int")],
          [("vid", .str "v1"), ("name", .str "Bob"), ("ro", .int .int 1)]⟩ ["ro"]).2.sent =
      [] ++ [sentText asciiLib countingPool.space
        "UPDATE VERTEX ON person \"v1\" SET name = \"Bob\";"] :=
  (ReplaceVertex_assigned_fields asciiLib countingPool ⟨0, []⟩
      ⟨"person", [("name", "string"), ("age", "int"), ("ro", "int")],
        [("vid", .str "v1"), ("name", .str "Bob"), ("ro", .int .int 1)]⟩ ["ro"]
      "v1").2.2.2 "UPDATE VERTEX ON person \"v1\" SET name = \"Bob\";" rfl (by decide) rfl rfl

/-- C21 as stated fails: the schema field `age` is not named in `skipFields`, which is empty,
and the statement that `ReplaceVertex` sends does not assign it, because the data record has no
entry for it. -/
theorem ReplaceVertex_skips_field_without_entry :
    ReplaceVertex asciiLib countingPool ⟨0, []⟩
        ⟨"person", [("name", "string"), ("age", "int")],
          [("vid", .str "v1"), ("name", .str "Bob")]⟩ [] =
      (none, ⟨1, ["USE test; UPDATE VERTEX ON person \"v1\" SET name = \"Bob\";"]⟩) := by
  rfl

/-- The expression `data[key].(string)` with the comma-ok form gives the empty text exactly
when the entry is missing, is not a string, or is the empty string. -/
theorem stringOrZero_eq_empty_iff (data : DataRecord) (key : String) :
    stringOrZero data key = "" ↔ ∀ s, List.lookup key data = some (.str s) → s = "" := by
  unfold stringOrZero
  cases hl : List.lookup key data with
  | none => simp
  | some v => cases v <;> simp

/-- C30: when the entry `vid` of the data record is missing, is not a string or is the empty
string, `InsertVertex`, `DeleteVertex`, `ReplaceVertex` and `UpdateVertex` return the error
`invalid vid` and leave the run as it was: no statement is sent and the database is not
touched. `InsertEdge` does the same, with its own error, when the entry `src_vid` or the entry
`dst_vid` is missing, is not a string or is the empty string. -/
theorem invalid_vid_refused {σ : Type} (L : Lib) (P : Pool σ) (st : Run σ) (tds : DataSchema)
    (flags skipFields updateFields : List String) :
    ((∀ s, List.lookup "vid" tds.data = some (.str s) → s = "") →
        InsertVertex L P st tds flags = (some (.err "invalid vid"), st) ∧
        DeleteVertex L P st tds = (some (.err "invalid vid"), st) ∧
        ReplaceVertex L P st tds skipFields = (some (.err "invalid vid"), st) ∧
        UpdateVertex L P st tds updateFields = (some (.err "invalid vid"), st)) ∧
      ((∀ s, List.lookup "src_vid" tds.data = some (.str s) → s = "") →
        InsertEdge L P st tds = (some (.err "invalid src_vid for edge"), st)) ∧
      ((∀ s, List.lookup "dst_vid" tds.data = some (.str s) → s = "") →
        InsertEdge L P st tds = (some (.err "invalid src_vid for edge"), st) ∨
        InsertEdge L P st tds = (some (.err "invalid dst_vid for edge"), st)) := by
  refine ⟨?_, ?_, ?_⟩
  · intro h
    have hz := (stringOrZero_eq_empty_iff tds.data "vid").mpr h
    refine ⟨?_, ?_, ?_, ?_⟩
    · simp [InsertVertex, ValidateVertex, ValidateName, hz]
    · simp [DeleteVertex, ValidateVertex, ValidateName, hz]
    · simp [ReplaceVertex, ValidateVertex, ValidateName, hz]
    · simp [UpdateVertex, ValidateVertex, ValidateName, hz]
  · intro h
    have hz := (stringOrZero_eq_empty_iff tds.data "src_vid").mpr h
    simp [InsertEdge, ValidateEdge, ValidateName, hz]
  · intro h
    have hz := (stringOrZero_eq_empty_iff tds.data "dst_vid").mpr h
    by_cases hs : stringOrZero tds.data "src_vid" = ""
    · left
      simp [InsertEdge, ValidateEdge, ValidateName, hs]
    · right
      simp [InsertEdge, ValidateEdge, ValidateName, hs, hz]

/-- C30 at concrete inputs: a record whose vid is a number and not a string. -/
theorem invalid_vid_refused_witness :
    ReplaceVertex asciiLib countingPool ⟨0, []⟩
        ⟨"person", [("name", "string")], [("vid", .int .int 7), ("name", .str "Bob")]⟩ [] =
      (some (.err "invalid vid"), ⟨0, []⟩) :=
  ((invalid_vid_refused asciiLib countingPool ⟨0, []⟩
      ⟨"person", [("name", "string")], [("vid", .int .int 7), ("name", .str "Bob")]⟩
      [] [] ["name"]).1 (by intro s h; simp [List.lookup] at h)).2.2.1

/-- The four branches that store a value in `ParseStringTable` choose the key of `specKey`. -/
theorem parseRow_key (i : Nat) (field : String) :
    (if i = 0 ∧ field = "VertexID" then "vid"
      else if i = 0 ∧ field = "SrcVID" then "src_vid"
      else if i = 1 ∧ field = "DstVID" then "dst_vid" else field) = specKey i field := by
  by_cases h1 : i = 0 ∧ field = "VertexID"
  · obtain ⟨rfl, rfl⟩ := h1
    rfl
  · by_cases h2 : i = 0 ∧ field = "SrcVID"
    · obtain ⟨rfl, rfl⟩ := h2
      rfl
    · by_cases h3 : i = 1 ∧ field = "DstVID"
      · obtain ⟨rfl, rfl⟩ := h3
        rfl
      · simp only [h1, h2, h3, if_false]
        unfold specKey
        split <;> simp_all

/-- One round of the loop over the fields: the cell is decoded by `cellDef` and the value is
assigned under `specKey`. -/
theorem parseRow_cons (L : Lib) (schema : Schema) (table_title row : List String) (i : Nat)
    (field : String) (rest : List String) (rowData : DataRecord) (title cell : String)
    (ht : table_title[i]? = some title) (hc : row[i]? = some cell) :
    parseRow L schema table_title row i (field :: rest) rowData =
      match getRealValue L (cellDef schema title field) cell with
      | .error f => .error f
      | .ok fieldVal =>
        parseRow L schema table_title row (i + 1) rest
          (mapSet rowData (specKey i field) fieldVal) := by
  rw [parseRow]
  simp only [ht, hc, cellDef]
  cases getRealValue L (if title = "vid" ∨ title = "VertexID" ∨ title = "edgeType" then "string"
      else (List.lookup field schema).getD "") cell with
  | error f => rfl
  | ok v =>
    simp only []
    rw [← parseRow_key]
    split
    · rfl
    · split
      · rfl
      · split <;> rfl

/-- The loop over the fields in closed form: it returns a record exactly when every cell is
there and decodes, and the record holds the values assigned in order under the keys of
`specKey`. -/
theorem parseRow_ok_iff (L : Lib) (schema : Schema) (table_title row : List String) (i : Nat)
    (fields : List String) (rowData rec : DataRecord) :
    parseRow L schema table_title row i fields rowData = .ok rec ↔
      ∃ vals, List.Forall₂ (cellValue L schema table_title row) (fields.enumFrom i) vals ∧
        rec = assignAll rowData ((fields.enumFrom i).map (fun p => specKey p.1 p.2)) vals := by
  induction fields generalizing i rowData with
  | nil =>
    simp only [parseRow, List.enumFrom_nil, List.forall₂_nil_left_iff, List.map_nil,
      exists_eq_left, assignAll, List.zip_nil_left, List.foldl_nil]
    constructor
    · intro h
      exact (Except.ok.inj h).symm
    · intro h
      rw [h]
  | cons field rest ih =>
    simp only [List.enumFrom_cons, List.map_cons]
    constructor
    · intro h
      cases ht : table_title[i]? with
      | none => simp [parseRow, ht] at h
      | some title =>
        cases hc : row[i]? with
        | none => simp [parseRow, ht, hc] at h
        | some cell =>
          rw [parseRow_cons L schema table_title row i field rest rowData title cell ht hc] at h
          cases hv : getRealValue L (cellDef schema title field) cell with
          | error f => simp [hv] at h
          | ok v =>
            rw [hv] at h
            obtain ⟨vals, hvals, hrec⟩ := (ih (i + 1) _).mp h
            refine ⟨v :: vals, List.Forall₂.cons ⟨title, cell, ht, hc, hv⟩ hvals, ?_⟩
            rw [hrec]
            rfl
    · rintro ⟨vals, hvals, hrec⟩
      cases hvals with
      | @cons _ v _ vs hv hrest =>
        obtain ⟨title, cell, ht, hc, hval⟩ := hv
        simp only [] at ht hc hval
        rw [parseRow_cons L schema table_title row i field rest rowData title cell ht hc, hval]
        simp only []
        rw [ih (i + 1) _]
        exact ⟨vs, hrest, hrec⟩

/-- The loop over the data rows in closed form: it returns the records exactly when every row
gives one, and it appends them in row order. -/
theorem parseRows_ok_iff (L : Lib) (schema : Schema) (fields table_title : List String)
    (rows : List (List String)) (resData recs : List DataRecord) :
    parseRows L schema fields table_title rows resData = .ok recs ↔
      ∃ new, List.Forall₂ (fun row rec => parseRow L schema table_title row 0 fields [] = .ok rec)
          rows new ∧ recs = resData ++ new := by
  induction rows generalizing resData with
  | nil =>
    simp only [parseRows, List.forall₂_nil_left_iff, exists_eq_left, List.append_nil]
    constructor
    · intro h
      exact (Except.ok.inj h).symm
    · intro h
      rw [h]
  | cons row rest ih =>
    unfold parseRows
    constructor
    · intro h
      cases hr : parseRow L schema table_title row 0 fields [] with
      | error f => simp [hr] at h
      | ok rowData =>
        rw [hr] at h
        obtain ⟨new, hnew, hrecs⟩ := (ih _).mp h
        refine ⟨rowData :: new, List.Forall₂.cons hr hnew, ?_⟩
        rw [hrecs, List.append_assoc]
        rfl
    · rintro ⟨new, hnew, hrecs⟩
      cases hnew with
      | @cons _ r _ rs hr hrest =>
        rw [hr]
        simp only []
        rw [ih _]
        refine ⟨rs, hrest, ?_⟩
        rw [hrecs, List.append_assoc]
        rfl

/-- Reading a record after an assignment. -/
theorem lookup_mapSet (m : DataRecord) (key k : String) (val : Value) :
    List.lookup k (mapSet m key val) = if key = k then some val else List.lookup k m := by
  induction m with
  | nil =>
    by_cases h : key = k
    · subst h
      simp [mapSet, List.lookup]
    · have h' : (k == key) = false := by
        rw [beq_eq_false_iff_ne]
        exact fun e => h e.symm
      simp [mapSet, List.lookup, h, h']
  | cons p rest ih =>
    obtain ⟨k0, v0⟩ := p
    unfold mapSet
    by_cases h0 : k0 = key
    · subst h0
      by_cases h : k0 = k
      · subst h
        simp [List.lookup]
      · have h' : (k == k0) = false := by
          rw [beq_eq_false_iff_ne]
          exact fun e => h e.symm
        simp [List.lookup, h, h']
    · simp only [h0, if_false]
      by_cases h1 : k = k0
      · subst h1
        have h2 : ¬ key = k := fun e => h0 e.symm
        simp [List.lookup, h2]
      · have h' : (k == k0) = false := by
          rw [beq_eq_false_iff_ne]
          exact h1
        simp only [List.lookup, h']
        exact ih

/-- Assignments under other keys do not change what a key reads. -/
theorem lookup_assignAll_of_not_mem (keys : List String) (vals : List Value)
    (rowData : DataRecord) (k : String) (h : k ∉ keys) :
    List.lookup k (assignAll rowData keys vals) = List.lookup k rowData := by
  induction keys generalizing vals rowData with
  | nil => simp [assignAll]
  | cons k1 ks ih =>
    cases vals with
    | nil => simp [assignAll]
    | cons v1 vs =>
      have h1 : ¬ k1 = k := fun e => h (by simp [e])
      have h2 : k ∉ ks := fun e => h (by simp [e])
      have := ih vs (mapSet rowData k1 v1) h2
      unfold assignAll at this ⊢
      simp only [List.zip_cons_cons, List.foldl_cons]
      rw [this, lookup_mapSet, if_neg h1]

/-- When no key is assigned twice, each key reads the value assigned under it. -/
theorem lookup_assignAll (keys : List String) (vals : List Value) (rowData : DataRecord)
    (k : String) (v : Value) (hnd : keys.Nodup) (h : (k, v) ∈ List.zip keys vals) :
    List.lookup k (assignAll rowData keys vals) = some v := by
  induction keys generalizing vals rowData with
  | nil => simp at h
  | cons k1 ks ih =>
    cases vals with
    | nil => simp at h
    | cons v1 vs =>
      rw [List.zip_cons_cons, List.mem_cons] at h
      rw [List.nodup_cons] at hnd
      have e : assignAll rowData (k1 :: ks) (v1 :: vs) =
          assignAll (mapSet rowData k1 v1) ks vs := rfl
      rw [e]
      rcases h with h | h
      · cases h
        rw [lookup_assignAll_of_not_mem ks vs _ k hnd.1, lookup_mapSet, if_pos rfl]
      · exact ih vs _ hnd.2 h

/-- C25: `ParseStringTable` returns the empty sequence of records, and no error, for every
table of at most one row, whatever the fields and the schema. For a table of a header row and
`n` data rows it returns records exactly when the loop over the fields returns one for every
data row; there are then `n` records, and the record at each position is the one decoded from
the data row at that position. -/
theorem ParseStringTable_records (L : Lib) (table : List (List String)) (fields : List String)
    (schema : Schema) :
    (table.length ≤ 1 → ParseStringTable L table fields schema = .ok []) ∧
      (∀ table_title rows, table = table_title :: rows →
        (∀ recs, ParseStringTable L table fields schema = .ok recs ↔
          List.Forall₂
            (fun row rec => parseRow L schema table_title row 0 fields [] = .ok rec) rows recs) ∧
        (∀ recs, ParseStringTable L table fields schema = .ok recs →
          recs.length = rows.length ∧
          ∀ (i : Nat) (hi : i < rows.length) (hr : i < recs.length),
            parseRow L schema table_title (rows.get ⟨i, hi⟩) 0 fields [] =
              .ok (recs.get ⟨i, hr⟩))) := by
  have hiff : ∀ table_title rows recs,
      ParseStringTable L (table_title :: rows) fields schema = .ok recs ↔
        List.Forall₂
          (fun row rec => parseRow L schema table_title row 0 fields [] = .ok rec) rows recs := by
    intro table_title rows recs
    unfold ParseStringTable
    cases rows with
    | nil =>
      simp only [List.length_singleton, le_refl, if_true, List.forall₂_nil_left_iff]
      constructor
      · intro h
        exact (Except.ok.inj h).symm
      · intro h
        rw [h]
    | cons row rest =>
      have hlen : ¬ (table_title :: row :: rest).length ≤ 1 := by simp
      simp only [hlen, if_false]
      rw [parseRows_ok_iff]
      simp only [List.nil_append]
      constructor
      · rintro ⟨new, hnew, rfl⟩
        exact hnew
      · intro h
        exact ⟨recs, h, rfl⟩
  refine ⟨?_, ?_⟩
  · intro h
    unfold ParseStringTable
    rw [if_pos h]
  · intro table_title rows htable
    subst htable
    refine ⟨hiff table_title rows, ?_⟩
    intro recs hok
    have hall := (hiff table_title rows recs).mp hok
    refine ⟨hall.length_eq.symm, ?_⟩
    intro i hi hr
    exact (List.forall₂_iff_get.mp hall).2 i hi hr

/-- C25 at concrete inputs: two data rows give two records, in row order. -/
theorem ParseStringTable_records_witness :
    ParseStringTable asciiLib [["VertexID", "age"], ["\"v1\"", "30"], ["\"v2\"", "41"]]
        ["VertexID", "age"] [("age", "INT")] =
      .ok [[("vid", .str "v1"), ("age", .int .int64 30)],
        [("vid", .str "v2"), ("age", .int .int64 41)]] :=
  (((ParseStringTable_records asciiLib
      [["VertexID", "age"], ["\"v1\"", "30"], ["\"v2\"", "41"]] ["VertexID", "age"]
      [("age", "INT")]).2 ["VertexID", "age"] [["\"v1\"", "30"], ["\"v2\"", "41"]] rfl).1
    [[("vid", .str "v1"), ("age", .int .int64 30)],
      [("vid", .str "v2"), ("age", .int .int64 41)]]).mpr
    (List.Forall₂.cons rfl (List.Forall₂.cons rfl List.Forall₂.nil))

/-- The STRING decoding of a cell: the empty text for a null marker, else the cell without one
leading and one trailing double quote. -/
theorem getRealValue_string (L : Lib) (hL : typeKeyword L "string" = "STRING")
    (cell : String) :
    getRealValue L "string" cell =
      .ok (.str (if cell = "__NULL__" ∨ cell = "UNKNOWN_PROP" then "" else trim cell)) := by
  obtain ⟨first, rest, hs, hk⟩ := keyword_split L "string"
  rw [hL] at hk
  simp only [getRealValue, hs, ← hk]
  by_cases h1 : cell = "UNKNOWN_PROP"
  · simp [h1]
  · by_cases h2 : cell = "__NULL__"
    · simp [h2]
    · simp [h1, h2]

/-- C26: in the loop over the fields of `ParseStringTable`, a column whose header cell is
`vid`, `VertexID` or `edgeType` is decoded as STRING whatever the schema declares for the
field: the value of the round is the cell without one leading and one trailing double quote
(the empty text for a null marker), it is the only value that `cellValue` relates to the
column, and the round stores it and goes on to the next column. For a cell that is a text `s`
in double quotes the value is `s`. -/
theorem reserved_header_decodes_STRING (L : Lib) (hL : typeKeyword L "string" = "STRING")
    (schema : Schema) (table_title row : List String) (i : Nat) (field : String)
    (rest : List String) (rowData : DataRecord) (title cell : String)
    (ht : table_title[i]? = some title)
    (hres : title = "vid" ∨ title = "VertexID" ∨ title = "edgeType")
    (hc : row[i]? = some cell) :
    parseRow L schema table_title row i (field :: rest) rowData =
        parseRow L schema table_title row (i + 1) rest
          (mapSet rowData (specKey i field)
            (.str (if cell = "__NULL__" ∨ cell = "UNKNOWN_PROP" then ""
              else TrimSuffix (TrimPrefix cell "\"") "\""))) ∧
      (∀ v, cellValue L schema table_title row (i, field) v ↔
        v = .str (if cell = "__NULL__" ∨ cell = "UNKNOWN_PROP" then ""
          else TrimSuffix (TrimPrefix cell "\"") "\"")) ∧
      (∀ s, cell = "\"" ++ s ++ "\"" →
        parseRow L schema table_title row i (field :: rest) rowData =
          parseRow L schema table_title row (i + 1) rest
            (mapSet rowData (specKey i field) (.str s))) := by
  have hdef : cellDef schema title field = "string" := by
    unfold cellDef
    rw [if_pos hres]
  have htrim : trim cell = TrimSuffix (TrimPrefix cell "\"") "\"" := rfl
  have hrow : parseRow L schema table_title row i (field :: rest) rowData =
      parseRow L schema table_title row (i + 1) rest
        (mapSet rowData (specKey i field)
          (.str (if cell = "__NULL__" ∨ cell = "UNKNOWN_PROP" then ""
            else TrimSuffix (TrimPrefix cell "\"") "\""))) := by
    rw [parseRow_cons L schema table_title row i field rest rowData title cell ht hc, hdef,
      getRealValue_string L hL, htrim]
  refine ⟨hrow, ?_, ?_⟩
  · intro v
    unfold cellValue
    simp only [ht, hc, Option.some.injEq]
    constructor
    · rintro ⟨t, c, rfl, rfl, hv⟩
      rw [hdef, getRealValue_string L hL, htrim] at hv
      exact (Except.ok.inj hv).symm
    · intro hv
      refine ⟨title, cell, rfl, rfl, ?_⟩
      rw [hdef, getRealValue_string L hL, htrim, hv]
  · intro s hs
    rw [hrow, ← htrim, hs, trim_quoted,
      if_neg (by
        intro h
        rcases h with h | h
        · exact (quoted_ne_marker s).2 h
        · exact (quoted_ne_marker s).1 h)]

/-- C26 at concrete inputs: the schema declares the field `VertexID` as INT and the cell under
the header `VertexID`, the text `12` in double quotes, is still decoded as the string `12`. -/
theorem reserved_header_decodes_STRING_witness :
    ParseStringTable asciiLib [["VertexID"], ["\"12\""]] ["VertexID"] [("VertexID", "INT")] =
        .ok [[("vid", .str "12")]] ∧
      parseRow asciiLib [("VertexID", "INT")] ["VertexID"] ["\"12\""] 0 ["VertexID"] [] =
        parseRow asciiLib [("VertexID", "INT")] ["VertexID"] ["\"12\""] 1 []
          (mapSet [] (specKey 0 "VertexID") (.str "12")) :=
  ⟨rfl, (reserved_header_decodes_STRING asciiLib rfl [("VertexID", "INT")] ["VertexID"]
    ["\"12\""] 0 "VertexID" [] [] "VertexID" "\"12\"" rfl (Or.inr (Or.inl rfl)) rfl).2.2
    "12" rfl⟩

/-- C27: every record that `ParseStringTable` returns comes from a data row whose cells all
decode, and holds the decoded values assigned in field order under these keys: `vid` for the
field `VertexID` at position 0, `src_vid` for the field `SrcVID` at position 0, `dst_vid` for
the field `DstVID` at position 1, and the name of the field itself in every other case. When
no key is assigned twice, each key of the record reads the value decoded for its field. -/
theorem ParseStringTable_keys (L : Lib) (table_title : List String) (rows : List (List String))
    (fields : List String) (schema : Schema) (recs : List DataRecord)
    (h : ParseStringTable L (table_title :: rows) fields schema = .ok recs) :
    (∀ rec ∈ recs, ∃ row ∈ rows, ∃ vals,
        List.Forall₂ (cellValue L schema table_title row) (fields.enumFrom 0) vals ∧
        rec = assignAll [] ((fields.enumFrom 0).map (fun p => specKey p.1 p.2)) vals ∧
        (((fields.enumFrom 0).map (fun p => specKey p.1 p.2)).Nodup →
          ∀ k v, (k, v) ∈ List.zip ((fields.enumFrom 0).map (fun p => specKey p.1 p.2)) vals →
            List.lookup k rec = some v)) ∧
      specKey 0 "VertexID" = "vid" ∧ specKey 0 "SrcVID" = "src_vid" ∧
      specKey 1 "DstVID" = "dst_vid" ∧
      (∀ i field, ¬ (i = 0 ∧ field = "VertexID") → ¬ (i = 0 ∧ field = "SrcVID") →
        ¬ (i = 1 ∧ field = "DstVID") → specKey i field = field) := by
  refine ⟨?_, rfl, rfl, rfl, ?_⟩
  · intro rec hrec
    have hall := ((ParseStringTable_records L (table_title :: rows) fields schema).2
      table_title rows rfl).1 recs |>.mp h
    obtain ⟨i, hi⟩ := List.mem_iff_get.mp hrec
    have hlen := hall.length_eq
    have hrow := (List.forall₂_iff_get.mp hall).2 i.1 (by rw [hlen]; exact i.2) i.2
    rw [hi] at hrow
    obtain ⟨vals, hvals, hassign⟩ :=
      (parseRow_ok_iff L schema table_title _ 0 fields [] rec).mp hrow
    refine ⟨_, List.get_mem _ _ _, vals, hvals, hassign, ?_⟩
    intro hnd k v hkv
    rw [hassign]
    exact lookup_assignAll _ _ _ k v hnd hkv
  · intro i field h1 h2 h3
    rw [← parseRow_key, if_neg h1, if_neg h2, if_neg h3]

/-- C27 at concrete inputs: the example of the header `VertexID`, `age` and the row `"v1"`,
`30` with the schema that declares `age` as INT; the one record has the keys `vid` and
`age`. -/
theorem ParseStringTable_keys_witness :
    ParseStringTable asciiLib [["VertexID", "age"], ["\"v1\"", "30"]] ["VertexID", "age"]
        [("age", "INT")] = .ok [[("vid", .str "v1"), ("age", .int .int64 30)]] ∧
      ∃ row ∈ [["\"v1\"", "30"]], ∃ vals,
        List.Forall₂ (cellValue asciiLib [("age", "INT")] ["VertexID", "age"] row)
          (["VertexID", "age"].enumFrom 0) vals ∧
        [("vid", Value.str "v1"), ("age", Value.int .int64 30)] =
          assignAll [] ((["VertexID", "age"].enumFrom 0).map (fun p => specKey p.1 p.2)) vals :=
  ⟨rfl, ((ParseStringTable_keys asciiLib ["VertexID", "age"] [["\"v1\"", "30"]]
    ["VertexID", "age"] [("age", "INT")] [[("vid", .str "v1"), ("age", .int .int64 30)]] rfl).1
    [("vid", .str "v1"), ("age", .int .int64 30)] (List.mem_singleton.mpr rfl)).elim
    (fun row hrow => ⟨row, hrow.1, hrow.2.elim (fun vals hv => ⟨vals, hv.1, hv.2.1⟩)⟩)⟩

/-- The test of `executeNqgl` on a statement is the test `beginsWithUSE`. -/
theorem HasPrefix_USE (L : Lib) (ngql : String) :
    HasPrefix (ToUpper L (TrimSpace ngql)) "USE" = beginsWithUSE L ngql := by
  unfold HasPrefix ToUpper beginsWithUSE
  have e : "USE".data = ['U', 'S', 'E'] := rfl
  rw [e]
  rcases (TrimSpace ngql).data with _ | ⟨a, _ | ⟨b, _ | ⟨c, rest⟩⟩⟩
  · simp [List.isPrefixOf]
  · simp [List.isPrefixOf]
  · simp [List.isPrefixOf]
  · simp only [List.isPrefixOf]
    rw [Bool.eq_iff_iff]
    simp only [Bool.and_eq_true, beq_iff_eq, Bool.and_true, decide_eq_true_eq]
    constructor <;> rintro ⟨h1, h2, h3⟩ <;> exact ⟨h1.symm, h2.symm, h3.symm⟩

/-- C28: `executeNqgl` hands one text to the session and sends nothing else: the statement
itself when, after trimming surrounding white space and uppercasing, it begins with USE, and
otherwise the statement behind `USE <space>; `. -/
theorem executeNqgl_USE_first {σ : Type} (L : Lib) (P : Pool σ) (st : Run σ) (ngql : String) :
    (beginsWithUSE L ngql = true →
        (executeNqgl L P st ngql).2 = ⟨(P.execute st.db ngql).2, st.sent ++ [ngql]⟩) ∧
      (beginsWithUSE L ngql = false →
        (executeNqgl L P st ngql).2 =
          ⟨(P.execute st.db ("USE " ++ P.space ++ "; " ++ ngql)).2,
            st.sent ++ ["USE " ++ P.space ++ "; " ++ ngql]⟩) := by
  constructor
  · intro h
    unfold executeNqgl
    simp only [HasPrefix_USE, h, Bool.not_true, Bool.false_eq_true, if_false]
    split
    · rfl
    · split <;> rfl
  · intro h
    unfold executeNqgl
    simp only [HasPrefix_USE, h, Bool.not_false, if_true]
    split
    · rfl
    · split <;> rfl

/-- C28 at concrete inputs: a statement that begins with `use` in lower case behind a blank is
sent unchanged, another one is sent behind `USE test; `. -/
theorem executeNqgl_USE_first_witness :
    (executeNqgl asciiLib countingPool ⟨0, []⟩ " use other; SHOW TAGS").2 =
        ⟨(countingPool.execute 0 " use other; SHOW TAGS").2, [] ++ [" use other; SHOW TAGS"]⟩ ∧
      (executeNqgl asciiLib countingPool ⟨0, []⟩ "SHOW TAGS").2 =
        ⟨(countingPool.execute 0 ("USE " ++ countingPool.space ++ "; " ++ "SHOW TAGS")).2,
          [] ++ ["USE " ++ countingPool.space ++ "; " ++ "SHOW TAGS"]⟩ :=
  ⟨(executeNqgl_USE_first asciiLib countingPool ⟨0, []⟩ " use other; SHOW TAGS").1 rfl,
    (executeNqgl_USE_first asciiLib countingPool ⟨0, []⟩ "SHOW TAGS").2 rfl⟩

/-- A run of the host loop without error has appended a trimmed, non-empty host for every
piece. -/
theorem hostLoop_ok (vals hosts hosts1 : List String) (h : hostLoop vals hosts = (none, hosts1))
    (hne : "" ∉ hosts) : "" ∉ hosts1 ∧ (vals ≠ [] → hosts1 ≠ []) := by
  induction vals generalizing hosts with
  | nil =>
    simp only [hostLoop, Prod.mk.injEq, true_and] at h
    subst h
    exact ⟨hne, fun hc => absurd rfl hc⟩
  | cons val rest ih =>
    unfold hostLoop at h
    by_cases he : TrimSpace val = ""
    · simp [he] at h
    · simp only [he, if_false] at h
      have hne1 : "" ∉ hosts ++ [TrimSpace val] := by
        simp only [List.mem_append, List.mem_singleton, not_or]
        exact ⟨hne, fun e => he e.symm⟩
      obtain ⟨h1, _⟩ := ih _ h hne1
      refine ⟨h1, fun _ => ?_⟩
      cases rest with
      | nil =>
        simp only [hostLoop, Prod.mk.injEq, true_and] at h
        subst h
        simp
      | cons r rs => exact (ih _ h hne1).2 (by simp)

/-- What a run of the loop of `getNebulaConfig` without error establishes: each variable is
valid when it was valid before or its key is among the entries. -/
theorem configLoop_ok (entries : List (Value × Value)) (c c1 : NebulaConfig)
    (h : configLoop entries c = (none, c1)) (hne : "" ∉ c.NebulaHosts) :
    "" ∉ c1.NebulaHosts ∧
      ((c.NebulaHosts ≠ [] ∨ Value.str "host" ∈ entries.map Prod.fst) → c1.NebulaHosts ≠ []) ∧
      ((0 < c.NebulaPort ∨ Value.str "port" ∈ entries.map Prod.fst) → 0 < c1.NebulaPort) ∧
      ((c.NebulaUser ≠ "" ∨ Value.str "user" ∈ entries.map Prod.fst) → c1.NebulaUser ≠ "") ∧
      ((c.NebulaSpace ≠ "" ∨ Value.str "space" ∈ entries.map Prod.fst) →
        c1.NebulaSpace ≠ "") := by
  induction entries generalizing c with
  | nil =>
    simp only [configLoop, Prod.mk.injEq, true_and] at h
    subst h
    simp [hne]
  | cons p rest ih =>
    obtain ⟨k, v⟩ := p
    cases k with
    | str key =>
      unfold configLoop at h
      simp only [List.map_cons, List.mem_cons, Value.str.injEq]
      by_cases h1 : key = "host"
      · subst h1
        simp only [if_true] at h
        by_cases hs : asString v = ""
        · simp [hs] at h
        · simp only [hs, if_false] at h
          cases hl : hostLoop (Split (asString v) ',') c.NebulaHosts with
          | mk e hosts =>
            rw [hl] at h
            cases e with
            | some e => simp at h
            | none =>
              simp only [] at h
              have hsplit : Split (asString v) ',' ≠ [] := by
                unfold Split
                simp only [ne_eq, List.map_eq_nil_iff]
                exact splitChars_ne_nil _ _
              obtain ⟨hh1, hh2⟩ := hostLoop_ok _ _ _ hl hne
              have hh3 := hh2 hsplit
              have hlen : ¬ hosts.length ≤ 0 := by
                cases hosts with
                | nil => exact absurd rfl hh3
                | cons a b => simp
              simp only [hlen, if_false] at h
              obtain ⟨i1, i2, i3, i4, i5⟩ := ih _ h hh1
              refine ⟨i1, fun _ => i2 (Or.inl hh3), ?_, ?_, ?_⟩
              · rintro (hp | hp | hp)
                · exact i3 (Or.inl hp)
                · exact absurd hp (by decide)
                · exact i3 (Or.inr hp)
              · rintro (hp | hp | hp)
                · exact i4 (Or.inl hp)
                · exact absurd hp (by decide)
                · exact i4 (Or.inr hp)
              · rintro (hp | hp | hp)
                · exact i5 (Or.inl hp)
                · exact absurd hp (by decide)
                · exact i5 (Or.inr hp)
      · simp only [h1, if_false] at h
        by_cases h2 : key = "port"
        · subst h2
          simp only [if_true] at h
          by_cases hp0 : asInt v ≤ 0
          · simp [hp0] at h
          · simp only [hp0, if_false] at h
            obtain ⟨i1, i2, i3, i4, i5⟩ := ih _ h hne
            refine ⟨i1, ?_, fun _ => i3 (Or.inl (by simpa using hp0)), ?_, ?_⟩
            · rintro (hp | hp | hp)
              · exact i2 (Or.inl hp)
              · exact absurd hp (by decide)
              · exact i2 (Or.inr hp)
            · rintro (hp | hp | hp)
              · exact i4 (Or.inl hp)
              · exact absurd hp (by decide)
              · exact i4 (Or.inr hp)
            · rintro (hp | hp | hp)
              · exact i5 (Or.inl hp)
              · exact absurd hp (by decide)
              · exact i5 (Or.inr hp)
        · simp only [h2, if_false] at h
          by_cases h3 : key = "user"
          · subst h3
            simp only [if_true] at h
            by_cases hu : TrimSpace (asString v) = ""
            · simp [hu] at h
            · simp only [hu, if_false] at h
              obtain ⟨i1, i2, i3, i4, i5⟩ := ih _ h hne
              refine ⟨i1, ?_, ?_, fun _ => i4 (Or.inl hu), ?_⟩
              · rintro (hp | hp | hp)
                · exact i2 (Or.inl hp)
                · exact absurd hp (by decide)
                · exact i2 (Or.inr hp)
              · rintro (hp | hp | hp)
                · exact i3 (Or.inl hp)
                · exact absurd hp (by decide)
                · exact i3 (Or.inr hp)
              · rintro (hp | hp | hp)
                · exact i5 (Or.inl hp)
                · exact absurd hp (by decide)
                · exact i5 (Or.inr hp)
          · simp only [h3, if_false] at h
            by_cases h4 : key = "password"
            · subst h4
              simp only [if_true] at h
              obtain ⟨i1, i2, i3, i4, i5⟩ := ih _ h hne
              refine ⟨i1, ?_, ?_, ?_, ?_⟩
              · rintro (hp | hp | hp)
                · exact i2 (Or.inl hp)
                · exact absurd hp (by decide)
                · exact i2 (Or.inr hp)
              · rintro (hp | hp | hp)
                · exact i3 (Or.inl hp)
                · exact absurd hp (by decide)
                · exact i3 (Or.inr hp)
              · rintro (hp | hp | hp)
                · exact i4 (Or.inl hp)
                · exact absurd hp (by decide)
                · exact i4 (Or.inr hp)
              · rintro (hp | hp | hp)
                · exact i5 (Or.inl hp)
                · exact absurd hp (by decide)
                · exact i5 (Or.inr hp)
            · simp only [h4, if_false] at h
              by_cases h5 : key = "space"
              · subst h5
                simp only [if_true] at h
                by_cases hu : TrimSpace (asString v) = ""
                · simp [hu] at h
                · simp only [hu, if_false] at h
                  obtain ⟨i1, i2, i3, i4, i5⟩ := ih _ h hne
                  refine ⟨i1, ?_, ?_, ?_, fun _ => i5 (Or.inl hu)⟩
                  · rintro (hp | hp | hp)
                    · exact i2 (Or.inl hp)
                    · exact absurd hp (by decide)
                    · exact i2 (Or.inr hp)
                  · rintro (hp | hp | hp)
                    · exact i3 (Or.inl hp)
                    · exact absurd hp (by decide)
                    · exact i3 (Or.inr hp)
                  · rintro (hp | hp | hp)
                    · exact i4 (Or.inl hp)
                    · exact absurd hp (by decide)
                    · exact i4 (Or.inr hp)
              · simp [h5] at h
    | _ => simp [configLoop] at h

/-- A variable whose key is not among the entries is as it was after a run of the loop of
`getNebulaConfig` without error. -/
theorem configLoop_keeps (entries : List (Value × Value)) (c c1 : NebulaConfig)
    (h : configLoop entries c = (none, c1)) :
    (Value.str "host" ∉ entries.map Prod.fst → c1.NebulaHosts = c.NebulaHosts) ∧
      (Value.str "port" ∉ entries.map Prod.fst → c1.NebulaPort = c.NebulaPort) ∧
      (Value.str "user" ∉ entries.map Prod.fst → c1.NebulaUser = c.NebulaUser) ∧
      (Value.str "space" ∉ entries.map Prod.fst → c1.NebulaSpace = c.NebulaSpace) := by
  induction entries generalizing c with
  | nil =>
    simp only [configLoop, Prod.mk.injEq, true_and] at h
    subst h
    simp
  | cons p rest ih =>
    obtain ⟨k, v⟩ := p
    cases k with
    | str key =>
      unfold configLoop at h
      simp only [List.map_cons, List.mem_cons, Value.str.injEq, not_or]
      by_cases h1 : key = "host"
      · subst h1
        simp only [if_true] at h
        by_cases hs : asString v = ""
        · simp [hs] at h
        · simp only [hs, if_false] at h
          cases hl : hostLoop (Split (asString v) ',') c.NebulaHosts with
          | mk e hosts =>
            rw [hl] at h
            cases e with
            | some e => simp at h
            | none =>
              simp only [] at h
              by_cases hlen : hosts.length ≤ 0
              · simp [hlen] at h
              · simp only [hlen, if_false] at h
                obtain ⟨i2, i3, i4, i5⟩ := ih _ h
                exact ⟨fun hp => absurd rfl hp.1, fun hp => i3 hp.2, fun hp => i4 hp.2,
                  fun hp => i5 hp.2⟩
      · simp only [h1, if_false] at h
        by_cases h2 : key = "port"
        · subst h2
          simp only [if_true] at h
          by_cases hp0 : asInt v ≤ 0
          · simp [hp0] at h
          · simp only [hp0, if_false] at h
            obtain ⟨i2, i3, i4, i5⟩ := ih _ h
            exact ⟨fun hp => i2 hp.2, fun hp => absurd rfl hp.1, fun hp => i4 hp.2,
              fun hp => i5 hp.2⟩
        · simp only [h2, if_false] at h
          by_cases h3 : key = "user"
          · subst h3
            simp only [if_true] at h
            by_cases hu : TrimSpace (asString v) = ""
            · simp [hu] at h
            · simp only [hu, if_false] at h
              obtain ⟨i2, i3, i4, i5⟩ := ih _ h
              exact ⟨fun hp => i2 hp.2, fun hp => i3 hp.2, fun hp => absurd rfl hp.1,
                fun hp => i5 hp.2⟩
          · simp only [h3, if_false] at h
            by_cases h4 : key = "password"
            · subst h4
              simp only [if_true] at h
              obtain ⟨i2, i3, i4, i5⟩ := ih _ h
              exact ⟨fun hp => i2 hp.2, fun hp => i3 hp.2, fun hp => i4 hp.2,
                fun hp => i5 hp.2⟩
            · simp only [h4, if_false] at h
              by_cases h5 : key = "space"
              · subst h5
                simp only [if_true] at h
                by_cases hu : TrimSpace (asString v) = ""
                · simp [hu] at h
                · simp only [hu, if_false] at h
                  obtain ⟨i2, i3, i4, i5⟩ := ih _ h
                  exact ⟨fun hp => i2 hp.2, fun hp => i3 hp.2, fun hp => i4 hp.2,
                    fun hp => absurd rfl hp.1⟩
              · simp [h5] at h
    | _ => simp [configLoop] at h

/-- C29 (what the code does): a run of `getNebulaConfig` on the unset variables that returns no
error has checked the variables whose keys are among the entries of `nebula_info`, and no
others: no host is empty; the host list is non-empty when there is an entry `host`, the port is
greater than zero when there is an entry `port`, the user is non-empty when there is an entry
`user` and the space is non-empty when there is an entry `space`. A variable whose key is
missing keeps its zero value and the run still returns no error. -/
theorem getNebulaConfig_validates_present_keys (nebulaConfigRaw : Option (List (Value × Value)))
    (c1 : NebulaConfig) (h : getNebulaConfig nebulaConfigRaw unsetConfig = (none, c1)) :
    ∃ entries, nebulaConfigRaw = some entries ∧ "" ∉ c1.NebulaHosts ∧
      (Value.str "host" ∈ entries.map Prod.fst → c1.NebulaHosts ≠ []) ∧
      (Value.str "port" ∈ entries.map Prod.fst → 0 < c1.NebulaPort) ∧
      (Value.str "user" ∈ entries.map Prod.fst → c1.NebulaUser ≠ "") ∧
      (Value.str "space" ∈ entries.map Prod.fst → c1.NebulaSpace ≠ "") ∧
      (Value.str "host" ∉ entries.map Prod.fst → c1.NebulaHosts = []) ∧
      (Value.str "port" ∉ entries.map Prod.fst → c1.NebulaPort = 0) ∧
      (Value.str "user" ∉ entries.map Prod.fst → c1.NebulaUser = "") ∧
      (Value.str "space" ∉ entries.map Prod.fst → c1.NebulaSpace = "") := by
  cases nebulaConfigRaw with
  | none => simp [getNebulaConfig] at h
  | some entries =>
    unfold getNebulaConfig at h
    simp only [] at h
    obtain ⟨i1, i2, i3, i4, i5⟩ := configLoop_ok entries unsetConfig c1 h (by simp [unsetConfig])
    refine ⟨entries, rfl, i1, fun hk => i2 (Or.inr hk), fun hk => i3 (Or.inr hk),
      fun hk => i4 (Or.inr hk), fun hk => i5 (Or.inr hk), ?_⟩
    have hkeep := configLoop_keeps entries unsetConfig c1 h
    exact ⟨fun hk => hkeep.1 hk, fun hk => hkeep.2.1 hk, fun hk => hkeep.2.2.1 hk,
      fun hk => hkeep.2.2.2 hk⟩

/-- C29 at concrete inputs: a map with the entry `password` alone passes and leaves the host
list empty, the port zero and the user and the space empty; a map with all five entries passes
with every variable valid. -/
theorem getNebulaConfig_validates_present_keys_witness :
    getNebulaConfig (some [(.str "password", .str "pw")]) unsetConfig =
        (none, ⟨[], 0, "", "pw", ""⟩) ∧
      ∃ entries,
        some [(Value.str "host", Value.str "10.0.0.1, 10.0.0.2"),
          (Value.str "port", Value.int .int 9669), (Value.str "user", Value.str " root "),
          (Value.str "password", Value.str "pw"), (Value.str "space", Value.str "ops")] =
          some entries ∧
        "" ∉ ["10.0.0.1", "10.0.0.2"] :=
  ⟨by decide,
    (getNebulaConfig_validates_present_keys
      (some [(.str "host", .str "10.0.0.1, 10.0.0.2"), (.str "port", .int .int 9669),
        (.str "user", .str " root "), (.str "password", .str "pw"), (.str "space", .str "ops")])
      ⟨["10.0.0.1", "10.0.0.2"], 9669, "root", "pw", "ops"⟩ (by decide)).elim
      (fun entries hx => ⟨entries, hx.1, hx.2.1⟩)⟩

/-- The product with zero is zero in the type `int`. -/
theorem wrapInt_zero : wrapInt 0 = 0 := by decide

/-- The two lines that close the statement, with and without a page size. -/
theorem orderAndPage_cases (schema : Schema) (needOrder : Bool) (PageSize PageIndex : Int)
    (ngql : String) :
    ∃ order, (order = "" ∨ order = " | ORDER BY $-.created_at ASC") ∧
      (PageSize ≤ 0 →
        orderAndPage schema needOrder PageSize PageIndex ngql = ngql ++ order ++ ";") ∧
      (0 < PageSize → PageIndex ≤ 1 →
        orderAndPage schema needOrder PageSize PageIndex ngql =
          ngql ++ order ++ (" | LIMIT 0, " ++ fmtInt PageSize) ++ ";") := by
  have e0 : ngql ++ "" = ngql := by
    apply String.ext
    simp [String.data_append]
  by_cases ho : (List.lookup "created_at" schema).isSome ∧ needOrder = true
  · refine ⟨" | ORDER BY $-.created_at ASC", Or.inr rfl, ?_, ?_⟩
    · intro hp
      unfold orderAndPage
      simp only [ho, and_self, if_true, gt_iff_lt, not_lt.mpr hp, if_false]
    · intro hp hi
      unfold orderAndPage
      simp only [ho, and_self, if_true, gt_iff_lt, hp, not_lt.mpr hi, if_false, sub_self,
        zero_mul, wrapInt_zero]
      rfl
  · refine ⟨"", Or.inl rfl, ?_, ?_⟩
    · intro hp
      unfold orderAndPage
      simp only [ho, if_false, gt_iff_lt, not_lt.mpr hp, e0]
    · intro hp hi
      unfold orderAndPage
      simp only [ho, if_false, gt_iff_lt, hp, if_true, not_lt.mpr hi, sub_self, zero_mul,
        wrapInt_zero, e0]
      rfl

/-- A successful run of the part of `LookupVertexesWithPagination` behind the WHERE section
has sent two statements: the text of the YIELD section closed by a semicolon, then the same
text with the ORDER BY clause, the LIMIT clause and the semicolon. -/
theorem lookupPaged_sent_ok {σ : Type} (L : Lib) (P : Pool σ) (st st2 : Run σ)
    (schema : Schema) (PageSize PageIndex : Int) (showFields : List String) (ngql : String)
    (r : Nat × List DataRecord)
    (h : lookupPaged L P st schema PageSize PageIndex showFields ngql = (.ok r, st2)) :
    ∃ base fields needOrder, lookupYield schema showFields ngql = .ok (base, fields, needOrder) ∧
      st2.sent = st.sent ++ [sentText L P.space (base ++ ";"),
        sentText L P.space (orderAndPage schema needOrder PageSize PageIndex base)] := by
  unfold lookupPaged at h
  cases hy : lookupYield schema showFields ngql with
  | error e => simp [hy] at h
  | ok y =>
    obtain ⟨base, fields, needOrder⟩ := y
    rw [hy] at h
    simp only [] at h
    cases h1 : ConnectAndExcute L P st (base ++ ";") with
    | mk r1 st1 =>
      rw [h1] at h
      cases r1 with
      | error e => simp at h
      | ok totalRes =>
        simp only [] at h
        cases h2 : ConnectAndExcute L P st1
            (orderAndPage schema needOrder PageSize PageIndex base) with
        | mk r2 st2' =>
          rw [h2] at h
          cases r2 with
          | error e => simp at h
          | ok res =>
            simp only [] at h
            have hst : st2' = st2 := by
              cases hp : ParseStringTable L res.table fields schema with
              | error f => simp [hp] at h
              | ok result =>
                rw [hp] at h
                exact (Prod.mk.inj h).2
            subst hst
            refine ⟨base, fields, needOrder, rfl, ?_⟩
            rw [ConnectAndExcute_ok_sent L P st1 st2' _ res h2,
              ConnectAndExcute_ok_sent L P st st1 _ totalRes h1]
            simp

/-- C22 (amended): a successful `LookupVertexesWithPagination` of `Queryer` or `Queryer2` has
sent two statements, the lookup closed by a semicolon and the paginated statement, which is the
same lookup followed by the ORDER BY clause, if any, and by the page. A `PageSize` of zero or
less means no pagination: the paginated statement has no LIMIT clause, whatever `PageIndex` is.
With a `PageSize` above zero, a `PageIndex` of one or less counts as the first page and the
paginated statement ends with ` | LIMIT 0, <PageSize>;`. No default page size is put in. -/
theorem pagination_defaults {σ : Type} (L : Lib) (P : Pool σ) (st st2 : Run σ)
    (tds : DataSchema) (showFields : List String) (r : Nat × List DataRecord)
    (PageSize PageIndex : Int) :
    (∀ q : Queryer, q.PageSize = PageSize → q.PageIndex = PageIndex →
        Queryer.LookupVertexesWithPagination L P st q tds showFields = (.ok r, st2) →
        ∃ base order paged,
          (order = "" ∨ order = " | ORDER BY $-.created_at ASC") ∧
          st2.sent = st.sent ++ [sentText L P.space (base ++ ";"), sentText L P.space paged] ∧
          (PageSize ≤ 0 → paged = base ++ order ++ ";") ∧
          (0 < PageSize → PageIndex ≤ 1 →
            paged = base ++ order ++ (" | LIMIT 0, " ++ fmtInt PageSize) ++ ";")) ∧
      (∀ q : Queryer2, q.PageSize = PageSize → q.PageIndex = PageIndex →
        Queryer2.LookupVertexesWithPagination L P st q tds showFields = (.ok r, st2) →
        ∃ base order paged,
          (order = "" ∨ order = " | ORDER BY $-.created_at ASC") ∧
          st2.sent = st.sent ++ [sentText L P.space (base ++ ";"), sentText L P.space paged] ∧
          (PageSize ≤ 0 → paged = base ++ order ++ ";") ∧
          (0 < PageSize → PageIndex ≤ 1 →
            paged = base ++ order ++ (" | LIMIT 0, " ++ fmtInt PageSize) ++ ";")) := by
  have key : ∀ ngql, lookupPaged L P st tds.schema PageSize PageIndex showFields ngql =
      (.ok r, st2) →
      ∃ base order paged,
        (order = "" ∨ order = " | ORDER BY $-.created_at ASC") ∧
        st2.sent = st.sent ++ [sentText L P.space (base ++ ";"), sentText L P.space paged] ∧
        (PageSize ≤ 0 → paged = base ++ order ++ ";") ∧
        (0 < PageSize → PageIndex ≤ 1 →
          paged = base ++ order ++ (" | LIMIT 0, " ++ fmtInt PageSize) ++ ";") := by
    intro ngql h
    obtain ⟨base, fields, needOrder, _, hsent⟩ :=
      lookupPaged_sent_ok L P st st2 tds.schema PageSize PageIndex showFields ngql r h
    obtain ⟨order, ho, h1, h2⟩ := orderAndPage_cases tds.schema needOrder PageSize PageIndex base
    exact ⟨base, order, _, ho, hsent, h1, h2⟩
  constructor
  · intro q hs hi h
    unfold Queryer.LookupVertexesWithPagination at h
    cases hw : queryerWhere L tds.name tds.schema q ("LOOKUP ON " ++ tds.name ++ " ") with
    | error e => simp [hw] at h
    | ok ngql =>
      rw [hw, hs, hi] at h
      exact key ngql h
  · intro q hs hi h
    unfold Queryer2.LookupVertexesWithPagination at h
    cases hw : queryer2Where L tds.name tds.schema q ("LOOKUP ON " ++ tds.name ++ " ") with
    | error e => simp [hw] at h
    | ok ngql =>
      rw [hw, hs, hi] at h
      exact key ngql h

/-- C22 at concrete inputs: a page size of 50 with a page index of 0. -/
theorem pagination_defaults_witness :
    ∃ base order paged,
      (order = "" ∨ order = " | ORDER BY $-.created_at ASC") ∧
      ["USE test; LOOKUP ON person YIELD properties(vertex).name as name;",
          "USE test; LOOKUP ON person YIELD properties(vertex).name as name | LIMIT 0, 50;"] =
        [] ++ [sentText asciiLib countingPool.space (base ++ ";"),
          sentText asciiLib countingPool.space paged] ∧
      ((50 : Int) ≤ 0 → paged = base ++ order ++ ";") ∧
      ((0 : Int) < 50 → (0 : Int) ≤ 1 →
        paged = base ++ order ++ (" | LIMIT 0, " ++ fmtInt 50) ++ ";") :=
  (pagination_defaults asciiLib countingPool ⟨0, []⟩
    ⟨2, ["USE test; LOOKUP ON person YIELD properties(vertex).name as name;",
      "USE test; LOOKUP ON person YIELD properties(vertex).name as name | LIMIT 0, 50;"]⟩
    ⟨"person", [("name", "string")], []⟩ [] (0, []) 50 0).1
    ⟨50, 0, [], [], "", false⟩ rfl rfl rfl

/-- C22 as stated fails: with a page size of 0 and a page index of 0 the paginated statement
of `Queryer` has no LIMIT clause, and with a page size of 50 and a page index of 0 the one of
`Queryer2` ends with `LIMIT 0, 50`; neither ends with `LIMIT 0, 20`. -/
theorem pagination_no_default_page_size :
    (Queryer.LookupVertexesWithPagination asciiLib countingPool ⟨0, []⟩
        ⟨0, 0, [], [], "", false⟩ ⟨"person", [("name", "string")], []⟩ []).2.sent =
        ["USE test; LOOKUP ON person YIELD properties(vertex).name as name;",
          "USE test; LOOKUP ON person YIELD properties(vertex).name as name;"] ∧
      (Queryer2.LookupVertexesWithPagination asciiLib countingPool ⟨0, []⟩
        ⟨50, 0, [], [], [], [], false⟩ ⟨"person", [("name", "string")], []⟩ []).2.sent =
        ["USE test; LOOKUP ON person YIELD properties(vertex).name as name;",
          "USE test; LOOKUP ON person YIELD properties(vertex).name as name | LIMIT 0, 50;"] :=
  ⟨rfl, rfl⟩

/-- The branch that appends a condition appends the condition of the specification and
`OR `. -/
theorem addCondition_eq (explicitly : Bool) (fieldtype tag field valStr ngql : String) :
    addCondition explicitly fieldtype tag field valStr ngql =
      ngql ++ (specCondition explicitly fieldtype tag field valStr ++ " OR ") := by
  unfold addCondition specCondition
  by_cases h : explicitly = true ∨ fieldtype ∈ NumberTypes
  · have h1 : (explicitly || IsStrInSlice fieldtype NumberTypes) = true := by
      rw [Bool.or_eq_true, IsStrInSlice_iff]
      exact h
    rw [if_pos h1, if_pos h]
  · have h1 : ¬ (explicitly || IsStrInSlice fieldtype NumberTypes) = true := by
      rw [Bool.or_eq_true, IsStrInSlice_iff]
      exact h
    rw [if_neg h1, if_neg h]

/-- A text that ends in ` OR ` has no suffix `WHERE ` to trim. -/
theorem TrimSuffix_WHERE_keep (s : String) :
    TrimSuffix (s ++ " OR ") "WHERE " = s ++ " OR " := by
  unfold TrimSuffix HasSuffix
  simp [String.data_append, List.isPrefixOf]

/-- Entries each followed by ` OR `: trimming `OR ` leaves the entries joined by ` OR `, and a
blank. -/
theorem TrimSuffix_OR_entries (pre : String) (xs : List String) (h : xs ≠ []) :
    TrimSuffix (pre ++ Join (xs.map (fun x => x ++ " OR ")) "") "OR " =
      pre ++ Join xs " OR " ++ " " := by
  rw [Join_map_sep xs " OR " h]
  have e : pre ++ (Join xs " OR " ++ " OR ") = (pre ++ Join xs " OR " ++ " ") ++ "OR " := by
    simp only [String.append_assoc]
    rfl
  rw [e, TrimSuffix_append]

/-- The text behind the WHERE section when at least one condition was appended. -/
theorem where_close (ngql : String) (xs : List String) (h : xs ≠ []) :
    TrimSuffix (TrimSuffix (ngql ++ "WHERE " ++ Join (xs.map (fun x => x ++ " OR ")) "")
        "WHERE ") "OR " ++ " " =
      ngql ++ "WHERE " ++ Join xs " OR " ++ " " ++ " " := by
  have e : ngql ++ "WHERE " ++ Join (xs.map (fun x => x ++ " OR ")) "" =
      (ngql ++ "WHERE " ++ Join xs " OR ") ++ " OR " := by
    rw [Join_map_sep xs " OR " h]
    simp only [String.append_assoc]
  rw [e, TrimSuffix_WHERE_keep, ← e, TrimSuffix_OR_entries _ _ h]

/-- The text behind the WHERE section when no condition was appended. -/
theorem where_close_nil (ngql : String) :
    TrimSuffix (TrimSuffix (ngql ++ "WHERE " ++ Join (([] : List String).map
        (fun x => x ++ " OR ")) "") "WHERE ") "OR " ++ " " =
      TrimSuffix ngql "OR " ++ " " := by
  have e : ngql ++ "WHERE " ++ Join (([] : List String).map (fun x => x ++ " OR ")) "" =
      ngql ++ "WHERE " := by
    apply String.ext
    simp [Join, String.data_append, List.intercalate]
  rw [e, TrimSuffix_append]

/-- The loop of `Queryer` in closed form: one condition, followed by ` OR `, for each eligible
search field. -/
theorem queryerWhereLoop_ok (L : Lib) (tag : String) (schema : Schema) (searchValue : String)
    (explicitly : Bool) (fields conds : List String) (ngql : String)
    (hin : ∀ f ∈ fields, List.lookup f schema ≠ none)
    (h : List.Forall₂ (conditionOf L tag schema searchValue explicitly)
      (fields.filter (eligible L schema)) conds) :
    queryerWhereLoop L tag schema searchValue explicitly fields ngql =
      .ok (ngql ++ Join (conds.map (fun x => x ++ " OR ")) "") := by
  induction fields generalizing conds ngql with
  | nil =>
    simp only [List.filter_nil, List.forall₂_nil_left_iff] at h
    subst h
    simp only [queryerWhereLoop, List.map_nil, Join_nil]
    congr 1
    apply String.ext
    simp [String.data_append]
  | cons f rest ih =>
    have hin' : ∀ g ∈ rest, List.lookup g schema ≠ none :=
      fun g hg => hin g (List.mem_cons_of_mem _ hg)
    unfold queryerWhereLoop
    cases hl : List.lookup f schema with
    | none => exact absurd hl (hin f (List.mem_cons_self _ _))
    | some d =>
      simp only []
      by_cases he : eligible L schema f = true
      · have he' := he
        unfold eligible at he'
        rw [hl] at he'
        simp only [] at he'
        have hcond : (!(IsStrInSlice (typeKeyword L d) NumberTypes) &&
            !(IsStrInSlice (typeKeyword L d) SearchableTypes)) = false := by
          rw [← Bool.not_or, he']
          rfl
        rw [List.filter_cons_of_pos he] at h
        cases h with
        | @cons _ c _ cs hc hrest =>
          obtain ⟨d', v, hd, hv, hcv⟩ := hc
          rw [hl] at hd
          cases Option.some.inj hd
          simp only [hcond, Bool.false_eq_true, if_false, hv]
          rw [ih cs _ hin' hrest, addCondition_eq, ← hcv, List.map_cons, Join_empty_cons]
          simp only [String.append_assoc]
      · have he' := he
        unfold eligible at he'
        rw [hl] at he'
        simp only [] at he'
        have hcond : (!(IsStrInSlice (typeKeyword L d) NumberTypes) &&
            !(IsStrInSlice (typeKeyword L d) SearchableTypes)) = true := by
          rw [← Bool.not_or]
          simpa using he'
        rw [List.filter_cons_of_neg he] at h
        simp only [hcond, if_true]
        exact ih conds ngql hin' h

/-- A run of the loop of `Queryer` that returns a text has found every search field in the
schema and has encoded the search value for every eligible one. -/
theorem queryerWhereLoop_of_ok (L : Lib) (tag : String) (schema : Schema)
    (searchValue : String) (explicitly : Bool) (fields : List String) (ngql r : String)
    (h : queryerWhereLoop L tag schema searchValue explicitly fields ngql = .ok r) :
    (∀ f ∈ fields, List.lookup f schema ≠ none) ∧
      ∃ conds, List.Forall₂ (conditionOf L tag schema searchValue explicitly)
        (fields.filter (eligible L schema)) conds := by
  induction fields generalizing ngql with
  | nil => exact ⟨by simp, [], by simp⟩
  | cons f rest ih =>
    unfold queryerWhereLoop at h
    cases hl : List.lookup f schema with
    | none => simp [hl] at h
    | some d =>
      rw [hl] at h
      simp only [] at h
      by_cases he : eligible L schema f = true
      · have he' := he
        unfold eligible at he'
        rw [hl] at he'
        simp only [] at he'
        have hcond : (!(IsStrInSlice (typeKeyword L d) NumberTypes) &&
            !(IsStrInSlice (typeKeyword L d) SearchableTypes)) = false := by
          rw [← Bool.not_or, he']
          rfl
        simp only [hcond, Bool.false_eq_true, if_false] at h
        cases hv : getNGQLValue L d (.str searchValue) with
        | error e => simp [hv] at h
        | ok v =>
          rw [hv] at h
          obtain ⟨hin, cs, hcs⟩ := ih _ h
          refine ⟨?_, specCondition explicitly (typeKeyword L d) tag f v :: cs, ?_⟩
          · intro g hg
            rcases List.mem_cons.mp hg with rfl | hg
            · simp [hl]
            · exact hin g hg
          · rw [List.filter_cons_of_pos he]
            exact List.Forall₂.cons ⟨d, v, hl, hv, rfl⟩ hcs
      · have he' := he
        unfold eligible at he'
        rw [hl] at he'
        simp only [] at he'
        have hcond : (!(IsStrInSlice (typeKeyword L d) NumberTypes) &&
            !(IsStrInSlice (typeKeyword L d) SearchableTypes)) = true := by
          rw [← Bool.not_or]
          simpa using he'
        simp only [hcond, if_true] at h
        obtain ⟨hin, cs, hcs⟩ := ih _ h
        refine ⟨?_, cs, ?_⟩
        · intro g hg
          rcases List.mem_cons.mp hg with rfl | hg
          · simp [hl]
          · exact hin g hg
        · rw [List.filter_cons_of_neg he]
          exact hcs

/-- A string encodes for every type keyword of `NumberTypes` and for STRING, LIST and DICT. -/
theorem getNGQLValue_str_ok (L : Lib) (fieldDef val : String)
    (h : typeKeyword L fieldDef ∈ NumberTypes ∨
      typeKeyword L fieldDef ∈ ["STRING", "LIST", "DICT"]) :
    ∃ valStr, getNGQLValue L fieldDef (.str val) = .ok valStr := by
  obtain ⟨first, rest, hs, hk⟩ := keyword_split L fieldDef
  rw [hk] at h
  simp only [NumberTypes, List.mem_cons, List.mem_singleton, List.not_mem_nil, or_false] at h
  simp only [getNGQLValue, hs]
  rcases h with (h | h | h | h | h | h | h | h | h) | (h | h | h) <;> rw [h] <;>
    simp only [String.reduceEq, if_true, if_false, jsonMarshal]
  all_goals first
    | exact ⟨_, rfl⟩
    | (split <;> exact ⟨_, rfl⟩)

/-- No value encodes for the type keyword IPADDR. -/
theorem getNGQLValue_IPADDR (L : Lib) (fieldDef : String) (val : Value)
    (h : typeKeyword L fieldDef = "IPADDR") :
    getNGQLValue L fieldDef val =
      .error "data type 'IPADDR' not supported by this nebula client" := by
  obtain ⟨first, rest, hs, hk⟩ := keyword_split L fieldDef
  rw [h] at hk
  simp only [getNGQLValue, hs, ← hk]
  rfl

/-- The loop of `Queryer` returns an error when a search field is declared IPADDR. -/
theorem queryerWhereLoop_IPADDR (L : Lib) (tag : String) (schema : Schema)
    (searchValue : String) (explicitly : Bool) (fields : List String) (ngql : String)
    (h : ∃ f ∈ fields, ∃ d, List.lookup f schema = some d ∧ typeKeyword L d = "IPADDR") :
    ∃ e, queryerWhereLoop L tag schema searchValue explicitly fields ngql = .error e := by
  induction fields generalizing ngql with
  | nil =>
    obtain ⟨f, hf, _⟩ := h
    simp at hf
  | cons g rest ih =>
    obtain ⟨f, hf, d, hd, hk⟩ := h
    unfold queryerWhereLoop
    cases hl : List.lookup g schema with
    | none => exact ⟨_, rfl⟩
    | some dg =>
      simp only []
      split
      · rename_i hcond
        rcases List.mem_cons.mp hf with rfl | hf'
        · rw [hd] at hl
          cases Option.some.inj hl
          rw [hk] at hcond
          exact absurd hcond (by decide)
        · exact ih _ ⟨f, hf', d, hd, hk⟩
      · cases hv : getNGQLValue L dg (.str searchValue) with
        | error e => exact ⟨e, rfl⟩
        | ok v =>
          simp only []
          rcases List.mem_cons.mp hf with rfl | hf'
          · rw [hd] at hl
            cases Option.some.inj hl
            rw [getNGQLValue_IPADDR L d _ hk] at hv
            cases hv
          · exact ih _ ⟨f, hf', d, hd, hk⟩

/-- C23 (amended): in the WHERE section of `Queryer.LookupVertexesWithPagination` with at
least one search field, all of them fields of the schema, each search field whose type keyword
is in `NumberTypes` or `SearchableTypes` contributes exactly one condition, in field order, and
each other search field contributes nothing and no error: the section returns a text exactly
when the search value encodes for every eligible field, and the text is then the conditions
joined by ` OR ` behind `WHERE `. The condition uses `==` when `Explicitly` is set or the type
keyword is in `NumberTypes`, and `STARTS WITH` otherwise. The search value encodes for every
keyword of `NumberTypes` and for STRING, LIST and DICT; STRING is eligible and DATE is not. A
search field declared IPADDR, a keyword of `SearchableTypes`, contributes no condition: the
section then returns an error. -/
theorem Queryer_where_conditions (L : Lib) (tag : String) (schema : Schema) (q : Queryer)
    (ngql : String) :
    (chosen q.SearchFieldsAlias q.SearchFields ≠ [] →
        (∀ f ∈ chosen q.SearchFieldsAlias q.SearchFields, List.lookup f schema ≠ none) →
        ∀ conds, List.Forall₂ (conditionOf L tag schema q.SearchValue q.Explicitly)
            ((chosen q.SearchFieldsAlias q.SearchFields).filter (eligible L schema)) conds →
          queryerWhere L tag schema q ngql =
            .ok (if conds = [] then TrimSuffix ngql "OR " ++ " "
              else ngql ++ "WHERE " ++ Join conds " OR " ++ " " ++ " ")) ∧
      (chosen q.SearchFieldsAlias q.SearchFields ≠ [] →
        ∀ r, queryerWhere L tag schema q ngql = .ok r →
          (∀ f ∈ chosen q.SearchFieldsAlias q.SearchFields, List.lookup f schema ≠ none) ∧
          ∃ conds, List.Forall₂ (conditionOf L tag schema q.SearchValue q.Explicitly)
              ((chosen q.SearchFieldsAlias q.SearchFields).filter (eligible L schema)) conds ∧
            conds.length =
              ((chosen q.SearchFieldsAlias q.SearchFields).filter (eligible L schema)).length) ∧
      (∀ f d, List.lookup f schema = some d →
        typeKeyword L d ∈ NumberTypes ∨ typeKeyword L d ∈ ["STRING", "LIST", "DICT"] →
        eligible L schema f = true ∧
          ∃ valStr, conditionOf L tag schema q.SearchValue q.Explicitly f
            (specCondition q.Explicitly (typeKeyword L d) tag f valStr)) ∧
      ((∃ f ∈ chosen q.SearchFieldsAlias q.SearchFields, ∃ d,
          List.lookup f schema = some d ∧ typeKeyword L d = "IPADDR") →
        ∃ e, queryerWhere L tag schema q ngql = .error e) ∧
      "STRING" ∈ SearchableTypes ∧ "IPADDR" ∈ SearchableTypes ∧
      "DATE" ∉ NumberTypes ∧ "DATE" ∉ SearchableTypes := by
  have hlen : ∀ fs : List String, fs ≠ [] → fs.length > 0 := by
    intro fs h
    cases fs with
    | nil => exact absurd rfl h
    | cons a b => simp
  refine ⟨?_, ?_, ?_, ?_, by decide, by decide, by decide, by decide⟩
  · intro hne hin conds hconds
    unfold queryerWhere
    simp only [hlen _ hne, if_true]
    rw [queryerWhereLoop_ok L tag schema q.SearchValue q.Explicitly _ conds _ hin hconds]
    simp only []
    by_cases hc : conds = []
    · subst hc
      rw [if_pos rfl, where_close_nil]
    · rw [if_neg hc, where_close _ _ hc]
  · intro hne r hok
    unfold queryerWhere at hok
    simp only [hlen _ hne, if_true] at hok
    cases hloop : queryerWhereLoop L tag schema q.SearchValue q.Explicitly
        (chosen q.SearchFieldsAlias q.SearchFields) (ngql ++ "WHERE ") with
    | error e => simp [hloop] at hok
    | ok r1 =>
      obtain ⟨hin, conds, hconds⟩ := queryerWhereLoop_of_ok L tag schema _ _ _ _ r1 hloop
      exact ⟨hin, conds, hconds, hconds.length_eq.symm⟩
  · intro f d hd hk
    constructor
    · unfold eligible
      rw [hd]
      simp only [Bool.or_eq_true, IsStrInSlice_iff]
      rcases hk with hk | hk
      · exact Or.inl hk
      · right
        simp only [List.mem_cons, List.mem_singleton, List.not_mem_nil, or_false] at hk
        simp only [SearchableTypes, List.mem_cons, List.mem_singleton, List.not_mem_nil,
          or_false]
        rcases hk with hk | hk | hk
        · exact Or.inl hk
        · exact Or.inr (Or.inr (Or.inl hk))
        · exact Or.inr (Or.inr (Or.inr hk))
    · obtain ⟨v, hv⟩ := getNGQLValue_str_ok L d q.SearchValue hk
      exact ⟨v, d, v, hd, hv, rfl⟩
  · intro h
    have hne : chosen q.SearchFieldsAlias q.SearchFields ≠ [] := by
      obtain ⟨f, hf, _⟩ := h
      intro hc
      rw [hc] at hf
      simp at hf
    obtain ⟨e, he⟩ := queryerWhereLoop_IPADDR L tag schema q.SearchValue q.Explicitly _
      (ngql ++ "WHERE ") h
    refine ⟨e, ?_⟩
    unfold queryerWhere
    simp only [hlen _ hne, if_true, he]

/-- C23 at concrete inputs: of the search fields `name`, `born` and `age`, declared STRING,
DATE and INT, the first contributes a `STARTS WITH` condition, the second nothing and the
third a `==` condition. -/
theorem Queryer_where_conditions_witness :
    queryerWhere asciiLib "person" [("name", "string"), ("age", "int"), ("born", "date")]
        ⟨0, 0, [], ["name", "born", "age"], "Bo", false⟩ "LOOKUP ON person " =
      .ok (if ["person.name STARTS WITH \"Bo\"", "person.age == Bo"] = []
        then TrimSuffix "LOOKUP ON person " "OR " ++ " "
        else "LOOKUP ON person " ++ "WHERE " ++
          Join ["person.name STARTS WITH \"Bo\"", "person.age == Bo"] " OR " ++ " " ++ " ") :=
  (Queryer_where_conditions asciiLib "person"
      [("name", "string"), ("age", "int"), ("born", "date")]
      ⟨0, 0, [], ["name", "born", "age"], "Bo", false⟩ "LOOKUP ON person ").1
    (by decide) (by decide) ["person.name STARTS WITH \"Bo\"", "person.age == Bo"]
    (List.Forall₂.cons ⟨"string", "\"Bo\"", rfl, rfl, rfl⟩
      (List.Forall₂.cons ⟨"int", "Bo", rfl, rfl, rfl⟩ List.Forall₂.nil))

/-- C23 as stated fails: the search field `ip` is declared IPADDR, a keyword of
`SearchableTypes`, and contributes no condition; the call returns the error of the encoding and
sends nothing. A search field that the schema does not declare has no type keyword and makes
the call return an error as well. -/
theorem Queryer_IPADDR_field_refused :
    IsStrInSlice (typeKeyword asciiLib "ipaddr") SearchableTypes = true ∧
      Queryer.LookupVertexesWithPagination asciiLib countingPool ⟨0, []⟩
          ⟨0, 0, [], ["ip"], "10.", false⟩ ⟨"host", [("ip", "ipaddr")], []⟩ [] =
        (.error (.err "data type 'IPADDR' not supported by this nebula client"), ⟨0, []⟩) ∧
      Queryer.LookupVertexesWithPagination asciiLib countingPool ⟨0, []⟩
          ⟨0, 0, [], ["name", "nick"], "Bo", false⟩ ⟨"person", [("name", "string")], []⟩ [] =
        (.error (.err "param 'search_fields' got illegal field 'nick'"), ⟨0, []⟩) :=
  ⟨rfl, rfl, rfl⟩

/-- The loop that fills `valStrs` in closed form: it returns the encodings exactly when every
value encodes, and appends them in value order. -/
theorem encodeValues_ok_iff (L : Lib) (fieldDef : String) (vals valStrs r : List String) :
    encodeValues L fieldDef vals valStrs = .ok r ↔
      ∃ new, List.Forall₂ (fun val valStr => getNGQLValue L fieldDef (.str val) = .ok valStr)
          vals new ∧ r = valStrs ++ new := by
  induction vals generalizing valStrs with
  | nil =>
    simp only [encodeValues, List.forall₂_nil_left_iff, exists_eq_left, List.append_nil]
    constructor
    · intro h
      exact (Except.ok.inj h).symm
    · intro h
      rw [h]
  | cons val rest ih =>
    unfold encodeValues
    constructor
    · intro h
      cases hv : getNGQLValue L fieldDef (.str val) with
      | error e => simp [hv] at h
      | ok v =>
        rw [hv] at h
        obtain ⟨new, hnew, hr⟩ := (ih _).mp h
        refine ⟨v :: new, List.Forall₂.cons hv hnew, ?_⟩
        rw [hr, List.append_assoc]
        rfl
    · rintro ⟨new, hnew, hr⟩
      cases hnew with
      | @cons _ v _ vs hv hrest =>
        rw [hv]
        simp only []
        rw [ih _]
        refine ⟨vs, hrest, ?_⟩
        rw [hr, List.append_assoc]
        rfl

/-- The loop that fills `sub` in closed form: one condition, followed by ` OR `, for each
encoding. -/
theorem groupLoop_eq (explicitly : Bool) (fieldtype tag field : String) (valStrs : List String)
    (sub : String) :
    groupLoop explicitly fieldtype tag field valStrs sub =
      sub ++ Join ((valStrs.map (specCondition explicitly fieldtype tag field)).map
        (fun x => x ++ " OR ")) "" := by
  induction valStrs generalizing sub with
  | nil =>
    simp only [groupLoop, List.map_nil, Join_nil]
    apply String.ext
    simp [String.data_append]
  | cons v rest ih =>
    unfold groupLoop
    rw [ih, addCondition_eq, List.map_cons, List.map_cons, Join_empty_cons]
    simp only [String.append_assoc]

/-- The group that `Queryer2` builds from at least one encoding. -/
theorem group_text (explicitly : Bool) (fieldtype tag field : String) (valStrs : List String)
    (h : valStrs ≠ []) :
    TrimSuffix (groupLoop explicitly fieldtype tag field valStrs "(") "OR " ++ ")" =
      "(" ++ Join (valStrs.map (specCondition explicitly fieldtype tag field)) " OR " ++
        " )" := by
  rw [groupLoop_eq, TrimSuffix_OR_entries _ _ (by simpa using h)]
  simp only [String.append_assoc]
  rfl

/-- The loop of `Queryer2` for two or more search values in closed form: one group, followed
by ` OR `, for each eligible search field. -/
theorem queryer2WhereLoop_ok (L : Lib) (tag : String) (schema : Schema)
    (v1 v2 : String) (vs : List String) (explicitly : Bool) (fields groups : List String)
    (ngql : String) (hin : ∀ f ∈ fields, List.lookup f schema ≠ none)
    (h : List.Forall₂ (groupOf L tag schema (v1 :: v2 :: vs) explicitly)
      (fields.filter (eligible L schema)) groups) :
    queryer2WhereLoop L tag schema (v1 :: v2 :: vs) explicitly fields ngql =
      .ok (ngql ++ Join (groups.map (fun x => x ++ " OR ")) "") := by
  induction fields generalizing groups ngql with
  | nil =>
    simp only [List.filter_nil, List.forall₂_nil_left_iff] at h
    subst h
    simp only [queryer2WhereLoop, List.map_nil, Join_nil]
    congr 1
    apply String.ext
    simp [String.data_append]
  | cons f rest ih =>
    have hin' : ∀ g ∈ rest, List.lookup g schema ≠ none :=
      fun g hg => hin g (List.mem_cons_of_mem _ hg)
    unfold queryer2WhereLoop
    cases hl : List.lookup f schema with
    | none => exact absurd hl (hin f (List.mem_cons_self _ _))
    | some d =>
      simp only []
      by_cases he : eligible L schema f = true
      · have he' := he
        unfold eligible at he'
        rw [hl] at he'
        simp only [] at he'
        have hcond : (!(IsStrInSlice (typeKeyword L d) NumberTypes) &&
            !(IsStrInSlice (typeKeyword L d) SearchableTypes)) = false := by
          rw [← Bool.not_or, he']
          rfl
        rw [List.filter_cons_of_pos he] at h
        cases h with
        | @cons _ c _ cs hc hrest =>
          obtain ⟨d', valStrs, hd, hvals, hcv⟩ := hc
          rw [hl] at hd
          cases Option.some.inj hd
          have henc : encodeValues L d (v1 :: v2 :: vs) [] = .ok valStrs :=
            (encodeValues_ok_iff L d _ [] valStrs).mpr ⟨valStrs, hvals, rfl⟩
          have hne : valStrs ≠ [] := by
            intro hc
            rw [hc] at hvals
            cases hvals
          simp only [hcond, Bool.false_eq_true, if_false, henc]
          rw [ih cs _ hin' hrest, group_text _ _ _ _ _ hne, ← hcv, List.map_cons,
            Join_empty_cons]
          simp only [String.append_assoc]
      · have he' := he
        unfold eligible at he'
        rw [hl] at he'
        simp only [] at he'
        have hcond : (!(IsStrInSlice (typeKeyword L d) NumberTypes) &&
            !(IsStrInSlice (typeKeyword L d) SearchableTypes)) = true := by
          rw [← Bool.not_or]
          simpa using he'
        rw [List.filter_cons_of_neg he] at h
        simp only [hcond, if_true]
        exact ih groups ngql hin' h

/-- A run of the loop of `Queryer2` for two or more search values that returns a text has
found every search field in the schema and has encoded every search value for every eligible
one. -/
theorem queryer2WhereLoop_of_ok (L : Lib) (tag : String) (schema : Schema)
    (v1 v2 : String) (vs : List String) (explicitly : Bool) (fields : List String)
    (ngql r : String)
    (h : queryer2WhereLoop L tag schema (v1 :: v2 :: vs) explicitly fields ngql = .ok r) :
    (∀ f ∈ fields, List.lookup f schema ≠ none) ∧
      ∃ groups, List.Forall₂ (groupOf L tag schema (v1 :: v2 :: vs) explicitly)
        (fields.filter (eligible L schema)) groups := by
  induction fields generalizing ngql with
  | nil => exact ⟨by simp, [], by simp⟩
  | cons f rest ih =>
    unfold queryer2WhereLoop at h
    cases hl : List.lookup f schema with
    | none => simp [hl] at h
    | some d =>
      rw [hl] at h
      simp only [] at h
      by_cases he : eligible L schema f = true
      · have he' := he
        unfold eligible at he'
        rw [hl] at he'
        simp only [] at he'
        have hcond : (!(IsStrInSlice (typeKeyword L d) NumberTypes) &&
            !(IsStrInSlice (typeKeyword L d) SearchableTypes)) = false := by
          rw [← Bool.not_or, he']
          rfl
        simp only [hcond, Bool.false_eq_true, if_false] at h
        cases henc : encodeValues L d (v1 :: v2 :: vs) [] with
        | error e => simp [henc] at h
        | ok valStrs =>
          rw [henc] at h
          simp only [] at h
          obtain ⟨new, hnew, hr⟩ := (encodeValues_ok_iff L d _ [] valStrs).mp henc
          rw [List.nil_append] at hr
          subst hr
          obtain ⟨hin, gs, hgs⟩ := ih _ h
          refine ⟨?_, ("(" ++ Join (valStrs.map
            (specCondition explicitly (typeKeyword L d) tag f)) " OR " ++ " )") :: gs, ?_⟩
          · intro g hg
            rcases List.mem_cons.mp hg with rfl | hg
            · simp [hl]
            · exact hin g hg
          · rw [List.filter_cons_of_pos he]
            exact List.Forall₂.cons ⟨d, valStrs, hl, hnew, rfl⟩ hgs
      · have he' := he
        unfold eligible at he'
        rw [hl] at he'
        simp only [] at he'
        have hcond : (!(IsStrInSlice (typeKeyword L d) NumberTypes) &&
            !(IsStrInSlice (typeKeyword L d) SearchableTypes)) = true := by
          rw [← Bool.not_or]
          simpa using he'
        simp only [hcond, if_true] at h
        obtain ⟨hin, gs, hgs⟩ := ih _ h
        refine ⟨?_, gs, ?_⟩
        · intro g hg
          rcases List.mem_cons.mp hg with rfl | hg
          · simp [hl]
          · exact hin g hg
        · rw [List.filter_cons_of_neg he]
          exact hgs

/-- The loop of `Queryer2` for two or more search values returns an error when a search field
is declared IPADDR. -/
theorem queryer2WhereLoop_IPADDR (L : Lib) (tag : String) (schema : Schema)
    (v1 v2 : String) (vs : List String) (explicitly : Bool) (fields : List String)
    (ngql : String)
    (h : ∃ f ∈ fields, ∃ d, List.lookup f schema = some d ∧ typeKeyword L d = "IPADDR") :
    ∃ e, queryer2WhereLoop L tag schema (v1 :: v2 :: vs) explicitly fields ngql = .error e := by
  induction fields generalizing ngql with
  | nil =>
    obtain ⟨f, hf, _⟩ := h
    simp at hf
  | cons g rest ih =>
    obtain ⟨f, hf, d, hd, hk⟩ := h
    unfold queryer2WhereLoop
    cases hl : List.lookup g schema with
    | none => exact ⟨_, rfl⟩
    | some dg =>
      simp only []
      split
      · rename_i hcond
        rcases List.mem_cons.mp hf with rfl | hf'
        · rw [hd] at hl
          cases Option.some.inj hl
          rw [hk] at hcond
          exact absurd hcond (by decide)
        · exact ih _ ⟨f, hf', d, hd, hk⟩
      · cases henc : encodeValues L dg (v1 :: v2 :: vs) [] with
        | error e => exact ⟨e, rfl⟩
        | ok valStrs =>
          simp only []
          rcases List.mem_cons.mp hf with rfl | hf'
          · rw [hd] at hl
            cases Option.some.inj hl
            unfold encodeValues at henc
            rw [getNGQLValue_IPADDR L d _ hk] at henc
            cases henc
          · exact ih _ ⟨f, hf', d, hd, hk⟩

/-- Every search value encodes for a field whose type keyword is in `NumberTypes` or is STRING,
LIST or DICT. -/
theorem encodings_exist (L : Lib) (fieldDef : String) (vals : List String)
    (h : typeKeyword L fieldDef ∈ NumberTypes ∨
      typeKeyword L fieldDef ∈ ["STRING", "LIST", "DICT"]) :
    ∃ valStrs, List.Forall₂
      (fun val valStr => getNGQLValue L fieldDef (.str val) = .ok valStr) vals valStrs := by
  induction vals with
  | nil => exact ⟨[], List.Forall₂.nil⟩
  | cons v rest ih =>
    obtain ⟨vs, hvs⟩ := ih
    obtain ⟨x, hx⟩ := getNGQLValue_str_ok L fieldDef v h
    exact ⟨x :: vs, List.Forall₂.cons hx hvs⟩

/-- C24 (amended): for `Queryer2` with two or more search values and search fields that are
all fields of the schema, at least one of them eligible, the WHERE section returns a text
exactly when every search value encodes for every eligible field, and the text is then
`WHERE ` followed by one group per eligible field, in field order, joined by ` OR `; each group
is, between brackets, one condition per search value on that field, in value order, joined by
` OR `. Every search value encodes for the keywords of `NumberTypes` and for STRING, LIST and
DICT. A search field declared IPADDR, which is eligible, has no group: the section then
returns an error. -/
theorem Queryer2_where_groups (L : Lib) (tag : String) (schema : Schema) (q : Queryer2)
    (ngql : String) (v1 v2 : String) (vs : List String)
    (hvals : chosen q.SearchValuesAlias q.SearchValues = v1 :: v2 :: vs) :
    ((∀ f ∈ chosen q.SearchFieldsAlias q.SearchFields, List.lookup f schema ≠ none) →
        ∀ groups, groups ≠ [] →
          List.Forall₂ (groupOf L tag schema (v1 :: v2 :: vs) q.Explicitly)
            ((chosen q.SearchFieldsAlias q.SearchFields).filter (eligible L schema)) groups →
          queryer2Where L tag schema q ngql =
            .ok (ngql ++ "WHERE " ++ Join groups " OR " ++ " " ++ " ")) ∧
      (chosen q.SearchFieldsAlias q.SearchFields ≠ [] →
        ∀ r, queryer2Where L tag schema q ngql = .ok r →
          (∀ f ∈ chosen q.SearchFieldsAlias q.SearchFields, List.lookup f schema ≠ none) ∧
          ∃ groups, List.Forall₂ (groupOf L tag schema (v1 :: v2 :: vs) q.Explicitly)
              ((chosen q.SearchFieldsAlias q.SearchFields).filter (eligible L schema)) groups ∧
            groups.length =
              ((chosen q.SearchFieldsAlias q.SearchFields).filter (eligible L schema)).length) ∧
      (∀ f d, List.lookup f schema = some d →
        typeKeyword L d ∈ NumberTypes ∨ typeKeyword L d ∈ ["STRING", "LIST", "DICT"] →
        ∃ valStrs : List String, valStrs.length = (v1 :: v2 :: vs).length ∧
          groupOf L tag schema (v1 :: v2 :: vs) q.Explicitly f
            ("(" ++ Join (valStrs.map (specCondition q.Explicitly (typeKeyword L d) tag f))
              " OR " ++ " )")) ∧
      ((∃ f ∈ chosen q.SearchFieldsAlias q.SearchFields, ∃ d,
          List.lookup f schema = some d ∧ typeKeyword L d = "IPADDR") →
        ∃ e, queryer2Where L tag schema q ngql = .error e) := by
  have hlen : ∀ fs : List String, fs ≠ [] → fs.length > 0 := by
    intro fs h
    cases fs with
    | nil => exact absurd rfl h
    | cons a b => simp
  refine ⟨?_, ?_, ?_, ?_⟩
  · intro hin groups hne hgroups
    have hfs : chosen q.SearchFieldsAlias q.SearchFields ≠ [] := by
      intro hc
      rw [hc] at hgroups
      simp only [List.filter_nil, List.forall₂_nil_left_iff] at hgroups
      exact hne hgroups
    unfold queryer2Where
    simp only [hlen _ hfs, if_true, hvals]
    rw [queryer2WhereLoop_ok L tag schema v1 v2 vs q.Explicitly _ groups _ hin hgroups]
    simp only []
    rw [where_close _ _ hne]
  · intro hne r hok
    unfold queryer2Where at hok
    simp only [hlen _ hne, if_true, hvals] at hok
    cases hloop : queryer2WhereLoop L tag schema (v1 :: v2 :: vs) q.Explicitly
        (chosen q.SearchFieldsAlias q.SearchFields) (ngql ++ "WHERE ") with
    | error e => simp [hloop] at hok
    | ok r1 =>
      obtain ⟨hin, groups, hgroups⟩ :=
        queryer2WhereLoop_of_ok L tag schema v1 v2 vs _ _ _ r1 hloop
      exact ⟨hin, groups, hgroups, hgroups.length_eq.symm⟩
  · intro f d hd hk
    obtain ⟨valStrs, hv⟩ := encodings_exist L d (v1 :: v2 :: vs) hk
    exact ⟨valStrs, hv.length_eq.symm, d, valStrs, hd, hv, rfl⟩
  · intro h
    have hne : chosen q.SearchFieldsAlias q.SearchFields ≠ [] := by
      obtain ⟨f, hf, _⟩ := h
      intro hc
      rw [hc] at hf
      simp at hf
    obtain ⟨e, he⟩ := queryer2WhereLoop_IPADDR L tag schema v1 v2 vs q.Explicitly _
      (ngql ++ "WHERE ") h
    refine ⟨e, ?_⟩
    unfold queryer2Where
    simp only [hlen _ hne, if_true, hvals, he]

/-- C24 at concrete inputs: two search values and the search fields `name`, `born` and `age`,
declared STRING, DATE and INT: two groups of two conditions each. -/
theorem Queryer2_where_groups_witness :
    queryer2Where asciiLib "person" [("name", "string"), ("age", "int"), ("born", "date")]
        ⟨0, 0, [], ["name", "born", "age"], [], ["Bo", "Al"], false⟩ "LOOKUP ON person " =
      .ok ("LOOKUP ON person " ++ "WHERE " ++
        Join ["(person.name STARTS WITH \"Bo\" OR person.name STARTS WITH \"Al\" )",
          "(person.age == Bo OR person.age == Al )"] " OR " ++ " " ++ " ") :=
  (Queryer2_where_groups asciiLib "person"
      [("name", "string"), ("age", "int"), ("born", "date")]
      ⟨0, 0, [], ["name", "born", "age"], [], ["Bo", "Al"], false⟩ "LOOKUP ON person "
      "Bo" "Al" [] rfl).1
    (by decide)
    ["(person.name STARTS WITH \"Bo\" OR person.name STARTS WITH \"Al\" )",
      "(person.age == Bo OR person.age == Al )"] (by decide)
    (List.Forall₂.cons
      ⟨"string", ["\"Bo\"", "\"Al\""], rfl,
        List.Forall₂.cons rfl (List.Forall₂.cons rfl List.Forall₂.nil), rfl⟩
      (List.Forall₂.cons
        ⟨"int", ["Bo", "Al"], rfl,
          List.Forall₂.cons rfl (List.Forall₂.cons rfl List.Forall₂.nil), rfl⟩
        List.Forall₂.nil))

/-- C24 as stated fails: with two search values, the search field `ip` is declared IPADDR and
is eligible, and there is no WHERE clause of one group: the call of `Queryer2` returns the
error of the encoding and sends nothing. -/
theorem Queryer2_IPADDR_field_refused :
    eligible asciiLib [("ip", "ipaddr")] "ip" = true ∧
      Queryer2.LookupVertexesWithPagination asciiLib countingPool ⟨0, []⟩
          ⟨0, 0, [], ["ip"], [], ["10.", "192."], false⟩ ⟨"host", [("ip", "ipaddr")], []⟩ [] =
        (.error (.err "data type 'IPADDR' not supported by this nebula client"), ⟨0, []⟩) :=
  ⟨rfl, rfl⟩

/-- The loop over the schema of a YIELD section in closed form. -/
theorem yieldAllLoop_eq (schema : Schema) (ngql : String) (fields : List String) :
    yieldAllLoop schema ngql fields =
      (ngql ++ Join (((fieldNames schema).map yieldEntry).map (fun x => x ++ ", ")) "",
        fields ++ fieldNames schema) := by
  induction schema generalizing ngql fields with
  | nil =>
    simp only [yieldAllLoop, fieldNames, List.map_nil, Join_nil, List.append_nil]
    congr 1
    apply String.ext
    simp [String.data_append]
  | cons p rest ih =>
    obtain ⟨f, d⟩ := p
    unfold yieldAllLoop
    rw [ih]
    simp only [fieldNames, List.map_cons, Join_empty_cons, List.append_assoc,
      List.singleton_append, yieldEntry, String.append_assoc]

/-- The loop over the shown fields of a YIELD section in closed form: it returns a text exactly
when every shown field other than `vid` is a field of the schema. -/
theorem yieldShownLoop_ok_iff (schema : Schema) (shown : List String) (ngql : String)
    (fields : List String) (r : String × List String) :
    yieldShownLoop schema shown ngql fields = .ok r ↔
      (∀ f ∈ shown, f ≠ "vid" → List.lookup f schema ≠ none) ∧
        r = (ngql ++ Join (((shown.filter (fun f => f ≠ "vid")).map yieldEntry).map
          (fun x => x ++ ", ")) "", fields ++ shown.filter (fun f => f ≠ "vid")) := by
  induction shown generalizing ngql fields with
  | nil =>
    have e : ngql ++ Join [] "" = ngql := by
      apply String.ext
      simp [Join, String.data_append, List.intercalate]
    simp only [yieldShownLoop, List.filter_nil, List.map_nil, List.append_nil, e,
      List.not_mem_nil, false_implies, implies_true, true_and]
    constructor
    · intro h
      exact (Except.ok.inj h).symm
    · intro h
      rw [h]
  | cons f rest ih =>
    unfold yieldShownLoop
    by_cases hv : f = "vid"
    · subst hv
      simp only [if_true, ih, List.mem_cons, forall_eq_or_imp, ne_eq, not_true_eq_false,
        false_implies, true_and, decide_not, decide_True, Bool.not_true, Bool.false_eq_true,
        not_false_eq_true, List.filter_cons_of_neg]
    · simp only [hv, if_false]
      have hfil : List.filter (fun f => decide (f ≠ "vid")) (f :: rest) =
          f :: List.filter (fun f => decide (f ≠ "vid")) rest := by
        rw [List.filter_cons_of_pos]
        simpa using hv
      cases hl : List.lookup f schema with
      | none =>
        simp only [List.mem_cons, forall_eq_or_imp, ne_eq, hv, not_false_eq_true, hl,
          not_true_eq_false, false_implies, false_and, iff_false, true_implies]
        intro hc
        cases hc
      | some d =>
        simp only [ih, hfil, List.mem_cons, forall_eq_or_imp, ne_eq, hv, not_false_eq_true, hl,
          true_implies, true_and, List.map_cons, Join_empty_cons, List.append_assoc,
          List.singleton_append, yieldEntry, String.append_assoc, reduceCtorEq]

/-- A result within the range of `int` is its own value in `int`. -/
theorem wrapInt_of_range (n : Int) (h0 : -(2 ^ 63) ≤ n) (h1 : n < 2 ^ 63) : wrapInt n = n := by
  unfold wrapInt
  have e : (n + 2 ^ 63) % 2 ^ 64 = n + 2 ^ 63 := by
    apply Int.emod_eq_of_lt
    · linarith
    · have : (2 : Int) ^ 64 = 2 ^ 63 + 2 ^ 63 := by norm_num
      linarith
  rw [e]
  ring

/-- The two lines that close the statement for a page size and a page index of one or more,
when the offset is within the range of `int`. -/
theorem orderAndPage_limit (schema : Schema) (needOrder : Bool) (PageSize PageIndex : Int)
    (ngql : String) (hi : 1 ≤ PageIndex) (hs : 1 ≤ PageSize)
    (hno : (PageIndex - 1) * PageSize < 2 ^ 63) :
    ∃ order, (order = "" ∨ order = " | ORDER BY $-.created_at ASC") ∧
      orderAndPage schema needOrder PageSize PageIndex ngql =
        ngql ++ order ++
          (" | LIMIT " ++ fmtInt ((PageIndex - 1) * PageSize) ++ ", " ++ fmtInt PageSize) ++
          ";" := by
  have e0 : ngql ++ "" = ngql := by
    apply String.ext
    simp [String.data_append]
  have hpos : PageSize > 0 := by omega
  have hidx : (if PageIndex > 1 then PageIndex else 1) = PageIndex := by
    by_cases h : PageIndex > 1
    · rw [if_pos h]
    · rw [if_neg h]
      omega
  have hnn : 0 ≤ (PageIndex - 1) * PageSize :=
    mul_nonneg (by omega) (by omega)
  have hw : wrapInt ((PageIndex - 1) * PageSize) = (PageIndex - 1) * PageSize :=
    wrapInt_of_range _ (by linarith [show (0 : Int) < 2 ^ 63 by norm_num]) hno
  by_cases ho : (List.lookup "created_at" schema).isSome ∧ needOrder = true
  · refine ⟨" | ORDER BY $-.created_at ASC", Or.inr rfl, ?_⟩
    unfold orderAndPage
    simp only [ho, and_self, if_true, hpos, hidx, hw]
  · refine ⟨"", Or.inl rfl, ?_⟩
    unfold orderAndPage
    simp only [ho, if_false, hpos, if_true, hidx, hw, e0]

/-- The paginated statement for a page index and a page size of one or more, with the ORDER BY
clause spelled out. -/
theorem orderAndPage_limit_text (schema : Schema) (needOrder : Bool) (PageSize PageIndex : Int)
    (ngql : String) (hi : 1 ≤ PageIndex) (hs : 1 ≤ PageSize)
    (hno : (PageIndex - 1) * PageSize < 2 ^ 63) :
    orderAndPage schema needOrder PageSize PageIndex ngql =
      ngql ++
        (if (List.lookup "created_at" schema).isSome ∧ needOrder = true then
          " | ORDER BY $-.created_at ASC" else "") ++
        (" | LIMIT " ++ fmtInt ((PageIndex - 1) * PageSize) ++ ", " ++ fmtInt PageSize) ++
        ";" := by
  have e0 : ngql ++ "" = ngql := by
    apply String.ext
    simp [String.data_append]
  have hpos : PageSize > 0 := by omega
  have hidx : (if PageIndex > 1 then PageIndex else 1) = PageIndex := by
    by_cases h : PageIndex > 1
    · rw [if_pos h]
    · rw [if_neg h]
      omega
  have hw : wrapInt ((PageIndex - 1) * PageSize) = (PageIndex - 1) * PageSize :=
    wrapInt_of_range _
      (by linarith [show (0 : Int) < 2 ^ 63 by norm_num,
        (mul_nonneg (by omega) (by omega) : 0 ≤ (PageIndex - 1) * PageSize)]) hno
  by_cases ho : (List.lookup "created_at" schema).isSome ∧ needOrder = true
  · unfold orderAndPage
    simp only [ho, and_self, if_true, hpos, hidx, hw]
  · unfold orderAndPage
    simp only [ho, if_false, hpos, if_true, hidx, hw, e0]

/-- The runs of the part of `LookupVertexesWithPagination` behind the YIELD section: when the
first run fails the call returns its error and runs nothing more; when it succeeds the
paginated statement is run next, and nothing after it. -/
theorem lookupPaged_runs {σ : Type} (L : Lib) (P : Pool σ) (st : Run σ) (schema : Schema)
    (PageSize PageIndex : Int) (showFields : List String) (ngql base : String)
    (fields : List String) (needOrder : Bool)
    (hy : lookupYield schema showFields ngql = .ok (base, fields, needOrder)) :
    (∀ e st1, ConnectAndExcute L P st (base ++ ";") = (.error e, st1) →
        lookupPaged L P st schema PageSize PageIndex showFields ngql =
          (.error (.err e), st1)) ∧
      (∀ res st1, ConnectAndExcute L P st (base ++ ";") = (.ok res, st1) →
        (lookupPaged L P st schema PageSize PageIndex showFields ngql).2 =
          (ConnectAndExcute L P st1
            (orderAndPage schema needOrder PageSize PageIndex base)).2) := by
  constructor
  · intro e st1 h1
    unfold lookupPaged
    rw [hy]
    simp only []
    rw [h1]
  · intro res st1 h1
    unfold lookupPaged
    rw [hy]
    simp only []
    rw [h1]
    simp only []
    cases h2 : ConnectAndExcute L P st1
        (orderAndPage schema needOrder PageSize PageIndex base) with
    | mk r2 st2 =>
      cases r2 with
      | error e => rfl
      | ok res2 =>
        simp only []
        split <;> rfl

/-- The statements that the part of `LookupVertexesWithPagination` behind the YIELD section has
sent when the first run succeeded, for a page index and a page size of one or more. -/
theorem lookupPaged_sent_limit {σ : Type} (L : Lib) (P : Pool σ) (st : Run σ)
    (schema : Schema) (PageSize PageIndex : Int) (showFields : List String)
    (ngql base : String) (fields : List String) (needOrder : Bool)
    (hi : 1 ≤ PageIndex) (hs : 1 ≤ PageSize) (hno : (PageIndex - 1) * PageSize < 2 ^ 63)
    (hy : lookupYield schema showFields ngql = .ok (base, fields, needOrder))
    (res : ResultSet) (st1 : Run σ)
    (h1 : ConnectAndExcute L P st (base ++ ";") = (.ok res, st1)) :
    (lookupPaged L P st schema PageSize PageIndex showFields ngql).2.sent =
      match (P.getSession st1.db).1 with
      | .error _ => st.sent ++ [sentText L P.space (base ++ ";")]
      | .ok _ => st.sent ++ [sentText L P.space (base ++ ";"),
          sentText L P.space (base ++
            (if (List.lookup "created_at" schema).isSome ∧ needOrder = true then
              " | ORDER BY $-.created_at ASC" else "") ++
            (" | LIMIT " ++ fmtInt ((PageIndex - 1) * PageSize) ++ ", " ++ fmtInt PageSize) ++
            ";")] := by
  rw [(lookupPaged_runs L P st schema PageSize PageIndex showFields ngql base fields needOrder
    hy).2 res st1 h1, ConnectAndExcute_sent,
    ConnectAndExcute_ok_sent L P st st1 (base ++ ";") res h1,
    orderAndPage_limit_text schema needOrder PageSize PageIndex base hi hs hno]
  cases (P.getSession st1.db).1 with
  | error e => rfl
  | ok u => simp

/-- C34: for a page index and a page size of one or more whose product stays within the range
of `int`, a successful `LookupVertexesWithPagination` of `Queryer` or `Queryer2` has sent the
lookup closed by a semicolon and then the paginated statement, which is the same lookup
followed by the ORDER BY clause, if any, and by ` | LIMIT <offset>, <PageSize>;` with the
offset `(PageIndex - 1) * PageSize`; the offset is not negative and is a multiple of the page
size. Whether the call succeeds or not: once its WHERE and YIELD sections are built, a failing
first run ends the call with that error, and after a successful first run the call has sent
the lookup and, if it acquired a session again, this paginated statement, and nothing else. -/
theorem pagination_offset {σ : Type} (L : Lib) (P : Pool σ) (st st2 : Run σ)
    (tds : DataSchema) (showFields : List String) (r : Nat × List DataRecord)
    (PageSize PageIndex : Int) (hi : 1 ≤ PageIndex) (hs : 1 ≤ PageSize)
    (hno : (PageIndex - 1) * PageSize < 2 ^ 63) :
    (∀ q : Queryer, q.PageSize = PageSize → q.PageIndex = PageIndex →
        Queryer.LookupVertexesWithPagination L P st q tds showFields = (.ok r, st2) →
        ∃ base order,
          (order = "" ∨ order = " | ORDER BY $-.created_at ASC") ∧
          st2.sent = st.sent ++ [sentText L P.space (base ++ ";"),
            sentText L P.space (base ++ order ++
              (" | LIMIT " ++ fmtInt ((PageIndex - 1) * PageSize) ++ ", " ++ fmtInt PageSize) ++
              ";")]) ∧
      (∀ q : Queryer2, q.PageSize = PageSize → q.PageIndex = PageIndex →
        Queryer2.LookupVertexesWithPagination L P st q tds showFields = (.ok r, st2) →
        ∃ base order,
          (order = "" ∨ order = " | ORDER BY $-.created_at ASC") ∧
          st2.sent = st.sent ++ [sentText L P.space (base ++ ";"),
            sentText L P.space (base ++ order ++
              (" | LIMIT " ++ fmtInt ((PageIndex - 1) * PageSize) ++ ", " ++ fmtInt PageSize) ++
              ";")]) ∧
      (∀ q : Queryer, q.PageSize = PageSize → q.PageIndex = PageIndex →
        ∀ ngql base fields needOrder,
          queryerWhere L tds.name tds.schema q ("LOOKUP ON " ++ tds.name ++ " ") = .ok ngql →
          lookupYield tds.schema showFields ngql = .ok (base, fields, needOrder) →
          (∀ e st1, ConnectAndExcute L P st (base ++ ";") = (.error e, st1) →
            Queryer.LookupVertexesWithPagination L P st q tds showFields =
              (.error (.err e), st1)) ∧
          (∀ res st1, ConnectAndExcute L P st (base ++ ";") = (.ok res, st1) →
            (Queryer.LookupVertexesWithPagination L P st q tds showFields).2.sent =
              match (P.getSession st1.db).1 with
              | .error _ => st.sent ++ [sentText L P.space (base ++ ";")]
              | .ok _ => st.sent ++ [sentText L P.space (base ++ ";"),
                  sentText L P.space (base ++
                    (if (List.lookup "created_at" tds.schema).isSome ∧ needOrder = true then
                      " | ORDER BY $-.created_at ASC" else "") ++
                    (" | LIMIT " ++ fmtInt ((PageIndex - 1) * PageSize) ++ ", " ++
                      fmtInt PageSize) ++ ";")])) ∧
      (∀ q : Queryer2, q.PageSize = PageSize → q.PageIndex = PageIndex →
        ∀ ngql base fields needOrder,
          queryer2Where L tds.name tds.schema q ("LOOKUP ON " ++ tds.name ++ " ") = .ok ngql →
          lookupYield tds.schema showFields ngql = .ok (base, fields, needOrder) →
          (∀ e st1, ConnectAndExcute L P st (base ++ ";") = (.error e, st1) →
            Queryer2.LookupVertexesWithPagination L P st q tds showFields =
              (.error (.err e), st1)) ∧
          (∀ res st1, ConnectAndExcute L P st (base ++ ";") = (.ok res, st1) →
            (Queryer2.LookupVertexesWithPagination L P st q tds showFields).2.sent =
              match (P.getSession st1.db).1 with
              | .error _ => st.sent ++ [sentText L P.space (base ++ ";")]
              | .ok _ => st.sent ++ [sentText L P.space (base ++ ";"),
                  sentText L P.space (base ++
                    (if (List.lookup "created_at" tds.schema).isSome ∧ needOrder = true then
                      " | ORDER BY $-.created_at ASC" else "") ++
                    (" | LIMIT " ++ fmtInt ((PageIndex - 1) * PageSize) ++ ", " ++
                      fmtInt PageSize) ++ ";")])) ∧
      0 ≤ (PageIndex - 1) * PageSize ∧ PageSize ∣ (PageIndex - 1) * PageSize := by
  have key : ∀ ngql, lookupPaged L P st tds.schema PageSize PageIndex showFields ngql =
      (.ok r, st2) →
      ∃ base order,
        (order = "" ∨ order = " | ORDER BY $-.created_at ASC") ∧
        st2.sent = st.sent ++ [sentText L P.space (base ++ ";"),
          sentText L P.space (base ++ order ++
            (" | LIMIT " ++ fmtInt ((PageIndex - 1) * PageSize) ++ ", " ++ fmtInt PageSize) ++
            ";")] := by
    intro ngql h
    obtain ⟨base, fields, needOrder, _, hsent⟩ :=
      lookupPaged_sent_ok L P st st2 tds.schema PageSize PageIndex showFields ngql r h
    obtain ⟨order, ho, h1⟩ :=
      orderAndPage_limit tds.schema needOrder PageSize PageIndex base hi hs hno
    rw [h1] at hsent
    exact ⟨base, order, ho, hsent⟩
  refine ⟨?_, ?_, ?_, ?_, mul_nonneg (by omega) (by omega), Dvd.intro_left _ rfl⟩
  · intro q hs' hi' h
    unfold Queryer.LookupVertexesWithPagination at h
    cases hw : queryerWhere L tds.name tds.schema q ("LOOKUP ON " ++ tds.name ++ " ") with
    | error e => simp [hw] at h
    | ok ngql =>
      rw [hw, hs', hi'] at h
      exact key ngql h
  · intro q hs' hi' h
    unfold Queryer2.LookupVertexesWithPagination at h
    cases hw : queryer2Where L tds.name tds.schema q ("LOOKUP ON " ++ tds.name ++ " ") with
    | error e => simp [hw] at h
    | ok ngql =>
      rw [hw, hs', hi'] at h
      exact key ngql h
  · intro q hs' hi' ngql base fields needOrder hw hy
    unfold Queryer.LookupVertexesWithPagination
    rw [hw, hs', hi']
    simp only []
    exact ⟨(lookupPaged_runs L P st tds.schema PageSize PageIndex showFields ngql base fields
        needOrder hy).1,
      fun res st1 h1 => lookupPaged_sent_limit L P st tds.schema PageSize PageIndex showFields
        ngql base fields needOrder hi hs hno hy res st1 h1⟩
  · intro q hs' hi' ngql base fields needOrder hw hy
    unfold Queryer2.LookupVertexesWithPagination
    rw [hw, hs', hi']
    simp only []
    exact ⟨(lookupPaged_runs L P st tds.schema PageSize PageIndex showFields ngql base fields
        needOrder hy).1,
      fun res st1 h1 => lookupPaged_sent_limit L P st tds.schema PageSize PageIndex showFields
        ngql base fields needOrder hi hs hno hy res st1 h1⟩

set_option maxRecDepth 4000 in
/-- C34 at concrete inputs: the third page of size 10 starts at offset 20, in a successful call
of `Queryer` and in a call of `Queryer2` whose paginated statement fails in the engine. -/
theorem pagination_offset_witness :
    (∃ base order,
      (order = "" ∨ order = " | ORDER BY $-.created_at ASC") ∧
      ["USE test; LOOKUP ON person YIELD properties(vertex).name as name;",
          "USE test; LOOKUP ON person YIELD properties(vertex).name as name | LIMIT 20, 10;"] =
        [] ++ [sentText asciiLib countingPool.space (base ++ ";"),
          sentText asciiLib countingPool.space (base ++ order ++
            (" | LIMIT " ++ fmtInt ((3 - 1) * 10) ++ ", " ++ fmtInt 10) ++ ";")]) ∧
      (Queryer2.LookupVertexesWithPagination asciiLib secondFailsPool ⟨0, []⟩
          ⟨10, 3, [], ["name"], [], ["al"], false⟩
          ⟨"person", [("name", "string"), ("created_at", "timestamp")], []⟩ ["name"]).2.sent =
        ["USE test; LOOKUP ON person WHERE person.name STARTS WITH \"al\"  " ++
            "YIELD properties(vertex).name as name, properties(vertex).created_at as created_at;",
          "USE test; LOOKUP ON person WHERE person.name STARTS WITH \"al\"  " ++
            "YIELD properties(vertex).name as name, properties(vertex).created_at as created_at" ++
            " | ORDER BY $-.created_at ASC | LIMIT 20, 10;"] ∧
      Queryer2.LookupVertexesWithPagination asciiLib secondFailsPool ⟨0, []⟩
          ⟨10, 3, [], ["name"], [], ["al"], false⟩
          ⟨"person", [("name", "string"), ("created_at", "timestamp")], []⟩ ["name"] =
        (.error (.err "NGQL executing failed. ErrorCode: -1005. ErrorMsg: no"),
          ⟨2, ["USE test; LOOKUP ON person WHERE person.name STARTS WITH \"al\"  " ++
              "YIELD properties(vertex).name as name, " ++
              "properties(vertex).created_at as created_at;",
            "USE test; LOOKUP ON person WHERE person.name STARTS WITH \"al\"  " ++
              "YIELD properties(vertex).name as name, " ++
              "properties(vertex).created_at as created_at" ++
              " | ORDER BY $-.created_at ASC | LIMIT 20, 10;"]⟩) :=
  ⟨(pagination_offset asciiLib countingPool ⟨0, []⟩
      ⟨2, ["USE test; LOOKUP ON person YIELD properties(vertex).name as name;",
        "USE test; LOOKUP ON person YIELD properties(vertex).name as name | LIMIT 20, 10;"]⟩
      ⟨"person", [("name", "string")], []⟩ [] (0, []) 10 3 (by decide) (by decide)
      (by decide)).1 ⟨10, 3, [], [], "", false⟩ rfl rfl rfl,
    ((pagination_offset asciiLib secondFailsPool ⟨0, []⟩ ⟨0, []⟩
      ⟨"person", [("name", "string"), ("created_at", "timestamp")], []⟩ ["name"] (0, []) 10 3
      (by decide) (by decide) (by decide)).2.2.2.1
      ⟨10, 3, [], ["name"], [], ["al"], false⟩ rfl rfl
      "LOOKUP ON person WHERE person.name STARTS WITH \"al\"  "
      ("LOOKUP ON person WHERE person.name STARTS WITH \"al\"  " ++
        "YIELD properties(vertex).name as name, properties(vertex).created_at as created_at")
      ["VertexID", "name", "created_at"] true rfl rfl).2
      ⟨true, "0", "", [["VertexID"], ["\"v1\""]]⟩
      ⟨1, ["USE test; LOOKUP ON person WHERE person.name STARTS WITH \"al\"  " ++
        "YIELD properties(vertex).name as name, properties(vertex).created_at as created_at;"]⟩
      rfl,
    rfl⟩

/-- The shape of the paginated statement: the lookup, the ORDER BY clause or nothing, the LIMIT
clause or nothing, the semicolon. -/
theorem orderAndPage_shape (schema : Schema) (needOrder : Bool) (PageSize PageIndex : Int)
    (ngql : String) :
    ∃ order limit, (order = "" ∨ order = " | ORDER BY $-.created_at ASC") ∧
      (limit = "" ∨ ∃ offset : Int,
        limit = " | LIMIT " ++ fmtInt offset ++ ", " ++ fmtInt PageSize) ∧
      orderAndPage schema needOrder PageSize PageIndex ngql = ngql ++ order ++ limit ++ ";" := by
  have e0 : ∀ s : String, s ++ "" = s := by
    intro s
    apply String.ext
    simp [String.data_append]
  by_cases ho : (List.lookup "created_at" schema).isSome ∧ needOrder = true
  · by_cases hp : PageSize > 0
    · refine ⟨" | ORDER BY $-.created_at ASC",
        (" | LIMIT " ++ fmtInt (wrapInt (((if PageIndex > 1 then PageIndex else 1) - 1) *
        PageSize)) ++ ", " ++ fmtInt PageSize),
        Or.inr rfl, Or.inr ⟨_, rfl⟩, ?_⟩
      unfold orderAndPage
      simp only [ho, and_self, if_true, hp]
    · refine ⟨" | ORDER BY $-.created_at ASC", "", Or.inr rfl, Or.inl rfl, ?_⟩
      unfold orderAndPage
      simp only [ho, and_self, if_true, hp, if_false, e0]
  · by_cases hp : PageSize > 0
    · refine ⟨"",
        (" | LIMIT " ++ fmtInt (wrapInt (((if PageIndex > 1 then PageIndex else 1) - 1) *
        PageSize)) ++ ", " ++ fmtInt PageSize),
        Or.inl rfl, Or.inr ⟨_, rfl⟩, ?_⟩
      unfold orderAndPage
      simp only [ho, if_false, hp, if_true, e0]
    · refine ⟨"", "", Or.inl rfl, Or.inl rfl, ?_⟩
      unfold orderAndPage
      simp only [ho, if_false, hp, e0]

/-- C35: a successful `Queryer.LookupVertexesWithPagination` has sent exactly two statements.
The first is the lookup closed by a semicolon, with no ORDER BY and no LIMIT clause added, and
the number of rows of its result is the total returned. The second is the same lookup text
followed by the ORDER BY clause, if any, the LIMIT clause, if any, and the semicolon, and the
table of its result is parsed into the records returned. When the first statement fails the
call returns its error and the second statement is not sent. -/
theorem Queryer_two_statements {σ : Type} (L : Lib) (P : Pool σ) (st : Run σ) (q : Queryer)
    (tds : DataSchema) (showFields : List String) :
    (∀ total recs st2,
        Queryer.LookupVertexesWithPagination L P st q tds showFields =
          (.ok (total, recs), st2) →
        ∃ base fields order limit totalRes st1 res,
          ConnectAndExcute L P st (base ++ ";") = (.ok totalRes, st1) ∧
          total = GetRowSize totalRes ∧
          ConnectAndExcute L P st1 (base ++ order ++ limit ++ ";") = (.ok res, st2) ∧
          ParseStringTable L res.table fields tds.schema = .ok recs ∧
          (order = "" ∨ order = " | ORDER BY $-.created_at ASC") ∧
          (limit = "" ∨ ∃ offset : Int,
            limit = " | LIMIT " ++ fmtInt offset ++ ", " ++ fmtInt q.PageSize) ∧
          st2.sent = st.sent ++ [sentText L P.space (base ++ ";"),
            sentText L P.space (base ++ order ++ limit ++ ";")]) ∧
      (∀ ngql base fields needOrder e st1,
        queryerWhere L tds.name tds.schema q ("LOOKUP ON " ++ tds.name ++ " ") = .ok ngql →
        lookupYield tds.schema showFields ngql = .ok (base, fields, needOrder) →
        ConnectAndExcute L P st (base ++ ";") = (.error e, st1) →
        Queryer.LookupVertexesWithPagination L P st q tds showFields =
            (.error (.err e), st1) ∧
          (st1.sent = st.sent ∨ st1.sent = st.sent ++ [sentText L P.space (base ++ ";")])) := by
  constructor
  · intro total recs st2 h
    unfold Queryer.LookupVertexesWithPagination at h
    cases hw : queryerWhere L tds.name tds.schema q ("LOOKUP ON " ++ tds.name ++ " ") with
    | error e => simp [hw] at h
    | ok ngql =>
      rw [hw] at h
      simp only [] at h
      unfold lookupPaged at h
      cases hy : lookupYield tds.schema showFields ngql with
      | error e => simp [hy] at h
      | ok y =>
        obtain ⟨base, fields, needOrder⟩ := y
        rw [hy] at h
        simp only [] at h
        cases h1 : ConnectAndExcute L P st (base ++ ";") with
        | mk r1 st1 =>
          rw [h1] at h
          cases r1 with
          | error e => simp at h
          | ok totalRes =>
            simp only [] at h
            obtain ⟨order, limit, ho, hl, hshape⟩ :=
              orderAndPage_shape tds.schema needOrder q.PageSize q.PageIndex base
            rw [hshape] at h
            cases h2 : ConnectAndExcute L P st1 (base ++ order ++ limit ++ ";") with
            | mk r2 st2' =>
              rw [h2] at h
              cases r2 with
              | error e => simp at h
              | ok res =>
                simp only [] at h
                cases hp : ParseStringTable L res.table fields tds.schema with
                | error f => simp [hp] at h
                | ok result =>
                  rw [hp] at h
                  simp only [] at h
                  have hpair := Prod.mk.inj h
                  have hres := Prod.mk.inj (Except.ok.inj hpair.1)
                  have hst : st2' = st2 := hpair.2
                  subst hst
                  refine ⟨base, fields, order, limit, totalRes, st1, res, h1, hres.1.symm, h2,
                    ?_, ho, hl, ?_⟩
                  · rw [hp, hres.2]
                  · rw [ConnectAndExcute_ok_sent L P st1 st2' _ res h2,
                      ConnectAndExcute_ok_sent L P st st1 _ totalRes h1]
                    simp
  · intro ngql base fields needOrder e st1 hw hy h1
    constructor
    · unfold Queryer.LookupVertexesWithPagination
      rw [hw]
      simp only []
      unfold lookupPaged
      rw [hy]
      simp only [h1]
    · have := ConnectAndExcute_sent_cases L P st (base ++ ";")
      rw [h1] at this
      exact this

/-- C35 at concrete inputs: the lookup is sent twice, the second time with its LIMIT clause,
and a result table of one data row gives the total 1 and one record. -/
theorem Queryer_two_statements_witness :
    ∃ base fields order limit totalRes st1 res,
      ConnectAndExcute asciiLib oneRowPool ⟨0, []⟩ (base ++ ";") = (.ok totalRes, st1) ∧
      1 = GetRowSize totalRes ∧
      ConnectAndExcute asciiLib oneRowPool st1 (base ++ order ++ limit ++ ";") =
        (.ok res, ⟨2, ["USE test; LOOKUP ON person;", "USE test; LOOKUP ON person | LIMIT 0, 5;"]⟩) ∧
      ParseStringTable asciiLib res.table fields [("name", "string")] =
        .ok [[("vid", .str "v1")]] ∧
      (order = "" ∨ order = " | ORDER BY $-.created_at ASC") ∧
      (limit = "" ∨ ∃ offset : Int,
        limit = " | LIMIT " ++ fmtInt offset ++ ", " ++ fmtInt 5) ∧
      ["USE test; LOOKUP ON person;", "USE test; LOOKUP ON person | LIMIT 0, 5;"] =
        [] ++ [sentText asciiLib oneRowPool.space (base ++ ";"),
          sentText asciiLib oneRowPool.space (base ++ order ++ limit ++ ";")] :=
  (Queryer_two_statements asciiLib oneRowPool ⟨0, []⟩ ⟨5, 1, [], [], "", false⟩
    ⟨"person", [("name", "string")], []⟩ ["vid"]).1 1 [[("vid", .str "v1")]]
    ⟨2, ["USE test; LOOKUP ON person;", "USE test; LOOKUP ON person | LIMIT 0, 5;"]⟩ rfl

/-- C36: for a non-empty start vid and a non-empty edge name, `goAndCheckVertexExist` runs one
statement, `GO FROM "<vid>" OVER <edge> YIELD dst(edge) AS vid | LIMIT <keepNum+1>;` (with
` REVERSELY` behind the edge name when `reverse` is set), the sum being taken in the type
`int`; the statement is sent once a session is acquired, an error of the run is returned, and
otherwise the result is true exactly when the number of rows is greater than `keepNum`.
`GoAndCheckNextVertexExist` and `GoAndCheckUpwardVertexExist` pass the first threshold given,
and zero when none is given. -/
theorem goAndCheckVertexExist_limit {σ : Type} (L : Lib) (P : Pool σ) (st : Run σ)
    (startVid edge : String) (reverse : Bool) (keepNum : Int) (hv : startVid ≠ "")
    (he : edge ≠ "") :
    ∃ ngql,
      ngql = "GO FROM \"" ++ startVid ++ "\" OVER " ++ edge ++
        (if reverse = true then " REVERSELY" else "") ++ " YIELD dst(edge) AS vid | LIMIT " ++
        fmtInt (wrapInt (keepNum + 1)) ++ ";" ∧
      (-(2 ^ 63) ≤ keepNum + 1 → keepNum + 1 < 2 ^ 63 → wrapInt (keepNum + 1) = keepNum + 1) ∧
      (∀ e st1, ConnectAndExcute L P st ngql = (.error e, st1) →
        goAndCheckVertexExist L P st startVid edge reverse keepNum = (.error e, st1)) ∧
      (∀ res st1, ConnectAndExcute L P st ngql = (.ok res, st1) →
        goAndCheckVertexExist L P st startVid edge reverse keepNum =
          (.ok (decide ((GetRowSize res : Int) > keepNum)), st1)) ∧
      ((P.getSession st.db).1 = .ok () →
        (goAndCheckVertexExist L P st startVid edge reverse keepNum).2.sent =
          st.sent ++ [sentText L P.space ngql]) ∧
      (∀ keepNums, GoAndCheckNextVertexExist L P st startVid edge keepNums =
        goAndCheckVertexExist L P st startVid edge false (keepNums.headD 0)) ∧
      (∀ keepNums, GoAndCheckUpwardVertexExist L P st startVid edge keepNums =
        goAndCheckVertexExist L P st startVid edge true (keepNums.headD 0)) := by
  have e0 : ∀ s : String, s ++ "" = s := by
    intro s
    apply String.ext
    simp [String.data_append]
  have hdef : ∀ r : Except String ResultSet × Run σ,
      ConnectAndExcute L P st ("GO FROM \"" ++ startVid ++ "\" OVER " ++ edge ++
        (if reverse = true then " REVERSELY" else "") ++ " YIELD dst(edge) AS vid | LIMIT " ++
        fmtInt (wrapInt (keepNum + 1)) ++ ";") = r →
      goAndCheckVertexExist L P st startVid edge reverse keepNum =
        match r with
        | (.error e, st1) => (.error e, st1)
        | (.ok res, st1) =>
          if (GetRowSize res : Int) > keepNum then (.ok true, st1) else (.ok false, st1) := by
    intro r hr
    unfold goAndCheckVertexExist
    simp only [ValidateName, hv, he, if_false]
    cases reverse with
    | true =>
      have e1 : ∀ x : String, " REVERSELY" ++ (" YIELD dst(edge) AS vid | LIMIT " ++ x) =
          " REVERSELY YIELD dst(edge) AS vid | LIMIT " ++ x := by
        intro x
        rw [← String.append_assoc]
        rfl
      simp only [if_true] at hr ⊢
      simp only [String.append_assoc, e1] at hr ⊢
      rw [hr]
    | false =>
      simp only [Bool.false_eq_true, if_false, e0] at hr ⊢
      rw [hr]
  have hfirst : ∀ keepNums : List Int, firstOrZero keepNums = keepNums.headD 0 := by
    intro keepNums
    cases keepNums <;> rfl
  refine ⟨_, rfl, fun h0 h1 => wrapInt_of_range _ h0 h1, ?_, ?_, ?_, ?_, ?_⟩
  · intro e st1 h
    rw [hdef _ h]
  · intro res st1 h
    rw [hdef _ h]
    simp only []
    by_cases hg : (GetRowSize res : Int) > keepNum
    · simp [hg]
    · simp [hg]
  · intro hsess
    have hsent := ConnectAndExcute_sent L P st ("GO FROM \"" ++ startVid ++ "\" OVER " ++ edge ++
        (if reverse = true then " REVERSELY" else "") ++ " YIELD dst(edge) AS vid | LIMIT " ++
        fmtInt (wrapInt (keepNum + 1)) ++ ";")
    rw [hsess] at hsent
    simp only [] at hsent
    rw [hdef _ rfl]
    cases hc : ConnectAndExcute L P st ("GO FROM \"" ++ startVid ++ "\" OVER " ++ edge ++
        (if reverse = true then " REVERSELY" else "") ++ " YIELD dst(edge) AS vid | LIMIT " ++
        fmtInt (wrapInt (keepNum + 1)) ++ ";") with
    | mk r st1 =>
      rw [hc] at hsent
      cases r with
      | error e => exact hsent
      | ok res =>
        simp only []
        split <;> exact hsent
  · intro keepNums
    unfold GoAndCheckNextVertexExist
    rw [hfirst]
  · intro keepNums
    unfold GoAndCheckUpwardVertexExist
    rw [hfirst]

/-- C36 at concrete inputs: with no threshold given the statement ends in `LIMIT 1`, and a
result of one row gives true. -/
theorem goAndCheckVertexExist_limit_witness :
    GoAndCheckUpwardVertexExist asciiLib oneRowPool ⟨0, []⟩ "v1" "knows" [] =
      (.ok true,
        ⟨1, ["USE test; GO FROM \"v1\" OVER knows REVERSELY YIELD dst(edge) AS vid | LIMIT 1;"]⟩) :=
  (goAndCheckVertexExist_limit asciiLib oneRowPool ⟨0, []⟩ "v1" "knows" true 0 (by decide)
    (by decide)).elim (fun _ h => (h.2.2.2.2.2.2 []).trans ((h.1 ▸ h.2.2.2.1) _ _ rfl))

/-- The loop of `GetTagIndexNames` over rows of two cells or more: it appends the indexes the
rows report for the tag. -/
theorem tagIndexLoop_eq (tag : String) (rows : List (List String)) (acc : List String)
    (h : ∀ row ∈ rows, 2 ≤ row.length) :
    tagIndexLoop tag rows acc = .ok (acc ++ reportedIndexes tag rows) := by
  induction rows generalizing acc with
  | nil => simp [tagIndexLoop, reportedIndexes]
  | cons row rest ih =>
    have hrow : 2 ≤ row.length := h row (List.mem_cons_self _ _)
    have hrest : ∀ r ∈ rest, 2 ≤ r.length := fun r hr => h r (List.mem_cons_of_mem _ hr)
    unfold tagIndexLoop
    obtain ⟨c0, c1, more, rfl⟩ : ∃ c0 c1 more, row = c0 :: c1 :: more := by
      rcases row with _ | ⟨a, _ | ⟨b, m⟩⟩
      · simp at hrow
      · simp at hrow
      · exact ⟨a, b, m, rfl⟩
    simp only [List.getElem?_cons_succ, List.getElem?_cons_zero]
    by_cases ht : TrimSuffix (TrimPrefix c1 "\"") "\"" = tag
    · rw [if_pos ht, ih _ hrest]
      simp [reportedIndexes, unquote, ht, List.filter_cons]
    · rw [if_neg ht, ih _ hrest]
      simp [reportedIndexes, unquote, ht, List.filter_cons]

/-- A run of the loop of `DropTagByName` without error has sent one DROP TAG INDEX statement
per index, in order. -/
theorem dropIndexLoop_ok {σ : Type} (L : Lib) (P : Pool σ) (names : List String)
    (st st2 : Run σ) (h : dropIndexLoop L P names st = (none, st2)) :
    st2.sent = st.sent ++ names.map (fun i => sentText L P.space (dropIndexStatement i)) := by
  induction names generalizing st with
  | nil =>
    simp only [dropIndexLoop, Prod.mk.injEq, true_and] at h
    subst h
    simp
  | cons name rest ih =>
    unfold dropIndexLoop DropTagIndex at h
    cases hc : ConnectAndExcute L P st ("DROP TAG INDEX " ++ name ++ ";") with
    | mk r st1 =>
      rw [hc] at h
      cases r with
      | error e => simp at h
      | ok res =>
        simp only [] at h
        rw [ih st1 h, ConnectAndExcute_ok_sent L P st st1 _ res hc]
        simp [dropIndexStatement]

/-- A run of the loop of `DropTagByName` that ends in an error has sent the DROP TAG INDEX
statements of the indexes before the failing one, in order, and at most the one of the
failing index behind them. -/
theorem dropIndexLoop_error {σ : Type} (L : Lib) (P : Pool σ) (names : List String)
    (st st2 : Run σ) (e : String) (h : dropIndexLoop L P names st = (some e, st2)) :
    ∃ done failed rest, names = done ++ failed :: rest ∧
      (st2.sent = st.sent ++ done.map (fun i => sentText L P.space (dropIndexStatement i)) ∨
        st2.sent = st.sent ++
          (done ++ [failed]).map (fun i => sentText L P.space (dropIndexStatement i))) := by
  induction names generalizing st with
  | nil => simp [dropIndexLoop] at h
  | cons name rest ih =>
    unfold dropIndexLoop DropTagIndex at h
    cases hc : ConnectAndExcute L P st ("DROP TAG INDEX " ++ name ++ ";") with
    | mk r st1 =>
      rw [hc] at h
      cases r with
      | error e1 =>
        simp only [Prod.mk.injEq, Option.some.injEq] at h
        obtain ⟨_, hst⟩ := h
        subst hst
        refine ⟨[], name, rest, rfl, ?_⟩
        have := ConnectAndExcute_sent_cases L P st ("DROP TAG INDEX " ++ name ++ ";")
        rw [hc] at this
        rcases this with h1 | h1
        · left
          simpa using h1
        · right
          simpa [dropIndexStatement] using h1
      | ok res =>
        simp only [] at h
        obtain ⟨done, failed, more, hnames, hsent⟩ := ih st1 h
        have hs1 := ConnectAndExcute_ok_sent L P st st1 _ res hc
        refine ⟨name :: done, failed, more, by rw [hnames]; rfl, ?_⟩
        rcases hsent with h1 | h1
        · left
          rw [h1, hs1]
          simp [dropIndexStatement]
        · right
          rw [h1, hs1]
          simp [dropIndexStatement]

/-- C37: `DropTagByName` first lists the indexes with SHOW TAG INDEXES; for a table whose data
rows have two cells or more the names it works on are the indexes the table reports for the
tag, in table order. When the listing fails, it returns that error and has sent at most the
SHOW statement. When a drop of an index fails, it returns that error and has sent, behind the
SHOW statement, the DROP TAG INDEX statements of the indexes before the failing one and at
most the one of the failing index: no DROP TAG statement. When every drop succeeded, one DROP
TAG INDEX statement per index has been sent, in order, and only then the DROP TAG statement
is run. -/
theorem DropTagByName_order {σ : Type} (L : Lib) (P : Pool σ) (st : Run σ) (tag : String)
    (ifExists : Bool) :
    (∀ res st1 header rows,
        ConnectAndExcute L P st "SHOW TAG INDEXES;" = (.ok res, st1) →
        res.table = header :: rows → (∀ row ∈ rows, 2 ≤ row.length) →
        GetTagIndexNames L P st tag = (.ok (reportedIndexes tag rows), st1)) ∧
      (∀ f st1, GetTagIndexNames L P st tag = (.error f, st1) →
        DropTagByName L P st tag ifExists = (some f, st1) ∧
          (st1.sent = st.sent ∨ st1.sent = st.sent ++ [sentText L P.space "SHOW TAG INDEXES;"])) ∧
      (∀ names st1, GetTagIndexNames L P st tag = (.ok names, st1) →
        st1.sent = st.sent ++ [sentText L P.space "SHOW TAG INDEXES;"] ∧
        (∀ e st2, dropIndexLoop L P names st1 = (some e, st2) →
          DropTagByName L P st tag ifExists = (some (.err e), st2) ∧
          ∃ done failed rest, names = done ++ failed :: rest ∧
            (st2.sent = st1.sent ++
                done.map (fun i => sentText L P.space (dropIndexStatement i)) ∨
              st2.sent = st1.sent ++
                (done ++ [failed]).map (fun i => sentText L P.space (dropIndexStatement i)))) ∧
        (∀ st2, dropIndexLoop L P names st1 = (none, st2) →
          st2.sent = st1.sent ++ names.map (fun i => sentText L P.space (dropIndexStatement i)) ∧
          (∀ e st3, ConnectAndExcute L P st2
              ("DROP TAG " ++ (if ifExists = true then "IF EXISTS " else "") ++ tag ++ ";") =
                (.error e, st3) →
            DropTagByName L P st tag ifExists =
              (some (.err ("Failed to  Drop Tag '" ++ tag ++ "'. " ++ e ++ ".")), st3)) ∧
          (∀ r st3, ConnectAndExcute L P st2
              ("DROP TAG " ++ (if ifExists = true then "IF EXISTS " else "") ++ tag ++ ";") =
                (.ok r, st3) →
            DropTagByName L P st tag ifExists = (none, st3) ∧
              st3.sent = st.sent ++ [sentText L P.space "SHOW TAG INDEXES;"] ++
                names.map (fun i => sentText L P.space (dropIndexStatement i)) ++
                [sentText L P.space
                  ("DROP TAG " ++ (if ifExists = true then "IF EXISTS " else "") ++ tag ++
                    ";")]))) := by
  have e0 : ∀ s : String, s ++ "" = s := by
    intro s
    apply String.ext
    simp [String.data_append]
  have hstmt : (if ifExists = true then "DROP TAG " ++ "IF EXISTS " else "DROP TAG ") ++
      (tag ++ ";") =
      "DROP TAG " ++ (if ifExists = true then "IF EXISTS " else "") ++ tag ++ ";" := by
    cases ifExists with
    | true => simp only [if_true, String.append_assoc]
    | false => simp only [Bool.false_eq_true, if_false, e0, String.append_assoc]
  refine ⟨?_, ?_, ?_⟩
  · intro res st1 header rows hc htable hrows
    unfold GetTagIndexNames
    rw [hc]
    simp only [htable]
    rw [tagIndexLoop_eq tag rows [] hrows, List.nil_append]
  · intro f st1 h
    constructor
    · unfold DropTagByName
      simp only [h]
    · unfold GetTagIndexNames at h
      have hcases := ConnectAndExcute_sent_cases L P st "SHOW TAG INDEXES;"
      cases hc : ConnectAndExcute L P st "SHOW TAG INDEXES;" with
      | mk r st1' =>
        rw [hc] at h hcases
        cases r with
        | error e =>
          simp only [Prod.mk.injEq] at h
          rw [← h.2]
          exact hcases
        | ok res =>
          simp only [] at h
          have hs := ConnectAndExcute_ok_sent L P st st1' _ res hc
          have hst : st1' = st1 := by
            cases ht : res.table with
            | nil =>
              rw [ht] at h
              exact (Prod.mk.inj h).2
            | cons hd rows =>
              rw [ht] at h
              exact (Prod.mk.inj h).2
          rw [← hst]
          exact Or.inr hs
  · intro names st1 h
    have hs1 : st1.sent = st.sent ++ [sentText L P.space "SHOW TAG INDEXES;"] := by
      unfold GetTagIndexNames at h
      cases hc : ConnectAndExcute L P st "SHOW TAG INDEXES;" with
      | mk r st1' =>
        rw [hc] at h
        cases r with
        | error e => simp at h
        | ok res =>
          simp only [] at h
          have hs := ConnectAndExcute_ok_sent L P st st1' _ res hc
          have hst : st1' = st1 := by
            cases ht : res.table with
            | nil =>
              rw [ht] at h
              exact (Prod.mk.inj h).2
            | cons hd rows =>
              rw [ht] at h
              exact (Prod.mk.inj h).2
          rw [← hst]
          exact hs
    refine ⟨hs1, ?_, ?_⟩
    · intro e st2 hloop
      constructor
      · unfold DropTagByName
        simp only [h, hloop]
      · exact dropIndexLoop_error L P names st1 st2 e hloop
    · intro st2 hloop
      have hs2 := dropIndexLoop_ok L P names st1 st2 hloop
      refine ⟨hs2, ?_, ?_⟩
      · intro e st3 hc
        unfold DropTagByName
        simp only [h, hloop, hstmt, hc]
      · intro r st3 hc
        constructor
        · unfold DropTagByName
          simp only [h, hloop, hstmt, hc]
        · rw [ConnectAndExcute_ok_sent L P st2 st3 _ r hc, hs2, hs1]

/-- C37 at concrete inputs: the table reports one index for the tag `city`; its drop is sent
between the SHOW statement and the DROP TAG statement. -/
theorem DropTagByName_order_witness :
    DropTagByName asciiLib indexPool ⟨0, []⟩ "city" true = (none,
        ⟨3, ["USE test; SHOW TAG INDEXES;", "USE test; DROP TAG INDEX city_index;",
          "USE test; DROP TAG IF EXISTS city;"]⟩) ∧
      ["USE test; SHOW TAG INDEXES;", "USE test; DROP TAG INDEX city_index;",
          "USE test; DROP TAG IF EXISTS city;"] =
        [] ++ [sentText asciiLib indexPool.space "SHOW TAG INDEXES;"] ++
          ["city_index"].map (fun i => sentText asciiLib indexPool.space (dropIndexStatement i)) ++
          [sentText asciiLib indexPool.space
            ("DROP TAG " ++ (if true = true then "IF EXISTS " else "") ++ "city" ++ ";")] :=
  ((((DropTagByName_order asciiLib indexPool ⟨0, []⟩ "city" true).2.2 ["city_index"]
    ⟨1, ["USE test; SHOW TAG INDEXES;"]⟩ rfl).2.2
    ⟨2, ["USE test; SHOW TAG INDEXES;", "USE test; DROP TAG INDEX city_index;"]⟩ rfl).2.2
    ⟨true, "SUCCEEDED", "", []⟩
    ⟨3, ["USE test; SHOW TAG INDEXES;", "USE test; DROP TAG INDEX city_index;",
      "USE test; DROP TAG IF EXISTS city;"]⟩ rfl)

/-- C37 at concrete inputs where a drop fails: the second index of the tag `person` is not
dropped, and no DROP TAG statement is sent. -/
theorem DropTagByName_index_drop_fails :
    DropTagByName asciiLib indexPool ⟨0, []⟩ "person" false =
      (some (.err ("Failed to  Drop Tag Index 'person_name'. NGQL executing failed. " ++
        "ErrorCode: E_EXECUTION_ERROR. ErrorMsg: no.")),
        ⟨3, ["USE test; SHOW TAG INDEXES;", "USE test; DROP TAG INDEX person_index;",
          "USE test; DROP TAG INDEX person_name;"]⟩) := by
  rfl

/-- A text that ends in `YIELD ` has no comma-space suffix to trim. -/
theorem TrimSuffix_YIELD (pre : String) : TrimSuffix (pre ++ "YIELD ") ", " = pre ++ "YIELD " := by
  unfold TrimSuffix HasSuffix
  simp [String.data_append, List.isPrefixOf]

/-- A field with a declaration is among the field names of the schema. -/
theorem mem_fieldNames_of_lookup (schema : Schema) (f : String)
    (h : (List.lookup f schema).isSome = true) : f ∈ fieldNames schema := by
  by_contra hc
  rw [(lookup_eq_none_iff f schema).mpr hc] at h
  simp at h

/-- When the YIELD section of a lookup asks for the order and the schema declares
`created_at`, the section yields the column `created_at`: the field is in `fields` and its
entry is among the entries behind `YIELD `. -/
theorem lookupYield_created_at (schema : Schema) (showFields : List String)
    (ngql base : String) (fields : List String)
    (h : lookupYield schema showFields ngql = .ok (base, fields, true))
    (hc : (List.lookup "created_at" schema).isSome = true) :
    "created_at" ∈ fields ∧
      ∃ entries, base = ngql ++ "YIELD " ++ Join entries ", " ∧
        yieldEntry "created_at" ∈ entries := by
  unfold lookupYield at h
  by_cases h0 : showFields.length = 0
  · rw [if_pos h0, yieldAllLoop_eq] at h
    simp only [Except.ok.injEq, Prod.mk.injEq, and_true] at h
    obtain ⟨hb, hf⟩ := h
    have hm := mem_fieldNames_of_lookup schema "created_at" hc
    refine ⟨by rw [← hf]; exact List.mem_append_right _ hm, (fieldNames schema).map yieldEntry,
      ?_, List.mem_map_of_mem _ hm⟩
    rw [← hb, TrimSuffix_entries_keep _ _ _ (TrimSuffix_YIELD ngql)]
  · rw [if_neg h0] at h
    by_cases h1 : showFields.length = 1 ∧ showFields.head? = some "vid"
    · rw [if_pos h1] at h
      simp at h
    · rw [if_neg h1] at h
      simp only [hc, if_true] at h
      cases hl : yieldShownLoop schema (showFields ++ ["created_at"]) (ngql ++ "YIELD ")
          ["VertexID"] with
      | error e => simp [hl] at h
      | ok r =>
        rw [hl] at h
        simp only [Except.ok.injEq, Prod.mk.injEq, and_true] at h
        obtain ⟨hb, hf⟩ := h
        obtain ⟨_, hr⟩ := (yieldShownLoop_ok_iff schema _ _ _ r).mp hl
        have hm : "created_at" ∈
            (showFields ++ ["created_at"]).filter (fun f => decide (f ≠ "vid")) := by
          rw [List.mem_filter]
          exact ⟨by simp, by decide⟩
        rw [hr] at hb hf
        simp only [] at hb hf
        refine ⟨by rw [← hf]; exact List.mem_append_right _ hm, _, ?_,
          List.mem_map_of_mem _ hm⟩
        rw [← hb, TrimSuffix_entries_keep _ _ _ (TrimSuffix_YIELD ngql)]

/-- The statement of a traversal that is asked for the vid alone, over a schema that declares
`created_at`: the ORDER BY clause stands behind a YIELD clause of the one column `VertexID`. -/
theorem goEndsNGQL_vid_only (schema : Schema) (pre : String)
    (hc : (List.lookup "created_at" schema).isSome = true) :
    goEndsNGQL schema ["vid"] (pre ++ " YIELD id($$) as VertexID, ") =
      .ok (pre ++ " YIELD id($$) as VertexID" ++ " | ORDER BY $-.created_at ASC" ++ ";",
        ["VertexID"]) := by
  have e : pre ++ " YIELD id($$) as VertexID, " = pre ++ " YIELD id($$) as VertexID" ++ ", " := by
    rw [String.append_assoc]
    rfl
  unfold goEndsNGQL
  simp only [List.length_singleton, one_ne_zero, if_false, List.head?_cons, and_self, if_true, hc]
  rw [e, TrimSuffix_append]

/-- C38 (what the code does): a statement of `LookupVertexes` or of
`Queryer.LookupVertexesWithPagination` has the ORDER BY clause only when its YIELD clause has
the entry of `created_at` and `created_at` is among the fields parsed. `GoGetEndsData` and
`GoGetEndsDataWithStep` do not look at what was asked for: over a schema that declares
`created_at`, the show fields `vid` alone give a statement whose YIELD clause has the one
column `VertexID` and that still ends in the ORDER BY clause on `created_at`. -/
theorem order_by_created_at {σ : Type} (L : Lib) (P : Pool σ) (st : Run σ) (tds : DataSchema)
    (showFields : List String) :
    (∀ filter stmt fields, lookupVertexesNGQL L tds filter showFields = .ok (stmt, fields) →
        ∃ base, stmt = base ++ ";" ∨
          (stmt = base ++ " | ORDER BY $-.created_at ASC" ++ ";" ∧ "created_at" ∈ fields ∧
            ∃ w entries, base = w ++ "YIELD " ++ Join entries ", " ∧
              yieldEntry "created_at" ∈ entries)) ∧
      (∀ (q : Queryer) ngql base fields needOrder,
        lookupYield tds.schema showFields ngql = .ok (base, fields, needOrder) →
        ∃ limit, orderAndPage tds.schema needOrder q.PageSize q.PageIndex base =
            base ++ limit ++ ";" ∨
          (orderAndPage tds.schema needOrder q.PageSize q.PageIndex base =
              base ++ " | ORDER BY $-.created_at ASC" ++ limit ++ ";" ∧
            "created_at" ∈ fields ∧
            ∃ entries, base = ngql ++ "YIELD " ++ Join entries ", " ∧
              yieldEntry "created_at" ∈ entries)) ∧
      ((List.lookup "created_at" tds.schema).isSome = true →
        ∀ startVid over step,
          GoGetEndsData L P st startVid over tds.schema ["vid"] =
              goEndsRun L P st tds.schema
                (.ok ("GO FROM \"" ++ startVid ++ "\" OVER " ++ over ++
                  " YIELD id($$) as VertexID" ++ " | ORDER BY $-.created_at ASC" ++ ";",
                  ["VertexID"])) ∧
            GoGetEndsDataWithStep L P st startVid over step tds.schema ["vid"] =
              goEndsRun L P st tds.schema
                (.ok ("GO " ++ fmtInt step ++ " STEPS FROM \"" ++ startVid ++ "\" OVER " ++ over ++
                  " YIELD id($$) as VertexID" ++ " | ORDER BY $-.created_at ASC" ++ ";",
                  ["VertexID"]))) := by
  have e0 : ∀ s : String, s ++ "" = s := by
    intro s
    apply String.ext
    simp [String.data_append]
  refine ⟨?_, ?_, ?_⟩
  · intro filter stmt fields hok
    unfold lookupVertexesNGQL at hok
    cases hw : lookupFilter L tds.name tds.schema filter ("LOOKUP ON " ++ tds.name ++ " ") with
    | error e => simp [hw] at hok
    | ok w =>
      rw [hw] at hok
      simp only [] at hok
      cases hy : lookupYield tds.schema showFields w with
      | error e => simp [hy] at hok
      | ok y =>
        obtain ⟨base, fields1, needOrder⟩ := y
        rw [hy] at hok
        simp only [] at hok
        have hpair := Prod.mk.inj (Except.ok.inj hok)
        have hf : fields1 = fields := hpair.2
        subst hf
        refine ⟨base, ?_⟩
        by_cases ho : (List.lookup "created_at" tds.schema).isSome ∧ needOrder = true
        · right
          have hs := hpair.1
          rw [if_pos ho] at hs
          obtain ⟨hc, hn⟩ := ho
          subst hn
          obtain ⟨hmem, entries, hb, hent⟩ :=
            lookupYield_created_at tds.schema showFields w base fields1 hy hc
          exact ⟨hs.symm, hmem, w, entries, hb, hent⟩
        · left
          have hs := hpair.1
          rw [if_neg ho] at hs
          exact hs.symm
  · intro q ngql base fields needOrder hy
    by_cases ho : (List.lookup "created_at" tds.schema).isSome ∧ needOrder = true
    · obtain ⟨hc, hn⟩ := ho
      subst hn
      obtain ⟨hmem, entries, hb, hent⟩ :=
        lookupYield_created_at tds.schema showFields ngql base fields hy hc
      by_cases hp : q.PageSize > 0
      · refine ⟨(" | LIMIT " ++ fmtInt (wrapInt (((if q.PageIndex > 1 then q.PageIndex else 1) - 1) *
          q.PageSize)) ++ ", " ++ fmtInt q.PageSize),
          Or.inr ⟨?_, hmem, entries, hb, hent⟩⟩
        unfold orderAndPage
        simp only [hc, and_self, if_true, hp]
      · refine ⟨"", Or.inr ⟨?_, hmem, entries, hb, hent⟩⟩
        unfold orderAndPage
        simp only [hc, and_self, if_true, hp, if_false, e0]
    · by_cases hp : q.PageSize > 0
      · refine ⟨(" | LIMIT " ++ fmtInt (wrapInt (((if q.PageIndex > 1 then q.PageIndex else 1) - 1) *
          q.PageSize)) ++ ", " ++ fmtInt q.PageSize),
          Or.inl ?_⟩
        unfold orderAndPage
        simp only [ho, if_false, hp, if_true]
      · refine ⟨"", Or.inl ?_⟩
        unfold orderAndPage
        simp only [ho, if_false, hp, e0]
  · intro hc startVid over step
    constructor
    · unfold GoGetEndsData
      have e : "GO FROM \"" ++ startVid ++ "\" OVER " ++ over ++ " YIELD id($$) as VertexID, " =
          ("GO FROM \"" ++ startVid ++ "\" OVER " ++ over) ++ " YIELD id($$) as VertexID, " := rfl
      rw [e, goEndsNGQL_vid_only _ _ hc]
    · unfold GoGetEndsDataWithStep
      have e : "GO " ++ fmtInt step ++ " STEPS FROM \"" ++ startVid ++ "\" OVER " ++ over ++
          " YIELD id($$) as VertexID, " =
          ("GO " ++ fmtInt step ++ " STEPS FROM \"" ++ startVid ++ "\" OVER " ++ over) ++
            " YIELD id($$) as VertexID, " := rfl
      rw [e, goEndsNGQL_vid_only _ _ hc]

/-- C38 at concrete inputs: `GoGetEndsData` asked for the vid alone, over a schema with
`created_at`, sends a statement that orders by a column it does not yield; `LookupVertexes`
asked for the vid alone sends no ORDER BY clause. -/
theorem order_by_created_at_witness :
    (GoGetEndsData asciiLib countingPool ⟨0, []⟩ "v1" "knows"
        [("name", "string"), ("created_at", "timestamp")] ["vid"]).2.sent =
        ["USE test; GO FROM \"v1\" OVER knows YIELD id($$) as VertexID" ++
          " | ORDER BY $-.created_at ASC;"] ∧
      (LookupVertexes asciiLib countingPool ⟨0, []⟩
        ⟨"person", [("name", "string"), ("created_at", "timestamp")], []⟩ [] ["vid"]).2.sent =
        ["USE test; LOOKUP ON person;"] :=
  ⟨(congrArg (fun r => r.2.sent)
      (((order_by_created_at asciiLib countingPool ⟨0, []⟩
        ⟨"person", [("name", "string"), ("created_at", "timestamp")], []⟩ ["vid"]).2.2 rfl
        "v1" "knows" 1).1)).trans rfl, rfl⟩

/-- With exactly one search value the loop of `Queryer2` is the loop of `Queryer` for that
value. -/
theorem queryer2WhereLoop_one (L : Lib) (tag : String) (schema : Schema) (v : String)
    (explicitly : Bool) (fields : List String) (ngql : String) :
    queryer2WhereLoop L tag schema [v] explicitly fields ngql =
      queryerWhereLoop L tag schema v explicitly fields ngql := by
  induction fields generalizing ngql with
  | nil => rfl
  | cons f rest ih =>
    unfold queryer2WhereLoop queryerWhereLoop
    cases List.lookup f schema with
    | none => rfl
    | some d =>
      simp only []
      split
      · exact ih ngql
      · cases getNGQLValue L d (.str v) with
        | error e => rfl
        | ok valStr => exact ih _

/-- With no search value the loop of `Queryer2` is the loop of `Queryer` for the empty
text. -/
theorem queryer2WhereLoop_none (L : Lib) (tag : String) (schema : Schema)
    (explicitly : Bool) (fields : List String) (ngql : String) :
    queryer2WhereLoop L tag schema [] explicitly fields ngql =
      queryerWhereLoop L tag schema "" explicitly fields ngql := by
  induction fields generalizing ngql with
  | nil => rfl
  | cons f rest ih =>
    unfold queryer2WhereLoop queryerWhereLoop
    cases List.lookup f schema with
    | none => rfl
    | some d =>
      simp only []
      split
      · exact ih ngql
      · cases getNGQLValue L d (.str "") with
        | error e => rfl
        | ok valStr => exact ih _

/-- C39: `Queryer2.LookupVertexesWithPagination` with exactly one search value `v` in use is
`Queryer.LookupVertexesWithPagination` with the search value `v` and the same other settings:
the same result and the same run, so the same statements in the same order. With no search
value in use it is `Queryer.LookupVertexesWithPagination` with the empty search value. -/
theorem Queryer2_refines_Queryer {σ : Type} (L : Lib) (P : Pool σ) (st : Run σ)
    (q : Queryer2) (tds : DataSchema) (showFields : List String) :
    (∀ v, chosen q.SearchValuesAlias q.SearchValues = [v] →
        Queryer2.LookupVertexesWithPagination L P st q tds showFields =
          Queryer.LookupVertexesWithPagination L P st
            ⟨q.PageSize, q.PageIndex, q.SearchFieldsAlias, q.SearchFields, v, q.Explicitly⟩
            tds showFields) ∧
      (chosen q.SearchValuesAlias q.SearchValues = [] →
        Queryer2.LookupVertexesWithPagination L P st q tds showFields =
          Queryer.LookupVertexesWithPagination L P st
            ⟨q.PageSize, q.PageIndex, q.SearchFieldsAlias, q.SearchFields, "", q.Explicitly⟩
            tds showFields) := by
  constructor
  · intro v hv
    unfold Queryer2.LookupVertexesWithPagination Queryer.LookupVertexesWithPagination
    unfold queryer2Where queryerWhere
    simp only [hv, queryer2WhereLoop_one]
  · intro hv
    unfold Queryer2.LookupVertexesWithPagination Queryer.LookupVertexesWithPagination
    unfold queryer2Where queryerWhere
    simp only [hv, queryer2WhereLoop_none]

/-- C39 at concrete inputs: one search value, taken from the alias list. -/
theorem Queryer2_refines_Queryer_witness :
    (Queryer2.LookupVertexesWithPagination asciiLib countingPool ⟨0, []⟩
        ⟨5, 2, [], ["name", "age"], ["Bo"], ["x", "y"], false⟩
        ⟨"person", [("name", "string"), ("age", "int")], []⟩ ["name"]).2.sent =
      ["USE test; LOOKUP ON person WHERE person.name STARTS WITH \"Bo\" OR person.age == Bo  " ++
          "YIELD properties(vertex).name as name;",
        "USE test; LOOKUP ON person WHERE person.name STARTS WITH \"Bo\" OR person.age == Bo  " ++
          "YIELD properties(vertex).name as name | LIMIT 5, 5;"] :=
  (congrArg (fun r => r.2.sent)
    ((Queryer2_refines_Queryer asciiLib countingPool ⟨0, []⟩
      ⟨5, 2, [], ["name", "age"], ["Bo"], ["x", "y"], false⟩
      ⟨"person", [("name", "string"), ("age", "int")], []⟩ ["name"]).1 "Bo" rfl)).trans rfl

/-- The text of an index panic does not begin like the panic of `getRealValue`. -/
theorem indexPanic_ne_datetime (i n : Nat) (e : String) :
    indexPanic i n ≠ .panic ("nebula datetime format changed. " ++ e) := by
  intro h
  unfold indexPanic at h
  have := congrArg String.data (Fault.panic.inj h)
  simp [String.data_append] at this

/-- An error of `getRealValue` is never an index panic. -/
theorem getRealValue_not_indexPanic (L : Lib) (fieldDef valStr : String) (i n : Nat) :
    getRealValue L fieldDef valStr ≠ .error (indexPanic i n) := by
  have hI : ∀ r : Except String Int, parsedInt r ≠ .error (indexPanic i n) := by
    intro r
    cases r <;> simp [parsedInt, indexPanic]
  have hF : ∀ r : Except String Nat, parsedFloat r ≠ .error (indexPanic i n) := by
    intro r
    cases r <;> simp [parsedFloat, indexPanic]
  have hite : ∀ (c : Prop) [Decidable c] (a b : Except Fault Value),
      a ≠ .error (indexPanic i n) → b ≠ .error (indexPanic i n) →
      (if c then a else b) ≠ .error (indexPanic i n) := by
    intro c _ a b ha hb
    split
    · exact ha
    · exact hb
  unfold getRealValue
  split
  · simp [indexPanic]
  · simp only []
    repeat' apply hite
    all_goals first
      | exact hI _
      | exact hF _
      | (intro h; cases h)
      | (split
         all_goals first
          | (intro h; exact absurd (Except.error.inj h).symm (indexPanic_ne_datetime i n _))
          | (intro h; simp [indexPanic] at h))

/-- The loop over the fields reads the header row and the data row only at the positions of the
fields: two pairs of rows that agree there give the same result. -/
theorem parseRow_congr (L : Lib) (schema : Schema) (title row title2 row2 : List String)
    (i : Nat) (fields : List String) (rowData : DataRecord)
    (h : ∀ j, i ≤ j → j < i + fields.length →
      ∃ t c, title[j]? = some t ∧ title2[j]? = some t ∧ row[j]? = some c ∧ row2[j]? = some c) :
    parseRow L schema title row i fields rowData =
      parseRow L schema title2 row2 i fields rowData := by
  induction fields generalizing i rowData with
  | nil => simp [parseRow]
  | cons f rest ih =>
    obtain ⟨t, c, h1, h2, h3, h4⟩ := h i (le_refl _) (by simp)
    rw [parseRow_cons L schema title row i f rest rowData t c h1 h3,
      parseRow_cons L schema title2 row2 i f rest rowData t c h2 h4]
    cases getRealValue L (cellDef schema t f) c with
    | error e => rfl
    | ok v =>
      simp only []
      apply ih
      intro j hj1 hj2
      exact h j (by omega) (by simp only [List.length_cons]; omega)

/-- The loop over the fields does not end in an index panic when the header row and the data
row have a cell at every position of a field. -/
theorem parseRow_no_indexPanic (L : Lib) (schema : Schema) (title row : List String)
    (i : Nat) (fields : List String) (rowData : DataRecord) (k n : Nat)
    (h : ∀ j, i ≤ j → j < i + fields.length → ∃ t c, title[j]? = some t ∧ row[j]? = some c) :
    parseRow L schema title row i fields rowData ≠ .error (indexPanic k n) := by
  induction fields generalizing i rowData with
  | nil => simp [parseRow]
  | cons f rest ih =>
    obtain ⟨t, c, h1, h3⟩ := h i (le_refl _) (by simp)
    rw [parseRow_cons L schema title row i f rest rowData t c h1 h3]
    cases hv : getRealValue L (cellDef schema t f) c with
    | error e =>
      simp only []
      intro hc
      have he : e = indexPanic k n := Except.error.inj hc
      rw [he] at hv
      exact getRealValue_not_indexPanic L _ c k n hv
    | ok v =>
      simp only []
      apply ih
      intro j hj1 hj2
      exact h j (by omega) (by simp only [List.length_cons]; omega)

/-- A row of enough cells has a cell at every position below the number of fields. -/
theorem cell_of_length (row : List String) (n j : Nat) (h : n ≤ row.length) (hj : j < n) :
    ∃ c, row[j]? = some c :=
  ⟨row[j], List.getElem?_eq_getElem (by omega)⟩

/-- Two rows with the same first `n` cells, the first of them of `n` cells or more, have the
same cell at every position below `n`. -/
theorem cell_of_take (row row2 : List String) (n j : Nat) (h : n ≤ row.length)
    (ht : row2.take n = row.take n) (hj : j < n) :
    ∃ c, row[j]? = some c ∧ row2[j]? = some c := by
  obtain ⟨c, hc⟩ := cell_of_length row n j h hj
  refine ⟨c, hc, ?_⟩
  have h1 : (row.take n)[j]? = row[j]? := by rw [List.getElem?_take, if_pos hj]
  have h2 : (row2.take n)[j]? = row2[j]? := by rw [List.getElem?_take, if_pos hj]
  rw [← h2, ht, h1, hc]

/-- The loop over the data rows gives the same result on rows with the same cells at the
positions of the fields. -/
theorem parseRows_congr (L : Lib) (schema : Schema) (fields title title2 : List String)
    (rows rows2 : List (List String)) (resData : List DataRecord)
    (ht : fields.length ≤ title.length)
    (ht2 : title2.take fields.length = title.take fields.length)
    (hr : ∀ row ∈ rows, fields.length ≤ row.length)
    (hr2 : rows2.map (List.take fields.length) = rows.map (List.take fields.length)) :
    parseRows L schema fields title2 rows2 resData =
      parseRows L schema fields title rows resData := by
  induction rows generalizing rows2 resData with
  | nil =>
    cases rows2 with
    | nil => rfl
    | cons a b => simp at hr2
  | cons row rest ih =>
    cases rows2 with
    | nil => simp at hr2
    | cons row2 rest2 =>
      simp only [List.map_cons, List.cons.injEq] at hr2
      have hrow : parseRow L schema title row 0 fields [] =
          parseRow L schema title2 row2 0 fields [] := by
        apply parseRow_congr
        intro j _ hj
        have hj' : j < fields.length := by omega
        obtain ⟨t, h1, h2⟩ := cell_of_take title title2 _ j ht ht2 hj'
        obtain ⟨c, h3, h4⟩ := cell_of_take row row2 _ j
          (hr row (List.mem_cons_self _ _)) hr2.1 hj'
        exact ⟨t, c, h1, h2, h3, h4⟩
      unfold parseRows
      rw [← hrow]
      cases parseRow L schema title row 0 fields [] with
      | error f => rfl
      | ok rowData =>
        simp only []
        exact ih rest2 _ (fun r hm => hr r (List.mem_cons_of_mem _ hm)) hr2.2

/-- The loop over the data rows does not end in an index panic when the header row and every
data row have a cell at every position of a field. -/
theorem parseRows_no_indexPanic (L : Lib) (schema : Schema) (fields title : List String)
    (rows : List (List String)) (resData : List DataRecord) (k n : Nat)
    (ht : fields.length ≤ title.length) (hr : ∀ row ∈ rows, fields.length ≤ row.length) :
    parseRows L schema fields title rows resData ≠ .error (indexPanic k n) := by
  induction rows generalizing resData with
  | nil => simp [parseRows]
  | cons row rest ih =>
    unfold parseRows
    cases hp : parseRow L schema title row 0 fields [] with
    | error f =>
      simp only []
      intro hc
      have he : f = indexPanic k n := Except.error.inj hc
      rw [he] at hp
      refine parseRow_no_indexPanic L schema title row 0 fields [] k n ?_ hp
      intro j _ hj
      have hj' : j < fields.length := by omega
      obtain ⟨t, h1⟩ := cell_of_length title _ j ht hj'
      obtain ⟨c, h3⟩ := cell_of_length row _ j (hr row (List.mem_cons_self _ _)) hj'
      exact ⟨t, c, h1, h3⟩
    | ok rowData =>
      simp only []
      exact ih _ (fun r hm => hr r (List.mem_cons_of_mem _ hm))

/-- C40: when the header row and every data row of the table have at least as many cells as
there are fields, `ParseStringTable` does not end in an index panic, and it returns the same
result on every table that has the same cells at the positions of the fields: the cells behind
them do not count. -/
theorem ParseStringTable_cells (L : Lib) (table : List (List String)) (fields : List String)
    (schema : Schema) (h : ∀ row ∈ table, fields.length ≤ row.length) :
    (∀ k n, ParseStringTable L table fields schema ≠ .error (indexPanic k n)) ∧
      (∀ table2, table2.map (List.take fields.length) = table.map (List.take fields.length) →
        ParseStringTable L table2 fields schema = ParseStringTable L table fields schema) ∧
      ParseStringTable L (table.map (List.take fields.length)) fields schema =
        ParseStringTable L table fields schema := by
  have hsame : ∀ table2,
      table2.map (List.take fields.length) = table.map (List.take fields.length) →
      ParseStringTable L table2 fields schema = ParseStringTable L table fields schema := by
    intro table2 h2
    have hlen : table2.length = table.length := by
      have := congrArg List.length h2
      simpa using this
    unfold ParseStringTable
    rw [hlen]
    split
    · rfl
    · cases table with
      | nil =>
        cases table2 with
        | nil => rfl
        | cons a b => simp at hlen
      | cons title rows =>
        cases table2 with
        | nil => simp at hlen
        | cons title2 rows2 =>
          simp only [List.map_cons, List.cons.injEq] at h2
          exact parseRows_congr L schema fields title title2 rows rows2 []
            (h title (List.mem_cons_self _ _)) h2.1
            (fun r hm => h r (List.mem_cons_of_mem _ hm)) h2.2
  refine ⟨?_, hsame, ?_⟩
  · intro k n
    unfold ParseStringTable
    split
    · simp
    · cases table with
      | nil => simp
      | cons title rows =>
        exact parseRows_no_indexPanic L schema fields title rows [] k n
          (h title (List.mem_cons_self _ _)) (fun r hm => h r (List.mem_cons_of_mem _ hm))
  · apply hsame
    rw [List.map_map]
    apply List.map_congr_left
    intro row _
    simp [List.take_take]

/-- C40 at concrete inputs: a third column, which no field stands for, changes nothing. -/
theorem ParseStringTable_cells_witness :
    ParseStringTable asciiLib [["VertexID", "age", "x"], ["\"v1\"", "30", "junk"]]
        ["VertexID", "age"] [("age", "INT")] =
      ParseStringTable asciiLib [["VertexID", "age"], ["\"v1\"", "30"]]
        ["VertexID", "age"] [("age", "INT")] :=
  ((ParseStringTable_cells asciiLib [["VertexID", "age"], ["\"v1\"", "30"]]
    ["VertexID", "age"] [("age", "INT")] (by decide)).2.1
    [["VertexID", "age", "x"], ["\"v1\"", "30", "junk"]] rfl)

end NebulaClient

namespace Ginstarter
open Go

/-- An assignment under a key that the map has keeps the keys of the map. -/
theorem keys_assign {α : Type} (m : List (String × α)) (key : String) (val : α)
    (h : key ∈ m.map Prod.fst) : (assign m key val).map Prod.fst = m.map Prod.fst := by
  induction m with
  | nil => simp at h
  | cons p rest ih =>
    obtain ⟨k, v⟩ := p
    unfold assign
    by_cases hk : k = key
    · simp [hk]
    · simp only [hk, if_false, List.map_cons, List.cons.injEq, true_and]
      apply ih
      simp only [List.map_cons, List.mem_cons] at h
      rcases h with h | h
      · exact absurd h.symm hk
      · exact h

/-- A key that the map reads is a key of the map. -/
theorem mem_keys_of_lookup {α : Type} (m : List (String × α)) (key : String) (v : α)
    (h : List.lookup key m = some v) : key ∈ m.map Prod.fst := by
  induction m with
  | nil => simp at h
  | cons p rest ih =>
    obtain ⟨k, w⟩ := p
    simp only [List.lookup] at h
    by_cases hk : key = k
    · simp [hk]
    · have hb : (key == k) = false := by simpa using hk
      rw [hb] at h
      simp only [List.map_cons, List.mem_cons]
      exact Or.inr (ih h)

/-- The block of the choices returns with the data it was given. -/
theorem choicesBlock_data (V : Lib) (data : Data) (field : String) (fieldCheck : Data)
    (res : Res) (h : choicesBlock V data field fieldCheck = some res) : res.2 = data := by
  unfold choicesBlock at h
  split at h
  · split at h <;> simp at h <;> rw [← h]
  · simp at h

/-- The check of an `int` field keeps the keys of the data. -/
theorem checkInt_keys (V : Lib) (data : Data) (field : String) (fieldCheck : Data) :
    (checkInt V data field fieldCheck).2.map Prod.fst = data.map Prod.fst := by
  unfold checkInt
  cases hl : List.lookup field data with
  | none => rfl
  | some val =>
    have ha : ∀ x, (assign data field x).map Prod.fst = data.map Prod.fst :=
      fun x => keys_assign data field x (mem_keys_of_lookup data field val hl)
    simp only []
    split
    · rfl
    · rename_i expectVal data1 htyped
      have hd : data1.map Prod.fst = data.map Prod.fst := by
        split at htyped
        all_goals first
          | (cases htyped; first | rfl | exact ha _)
          | (split at htyped <;> cases htyped <;> first | rfl | exact ha _)
      split
      · exact hd
      · split
        · rename_i res hres
          rw [choicesBlock_data V _ _ _ res hres]
          exact hd
        · split
          · exact hd
          · split <;> exact hd

/-- The check of a `float` field keeps the keys of the data. -/
theorem checkFloat_keys (V : Lib) (data : Data) (field : String) (fieldCheck : Data) :
    (checkFloat V data field fieldCheck).2.map Prod.fst = data.map Prod.fst := by
  unfold checkFloat
  cases hl : List.lookup field data with
  | none => rfl
  | some val =>
    have ha : ∀ x, (assign data field x).map Prod.fst = data.map Prod.fst :=
      fun x => keys_assign data field x (mem_keys_of_lookup data field val hl)
    simp only []
    split
    · rfl
    · rename_i expectVal data1 htyped
      have hd : data1.map Prod.fst = data.map Prod.fst := by
        split at htyped
        all_goals first
          | (cases htyped; first | rfl | exact ha _)
          | (split at htyped <;> cases htyped <;> first | rfl | exact ha _)
      split
      · exact hd
      · split
        · rename_i res hres
          rw [choicesBlock_data V _ _ _ res hres]
          exact hd
        · split
          · exact hd
          · split <;> exact hd

/-- The check of a `bool` field keeps the keys of the data. -/
theorem checkBool_keys (V : Lib) (data : Data) (field : String) (fieldCheck : Data) :
    (checkBool V data field fieldCheck).2.map Prod.fst = data.map Prod.fst := by
  unfold checkBool
  cases hl : List.lookup field data with
  | none => rfl
  | some val =>
    have ha : ∀ x, (assign data field x).map Prod.fst = data.map Prod.fst :=
      fun x => keys_assign data field x (mem_keys_of_lookup data field val hl)
    split
    · rfl
    · rfl
    · split
      · rfl
      · exact ha _
      · rfl

/-- The tail of the check of a `string` field returns with the data it was given. -/
theorem checkString_tail (V : Lib) (data : Data) (field : String) (fieldCheck : Data)
    (expectVal : String) :
    (match choicesBlock V data field fieldCheck with
      | some res => res
      | none =>
        if boolOf fieldCheck "not_empty" && TrimSpace expectVal = "" then
          (some (.err (handleError V "not_empty" field fieldCheck
            ["value cannot be empty, for field '" ++ field ++ "'"])), data)
        else if (match List.lookup "regexp" fieldCheck with
            | some (.str reStr) => !(V.regexpMatch reStr expectVal)
            | _ => false) then
          (some (.err (handleError V "regexp" field fieldCheck
            ["Not matched with regexp constraint, for field '" ++ field ++ "'"])), data)
        else
          match lengthBlock V (byteLen expectVal) field fieldCheck with
          | some e => (some (.err e), data)
          | none => (none, data)).2 = data := by
  split
  · rename_i res hres
    exact choicesBlock_data V _ _ _ res hres
  · split
    · rfl
    · split
      · rfl
      · split <;> rfl

/-- The check of a `string` field keeps the keys of the data. -/
theorem checkString_keys (V : Lib) (data : Data) (field : String) (fieldCheck : Data) :
    (checkString V data field fieldCheck).2.map Prod.fst = data.map Prod.fst := by
  unfold checkString
  split
  · rfl
  · rename_i val hl
    have ha : ∀ x, (assign data field x).map Prod.fst = data.map Prod.fst :=
      fun x => keys_assign data field x (mem_keys_of_lookup data field _ hl)
    split
    · rfl
    · simp only []
      rw [checkString_tail]
      split
      · exact ha _
      · rfl
  · rfl

/-- The block for an empty value returns with the data it was given. -/
theorem emptyBlock_data (V : Lib) (what : String) (data : Data) (field : String)
    (fieldCheck : Data) : (emptyBlock V what data field fieldCheck).2 = data := by
  unfold emptyBlock
  split <;> rfl

/-- The check of an `ipaddr` field keeps the keys of the data. -/
theorem checkIpaddr_keys (V : Lib) (data : Data) (field : String) (fieldCheck : Data) :
    (checkIpaddr V data field fieldCheck).2.map Prod.fst = data.map Prod.fst := by
  unfold checkIpaddr
  cases hl : List.lookup field data with
  | none => rfl
  | some val =>
    have ha : ∀ x, (assign data field x).map Prod.fst = data.map Prod.fst :=
      fun x => keys_assign data field x (mem_keys_of_lookup data field val hl)
    simp only []
    split
    · rfl
    · split
      · rw [emptyBlock_data]
        exact ha _
      · split
        · exact ha _
        · split
          · rename_i res hres
            rw [choicesBlock_data V _ _ _ res hres]
            exact ha _
          · exact ha _

/-- The check of a `datetime` field keeps the keys of the data. -/
theorem checkDatetime_keys (V : Lib) (data : Data) (field : String) (fieldCheck : Data) :
    (checkDatetime V data field fieldCheck).2.map Prod.fst = data.map Prod.fst := by
  unfold checkDatetime
  cases hl : List.lookup field data with
  | none => rfl
  | some val =>
    have ha : ∀ x, (assign data field x).map Prod.fst = data.map Prod.fst :=
      fun x => keys_assign data field x (mem_keys_of_lookup data field val hl)
    simp only []
    split
    · rfl
    · split
      · rw [emptyBlock_data]
        exact ha _
      · split
        · exact ha _
        · split
          · rename_i res hres
            rw [choicesBlock_data V _ _ _ res hres]
            exact ha _
          · exact ha _

/-- The check of a `timestamp` field keeps the keys of the data. -/
theorem checkTimestamp_keys (V : Lib) (data : Data) (field : String) (fieldCheck : Data) :
    (checkTimestamp V data field fieldCheck).2.map Prod.fst = data.map Prod.fst := by
  unfold checkTimestamp
  cases hl : List.lookup field data with
  | none => rfl
  | some val =>
    have ha : ∀ x, (assign data field x).map Prod.fst = data.map Prod.fst :=
      fun x => keys_assign data field x (mem_keys_of_lookup data field val hl)
    simp only []
    split
    · rfl
    · rename_i data1 htyped
      have hd : data1.map Prod.fst = data.map Prod.fst := by
        split at htyped
        all_goals first
          | (cases htyped; first | rfl | exact ha _)
          | (split at htyped <;> cases htyped <;> first | rfl | exact ha _)
      split
      · split
        · exact hd
        · split
          · rename_i res hres
            rw [choicesBlock_data V _ _ _ res hres]
            exact hd
          · exact hd
      · exact hd

/-- The check of a `list` field keeps the keys of the data, whatever the items do. -/
theorem checkList_keys (V : Lib) (dispatch : Data → String → String → Data → Option Res)
    (data : Data) (field : String) (fieldCheck : Data) (res : Res)
    (h : checkList V dispatch data field fieldCheck = some res) :
    res.2.map Prod.fst = data.map Prod.fst := by
  unfold checkList at h
  split at h
  · cases h; rfl
  · rename_i expectVal hl
    have ha : ∀ x, (assign data field x).map Prod.fst = data.map Prod.fst :=
      fun x => keys_assign data field x (mem_keys_of_lookup data field _ hl)
    split at h
    · cases h; rfl
    · split at h
      · cases h; rfl
      · split at h
        · cases h
        · cases h; exact ha _
    · cases h; rfl
  · cases h; rfl

/-- The check of a `dict` field keeps the keys of the data, whatever the entries do. -/
theorem checkDict_keys (V : Lib) (validate : DataValidator → Data → Option Res)
    (data : Data) (field : String) (fieldCheck : Data) (res : Res)
    (h : checkDict V validate data field fieldCheck = some res) :
    res.2.map Prod.fst = data.map Prod.fst := by
  unfold checkDict at h
  cases hl : List.lookup field data with
  | none => rw [hl] at h; cases h; rfl
  | some val =>
    have ha : ∀ x, (assign data field x).map Prod.fst = data.map Prod.fst :=
      fun x => keys_assign data field x (mem_keys_of_lookup data field val hl)
    rw [hl] at h
    simp only [] at h
    split at h
    · cases h; rfl
    · split at h
      · split at h
        · cases h; rfl
        · split at h
          · cases h
          · cases h; exact ha _
      · split at h
        · cases h; rfl
        · split at h
          · cases h; rfl
          · split at h
            · split at h
              · cases h
              · cases h; exact ha _
            · cases h; rfl

/-- The check of a `jsondict` field keeps the keys of the data. -/
theorem checkJsondict_keys (V : Lib) (validate : DataValidator → Data → Option Res)
    (data : Data) (field : String) (fieldCheck : Data) (res : Res)
    (h : checkJsondict V validate data field fieldCheck = some res) :
    res.2.map Prod.fst = data.map Prod.fst := by
  unfold checkJsondict at h
  split at h
  · cases h; rfl
  · rename_i val hl
    have ha : ∀ x, (assign data field x).map Prod.fst = data.map Prod.fst :=
      fun x => keys_assign data field x (mem_keys_of_lookup data field _ hl)
    simp only [] at h
    split at h
    · cases h; exact ha _
    · split at h
      · cases h
      · cases h; exact ha _
  · cases h; rfl

/-- The check of a `jsonlist` field keeps the keys of the data. -/
theorem checkJsonlist_keys (V : Lib) (dispatch : Data → String → String → Data → Option Res)
    (data : Data) (field : String) (fieldCheck : Data) (res : Res)
    (h : checkJsonlist V dispatch data field fieldCheck = some res) :
    res.2.map Prod.fst = data.map Prod.fst := by
  unfold checkJsonlist at h
  split at h
  · cases h; rfl
  · rename_i val hl
    have ha : ∀ x, (assign data field x).map Prod.fst = data.map Prod.fst :=
      fun x => keys_assign data field x (mem_keys_of_lookup data field _ hl)
    simp only [] at h
    split at h
    · cases h; exact ha _
    · split at h
      · cases h
      · cases h; exact ha _
  · cases h; rfl

/-- The check of a field of any type keeps the keys of the data. -/
theorem dispatchOnType_keys (V : Lib) (dispatch : Data → String → String → Data → Option Res)
    (validate : DataValidator → Data → Option Res) (data : Data)
    (field fType : String) (fieldCheck : Data) (res : Res)
    (h : dispatchOnType V dispatch validate data field fType fieldCheck = some res) :
    res.2.map Prod.fst = data.map Prod.fst := by
  unfold dispatchOnType at h
  by_cases h0 : fType = "int"
  · rw [if_pos h0] at h; rw [← Option.some.inj h]; exact checkInt_keys V data field fieldCheck
  rw [if_neg h0] at h
  by_cases h1 : fType = "float"
  · rw [if_pos h1] at h; rw [← Option.some.inj h]; exact checkFloat_keys V data field fieldCheck
  rw [if_neg h1] at h
  by_cases h2 : fType = "bool"
  · rw [if_pos h2] at h; rw [← Option.some.inj h]; exact checkBool_keys V data field fieldCheck
  rw [if_neg h2] at h
  by_cases h3 : fType = "string"
  · rw [if_pos h3] at h; rw [← Option.some.inj h]; exact checkString_keys V data field fieldCheck
  rw [if_neg h3] at h
  by_cases h4 : fType = "ipaddr"
  · rw [if_pos h4] at h; rw [← Option.some.inj h]; exact checkIpaddr_keys V data field fieldCheck
  rw [if_neg h4] at h
  by_cases h5 : fType = "datetime"
  · rw [if_pos h5] at h; rw [← Option.some.inj h]; exact checkDatetime_keys V data field fieldCheck
  rw [if_neg h5] at h
  by_cases h6 : fType = "timestamp"
  · rw [if_pos h6] at h; rw [← Option.some.inj h]; exact checkTimestamp_keys V data field fieldCheck
  rw [if_neg h6] at h
  by_cases h7 : fType = "list"
  · rw [if_pos h7] at h; exact checkList_keys V _ data field fieldCheck res h
  rw [if_neg h7] at h
  by_cases h8 : fType = "dict"
  · rw [if_pos h8] at h; exact checkDict_keys V _ data field fieldCheck res h
  rw [if_neg h8] at h
  by_cases h9 : fType = "jsonlist"
  · rw [if_pos h9] at h; exact checkJsonlist_keys V _ data field fieldCheck res h
  rw [if_neg h9] at h
  by_cases h10 : fType = "jsondict"
  · rw [if_pos h10] at h; exact checkJsondict_keys V _ data field fieldCheck res h
  rw [if_neg h10] at h
  rw [← Option.some.inj h]

/-- The check of a field of any type keeps the keys of the data, at every depth. -/
theorem typeCheckingDispatch_keys (V : Lib) (depth : Nat) (data : Data)
    (field fType : String) (fieldCheck : Data) (res : Res)
    (h : typeCheckingDispatch V depth data field fType fieldCheck = some res) :
    res.2.map Prod.fst = data.map Prod.fst := by
  cases depth with
  | zero => cases h
  | succ depth => exact dispatchOnType_keys V _ _ data field fType fieldCheck res h

/-- The loop over the fields of the validator keeps the keys of the data. -/
theorem validateLoop_keys (V : Lib) (depth : Nat) (fields : List (String × Data)) :
    ∀ (data : Data) (res : Res),
      validateLoop V (typeCheckingDispatch V depth) fields data = some res →
      res.2.map Prod.fst = data.map Prod.fst := by
  induction fields with
  | nil =>
    intro data res h
    simp only [validateLoop] at h
    cases h; rfl
  | cons p rest ih =>
    obtain ⟨field, fieldCheck⟩ := p
    intro data res h
    unfold validateLoop at h
    split_ifs at h
    · cases h; rfl
    · split at h
      · rename_i fType _
        split at h
        · cases h
        · rename_i f data1 hd
          cases h
          exact typeCheckingDispatch_keys V depth data field fType fieldCheck _ hd
        · rename_i data1 hd
          rw [ih data1 res h]
          exact typeCheckingDispatch_keys V depth data field fType fieldCheck _ hd
      · cases h; rfl

/-- A map reads a key exactly when it is one of its keys. -/
theorem lookup_isSome_iff {α : Type} (m : List (String × α)) (key : String) :
    (List.lookup key m).isSome = true ↔ key ∈ m.map Prod.fst := by
  induction m with
  | nil => simp
  | cons p rest ih =>
    obtain ⟨k, w⟩ := p
    simp only [List.lookup, List.map_cons, List.mem_cons]
    by_cases hk : key = k
    · simp [hk]
    · have hb : (key == k) = false := by simpa using hk
      rw [hb]
      simp only [ih, hk, false_or]

/-- The keys that a filter on the keys leaves. -/
theorem mem_keys_filter (m : Data) (p : String → Bool) (key : String) :
    key ∈ (m.filter (fun e => p e.1)).map Prod.fst ↔ key ∈ m.map Prod.fst ∧ p key = true := by
  simp only [List.mem_map, List.mem_filter]
  constructor
  · rintro ⟨e, ⟨he, hp⟩, rfl⟩
    exact ⟨⟨e, he, rfl⟩, hp⟩
  · rintro ⟨⟨e, he, rfl⟩, hp⟩
    exact ⟨e, ⟨he, hp⟩, rfl⟩

/-- The text `strconv.ParseInt` is given by `valJson.Int64()` on the zero `json.Number` is
no number. -/
theorem ParseInt_empty (L : Go.Lib) :
    ParseInt L "" 64 = .error (numErrorText L "ParseInt" "" .invalidSyntax) := rfl

/-- A `json.Number` in a field of type `timestamp` is refused too: it is handed to
`checkAutoConvert`, which converts strings only. -/
theorem checkTimestamp_jsonNumber_refused (V : Lib) (data : Data) (field : String)
    (fieldCheck : Data) (num : String)
    (hval : List.lookup field data = some (.jsonNumber num)) :
    ∃ e, checkTimestamp V data field fieldCheck = (some (.err e), data) := by
  have hconv : ∃ e,
      checkAutoConvert V "timestamp" (.jsonNumber num) field fieldCheck = .error e := by
    unfold checkAutoConvert
    split
    · exact ⟨_, rfl⟩
    · exact ⟨_, rfl⟩
  obtain ⟨e, he⟩ := hconv
  refine ⟨e, ?_⟩
  unfold checkTimestamp
  rw [hval]
  simp only [he]

/-- C32 (what the code does instead): a field of type `timestamp` whose value is neither an
`int64` nor a `json.Number`, a string holding a decimal integer among them, is refused
whatever `auto_convert` says: `checkTimestamp` returns the error of `strconv.ParseInt` on the
empty text and leaves the data as they were, and so does `DataValidate` on a validator that
has this field. -/
theorem timestamp_string_refused (V : Lib) (depth : Nat) (fixed : Bool) (field : String)
    (fieldCheck data : Data) (val : Val)
    (htype : List.lookup "type" fieldCheck = some (.str "timestamp"))
    (hval : List.lookup field data = some val)
    (hint : ∀ n, val ≠ .int .int64 n) (hnum : ∀ s, val ≠ .jsonNumber s) :
    checkTimestamp V data field fieldCheck =
      (some (.err ("failed to convert json.Number to int64 timestamp. " ++
        numErrorText V.go "ParseInt" "" .invalidSyntax)), data) ∧
    DataValidate V (depth + 1) ⟨[(field, fieldCheck)], fixed⟩ data =
      some (some (.err ("failed to convert json.Number to int64 timestamp. " ++
        numErrorText V.go "ParseInt" "" .invalidSyntax)), data) := by
  have hc : checkTimestamp V data field fieldCheck =
      (some (.err ("failed to convert json.Number to int64 timestamp. " ++
        numErrorText V.go "ParseInt" "" .invalidSyntax)), data) := by
    unfold checkTimestamp
    rw [hval]
    cases val with
    | int k n => cases k <;> first | exact absurd rfl (hint n) | rfl
    | jsonNumber s => exact absurd rfl (hnum s)
    | _ => rfl
  refine ⟨hc, ?_⟩
  have hd : typeCheckingDispatch V (depth + 1) data field "timestamp" fieldCheck =
      some (checkTimestamp V data field fieldCheck) := rfl
  unfold DataValidate DataValidateWith
  rw [if_neg (by simp)]
  simp only [validateLoop, hval, htype, hd, hc, Option.isNone_some, Bool.and_false]
  rfl

/-- C32: at a validator whose field `ts` has type `timestamp` and `auto_convert` true, the
text `1700000000` is refused and stays a string in the data. -/
theorem timestamp_string_refused_witness :
    DataValidate plainLib 1
        ⟨[("ts", [("type", .str "timestamp"), ("auto_convert", .bool true)])], false⟩
        [("ts", .str "1700000000")] =
      some (some (.err ("failed to convert json.Number to int64 timestamp. " ++
        "strconv.ParseInt: parsing \"\": invalid syntax")), [("ts", .str "1700000000")]) :=
  (timestamp_string_refused plainLib 0 false "ts"
    [("type", .str "timestamp"), ("auto_convert", .bool true)] [("ts", .str "1700000000")]
    (.str "1700000000") rfl rfl (by intro n h; cases h) (by intro s h; cases h)).2

/-- C33 (amended): with an empty `Validator`, `DataValidate` returns no error and leaves the
data as they are, also when `FixedFields` is true; with a `Validator` that is not empty and
`FixedFields` true, the keys left after a return without error are the keys of the data that
are fields of the `Validator`; with `FixedFields` false, the keys after a return are the keys
before it. -/
theorem DataValidate_keys (V : Lib) (depth : Nat) (v : DataValidator) (data : Data) :
    (v.Validator = [] → DataValidate V depth v data = some (none, data)) ∧
    (v.Validator ≠ [] → v.FixedFields = true →
      ∀ data', DataValidate V depth v data = some (none, data') →
        ∀ key, key ∈ data'.map Prod.fst ↔
          key ∈ data.map Prod.fst ∧ key ∈ v.Validator.map Prod.fst) ∧
    (v.FixedFields = false →
      ∀ err data', DataValidate V depth v data = some (err, data') →
        data'.map Prod.fst = data.map Prod.fst) := by
  refine ⟨?_, ?_, ?_⟩
  · intro h
    unfold DataValidate DataValidateWith
    rw [h]
    rfl
  · intro hne hfix data' h
    unfold DataValidate DataValidateWith at h
    rw [if_neg (by simpa using hne)] at h
    split at h
    · cases h
    · cases h
    · rename_i data1 hloop
      rw [hfix] at h
      simp only [if_true, Option.some.injEq, Prod.mk.injEq, true_and] at h
      intro key
      rw [← h, mem_keys_filter data1 (fun k => (List.lookup k v.Validator).isSome) key,
        lookup_isSome_iff, validateLoop_keys V depth v.Validator data _ hloop]
  · intro hfix err data' h
    unfold DataValidate DataValidateWith at h
    rw [hfix] at h
    by_cases hlen : v.Validator.length = 0
    · rw [if_pos hlen] at h
      cases h
      rfl
    · rw [if_neg hlen] at h
      split at h
      · cases h
      · rename_i f data1 hloop
        cases h
        exact validateLoop_keys V depth v.Validator data _ hloop
      · rename_i data1 hloop
        simp only [Bool.false_eq_true, if_false] at h
        cases h
        exact validateLoop_keys V depth v.Validator data _ hloop

/-- C33: with an empty `Validator` and `FixedFields` true the entry `a` stays in the data;
with the one field `n` in the `Validator`, the entry `x` is dropped. -/
theorem DataValidate_keys_witness :
    DataValidate plainLib 0 ⟨[], true⟩ [("a", .int .int 1)] =
        some (none, [("a", .int .int 1)]) ∧
      (DataValidate plainLib 1 ⟨[("n", [("type", .str "int")])], true⟩
          [("n", .int .int 3), ("x", .str "y")] = some (none, [("n", .int .int 3)]) ∧
        ∀ key, key ∈ ([("n", Val.int .int 3)] : Data).map Prod.fst ↔
          key ∈ ([("n", Val.int .int 3), ("x", Val.str "y")] : Data).map Prod.fst ∧
            key ∈ ([("n", [("type", Val.str "int")])] : List (String × Data)).map Prod.fst) :=
  ⟨(DataValidate_keys plainLib 0 ⟨[], true⟩ [("a", .int .int 1)]).1 rfl,
    rfl,
    (DataValidate_keys plainLib 1 ⟨[("n", [("type", .str "int")])], true⟩
      [("n", .int .int 3), ("x", .str "y")]).2.1 (by simp) rfl _ rfl⟩

/-- C33 as stated fails: with an empty `Validator` and `FixedFields` true, `DataValidate`
returns no error and the key `a`, which is no field of the `Validator`, is still in the
data. -/
theorem DataValidate_empty_Validator_keeps_fields :
    ∃ data', DataValidate plainLib 1 ⟨[], true⟩ [("a", .int .int 1)] = some (none, data') ∧
      ¬ ∀ key ∈ data'.map Prod.fst, key ∈ ([] : List (String × Data)).map Prod.fst :=
  ⟨[("a", .int .int 1)], rfl, by simp⟩

end Ginstarter
